import Mathlib

/-! IP pool allocation manager.

A shallow embedding of `tools/tf-simpleipam/poolmanager/poolmanager.go`.

* Go maps are association lists (`GoMap`); a nil map is `none`.
* The object store / file system is an explicit `World`; the outcome of every
  library call that can fail is read from a per-call `Env`.
* Library behaviour that is not part of the repository and is either
  implementation dependent or too large to embed (IPv6 text, non-integer float
  syntax, out-of-range float to `uint32` conversion, URL parsing) is a field of
  `Runtime`, so every theorem holds for all of its values.
* `uint32` arithmetic is `Nat` arithmetic modulo `2^32`.
* Loops that may fail to terminate take a step budget (`fuel`).
-/

namespace SimpleIpam

/-! ## Go maps -/

/-- A Go `map[string]ν`, as an association list searched from the front. -/
abbrev GoMap (ν : Type) := List (String × ν)

/-- Map read `m[k]` (with the `ok` flag as `Option`). -/
def GoMap.get? {ν : Type} (k : String) : GoMap ν → Option ν
  | [] => none
  | e :: m => if e.1 = k then some e.2 else GoMap.get? k m

/-- Map write `m[k] = v`: replaces the entry of `k`, or adds one. -/
def GoMap.set {ν : Type} (k : String) (v : ν) : GoMap ν → GoMap ν
  | [] => [(k, v)]
  | e :: m => if e.1 = k then (k, v) :: m else e :: GoMap.set k v m

/-- Builtin `delete(m, k)`. -/
def GoMap.delete {ν : Type} (k : String) (m : GoMap ν) : GoMap ν :=
  m.filter (fun e => decide (e.1 ≠ k))

/-- The keys of a map, in iteration order. -/
def GoMap.keys {ν : Type} (m : GoMap ν) : List String := m.map Prod.fst

/-- The values of a map, in iteration order. -/
def GoMap.values {ν : Type} (m : GoMap ν) : List ν := m.map Prod.snd

/-- Reading a possibly nil map: a nil map reads as empty. -/
def nilGet {ν : Type} (m : Option (GoMap ν)) (k : String) : Option ν :=
  match m with
  | none => none
  | some l => GoMap.get? k l

/-- Iterating a possibly nil map: a nil map has no entries. -/
def nilEntries {ν : Type} (m : Option (GoMap ν)) : GoMap ν := m.getD []

/-! ## Text helpers (package `strings`, `net`, `strconv`, `fmt`) -/

/-- Helper for `strings.SplitN(s, sep, 2)` with a one byte separator: the text
before and after the first separator, `none` when there is no separator (the Go
result then has length 1). -/
def splitFirst (sep : Char) : List Char → Option (List Char × List Char)
  | [] => none
  | c :: cs =>
    if c = sep then some ([], cs)
    else match splitFirst sep cs with
      | none => none
      | some (a, b) => some (c :: a, b)

/-- The call `strings.SplitN(s, sep, 2)`; `none` stands for a result whose length is not 2. -/
def SplitN2 (s : String) (sep : Char) : Option (String × String) :=
  match splitFirst sep s.data with
  | none => none
  | some (a, b) => some (String.mk a, String.mk b)

/-- The call `strings.HasPrefix`. -/
def HasPrefix (s p : String) : Bool := p.data.isPrefixOf s.data

/-- The call `strings.HasSuffix`. -/
def HasSuffix (s p : String) : Bool := p.data.isSuffixOf s.data

/-- The call `strings.Contains`. -/
def Contains (s sub : String) : Bool := s.data.tails.any (fun t => sub.data.isPrefixOf t)

/-- All fields of a text separated by `sep`. -/
def fields (sep : Char) : List Char → List (List Char)
  | [] => [[]]
  | c :: cs =>
    if c = sep then [] :: fields sep cs
    else match fields sep cs with
      | [] => [[c]]
      | f :: fs => (c :: f) :: fs

/-- Value of a run of decimal digits. -/
def digitsValue (ds : List Char) : Nat := ds.foldl (fun a c => a * 10 + (c.toNat - 48)) 0

/-- One dotted-decimal field of an IPv4 address: one to three digits, at most
255, no leading zero. -/
def parseOctet (f : List Char) : Option Nat :=
  if f = [] then none
  else if ¬ (f.all Char.isDigit) then none
  else if 1 < f.length ∧ f.head? = some '0' then none
  else if digitsValue f ≤ 255 then some (digitsValue f) else none

/-- The 12 byte prefix of an IPv4 address in 16 byte form. -/
def v4InV6Prefix : List Nat := [0, 0, 0, 0, 0, 0, 0, 0, 0, 0, 255, 255]

/-- Dotted-decimal IPv4 text to the 16 byte form; `[]` is the nil `net.IP`. -/
def parseIPv4 (s : List Char) : List Nat :=
  match (fields '.' s).map parseOctet with
  | [some a, some b, some c, some d] => v4InV6Prefix ++ [a, b, c, d]
  | _ => []

/-- Which of `.` and `:` comes first in a text, if any. -/
def firstSeparator : List Char → Option Char
  | [] => none
  | c :: cs => if c = '.' ∨ c = ':' then some c else firstSeparator cs

/-- Library behaviour outside the repository that the embedding leaves open. -/
structure Runtime where
  /-- Result bytes of `net.ParseIP` on a text whose first separator is `:`. -/
  parseIPv6 : String → List Nat
  /-- For a mask text that is not an optionally signed run of decimal digits:
  `none` when `strconv.ParseFloat` rejects it, otherwise the `uint32` that
  `uint32(math.Pow(2.0, 32.0 - value))` yields. -/
  maskIncreaseOther : String → Option Nat
  /-- The implementation dependent `uint32(math.Pow(2.0, e))` for `32 ≤ e`,
  where the float is not representable. -/
  convertOverflow : Nat → Nat
  /-- The call `url.Parse`: host and path of a location, or an error text. -/
  urlParse : String → Except String (String × String)

/-- The call `net.ParseIP`; `[]` is the nil `net.IP`. -/
def ParseIP (rt : Runtime) (s : String) : List Nat :=
  match firstSeparator s.data with
  | some '.' => parseIPv4 s.data
  | some _ => rt.parseIPv6 s
  | none => []

/-- An optionally signed run of decimal digits, as an integer. -/
def parseDecimalInt (s : List Char) : Option Int :=
  match s with
  | '-' :: ds => if ds ≠ [] ∧ ds.all Char.isDigit then some (- (digitsValue ds : Int)) else none
  | '+' :: ds => if ds ≠ [] ∧ ds.all Char.isDigit then some (digitsValue ds : Int) else none
  | ds => if ds ≠ [] ∧ ds.all Char.isDigit then some (digitsValue ds : Int) else none

/-- Decimal integers of at least this magnitude, `2^1024 - 2^970`, round to an
infinite `float64`, for which `strconv.ParseFloat` returns a range error. -/
def floatRangeLimit : Nat := (1 <<< 1024) - (1 <<< 970)

/-- Lines 268-272: `strconv.ParseFloat(end[1], 64)` followed by
`uint32(math.Pow(2.0, 32.0-maskFloat))`; `none` is the parse error. -/
def maskIncrease (rt : Runtime) (mask : String) : Option Nat :=
  match parseDecimalInt mask.data with
  | some n =>
    if floatRangeLimit ≤ n.natAbs then none
    else if 33 ≤ n then some 0
    else if 1 ≤ n then some (2 ^ (32 - n).toNat)
    else some (rt.convertOverflow (32 - n).toNat % 2 ^ 32)
  | none => (rt.maskIncreaseOther mask).map (fun v => v % 2 ^ 32)

/-- Big-endian value of the first four bytes; `none` is the index-out-of-range
panic of `binary.BigEndian.Uint32` on a shorter slice. -/
def bigEndianUint32 : List Nat → Option Nat
  | a :: b :: c :: d :: _ => some (((a % 256) * 256 ^ 3 + (b % 256) * 256 ^ 2 + (c % 256) * 256 + d % 256))
  | _ => none

/-- Decimal text of a byte, as `net.IP.String` writes it. -/
def byteString (b : Nat) : List Char :=
  if b < 10 then [Char.ofNat (48 + b)]
  else if b < 100 then [Char.ofNat (48 + b / 10), Char.ofNat (48 + b % 10)]
  else [Char.ofNat (48 + b / 100), Char.ofNat (48 + b / 10 % 10), Char.ofNat (48 + b % 10)]

/-- The method `net.IP.String` on a four byte address. -/
def IPString (ip : List Nat) : String :=
  match ip with
  | [a, b, c, d] => String.mk (byteString a ++ '.' :: byteString b ++ '.' :: byteString c ++ '.' :: byteString d)
  | _ => ""

/-- The verb `%d` of `fmt.Sprintf` on an `int`. -/
def formatInt (n : Int) : String :=
  if n < 0 then String.mk ('-' :: Nat.toDigits 10 n.natAbs) else String.mk (Nat.toDigits 10 n.natAbs)

/-! ## Data model -/

/-- The type `PoolFile` (lines 35-38); also the decoded form of the stored JSON
document, where `none` is a key that is absent (or null, which decodes the same way
into a field that is still nil). -/
structure PoolFile where
  IpPools : Option (GoMap (List (List String)))
  AllocatedRanges : Option (GoMap String)
deriving DecidableEq

/-- The type `PoolManager` (lines 40-51); `poolLock` records whether the mutex is held. -/
structure PoolManager where
  id : String
  poolFile : String
  poolBucket : String
  poolObject : String
  timeout : Int
  poolLoaded : Bool
  pool : PoolFile
  expandedRanges : Option (GoMap (List (List String)))
  allocatedRanges : Option (GoMap String)
  poolLock : Bool
deriving DecidableEq

/-- The constructor `NewPoolManager` (lines 53-62). -/
def NewPoolManager (id : String) (pool_file : String) (timeout : Int) : PoolManager :=
  { id := id, poolFile := pool_file, poolBucket := "", poolObject := "", timeout := timeout,
    poolLoaded := false, pool := { IpPools := none, AllocatedRanges := none },
    expandedRanges := none, allocatedRanges := none, poolLock := false }

/-- Errors returned by the package. -/
inductive Err where
  /-- `not well-formatted range start: %s` -/
  | rangeStart (rr : String)
  /-- `not well-formatted range end: %s` -/
  | rangeEnd (s : String)
  /-- the error of `strconv.ParseFloat` -/
  | parseFloat (s : String)
  /-- `allocation not found: %s` -/
  | allocationNotFound (id : String)
  /-- `unknown pool specified: %s` -/
  | unknownPool (poolName : String)
  /-- `unknown pool index specified in "%s": %d (range 1..%d)` -/
  | unknownPoolIndex (poolName : String) (poolIndex : Int) (groups : Nat)
  /-- `unable to find a suitable /%d network in pool: %s` -/
  | noSuitableNetwork (maskSize : Int) (poolName : String)
  /-- `timeout while waiting for lockfile` -/
  | lockTimeout
  /-- an error of the storage, file, JSON or URL library, with its text -/
  | library (msg : String)
deriving DecidableEq

/-- Ways the Go runtime aborts the call. -/
inductive Crash where
  /-- index or slice bound out of range -/
  | outOfRange
  /-- assignment to an entry of a nil map -/
  | nilMapWrite
  /-- the fatal error `sync: unlock of unlocked mutex` -/
  | unlockOfUnlockedMutex
deriving DecidableEq

/-- How a call ends. -/
inductive Outcome (α : Type) where
  /-- returned a result with a nil error -/
  | ok (a : α)
  /-- returned an error -/
  | error (e : Err)
  /-- did not return: panic or fatal runtime error -/
  | crash (c : Crash)
  /-- did not return: waits for a mutex that is held -/
  | blocked
  /-- did not finish within the step budget of the model -/
  | outOfFuel
deriving DecidableEq

/-- Where a pool document is stored. -/
inductive Loc where
  | file (path : String)
  | object (bucket : String) (name : String)
deriving DecidableEq

/-- Stored bytes: a JSON document of the `PoolFile` shape, or anything else. -/
inductive Blob where
  | malformed
  | document (d : PoolFile)
deriving DecidableEq

/-- Accesses to the outside world, in order. -/
inductive Event where
  | read (l : Loc)
  | write (l : Loc)
  | createMarker (bucket : String) (name : String)
  | deleteMarker (bucket : String) (name : String)
  | sleep
deriving DecidableEq

/-- The stores (local files and bucket objects) and the log of accesses. -/
structure World where
  content : Loc → Option Blob
  log : List Event

/-- Outcomes of the library calls made during one public operation. -/
structure Env where
  /-- the `n`-th reading of `time.Now().Unix()` in `acquireLockFile` -/
  now : Nat → Int
  /-- error of `storage.NewClient` in the `n`-th polling attempt -/
  lockClient : Nat → Option String
  /-- error text of the conditional marker creation in the `n`-th attempt -/
  lockCreate : Nat → Option String
  /-- failure of opening or reading the document in `loadPoolFile` -/
  readErr : Option String
  /-- failure of `savePoolFile` -/
  saveErr : Option String
  /-- error of `storage.NewClient` in `releaseLockFile` -/
  releaseClient : Option String
  /-- error of deleting the marker in `releaseLockFile` -/
  releaseDelete : Option String

/-! ## Operations -/

/-- The method `ipToUint32` (lines 64-69); `none` is the panic on a slice shorter than four bytes. -/
def ipToUint32 (ip : List Nat) : Option Nat :=
  if ip.length = 16 then bigEndianUint32 (ip.drop 12) else bigEndianUint32 ip

/-- The method `uint32ToIp` (lines 71-75). -/
def uint32ToIp (ipInt : Nat) : List Nat :=
  [ipInt / 256 ^ 3 % 256, ipInt / 256 ^ 2 % 256, ipInt / 256 % 256, ipInt % 256]

/-- Where `savePoolFile` writes. -/
def saveLoc (pm : PoolManager) : Loc :=
  if HasPrefix pm.poolFile "gs://" then Loc.object pm.poolBucket pm.poolObject else Loc.file pm.poolFile

/-- The method `savePoolFile` (lines 77-108). -/
def savePoolFile (env : Env) (pm : PoolManager) (w : World) : Outcome Unit × World :=
  match env.saveErr with
  | some e => (.error (.library e), w)
  | none =>
    (.ok (), { content := fun l => if l = saveLoc pm then some (Blob.document pm.pool) else w.content l,
               log := w.log ++ [Event.write (saveLoc pm)] })

/-- The polling loop of `acquireLockFile` (lines 124-153); `n` counts the attempts made. -/
def acquireLoop (env : Env) (pm : PoolManager) (startTime : Int) :
    Nat → Nat → List Event → Outcome Unit × List Event
  | 0, _, log => (.outOfFuel, log)
  | fuel + 1, n, log =>
    match env.lockClient n with
    | some e => (.error (.library e), log)
    | none =>
      let log1 := log ++ [Event.createMarker pm.poolBucket (pm.poolObject ++ ".lock")]
      match env.lockCreate n with
      | none => (.ok (), log1)
      | some e =>
        if ¬ Contains e "412" then (.error (.library e), log1)
        else if env.now (n + 1) - startTime > pm.timeout then (.error .lockTimeout, log1 ++ [Event.sleep])
        else acquireLoop env pm startTime fuel (n + 1) (log1 ++ [Event.sleep])

/-- The method `acquireLockFile` (lines 110-155). The deferred function unlocks
the mutex whenever `lockOk` is false at return, which includes the return at
line 121. -/
def acquireLockFile (env : Env) (fuel : Nat) (pm : PoolManager) (w : World) :
    Outcome Unit × PoolManager × World :=
  if pm.poolLock then (.blocked, pm, w)
  else if ¬ HasPrefix pm.poolFile "gs://" then (.ok (), { pm with poolLock := false }, w)
  else
    match acquireLoop env pm (env.now 0) fuel 0 w.log with
    | (.ok (), log) => (.ok (), { pm with poolLock := true }, { w with log := log })
    | (.outOfFuel, log) => (.outOfFuel, { pm with poolLock := true }, { w with log := log })
    | (r, log) => (r, { pm with poolLock := false }, { w with log := log })

/-- The method `releaseLockFile` (lines 157-182): the body, then the deferred unlock. -/
def releaseLockFile (env : Env) (pm : PoolManager) (w : World) : Outcome Unit × PoolManager × World :=
  let body : Outcome Unit × World :=
    if ¬ HasPrefix pm.poolFile "gs://" then (.ok (), w)
    else match env.releaseClient with
      | some e => (.error (.library e), w)
      | none =>
        let w1 := { w with log := w.log ++ [Event.deleteMarker pm.poolBucket (pm.poolObject ++ ".lock")] }
        match env.releaseDelete with
        | some e => (.error (.library e), w1)
        | none => (.ok (), w1)
  if pm.poolLock then (body.1, { pm with poolLock := false }, body.2)
  else (.crash .unlockOfUnlockedMutex, pm, body.2)

/-- The method `parsePoolFile` (lines 184-195). -/
def parsePoolFile (rt : Runtime) (pm : PoolManager) : Outcome Unit × PoolManager :=
  if HasPrefix pm.poolFile "gs://" then
    match rt.urlParse pm.poolFile with
    | .error e => (.error (.library e), pm)
    | .ok (host, path) =>
      if path.data = [] then (.crash .outOfRange, { pm with poolBucket := host })
      else (.ok (), { pm with poolBucket := host, poolObject := String.mk (path.data.drop 1) })
  else (.ok (), pm)

/-- The call `json.Unmarshal(contents, &pm.pool)` (line 238): a key of the document
is decoded into the field; entries go into the map the field already holds. -/
def unmarshalInto (old doc : PoolFile) : PoolFile :=
  { IpPools := match doc.IpPools with
      | none => old.IpPools
      | some m => some (m.foldl (fun acc e => GoMap.set e.1 e.2 acc) (nilEntries old.IpPools))
    AllocatedRanges := match doc.AllocatedRanges with
      | none => old.AllocatedRanges
      | some m => some (m.foldl (fun acc e => GoMap.set e.1 e.2 acc) (nilEntries old.AllocatedRanges)) }

/-- The reverse map of lines 244-247. -/
def reverseMap (allocated : Option (GoMap String)) : GoMap String :=
  (nilEntries allocated).foldl (fun acc e => GoMap.set e.2 e.1 acc) []

/-- The loop of lines 273-284. Returns `res` and whether the loop reached its `break`. -/
def expandLoop (reverse : GoMap String) (mask : String) (maskIncrease rangeEndInt : Nat) :
    Nat → Nat → List String → List String × Bool
  | 0, _, res => (res, false)
  | fuel + 1, currentRange, res =>
    let currentRange1 := (currentRange + maskIncrease) % 2 ^ 32
    let rangeStr := IPString (uint32ToIp currentRange1) ++ "/" ++ mask
    let res1 := if (GoMap.get? rangeStr reverse).isSome then res else res ++ [rangeStr]
    if currentRange1 ≥ rangeEndInt then (res1, true)
    else expandLoop reverse mask maskIncrease rangeEndInt fuel currentRange1 res1

/-- The body of the loop over the ranges of a group (lines 255-285) for one raw range `rr`. -/
def expandRange (rt : Runtime) (fuel : Nat) (reverse : GoMap String) (rr : String)
    (res : List String) : Outcome (List String) :=
  match SplitN2 rr '-' with
  | none => .error (.rangeStart rr)
  | some (begin0, begin1) =>
    match SplitN2 begin1 '/' with
    | none => .error (.rangeEnd begin1)
    | some (end0, end1) =>
      match ipToUint32 (ParseIP rt begin0) with
      | none => .crash .outOfRange
      | some rangeStartInt =>
        match ipToUint32 (ParseIP rt end0) with
        | none => .crash .outOfRange
        | some rangeEndInt =>
          match maskIncrease rt end1 with
          | none => .error (.parseFloat end1)
          | some inc =>
            match expandLoop reverse end1 inc rangeEndInt fuel rangeStartInt res with
            | (res1, true) => .ok res1
            | (_, false) => .outOfFuel

/-- The loop over the ranges `r` of one group (lines 253-286). -/
def expandGroup (rt : Runtime) (fuel : Nat) (reverse : GoMap String) :
    List String → List String → Outcome (List String)
  | [], res => .ok res
  | rr :: rest, res =>
    match expandRange rt fuel reverse rr res with
    | .ok res1 => expandGroup rt fuel reverse rest res1
    | o => o

/-- The loop over the groups `v` of one pool (lines 252-288): the groups stored so
far, and `ok` or the reason the loop was left early. -/
def expandPool (rt : Runtime) (fuel : Nat) (reverse : GoMap String) :
    List (List String) → List (List String) × Outcome Unit
  | [] => ([], .ok ())
  | r :: rest =>
    match expandGroup rt fuel reverse r [] with
    | .ok res =>
      let next := expandPool rt fuel reverse rest
      (res :: next.1, next.2)
    | .error e => ([], .error e)
    | .crash c => ([], .crash c)
    | .blocked => ([], .blocked)
    | .outOfFuel => ([], .outOfFuel)

/-- The loop over the pools (lines 249-289), writing `pm.expandedRanges[k]`. A pool
whose loop is left early holds `len(v)` slices, those not yet stored being nil. -/
def expandPools (rt : Runtime) (fuel : Nat) (reverse : GoMap String) :
    GoMap (List (List String)) → GoMap (List (List String)) →
    GoMap (List (List String)) × Outcome Unit
  | [], acc => (acc, .ok ())
  | (k, v) :: rest, acc =>
    match expandPool rt fuel reverse v with
    | (groups, .ok ()) => expandPools rt fuel reverse rest (GoMap.set k groups acc)
    | (groups, o) => (GoMap.set k (groups ++ List.replicate (v.length - groups.length) []) acc, o)

/-- Where `loadPoolFile` reads. -/
def loadLoc (pm : PoolManager) : Loc :=
  if pm.poolBucket ≠ "" then Loc.object pm.poolBucket pm.poolObject else Loc.file pm.poolFile

/-- The method `loadPoolFile` (lines 197-292). -/
def loadPoolFile (rt : Runtime) (env : Env) (fuel : Nat) (pm : PoolManager) (w : World) :
    Outcome Unit × PoolManager × World :=
  match parsePoolFile rt pm with
  | (.ok (), pm1) =>
    match env.readErr with
    | some e => (.error (.library e), pm1, w)
    | none =>
      let w1 := { w with log := w.log ++ [Event.read (loadLoc pm1)] }
      match w.content (loadLoc pm1) with
      | none => (.error (.library "object or file does not exist"), pm1, w1)
      | some Blob.malformed => (.error (.library "invalid JSON"), pm1, w1)
      | some (Blob.document d) =>
        let pool := unmarshalInto pm1.pool d
        let reverse := reverseMap pool.AllocatedRanges
        let expanded := expandPools rt fuel reverse (nilEntries pool.IpPools) []
        let pm2 := { pm1 with pool := pool, allocatedRanges := some reverse, expandedRanges := some expanded.1 }
        match expanded.2 with
        | .ok () => (.ok (), { pm2 with poolLoaded := true }, w1)
        | o => (o, pm2, w1)
  | (o, pm1) => (o, pm1, w)

/-- Runs a deferred `pm.releaseLockFile()` after the body of an operation. Its
error is dropped; a body that does not return runs no deferred call. -/
def withRelease {α : Type} (env : Env) (body : Outcome α × PoolManager × World) :
    Outcome α × PoolManager × World :=
  match body.1 with
  | .blocked => body
  | .outOfFuel => body
  | r =>
    match releaseLockFile env body.2.1 body.2.2 with
    | (.crash c, pm, w) => (.crash c, pm, w)
    | (_, pm, w) => (r, pm, w)

/-- The method `GetAllocation` from line 314 on. -/
def getBody (pm : PoolManager) (id : String) : Outcome String :=
  match nilGet pm.pool.AllocatedRanges id with
  | some allocatedRange => .ok allocatedRange
  | none => .error (.allocationNotFound id)

/-- The method `GetAllocation` (lines 294-320). -/
def GetAllocation (rt : Runtime) (env : Env) (fuel : Nat) (pm : PoolManager) (w : World)
    (id : String) : Outcome String × PoolManager × World :=
  match parsePoolFile rt pm with
  | (.ok (), pm1) =>
    if ¬ pm1.poolLoaded then
      match acquireLockFile env fuel pm1 w with
      | (.ok (), pm2, w2) =>
        withRelease env
          (match loadPoolFile rt env fuel pm2 w2 with
           | (.ok (), pm3, w3) => (getBody pm3 id, pm3, w3)
           | (.error e, pm3, w3) => (.error e, pm3, w3)
           | (.crash c, pm3, w3) => (.crash c, pm3, w3)
           | (.blocked, pm3, w3) => (.blocked, pm3, w3)
           | (.outOfFuel, pm3, w3) => (.outOfFuel, pm3, w3))
      | (.error e, pm2, w2) => (.error e, pm2, w2)
      | (.crash c, pm2, w2) => (.crash c, pm2, w2)
      | (.blocked, pm2, w2) => (.blocked, pm2, w2)
      | (.outOfFuel, pm2, w2) => (.outOfFuel, pm2, w2)
    else if pm1.poolLock then (.blocked, pm1, w)
    else (getBody pm1 id, pm1, w)
  | (.error e, pm1) => (.error e, pm1, w)
  | (.crash c, pm1) => (.crash c, pm1, w)
  | (.blocked, pm1) => (.blocked, pm1, w)
  | (.outOfFuel, pm1) => (.outOfFuel, pm1, w)

/-- Lines 332-337 and 363-368: load the pool unless it is loaded. -/
def ensureLoaded (rt : Runtime) (env : Env) (fuel : Nat) (pm : PoolManager) (w : World) :
    Outcome Unit × PoolManager × World :=
  if ¬ pm.poolLoaded then loadPoolFile rt env fuel pm w else (.ok (), pm, w)

/-- The method `DeleteAllocation` from line 338 on. -/
def deleteBody (env : Env) (pm : PoolManager) (w : World) (id : String) :
    Outcome Unit × PoolManager × World :=
  match nilGet pm.pool.AllocatedRanges id with
  | some _ =>
    let pm1 := { pm with
      pool := { pm.pool with AllocatedRanges := pm.pool.AllocatedRanges.map (GoMap.delete id) }
      allocatedRanges := pm.allocatedRanges.map (GoMap.delete id) }
    match savePoolFile env pm1 w with
    | (.ok (), w1) => (.ok (), pm1, w1)
    | (.error e, w1) => (.error e, pm1, w1)
    | (.crash c, w1) => (.crash c, pm1, w1)
    | (.blocked, w1) => (.blocked, pm1, w1)
    | (.outOfFuel, w1) => (.outOfFuel, pm1, w1)
  | none => (.error (.allocationNotFound id), pm, w)

/-- The method `DeleteAllocation` (lines 322-350). -/
def DeleteAllocation (rt : Runtime) (env : Env) (fuel : Nat) (pm : PoolManager) (w : World)
    (id : String) : Outcome Unit × PoolManager × World :=
  match parsePoolFile rt pm with
  | (.ok (), pm1) =>
    match acquireLockFile env fuel pm1 w with
    | (.ok (), pm2, w2) =>
      withRelease env
        (match ensureLoaded rt env fuel pm2 w2 with
         | (.ok (), pm3, w3) => deleteBody env pm3 w3 id
         | r => r)
    | r => r
  | (o, pm1) => (o, pm1, w)

/-- The allocation name of line 392, `fmt.Sprintf("%s-%s", pm.id, name)`. -/
def allocationKey (id name : String) : String := id ++ "-" ++ name

/-- The test of line 381. -/
def maskMatches (maskSize : Int) (rangeStr : String) : Bool :=
  decide (maskSize = 0) || HasSuffix rangeStr ("/" ++ formatInt maskSize)

/-- The method `AllocateNewNetwork` from line 370 on. -/
def allocateBody (env : Env) (pm : PoolManager) (w : World) (poolName : String)
    (poolIndex : Int) (maskSize : Int) (name : String) :
    Outcome (String × String) × PoolManager × World :=
  match nilGet pm.expandedRanges poolName with
  | none => (.error (.unknownPool poolName), pm, w)
  | some groups =>
    if poolIndex = 0 ∨ poolIndex > groups.length then
      (.error (.unknownPoolIndex poolName poolIndex groups.length), pm, w)
    else if poolIndex < 0 then (.crash .outOfRange, pm, w)
    else
      let g := groups.getD (poolIndex - 1).toNat []
      match g.findIdx? (maskMatches maskSize) with
      | none => (.error (.noSuitableNetwork maskSize poolName), pm, w)
      | some idx =>
        let allocated := g.getD idx ""
        let groups1 := groups.set (poolIndex - 1).toNat (g.eraseIdx idx)
        let pm1 := { pm with expandedRanges := pm.expandedRanges.map (GoMap.set poolName groups1) }
        if allocated = "" then (.error (.noSuitableNetwork maskSize poolName), pm1, w)
        else
          let allocationName := allocationKey pm.id name
          match pm1.allocatedRanges with
          | none => (.crash .nilMapWrite, pm1, w)
          | some reverse =>
            let pm2 := { pm1 with allocatedRanges := some (GoMap.set allocationName allocated reverse) }
            match pm2.pool.AllocatedRanges with
            | none => (.crash .nilMapWrite, pm2, w)
            | some ranges =>
              let pm3 := { pm2 with
                pool := { pm2.pool with AllocatedRanges := some (GoMap.set allocationName allocated ranges) } }
              match savePoolFile env pm3 w with
              | (.ok (), w1) => (.ok (allocated, allocationName), pm3, w1)
              | (.error e, w1) => (.error e, pm3, w1)
              | (.crash c, w1) => (.crash c, pm3, w1)
              | (.blocked, w1) => (.blocked, pm3, w1)
              | (.outOfFuel, w1) => (.outOfFuel, pm3, w1)

/-- The method `AllocateNewNetwork` (lines 352-402). -/
def AllocateNewNetwork (rt : Runtime) (env : Env) (fuel : Nat) (pm : PoolManager) (w : World)
    (poolName : String) (poolIndex : Int) (maskSize : Int) (name : String) :
    Outcome (String × String) × PoolManager × World :=
  match parsePoolFile rt pm with
  | (.ok (), pm1) =>
    match acquireLockFile env fuel pm1 w with
    | (.ok (), pm2, w2) =>
      withRelease env
        (match ensureLoaded rt env fuel pm2 w2 with
         | (.ok (), pm3, w3) => allocateBody env pm3 w3 poolName poolIndex maskSize name
         | (.error e, pm3, w3) => (.error e, pm3, w3)
         | (.crash c, pm3, w3) => (.crash c, pm3, w3)
         | (.blocked, pm3, w3) => (.blocked, pm3, w3)
         | (.outOfFuel, pm3, w3) => (.outOfFuel, pm3, w3))
    | (.error e, pm2, w2) => (.error e, pm2, w2)
    | (.crash c, pm2, w2) => (.crash c, pm2, w2)
    | (.blocked, pm2, w2) => (.blocked, pm2, w2)
    | (.outOfFuel, pm2, w2) => (.outOfFuel, pm2, w2)
  | (.error e, pm1) => (.error e, pm1, w)
  | (.crash c, pm1) => (.crash c, pm1, w)
  | (.blocked, pm1) => (.blocked, pm1, w)
  | (.outOfFuel, pm1) => (.outOfFuel, pm1, w)

/-! ## Concrete surroundings and texts used in statements -/

/-- A runtime for concrete runs: no IPv6 text, no float syntax beyond decimal
integers, out-of-range conversions give 0 (as on amd64), and a location
`gs://host/path` splits at the first `/` after the scheme. -/
def refRuntime : Runtime :=
  { parseIPv6 := fun _ => []
    maskIncreaseOther := fun _ => none
    convertOverflow := fun _ => 0
    urlParse := fun s =>
      match splitFirst '/' (s.data.drop 5) with
      | none => .ok (String.mk (s.data.drop 5), "")
      | some (host, path) => .ok (String.mk host, String.mk ('/' :: path)) }

/-- An environment in which every library call succeeds and the clock advances
by the two seconds of each sleep. -/
def calmEnv : Env :=
  { now := fun n => 2 * (n : Int)
    lockClient := fun _ => none
    lockCreate := fun _ => none
    readErr := none
    saveErr := none
    releaseClient := none
    releaseDelete := none }

/-- A world that holds one pool document. -/
def storeWith (l : Loc) (d : PoolFile) : World :=
  { content := fun l1 => if l1 = l then some (Blob.document d) else none, log := [] }

/-- The text `<dotted address>/<mask>` of a candidate with the given base address. -/
def cidrText (base : Nat) (mask : String) : String := IPString (uint32ToIp base) ++ "/" ++ mask

/-- The raw range text `A-B/N` with both addresses in dotted decimal and `N` in decimal. -/
def rangeText (A B N : Nat) : String :=
  IPString (uint32ToIp A) ++ "-" ++ IPString (uint32ToIp B) ++ "/" ++ Nat.repr N

/-- The document of the scenario: pool `a`, group 1 = `10.0.0.0-10.0.0.31/28`, nothing allocated. -/
def scenarioDoc : PoolFile :=
  { IpPools := some [("a", [["10.0.0.0-10.0.0.31/28"]])], AllocatedRanges := some [] }

/-- The candidates `A+step, A+2*step, ..., A+n*step` with `step = 2^(32-N)`, as texts. -/
def progression (A N n : Nat) : List String :=
  (List.range n).map (fun i => cidrText (A + (i + 1) * 2 ^ (32 - N)) (Nat.repr N))

/-- The keys of a map are pairwise distinct, as in every Go map. -/
def GoMap.WF {ν : Type} (m : GoMap ν) : Prop := (GoMap.keys m).Nodup

/-- Both maps of a pool file have pairwise distinct keys. -/
def PoolFile.WF (p : PoolFile) : Prop :=
  GoMap.WF (nilEntries p.IpPools) ∧ GoMap.WF (nilEntries p.AllocatedRanges)

/-- The fresh manager of the scenario. -/
def scenarioManager : PoolManager := NewPoolManager "m" "gs://bucket/pools.json" 300

/-- The world of the scenario: the bucket object holds `scenarioDoc`. -/
def scenarioWorld : World := storeWith (Loc.object "bucket" "pools.json") scenarioDoc

/-- First call of the scenario. -/
def scenarioFirst : Outcome (String × String) × PoolManager × World :=
  AllocateNewNetwork refRuntime calmEnv 4 scenarioManager scenarioWorld "a" 1 28 "x"

/-- Whether a candidate text is not a value of the allocated map. -/
def notAllocated (allocated : Option (GoMap String)) (s : String) : Bool :=
  decide (s ∉ GoMap.values (nilEntries allocated))

/-- The manager of the scenario after `loadPoolFile`. -/
def scenarioLoaded : PoolManager :=
  (loadPoolFile refRuntime calmEnv 4 scenarioManager scenarioWorld).2.1

/-- The base address of a candidate text `<address>/<mask>`, as a number. -/
def baseAddress (rt : Runtime) (s : String) : Option Nat :=
  match SplitN2 s '/' with
  | some (ip, _) => ipToUint32 (ParseIP rt ip)
  | none => none

/-- The candidate `a` comes before `b` in address order. -/
def addressLE (rt : Runtime) (a b : String) : Prop :=
  ∃ x y, baseAddress rt a = some x ∧ baseAddress rt b = some y ∧ x ≤ y

/-- A manager that has loaded the document with two ranges in descending order. -/
def descendingManager : PoolManager :=
  (loadPoolFile refRuntime calmEnv 4 (NewPoolManager "m" "gs://bucket/pools.json" 300)
    (storeWith (Loc.object "bucket" "pools.json")
      { IpPools := some [("a", [["10.0.1.0-10.0.1.255/24", "10.0.0.0-10.0.0.255/24"]])]
        AllocatedRanges := some [] })).2.1

/-- The world after `descendingManager` loaded. -/
def descendingWorld : World :=
  (loadPoolFile refRuntime calmEnv 4 (NewPoolManager "m" "gs://bucket/pools.json" 300)
    (storeWith (Loc.object "bucket" "pools.json")
      { IpPools := some [("a", [["10.0.1.0-10.0.1.255/24", "10.0.0.0-10.0.0.255/24"]])]
        AllocatedRanges := some [] })).2.2

/-- No two keys of the map hold the same value. -/
def valuesDistinct (m : Option (GoMap String)) : Prop :=
  ∀ k k1 c, nilGet m k = some c → nilGet m k1 = some c → k = k1

/-- The zero value `PoolFile{}` a new manager holds. -/
def emptyPoolFile : PoolFile := { IpPools := none, AllocatedRanges := none }

/-- A second fresh manager allocating on the world the first call of the scenario left. -/
def scenarioOther : Outcome (String × String) × PoolManager × World :=
  AllocateNewNetwork refRuntime calmEnv 4 (NewPoolManager "n" "gs://bucket/pools.json" 300)
    scenarioFirst.2.2 "a" 1 28 "y"

/-- A public call that changes the document. -/
inductive Call where
  | allocate (poolName : String) (poolIndex maskSize : Int) (name : String)
  | delete (id : String)
deriving DecidableEq

/-- What the caller sees of a call; `aborted` is a call that does not return
(panic, fatal error, blocked, or out of step budget). -/
inductive Reply where
  | allocated (cidr key : String)
  | deleted
  | failed (e : Err)
  | aborted
deriving DecidableEq

/-- One call on a manager. -/
def stepCall (rt : Runtime) (env : Env) (fuel : Nat) (pm : PoolManager) (w : World) :
    Call → Reply × PoolManager × World
  | .allocate poolName poolIndex maskSize name =>
    match AllocateNewNetwork rt env fuel pm w poolName poolIndex maskSize name with
    | (.ok (cidr, key), pm1, w1) => (.allocated cidr key, pm1, w1)
    | (.error e, pm1, w1) => (.failed e, pm1, w1)
    | (_, pm1, w1) => (.aborted, pm1, w1)
  | .delete id =>
    match DeleteAllocation rt env fuel pm w id with
    | (.ok (), pm1, w1) => (.deleted, pm1, w1)
    | (.error e, pm1, w1) => (.failed e, pm1, w1)
    | (_, pm1, w1) => (.aborted, pm1, w1)

/-- A sequence of calls on one manager instance, each with its own environment:
the calls made with their replies, and the state after the last call unless a
call did not return. -/
def runCalls (rt : Runtime) (fuel : Nat) :
    PoolManager → World → List (Env × Call) → List (Call × Reply) × Option (PoolManager × World)
  | pm, w, [] => ([], some (pm, w))
  | pm, w, (env, call) :: rest =>
    match stepCall rt env fuel pm w call with
    | (.aborted, _, _) => ([(call, .aborted)], none)
    | (r, pm1, w1) =>
      ((call, r) :: (runCalls rt fuel pm1 w1 rest).1, (runCalls rt fuel pm1 w1 rest).2)

/-- A failing outcome, at another result type. -/
def Outcome.carry {α β : Type} : Outcome α → Outcome β
  | .error e => .error e
  | .crash c => .crash c
  | .blocked => .blocked
  | _ => .outOfFuel

/-- The frame shared by `AllocateNewNetwork` and `DeleteAllocation`: parse the
location, acquire the lock, load unless loaded, run the body, release. -/
def operation {α : Type} (rt : Runtime) (env : Env) (fuel : Nat) (pm : PoolManager) (w : World)
    (body : PoolManager → World → Outcome α × PoolManager × World) :
    Outcome α × PoolManager × World :=
  match parsePoolFile rt pm with
  | (.ok (), pm1) =>
    match acquireLockFile env fuel pm1 w with
    | (.ok (), pm2, w2) =>
      withRelease env
        (match ensureLoaded rt env fuel pm2 w2 with
         | (.ok (), pm3, w3) => body pm3 w3
         | (o, pm3, w3) => (o.carry, pm3, w3))
    | (o, pm2, w2) => (o.carry, pm2, w2)
  | (o, pm1) => (o.carry, pm1, w)

/-- A manager that has loaded a document whose group repeats a range. -/
def repeatedManager : PoolManager :=
  (loadPoolFile refRuntime calmEnv 4 (NewPoolManager "m" "gs://bucket/pools.json" 300)
    (storeWith (Loc.object "bucket" "pools.json")
      { IpPools := some [("a", [["10.0.0.0-10.0.0.16/28", "10.0.0.0-10.0.0.16/28"]])]
        AllocatedRanges := some [] })).2.1

/-- The world of `repeatedManager`. -/
def repeatedWorld : World :=
  storeWith (Loc.object "bucket" "pools.json")
    { IpPools := some [("a", [["10.0.0.0-10.0.0.16/28", "10.0.0.0-10.0.0.16/28"]])]
      AllocatedRanges := some [] }

/-- First allocation on `repeatedManager`. -/
def repeatedFirst : Outcome (String × String) × PoolManager × World :=
  AllocateNewNetwork refRuntime calmEnv 4 repeatedManager repeatedWorld "a" 1 28 "x"

/-- Second allocation, on the state the first left. -/
def repeatedSecond : Outcome (String × String) × PoolManager × World :=
  AllocateNewNetwork refRuntime calmEnv 4 repeatedFirst.2.1 repeatedFirst.2.2 "a" 1 28 "y"

/-- The candidate list of group `g` (counted from 1) of pool `p` in a manager's table. -/
def groupCandidates (pm : PoolManager) (p : String) (g : Int) : Option (List String) :=
  match nilGet pm.expandedRanges p with
  | some groups => if 1 ≤ g then groups[(g - 1).toNat]? else none
  | none => none

/-- Group `g` of pool `p` holds pairwise distinct candidates, none of them a value
of the allocated map `A`, none of them in `taken`. -/
def GroupGood (A : Option (GoMap String)) (p : String) (g : Int) (pm : PoolManager)
    (taken : List String) : Prop :=
  ∀ cand, groupCandidates pm p g = some cand →
    cand.Nodup ∧ (∀ c ∈ cand, ∀ k, nilGet A k ≠ some c) ∧ (∀ c ∈ taken, c ∉ cand)

/-- The invariant of a run on one manager whose location is `file` and whose
document `d` is stored at `loc`: between calls the mutex is free; until the pool
is loaded the stored document is untouched, decoding it gives the same pool as on
a new manager, and nothing was taken; once loaded, the group is `GroupGood`. -/
def RunInv (file : String) (loc : Loc) (d : PoolFile) (p : String) (g : Int)
    (pm : PoolManager) (w : World) (taken : List String) : Prop :=
  pm.poolFile = file ∧ pm.poolLock = false ∧
  (pm.poolLoaded = false →
    unmarshalInto pm.pool d = unmarshalInto emptyPoolFile d ∧ pm.pool.WF ∧
      w.content loc = some (Blob.document d) ∧ taken = []) ∧
  (pm.poolLoaded = true →
    GroupGood (unmarshalInto emptyPoolFile d).AllocatedRanges p g pm taken)

/-- The taken list after a call of `AllocateNewNetwork` on `poolName`, `poolIndex`
with the given outcome: a CIDR returned from pool `p`, group `g` is added. -/
def takenAfter (p : String) (g : Int) (taken : List String) (poolName : String)
    (poolIndex : Int) : Outcome (String × String) → List String
  | .ok (cidr, _) => if poolName = p ∧ poolIndex = g then cidr :: taken else taken
  | _ => taken

/-- The CIDRs that successful `AllocateNewNetwork` calls on pool `p`, group `g`
returned in a run. -/
def takenFrom (p : String) (g : Int) : List (Call × Reply) → List String
  | [] => []
  | (Call.allocate poolName poolIndex _ _, Reply.allocated cidr _) :: rest =>
    if poolName = p ∧ poolIndex = g then cidr :: takenFrom p g rest else takenFrom p g rest
  | _ :: rest => takenFrom p g rest

/-- The ranges of group `g` (counted from 1) of pool `p` in document `d` expand,
with nothing allocated, to pairwise distinct candidates. -/
def DistinctExpansion (rt : Runtime) (fuel : Nat) (d : PoolFile) (p : String) (g : Int) : Prop :=
  ∀ groups raws, nilGet (unmarshalInto emptyPoolFile d).IpPools p = some groups →
    List.Forall₂ (fun rr raw => expandRange rt fuel [] rr [] = .ok raw)
      (groups.getD (g - 1).toNat []) raws → raws.flatten.Nodup

/-- A run on the scenario: one allocation from group 1 of pool `a`, then its deletion. -/
def scenarioRun : List (Call × Reply) × Option (PoolManager × World) :=
  runCalls refRuntime 4 scenarioManager scenarioWorld
    [(calmEnv, Call.allocate "a" 1 28 "x"), (calmEnv, Call.delete "m-x")]

/-- The state `scenarioRun` ends in. -/
def scenarioAfterRun : PoolManager × World :=
  match scenarioRun.2 with
  | some s => s
  | none => (scenarioManager, scenarioWorld)

/-- An allocation from the same group after `scenarioRun`. -/
def scenarioRunNext : Outcome (String × String) × PoolManager × World :=
  AllocateNewNetwork refRuntime calmEnv 4 scenarioAfterRun.1 scenarioAfterRun.2 "a" 1 28 "y"

/-- Whether an operation on this state gets past lines 323-337 (353-368): the
location parses, the lock is acquired and the pool is loaded or loads. -/
def reachesBody (rt : Runtime) (env : Env) (fuel : Nat) (pm : PoolManager) (w : World) : Bool :=
  match parsePoolFile rt pm with
  | (.ok (), pm1) =>
    match acquireLockFile env fuel pm1 w with
    | (.ok (), pm2, w2) =>
      match ensureLoaded rt env fuel pm2 w2 with
      | (.ok (), _, _) => true
      | _ => false
    | _ => false
  | _ => false

/-- An environment in which only `savePoolFile` fails. -/
def saveFailEnv : Env := { calmEnv with saveErr := some "write failed" }

/-- Deleting the allocation of the scenario's first call while saving fails. -/
def scenarioDeleteUnsaved : Outcome Unit × PoolManager × World :=
  DeleteAllocation refRuntime saveFailEnv 4 scenarioFirst.2.1 scenarioFirst.2.2 "m-x"

/-- The document of the scenario with `10.0.0.16/28` allocated under key `m-x`. -/
def allocatedDoc : PoolFile :=
  { IpPools := some [("a", [["10.0.0.0-10.0.0.31/28"]])]
    AllocatedRanges := some [("m-x", "10.0.0.16/28")] }

/-- The world in which the bucket object holds `allocatedDoc`. -/
def allocatedWorld : World := storeWith (Loc.object "bucket" "pools.json") allocatedDoc

/-- A new manager deletes the allocation `m-x` of `allocatedDoc`. -/
def scenarioDelete : Outcome Unit × PoolManager × World :=
  DeleteAllocation refRuntime calmEnv 4 scenarioManager allocatedWorld "m-x"

/-- A prefix length: a decimal integer in `[0, 32]`. -/
def prefixLength (mask : String) : Option Nat :=
  match parseDecimalInt mask.data with
  | some n => if 0 ≤ n ∧ n ≤ 32 then some n.toNat else none
  | none => none

/-- The address block of a CIDR text `<address>/<N>`: its first and last address. -/
def cidrBlock (rt : Runtime) (s : String) : Option (Nat × Nat) :=
  match SplitN2 s '/' with
  | some (ip, mask) =>
    match ipToUint32 (ParseIP rt ip), prefixLength mask with
    | some base, some n =>
      some (base / 2 ^ (32 - n) * 2 ^ (32 - n), base / 2 ^ (32 - n) * 2 ^ (32 - n) + 2 ^ (32 - n) - 1)
    | _, _ => none
  | none => none

/-- Whether two CIDR texts denote address blocks that share an address. -/
def overlaps (rt : Runtime) (a b : String) : Bool :=
  match cidrBlock rt a, cidrBlock rt b with
  | some x, some y => decide (x.1 ≤ y.2 ∧ y.1 ≤ x.2)
  | _, _ => false

/-- All candidates of a manager's table, pool by pool and group by group. -/
def tableCandidates (pm : PoolManager) : List String :=
  ((nilEntries pm.expandedRanges).map (fun e => e.2.flatten)).flatten

/-- The allocation values under distinct keys and the candidates of the table are
pairwise non-overlapping address blocks. -/
def Separated (rt : Runtime) (pm : PoolManager) : Prop :=
  (∀ k1 k2 c1 c2, k1 ≠ k2 → nilGet pm.pool.AllocatedRanges k1 = some c1 →
    nilGet pm.pool.AllocatedRanges k2 = some c2 → overlaps rt c1 c2 = false) ∧
  (∀ k c, nilGet pm.pool.AllocatedRanges k = some c →
    ∀ x ∈ tableCandidates pm, overlaps rt c x = false) ∧
  (tableCandidates pm).Pairwise (fun a b => overlaps rt a b = false)

/-- A manager that has loaded a document whose group lists a `/28` range and a
`/29` range inside it. -/
def nestedManager : PoolManager :=
  (loadPoolFile refRuntime calmEnv 4 (NewPoolManager "m" "gs://bucket/pools.json" 300)
    (storeWith (Loc.object "bucket" "pools.json")
      { IpPools := some [("a", [["10.0.0.0-10.0.0.16/28", "10.0.0.8-10.0.0.16/29"]])]
        AllocatedRanges := some [] })).2.1

/-- The world of `nestedManager`. -/
def nestedWorld : World :=
  storeWith (Loc.object "bucket" "pools.json")
    { IpPools := some [("a", [["10.0.0.0-10.0.0.16/28", "10.0.0.8-10.0.0.16/29"]])]
      AllocatedRanges := some [] }

/-- A `/28` allocation on `nestedManager`. -/
def nestedFirst : Outcome (String × String) × PoolManager × World :=
  AllocateNewNetwork refRuntime calmEnv 4 nestedManager nestedWorld "a" 1 28 "x"

/-- A `/29` allocation on the state the first left. -/
def nestedSecond : Outcome (String × String) × PoolManager × World :=
  AllocateNewNetwork refRuntime calmEnv 4 nestedFirst.2.1 nestedFirst.2.2 "a" 1 29 "y"

/-- Every group of the table of `pm` is what is left of that group in `pm0`. -/
def TableWithin (pm0 pm : PoolManager) : Prop :=
  ∀ p g cand, groupCandidates pm p g = some cand →
    ∃ cand0, groupCandidates pm0 p g = some cand0 ∧ cand.Sublist cand0

/-- Two allocations from group 1 of pool `a` on the loaded manager of the scenario. -/
def scenarioLoadedRun : List (Call × Reply) × Option (PoolManager × World) :=
  runCalls refRuntime 4 scenarioLoaded scenarioWorld
    [(calmEnv, Call.allocate "a" 1 28 "x"), (calmEnv, Call.allocate "a" 1 28 "y")]

/-- The state `scenarioLoadedRun` ends in. -/
def scenarioLoadedAfter : PoolManager × World :=
  match scenarioLoadedRun.2 with
  | some s => s
  | none => (scenarioLoaded, scenarioWorld)

/-- A document that lists, after a good range, a range text without `-`. -/
def malformedDoc : PoolFile :=
  { IpPools := some [("a", [["10.0.0.0-10.0.0.31/28", "10.0.0.0/28"]])]
    AllocatedRanges := some [] }

/-- A world whose bucket object holds `malformedDoc`. -/
def malformedWorld : World := storeWith (Loc.object "bucket" "pools.json") malformedDoc

/-- The manager of the scenario after `parsePoolFile`. -/
def scenarioParsed : PoolManager := (parsePoolFile refRuntime scenarioManager).2

/-- The manager and world after `acquireLockFile` on `malformedWorld`. -/
def malformedLocked : Outcome Unit × PoolManager × World :=
  acquireLockFile calmEnv 4 scenarioParsed malformedWorld

/-- A world whose bucket object lists a range with an invalid start address before
a range text without `-`. -/
def precededWorld : World :=
  storeWith (Loc.object "bucket" "pools.json")
    { IpPools := some [("a", [["x-10.0.0.31/28", "10.0.0.0/28"]])]
      AllocatedRanges := some [] }

/-- A world whose bucket object holds a pool `a` with the one range `rr`. -/
def worldWithRange (rr : String) : World :=
  storeWith (Loc.object "bucket" "pools.json")
    { IpPools := some [("a", [[rr]])], AllocatedRanges := some [] }

/-- A manager for a local pool file. -/
def localManager : PoolManager := NewPoolManager "m" "pools.json" 300

/-- The world in which the local file holds `scenarioDoc`. -/
def localWorld : World := storeWith (Loc.file "pools.json") scenarioDoc

/-- The first allocation on the local pool file. -/
def localFirst : Outcome (String × String) × PoolManager × World :=
  AllocateNewNetwork refRuntime calmEnv 4 localManager localWorld "a" 1 28 "x"

/-- The text of a permission error (status 403) of the object store that names a
service account whose name contains `412`. -/
def forbiddenText : String :=
  "googleapi: Error 403: sa-412@example.iam.gserviceaccount.com does not have storage.objects.create access to the Google Cloud Storage object., forbidden"

/-- An environment in which the first marker creation fails with `forbiddenText`
and the second succeeds. -/
def forbiddenOnceEnv : Env :=
  { calmEnv with lockCreate := fun n => if n = 0 then some forbiddenText else none }

/-- An environment in which every marker creation fails with `forbiddenText`. -/
def forbiddenEnv : Env := { calmEnv with lockCreate := fun _ => some forbiddenText }

/-- An environment in which every marker creation reports that the marker exists. -/
def busyEnv : Env :=
  { calmEnv with
    lockCreate := fun _ => some "googleapi: Error 412: Precondition Failed, conditionNotMet" }

/-- A manager with a timeout of five seconds, after `parsePoolFile`. -/
def impatientManager : PoolManager :=
  (parsePoolFile refRuntime (NewPoolManager "m" "gs://bucket/pools.json" 5)).2

/-- The number of two-second sleeps in a log. -/
def sleeps (log : List Event) : Nat := log.count Event.sleep

/-- A manager with timeout 0, after `parsePoolFile`. -/
def zeroTimeoutManager : PoolManager :=
  (parsePoolFile refRuntime (NewPoolManager "m" "gs://bucket/pools.json" 0)).2

/-- An environment in which only the deletion of the lock marker fails. -/
def releaseFailEnv : Env := { calmEnv with releaseDelete := some "delete failed" }

/-- The first call of the scenario when the deletion of the lock marker fails. -/
def scenarioReleaseFail : Outcome (String × String) × PoolManager × World :=
  AllocateNewNetwork refRuntime releaseFailEnv 4 scenarioManager scenarioWorld "a" 1 28 "x"

/-- A world whose bucket object holds the pools of the scenario and no `allocated` key. -/
def noAllocatedWorld : World :=
  storeWith (Loc.object "bucket" "pools.json")
    { IpPools := some [("a", [["10.0.0.0-10.0.0.31/28"]])], AllocatedRanges := none }

/-- The first allocation on `noAllocatedWorld`. -/
def noAllocatedFirst : Outcome (String × String) × PoolManager × World :=
  AllocateNewNetwork refRuntime calmEnv 4 scenarioManager noAllocatedWorld "a" 1 28 "x"

/-- A second call of the scenario with the consumer name of the first. -/
def scenarioSame : Outcome (String × String) × PoolManager × World :=
  AllocateNewNetwork refRuntime calmEnv 4 scenarioFirst.2.1 scenarioFirst.2.2 "a" 1 28 "x"

/-- The first call of the scenario on the loaded manager while saving fails. -/
def scenarioUnsaved : Outcome (String × String) × PoolManager × World :=
  AllocateNewNetwork refRuntime saveFailEnv 4 scenarioLoaded scenarioWorld "a" 1 28 "x"

/-- The number of reads of the backing store in a log. -/
def reads (log : List Event) : Nat :=
  log.countP (fun e => match e with
    | Event.read _ => true
    | _ => false)

/-- The number of saves of the document in a log. -/
def writes (log : List Event) : Nat :=
  log.countP (fun e => match e with
    | Event.write _ => true
    | _ => false)

/-- The call `GetAllocation("missing-key")` on a new manager. -/
def scenarioGetMissing : Outcome String × PoolManager × World :=
  GetAllocation refRuntime calmEnv 4 scenarioManager scenarioWorld "missing-key"

/-- The first call of the scenario on the loaded manager. -/
def scenarioLoadedFirst : Outcome (String × String) × PoolManager × World :=
  AllocateNewNetwork refRuntime calmEnv 4 scenarioLoaded scenarioWorld "a" 1 28 "x"

/-- A request to the loaded manager of the scenario for a `/30`, which group 1 of
pool `a` does not offer. -/
def scenarioNoMatch : Outcome (String × String) × PoolManager × World :=
  AllocateNewNetwork refRuntime calmEnv 4 scenarioLoaded scenarioWorld "a" 1 30 "x"

/-- Deleting a key the loaded manager of the scenario does not hold. -/
def scenarioDeleteMissing : Outcome Unit × PoolManager × World :=
  DeleteAllocation refRuntime calmEnv 4 scenarioLoaded scenarioWorld "m-none"

/-- No group of a candidate table holds an empty text. -/
def CleanTable (t : Option (GoMap (List (List String)))) : Prop :=
  ∀ p groups, nilGet t p = some groups → ∀ g ∈ groups, "" ∉ g

/-- A document with two ranges in group 1 of pool `a`, one of whose candidates is
allocated. -/
def mixedDoc : PoolFile :=
  { IpPools := some [("a", [["10.0.0.0-10.0.0.31/28", "10.0.1.0-10.0.1.7/30"]])]
    AllocatedRanges := some [("m-old", "10.0.0.16/28")] }

/-- The world in which the bucket object holds `mixedDoc`. -/
def mixedWorld : World := storeWith (Loc.object "bucket" "pools.json") mixedDoc

/-- The manager of the scenario after `loadPoolFile` on `mixedWorld`. -/
def mixedLoaded : PoolManager :=
  (loadPoolFile refRuntime calmEnv 4 scenarioManager mixedWorld).2.1

/-- A request for a `/30` to the manager that loaded `mixedDoc`. -/
def mixedFirst : Outcome (String × String) × PoolManager × World :=
  AllocateNewNetwork refRuntime calmEnv 4 mixedLoaded mixedWorld "a" 1 30 "x"

/-- The world in which the local file holds `malformedDoc`. -/
def malformedLocalWorld : World := storeWith (Loc.file "pools.json") malformedDoc

/-- The document of the scenario with a second pool `b` whose one range is `bad`. -/
def extraPoolDoc : PoolFile :=
  { IpPools := some [("a", [["10.0.0.0-10.0.0.31/28"]]), ("b", [["bad"]])]
    AllocatedRanges := some [] }

/-- The world in which the bucket object holds `extraPoolDoc`. -/
def extraPoolWorld : World := storeWith (Loc.object "bucket" "pools.json") extraPoolDoc

/-- The first call of the scenario on `extraPoolWorld`. -/
def extraPoolFirst : Outcome (String × String) × PoolManager × World :=
  AllocateNewNetwork refRuntime calmEnv 4 scenarioManager extraPoolWorld "a" 1 28 "x"

/-- The first `AllocateNewNetwork("a", 1, 28, name)` on a new manager. -/
def freshFirst (rt : Runtime) (env : Env) (fuel : Nat) (id file : String) (timeout : Int)
    (w : World) (name : String) : Outcome (String × String) × PoolManager × World :=
  AllocateNewNetwork rt env fuel (NewPoolManager id file timeout) w "a" 1 28 name

/-- The second `AllocateNewNetwork("a", 1, 28, name)` on that manager. -/
def freshSecond (rt : Runtime) (env1 env2 : Env) (fuel : Nat) (id file : String) (timeout : Int)
    (w : World) (name1 name2 : String) : Outcome (String × String) × PoolManager × World :=
  AllocateNewNetwork rt env2 fuel (freshFirst rt env1 fuel id file timeout w name1).2.1
    (freshFirst rt env1 fuel id file timeout w name1).2.2 "a" 1 28 name2

/-- The third `AllocateNewNetwork("a", 1, 28, name)` on that manager. -/
def freshThird (rt : Runtime) (env1 env2 env3 : Env) (fuel : Nat) (id file : String)
    (timeout : Int) (w : World) (name1 name2 name3 : String) :
    Outcome (String × String) × PoolManager × World :=
  AllocateNewNetwork rt env3 fuel
    (freshSecond rt env1 env2 fuel id file timeout w name1 name2).2.1
    (freshSecond rt env1 env2 fuel id file timeout w name1 name2).2.2 "a" 1 28 name3

/-- The store calls of an allocation succeed: the lock marker is created at the
first attempt and the document is saved. -/
def Env.allocates (env : Env) : Prop :=
  env.lockClient 0 = none ∧ env.lockCreate 0 = none ∧ env.saveErr = none

/-- A loaded manager between two calls: its location is an object-storage
location that is parsed, the mutex is free, and both allocation maps exist. -/
def Ready (rt : Runtime) (pm : PoolManager) : Prop :=
  parsePoolFile rt pm = (.ok (), pm) ∧ HasPrefix pm.poolFile "gs://" = true ∧
    pm.poolLock = false ∧ pm.poolLoaded = true ∧
    (∃ reverse, pm.allocatedRanges = some reverse) ∧
    (∃ ranges, pm.pool.AllocatedRanges = some ranges)

/-! ## Theorems -/

/-! ### Text lemmas -/


set_option maxRecDepth 100000 in
theorem parseOctet_byteString_fin : ∀ b : Fin 256, parseOctet (byteString b.val) = some b.val := by
  decide

set_option maxRecDepth 100000 in
theorem byteString_digits_fin : ∀ b : Fin 256, (byteString b.val).all Char.isDigit = true := by
  decide

theorem parseOctet_byteString (b : Nat) (h : b < 256) : parseOctet (byteString b) = some b :=
  parseOctet_byteString_fin ⟨b, h⟩

theorem byteString_isDigit (b : Nat) (h : b < 256) : ∀ c ∈ byteString b, c.isDigit = true := by
  have := byteString_digits_fin ⟨b, h⟩
  simpa [List.all_eq_true] using this

theorem not_mem_byteString (b : Nat) (h : b < 256) (sep : Char) (hs : sep.isDigit = false) :
    sep ∉ byteString b := by
  intro hm
  have := byteString_isDigit b h sep hm
  rw [hs] at this
  exact Bool.noConfusion this

theorem splitFirst_append (sep : Char) (a b : List Char) (h : sep ∉ a) :
    splitFirst sep (a ++ sep :: b) = some (a, b) := by
  induction a with
  | nil => simp [splitFirst]
  | cons c cs ih =>
    simp only [List.mem_cons, not_or] at h
    have hc : c ≠ sep := fun e => h.1 e.symm
    simp [splitFirst, hc, ih h.2]

theorem fields_single (sep : Char) (a : List Char) (h : sep ∉ a) : fields sep a = [a] := by
  induction a with
  | nil => simp [fields]
  | cons c cs ih =>
    simp only [List.mem_cons, not_or] at h
    have hc : c ≠ sep := fun e => h.1 e.symm
    simp [fields, hc, ih h.2]

theorem fields_append (sep : Char) (a b : List Char) (h : sep ∉ a) :
    fields sep (a ++ sep :: b) = a :: fields sep b := by
  induction a with
  | nil => simp [fields]
  | cons c cs ih =>
    simp only [List.mem_cons, not_or] at h
    have hc : c ≠ sep := fun e => h.1 e.symm
    simp [fields, hc, ih h.2]

theorem firstSeparator_digits (a b : List Char) (h : ∀ c ∈ a, c.isDigit = true) :
    firstSeparator (a ++ '.' :: b) = some '.' := by
  induction a with
  | nil => simp [firstSeparator]
  | cons c cs ih =>
    have hc := h c (List.mem_cons_self _ _)
    have h1 : c ≠ '.' := by rintro rfl; exact absurd hc (by decide)
    have h2 : c ≠ ':' := by rintro rfl; exact absurd hc (by decide)
    simp [firstSeparator, h1, h2, ih (fun x hx => h x (List.mem_cons_of_mem _ hx))]

theorem uint32ToIp_lt (a : Nat) : ∀ b ∈ uint32ToIp a, b < 256 := by
  intro b hb
  simp [uint32ToIp] at hb
  omega

/-- The characters of a rendered address. -/
theorem IPString_uint32ToIp_data (a : Nat) :
    (IPString (uint32ToIp a)).data =
      byteString (a / 256 ^ 3 % 256) ++ ('.' :: (byteString (a / 256 ^ 2 % 256) ++
        ('.' :: (byteString (a / 256 % 256) ++ ('.' :: byteString (a % 256)))))) := by
  simp [IPString, uint32ToIp, List.append_assoc]

theorem not_mem_IPString (a : Nat) (sep : Char) (hs : sep.isDigit = false) (hd : sep ≠ '.') :
    sep ∉ (IPString (uint32ToIp a)).data := by
  rw [IPString_uint32ToIp_data]
  have hb : ∀ x, sep ∉ byteString (x % 256) := fun x =>
    not_mem_byteString _ (Nat.mod_lt _ (by norm_num)) sep hs
  simp [List.mem_append, List.mem_cons, hb, hd]

theorem ParseIP_IPString (rt : Runtime) (a : Nat) :
    ParseIP rt (IPString (uint32ToIp a)) = v4InV6Prefix ++ uint32ToIp a := by
  have hlt : ∀ x : Nat, x % 256 < 256 := fun x => Nat.mod_lt _ (by norm_num)
  have hdot : ∀ x : Nat, '.' ∉ byteString (x % 256) := fun x =>
    not_mem_byteString _ (hlt x) '.' (by decide)
  unfold ParseIP
  rw [IPString_uint32ToIp_data, firstSeparator_digits _ _ (byteString_isDigit _ (hlt _))]
  simp only [parseIPv4]
  rw [fields_append _ _ _ (hdot _), fields_append _ _ _ (hdot _), fields_append _ _ _ (hdot _),
    fields_single _ _ (hdot _)]
  simp [parseOctet_byteString _ (hlt _), uint32ToIp]

theorem ipToUint32_ParseIP_IPString (rt : Runtime) (a : Nat) (h : a < 2 ^ 32) :
    ipToUint32 (ParseIP rt (IPString (uint32ToIp a))) = some a := by
  rw [ParseIP_IPString]
  simp [ipToUint32, v4InV6Prefix, uint32ToIp, bigEndianUint32]
  omega

theorem parseDecimalInt_repr_fin :
    ∀ N : Fin 33, parseDecimalInt (Nat.repr N.val).data = some (N.val : Int) := by
  decide

theorem floatRangeLimit_gt : 32 < floatRangeLimit := by decide

theorem maskIncrease_repr (rt : Runtime) (N : Nat) (h1 : 1 ≤ N) (h2 : N ≤ 32) :
    maskIncrease rt (Nat.repr N) = some (2 ^ (32 - N)) := by
  have hp := parseDecimalInt_repr_fin ⟨N, by omega⟩
  have hl := floatRangeLimit_gt
  simp only at hp
  unfold maskIncrease
  rw [hp]
  have e : ((32 : Int) - (N : Int)).toNat = 32 - N := by omega
  have c1 : ¬ floatRangeLimit ≤ (N : Int).natAbs := by simp; omega
  have c2 : ¬ (33 : Int) ≤ (N : Int) := by omega
  have c3 : (1 : Int) ≤ (N : Int) := by omega
  simp only [c1, c2, c3, if_true, if_false, e]

theorem maskIncrease_repr_zero (rt : Runtime) :
    maskIncrease rt (Nat.repr 0) = some (rt.convertOverflow 32 % 2 ^ 32) := by
  have hp := parseDecimalInt_repr_fin ⟨0, by omega⟩
  have hl := floatRangeLimit_gt
  simp only at hp
  unfold maskIncrease
  rw [hp]
  have c1 : ¬ floatRangeLimit ≤ ((0 : Nat) : Int).natAbs := by simp; omega
  simp only [c1, if_false]
  simp

theorem maskIncrease_repr_lt (rt : Runtime) (N : Nat) (h2 : N ≤ 32) :
    ∃ inc, maskIncrease rt (Nat.repr N) = some inc ∧ inc ≤ 2 ^ (32 - N) := by
  rcases Nat.eq_zero_or_pos N with h | h
  · subst h
    exact ⟨_, maskIncrease_repr_zero rt, (Nat.mod_lt _ (by norm_num)).le⟩
  · exact ⟨_, maskIncrease_repr rt N h h2, le_refl _⟩

theorem rangeText_data (A B N : Nat) :
    (rangeText A B N).data = (IPString (uint32ToIp A)).data ++
      ('-' :: ((IPString (uint32ToIp B)).data ++ ('/' :: (Nat.repr N).data))) := by
  simp [rangeText, String.data_append, List.append_assoc]

theorem SplitN2_rangeText (A B N : Nat) :
    SplitN2 (rangeText A B N) '-' =
      some (IPString (uint32ToIp A), IPString (uint32ToIp B) ++ "/" ++ Nat.repr N) := by
  unfold SplitN2
  rw [rangeText_data, splitFirst_append _ _ _ (not_mem_IPString A '-' (by decide) (by decide))]
  simp [String.ext_iff, String.data_append, List.append_assoc]

theorem SplitN2_endText (B N : Nat) :
    SplitN2 (IPString (uint32ToIp B) ++ "/" ++ Nat.repr N) '/' =
      some (IPString (uint32ToIp B), Nat.repr N) := by
  unfold SplitN2
  have : (IPString (uint32ToIp B) ++ "/" ++ Nat.repr N).data =
      (IPString (uint32ToIp B)).data ++ ('/' :: (Nat.repr N).data) := by
    simp [String.data_append, List.append_assoc]
  rw [this, splitFirst_append _ _ _ (not_mem_IPString B '/' (by decide) (by decide))]

/-- On a range text `A-B/N`, `expandRange` parses back `A`, `B` and the mask text. -/
theorem expandRange_rangeText (rt : Runtime) (fuel : Nat) (reverse : GoMap String)
    (A B N : Nat) (hA : A < 2 ^ 32) (hB : B < 2 ^ 32) (res : List String) :
    expandRange rt fuel reverse (rangeText A B N) res =
      match maskIncrease rt (Nat.repr N) with
      | none => .error (.parseFloat (Nat.repr N))
      | some inc =>
        match expandLoop reverse (Nat.repr N) inc B fuel A res with
        | (res1, true) => .ok res1
        | (_, false) => .outOfFuel := by
  unfold expandRange
  simp only [SplitN2_rangeText, SplitN2_endText, ipToUint32_ParseIP_IPString rt A hA,
    ipToUint32_ParseIP_IPString rt B hB]

/-! ### The expansion loop -/

theorem expandLoop_succ (reverse : GoMap String) (mask : String) (inc e fuel cur : Nat)
    (res : List String) :
    expandLoop reverse mask inc e (fuel + 1) cur res =
      if (cur + inc) % 2 ^ 32 ≥ e then
        (if (GoMap.get? (cidrText ((cur + inc) % 2 ^ 32) mask) reverse).isSome then res
          else res ++ [cidrText ((cur + inc) % 2 ^ 32) mask], true)
      else expandLoop reverse mask inc e fuel ((cur + inc) % 2 ^ 32)
        (if (GoMap.get? (cidrText ((cur + inc) % 2 ^ 32) mask) reverse).isSome then res
          else res ++ [cidrText ((cur + inc) % 2 ^ 32) mask]) := by
  rw [expandLoop]
  rfl

theorem expandLoop_acc (reverse : GoMap String) (mask : String) (inc e : Nat) :
    ∀ (fuel cur : Nat) (res : List String),
      expandLoop reverse mask inc e fuel cur res =
        (res ++ (expandLoop reverse mask inc e fuel cur []).1,
          (expandLoop reverse mask inc e fuel cur []).2) := by
  intro fuel
  induction fuel with
  | zero => intro cur res; simp [expandLoop]
  | succ f ih =>
    intro cur res
    rw [expandLoop_succ, expandLoop_succ]
    by_cases hc : (cur + inc) % 2 ^ 32 ≥ e
    · rw [if_pos hc, if_pos hc]
      split_ifs <;> simp
    · rw [if_neg hc, if_neg hc]
      split_ifs
      · exact ih _ _
      · rw [ih _ (res ++ _), ih _ ([] ++ _)]
        simp [List.append_assoc]

theorem expandLoop_progression (mask : String) (inc e : Nat) :
    ∀ (n fuel A : Nat) (res : List String), n + 1 ≤ fuel → A + (n + 1) * inc < 2 ^ 32 →
      e ≤ A + (n + 1) * inc → (∀ i, 1 ≤ i → i < n + 1 → A + i * inc < e) →
      expandLoop [] mask inc e fuel A res =
        (res ++ (List.range (n + 1)).map (fun i => cidrText (A + (i + 1) * inc) mask), true) := by
  intro n
  induction n with
  | zero =>
    intro fuel A res hf hw he _
    obtain ⟨f, rfl⟩ : ∃ f, fuel = f + 1 := ⟨fuel - 1, by omega⟩
    have h1 : (A + inc) % 2 ^ 32 = A + inc := Nat.mod_eq_of_lt (by omega)
    have h2 : A + inc ≥ e := by omega
    rw [expandLoop_succ, h1, if_pos h2]
    simp [GoMap.get?, List.range_succ]
  | succ k ih =>
    intro fuel A res hf hw he hmin
    obtain ⟨f, rfl⟩ : ∃ f, fuel = f + 1 := ⟨fuel - 1, by omega⟩
    have hle : A + inc ≤ A + (k + 1 + 1) * inc := by nlinarith
    have h1 : (A + inc) % 2 ^ 32 = A + inc := Nat.mod_eq_of_lt (by omega)
    have h2 : ¬ A + inc ≥ e := by
      have := hmin 1 (le_refl _) (by omega)
      omega
    have e1 : A + inc + (k + 1) * inc = A + (k + 1 + 1) * inc := by ring
    have hrec := ih f (A + inc) (res ++ [cidrText (A + inc) mask]) (by omega)
      (by omega) (by omega)
      (by intro i hi1 hi2
          have := hmin (i + 1) (by omega) (by omega)
          have e2 : A + inc + i * inc = A + (i + 1) * inc := by ring
          omega)
    rw [expandLoop_succ, h1, if_neg h2]
    simp only [GoMap.get?, Option.isSome_none, Bool.false_eq_true, if_false]
    rw [hrec, List.range_succ_eq_map (k + 1)]
    simp only [List.map_cons, List.map_map, List.append_assoc, List.singleton_append, zero_add,
      one_mul]
    congr 2
    congr 1
    apply List.map_congr_left
    intro i _
    simp only [Function.comp, Nat.succ_eq_add_one]
    congr 1
    ring

theorem cidrText_data (c : Nat) (mask : String) :
    (cidrText c mask).data = (IPString (uint32ToIp c)).data ++ ('/' :: mask.data) := by
  simp [cidrText, String.data_append, List.append_assoc]

theorem SplitN2_cidrText (c : Nat) (mask : String) :
    SplitN2 (cidrText c mask) '/' = some (IPString (uint32ToIp c), mask) := by
  unfold SplitN2
  rw [cidrText_data, splitFirst_append _ _ _ (not_mem_IPString c '/' (by decide) (by decide))]

/-- Distinct 32 bit base addresses give distinct candidate texts. -/
theorem cidrText_injective (a b : Nat) (mask : String) (ha : a < 2 ^ 32) (hb : b < 2 ^ 32)
    (h : cidrText a mask = cidrText b mask) : a = b := by
  have h1 := SplitN2_cidrText a mask
  rw [h, SplitN2_cidrText b mask] at h1
  have h2 : IPString (uint32ToIp b) = IPString (uint32ToIp a) := by
    simpa using congrArg (Option.map Prod.fst) h1
  have h3 := ipToUint32_ParseIP_IPString refRuntime a ha
  rw [← h2, ipToUint32_ParseIP_IPString refRuntime b hb] at h3
  exact (Option.some.inj h3).symm

/-- Every candidate the loop appends has a base address at most one increase past the end. -/
theorem expandLoop_bound (reverse : GoMap String) (mask : String) (inc e : Nat) :
    ∀ (fuel cur : Nat), cur ≤ e →
      ∀ s ∈ (expandLoop reverse mask inc e fuel cur []).1,
        ∃ c, s = cidrText c mask ∧ c < 2 ^ 32 ∧ c ≤ e + inc := by
  intro fuel
  induction fuel with
  | zero => intro cur _ s hs; simp [expandLoop] at hs
  | succ f ih =>
    intro cur hcur s hs
    have hlt : (cur + inc) % 2 ^ 32 < 2 ^ 32 := Nat.mod_lt _ (by norm_num)
    have hle : (cur + inc) % 2 ^ 32 ≤ e + inc := le_trans (Nat.mod_le _ _) (by omega)
    rw [expandLoop_succ] at hs
    by_cases hc : (cur + inc) % 2 ^ 32 ≥ e
    · rw [if_pos hc] at hs
      split_ifs at hs
      · simp at hs
      · simp only [List.nil_append, List.mem_singleton] at hs
        exact ⟨_, hs, hlt, hle⟩
    · rw [if_neg hc, expandLoop_acc] at hs
      simp only [List.mem_append] at hs
      rcases hs with hs | hs
      · split_ifs at hs
        · simp at hs
        · simp only [List.nil_append, List.mem_singleton] at hs
          exact ⟨_, hs, hlt, hle⟩
      · exact ih _ (by omega) s hs

/-- Filtering by the reverse map commutes with the loop. -/
theorem expandLoop_filter (reverse : GoMap String) (mask : String) (inc e : Nat) :
    ∀ (fuel cur : Nat),
      expandLoop reverse mask inc e fuel cur [] =
        (((expandLoop [] mask inc e fuel cur []).1).filter
            (fun s => !(GoMap.get? s reverse).isSome),
          (expandLoop [] mask inc e fuel cur []).2) := by
  intro fuel
  induction fuel with
  | zero => intro cur; simp [expandLoop]
  | succ f ih =>
    intro cur
    rw [expandLoop_succ, expandLoop_succ]
    generalize (cur + inc) % 2 ^ 32 = c
    by_cases hc : c ≥ e
    · rw [if_pos hc, if_pos hc]
      cases hg : GoMap.get? (cidrText c mask) reverse <;>
        simp [hg, GoMap.get?, List.filter_cons]
    · rw [if_neg hc, if_neg hc, expandLoop_acc, expandLoop_acc [] , ih]
      cases hg : GoMap.get? (cidrText c mask) reverse <;>
        simp [hg, GoMap.get?, List.filter_cons]

theorem two_pow_pos_aux (N : Nat) : 0 < 2 ^ (32 - N) := Nat.pow_pos (by norm_num)

/-! ### Go maps -/

theorem GoMap.get?_set_self {ν : Type} (k : String) (v : ν) (m : GoMap ν) :
    GoMap.get? k (GoMap.set k v m) = some v := by
  induction m with
  | nil => simp [GoMap.set, GoMap.get?]
  | cons e m ih =>
    by_cases h : e.1 = k
    · simp [GoMap.set, GoMap.get?, h]
    · simp [GoMap.set, GoMap.get?, h, ih]

theorem GoMap.get?_set_ne {ν : Type} (k k1 : String) (v : ν) (m : GoMap ν) (h : k1 ≠ k) :
    GoMap.get? k1 (GoMap.set k v m) = GoMap.get? k1 m := by
  induction m with
  | nil => simp [GoMap.set, GoMap.get?, h.symm]
  | cons e m ih =>
    by_cases he : e.1 = k
    · have : e.1 ≠ k1 := by rw [he]; exact h.symm
      simp [GoMap.set, GoMap.get?, he, h.symm, this]
    · by_cases he1 : e.1 = k1
      · subst he1
        simp [GoMap.set, GoMap.get?, he]
      · simp [GoMap.set, GoMap.get?, he, he1, ih]

theorem GoMap.get?_eq_none_iff {ν : Type} (k : String) (m : GoMap ν) :
    GoMap.get? k m = none ↔ k ∉ GoMap.keys m := by
  induction m with
  | nil => simp [GoMap.get?, GoMap.keys]
  | cons e m ih =>
    by_cases h : e.1 = k
    · simp [GoMap.get?, GoMap.keys, h]
    · have h1 : ¬ k = e.1 := fun x => h x.symm
      simp only [GoMap.keys] at ih
      simp [GoMap.get?, GoMap.keys, h, h1, ih]

theorem GoMap.get?_isSome_iff {ν : Type} (k : String) (m : GoMap ν) :
    (GoMap.get? k m).isSome = true ↔ k ∈ GoMap.keys m := by
  rw [← not_iff_not, ← GoMap.get?_eq_none_iff]
  cases GoMap.get? k m <;> simp

theorem GoMap.mem_of_get? {ν : Type} (k : String) (v : ν) (m : GoMap ν)
    (h : GoMap.get? k m = some v) : (k, v) ∈ m := by
  induction m with
  | nil => simp [GoMap.get?] at h
  | cons e m ih =>
    by_cases he : e.1 = k
    · simp only [GoMap.get?, he, if_true, Option.some.injEq] at h
      have : e = (k, v) := Prod.ext he h
      simp [this]
    · simp only [GoMap.get?, he, if_false] at h
      exact List.mem_cons_of_mem _ (ih h)

theorem GoMap.get?_of_mem {ν : Type} (k : String) (v : ν) (m : GoMap ν) (hwf : GoMap.WF m)
    (h : (k, v) ∈ m) : GoMap.get? k m = some v := by
  induction m with
  | nil => simp at h
  | cons e m ih =>
    simp only [GoMap.WF, GoMap.keys, List.map_cons, List.nodup_cons] at hwf
    rcases List.mem_cons.1 h with h1 | h1
    · subst h1
      simp [GoMap.get?]
    · have hne : e.1 ≠ k := by
        intro he
        apply hwf.1
        rw [he]
        exact List.mem_map.2 ⟨(k, v), h1, rfl⟩
      simp only [GoMap.get?, hne, if_false]
      exact ih hwf.2 h1

theorem GoMap.keys_set {ν : Type} (k : String) (v : ν) (m : GoMap ν) :
    GoMap.keys (GoMap.set k v m) =
      if k ∈ GoMap.keys m then GoMap.keys m else GoMap.keys m ++ [k] := by
  induction m with
  | nil => simp [GoMap.set, GoMap.keys]
  | cons e m ih =>
    simp only [GoMap.keys] at ih
    by_cases he : e.1 = k
    · simp [GoMap.set, GoMap.keys, he]
    · have h1 : ¬ k = e.1 := fun x => he x.symm
      by_cases hk : k ∈ List.map Prod.fst m
      · simp [GoMap.set, GoMap.keys, he, h1, hk, ih]
      · simp [GoMap.set, GoMap.keys, he, h1, hk, ih]

theorem GoMap.WF_set {ν : Type} (k : String) (v : ν) (m : GoMap ν) (h : GoMap.WF m) :
    GoMap.WF (GoMap.set k v m) := by
  unfold GoMap.WF at *
  rw [GoMap.keys_set]
  split_ifs with hk
  · exact h
  · exact List.Nodup.append h (List.nodup_singleton k) (by simpa using hk)

theorem GoMap.WF_foldl_set {ν : Type} (l : List (String × ν)) (m : GoMap ν) (h : GoMap.WF m) :
    GoMap.WF (l.foldl (fun acc e => GoMap.set e.1 e.2 acc) m) := by
  induction l generalizing m with
  | nil => exact h
  | cons e l ih => exact ih _ (GoMap.WF_set _ _ _ h)

theorem GoMap.WF_nil {ν : Type} : GoMap.WF ([] : GoMap ν) := by
  simp [GoMap.WF, GoMap.keys]

/-- Under distinct keys, the values of a map are the values some key reads. -/
theorem GoMap.mem_values_iff {ν : Type} (v : ν) (m : GoMap ν) (hwf : GoMap.WF m) :
    v ∈ GoMap.values m ↔ ∃ k, GoMap.get? k m = some v := by
  constructor
  · intro h
    obtain ⟨e, he, rfl⟩ := List.mem_map.1 h
    exact ⟨e.1, GoMap.get?_of_mem e.1 e.2 m hwf he⟩
  · rintro ⟨k, hk⟩
    exact List.mem_map.2 ⟨(k, v), GoMap.mem_of_get? k v m hk, rfl⟩

theorem unmarshalInto_WF (old doc : PoolFile) (h : old.WF) : (unmarshalInto old doc).WF := by
  unfold PoolFile.WF unmarshalInto at *
  constructor
  · cases doc.IpPools with
    | none => exact h.1
    | some m => exact GoMap.WF_foldl_set _ _ h.1
  · cases doc.AllocatedRanges with
    | none => exact h.2
    | some m => exact GoMap.WF_foldl_set _ _ h.2

/-- The reverse map has a key for exactly the allocated values. -/
theorem keys_foldl_reverse (l : GoMap String) (acc : GoMap String) (c : String) :
    c ∈ GoMap.keys (l.foldl (fun acc e => GoMap.set e.2 e.1 acc) acc) ↔
      c ∈ GoMap.keys acc ∨ c ∈ GoMap.values l := by
  induction l generalizing acc with
  | nil => simp [GoMap.values]
  | cons e l ih =>
    simp only [List.foldl_cons]
    rw [ih, GoMap.keys_set]
    simp only [GoMap.values, List.map_cons, List.mem_cons]
    split_ifs with hk
    · constructor
      · rintro (h | h)
        · exact Or.inl h
        · exact Or.inr (Or.inr h)
      · rintro (h | h | h)
        · exact Or.inl h
        · exact Or.inl (h ▸ hk)
        · exact Or.inr h
    · simp only [List.mem_append, List.mem_singleton]
      tauto

theorem reverseMap_isSome (allocated : Option (GoMap String)) (c : String) :
    (GoMap.get? c (reverseMap allocated)).isSome = true ↔
      c ∈ GoMap.values (nilEntries allocated) := by
  rw [GoMap.get?_isSome_iff]
  unfold reverseMap
  rw [keys_foldl_reverse]
  simp [GoMap.keys]

/-! ### Expansion of ranges, groups and pools -/

/-- A range expanded against a reverse map is the filtered expansion against no allocations. -/
theorem expandRange_filter (rt : Runtime) (fuel : Nat) (reverse : GoMap String) (rr : String)
    (res out : List String) (h : expandRange rt fuel reverse rr res = .ok out) :
    ∃ raw, expandRange rt fuel [] rr [] = .ok raw ∧
      out = res ++ raw.filter (fun s => !(GoMap.get? s reverse).isSome) := by
  unfold expandRange at h ⊢
  cases h1 : SplitN2 rr '-' with
  | none => simp [h1] at h
  | some p1 =>
    obtain ⟨begin0, begin1⟩ := p1
    simp only [h1] at h ⊢
    cases h2 : SplitN2 begin1 '/' with
    | none => simp [h2] at h
    | some p2 =>
      obtain ⟨end0, end1⟩ := p2
      simp only [h2] at h ⊢
      cases h3 : ipToUint32 (ParseIP rt begin0) with
      | none => simp [h3] at h
      | some s =>
        simp only [h3] at h ⊢
        cases h4 : ipToUint32 (ParseIP rt end0) with
        | none => simp [h4] at h
        | some e =>
          simp only [h4] at h ⊢
          cases h5 : maskIncrease rt end1 with
          | none => simp [h5] at h
          | some inc =>
            simp only [h5] at h ⊢
            rw [expandLoop_acc, expandLoop_filter] at h
            rcases h6 : expandLoop [] end1 inc e fuel s [] with ⟨raw, b⟩
            rw [h6] at h
            cases b
            · simp at h
            · simp only [Outcome.ok.injEq] at h
              exact ⟨raw, rfl, h.symm⟩

/-- The candidates of a group are the filtered concatenation of its ranges' expansions. -/
theorem expandGroup_filter (rt : Runtime) (fuel : Nat) (reverse : GoMap String) :
    ∀ (r : List String) (res out : List String), expandGroup rt fuel reverse r res = .ok out →
      ∃ raws, List.Forall₂ (fun rr raw => expandRange rt fuel [] rr [] = .ok raw) r raws ∧
        out = res ++ raws.flatten.filter (fun s => !(GoMap.get? s reverse).isSome) := by
  intro r
  induction r with
  | nil =>
    intro res out h
    simp only [expandGroup, Outcome.ok.injEq] at h
    exact ⟨[], List.Forall₂.nil, by simp [h]⟩
  | cons rr rest ih =>
    intro res out h
    simp only [expandGroup] at h
    cases h1 : expandRange rt fuel reverse rr res with
    | ok res1 =>
      simp only [h1] at h
      obtain ⟨raw, hraw, hres1⟩ := expandRange_filter rt fuel reverse rr res res1 h1
      obtain ⟨raws, hraws, hout⟩ := ih res1 out h
      refine ⟨raw :: raws, List.Forall₂.cons hraw hraws, ?_⟩
      rw [hout, hres1]
      simp [List.append_assoc]
    | error e => simp [h1] at h
    | crash c => simp [h1] at h
    | blocked => simp [h1] at h
    | outOfFuel => simp [h1] at h

/-- A pool whose loop completes holds the filtered expansion of each of its groups. -/
theorem expandPool_filter (rt : Runtime) (fuel : Nat) (reverse : GoMap String) :
    ∀ (v : List (List String)) (out : List (List String)),
      expandPool rt fuel reverse v = (out, .ok ()) →
      ∃ raws, List.Forall₂
          (List.Forall₂ (fun rr raw => expandRange rt fuel [] rr [] = .ok raw)) v raws ∧
        out = raws.map (fun g => g.flatten.filter (fun s => !(GoMap.get? s reverse).isSome)) := by
  intro v
  induction v with
  | nil =>
    intro out h
    simp only [expandPool, Prod.mk.injEq] at h
    exact ⟨[], List.Forall₂.nil, by simp [← h.1]⟩
  | cons r rest ih =>
    intro out h
    simp only [expandPool] at h
    cases h1 : expandGroup rt fuel reverse r [] with
    | ok res =>
      simp only [h1, Prod.mk.injEq] at h
      obtain ⟨raw, hraw, hres⟩ := expandGroup_filter rt fuel reverse r [] res h1
      obtain ⟨raws, hraws, hout⟩ := ih (expandPool rt fuel reverse rest).1
        (Prod.ext rfl h.2)
      refine ⟨raw :: raws, List.Forall₂.cons hraw hraws, ?_⟩
      rw [← h.1, hout, hres]
      simp
    | error e => simp [h1] at h
    | crash c => simp [h1] at h
    | blocked => simp [h1] at h
    | outOfFuel => simp [h1] at h

/-- When the loop over the pools completes, every pool of the document has its
expansion in the table, and other keys of the table are untouched. -/
theorem expandPools_get? (rt : Runtime) (fuel : Nat) (reverse : GoMap String) :
    ∀ (entries acc table : GoMap (List (List String))), GoMap.WF entries →
      expandPools rt fuel reverse entries acc = (table, .ok ()) →
      ∀ k, (∀ v, GoMap.get? k entries = some v →
              ∃ g, expandPool rt fuel reverse v = (g, .ok ()) ∧ GoMap.get? k table = some g) ∧
           (GoMap.get? k entries = none → GoMap.get? k table = GoMap.get? k acc) := by
  intro entries
  induction entries with
  | nil =>
    intro acc table _ h k
    simp only [expandPools, Prod.mk.injEq] at h
    simp [GoMap.get?, h.1]
  | cons e rest ih =>
    intro acc table hwf h k
    obtain ⟨k0, v0⟩ := e
    have hwf2 : GoMap.WF rest ∧ k0 ∉ GoMap.keys rest := by
      simp only [GoMap.WF, GoMap.keys, List.map_cons, List.nodup_cons] at hwf
      exact ⟨hwf.2, hwf.1⟩
    simp only [expandPools] at h
    rcases h1 : expandPool rt fuel reverse v0 with ⟨g0, o⟩
    rw [h1] at h
    cases o with
    | ok u =>
      cases u
      simp only at h
      have hrec := ih (GoMap.set k0 g0 acc) table hwf2.1 h
      by_cases hk : k0 = k
      · subst hk
        have hnone : GoMap.get? k0 rest = none := (GoMap.get?_eq_none_iff _ _).2 hwf2.2
        constructor
        · intro v hv
          simp only [GoMap.get?, if_true, Option.some.injEq] at hv
          subst hv
          refine ⟨g0, h1, ?_⟩
          rw [(hrec k0).2 hnone, GoMap.get?_set_self]
        · intro hn
          simp [GoMap.get?] at hn
      · constructor
        · intro v hv
          simp only [GoMap.get?, hk, if_false] at hv
          exact (hrec k).1 v hv
        · intro hn
          simp only [GoMap.get?, hk, if_false] at hn
          rw [(hrec k).2 hn, GoMap.get?_set_ne _ _ _ _ (fun x => hk x.symm)]
    | error e => simp at h
    | crash c => simp at h
    | blocked => simp at h
    | outOfFuel => simp at h

/-! ### Loading -/

theorem nilGet_eq {ν : Type} (m : Option (GoMap ν)) (k : String) :
    nilGet m k = GoMap.get? k (nilEntries m) := by
  cases m <;> simp [nilGet, nilEntries, GoMap.get?]

theorem parsePoolFile_fields (rt : Runtime) (pm : PoolManager) :
    (parsePoolFile rt pm).2.pool = pm.pool ∧ (parsePoolFile rt pm).2.poolLoaded = pm.poolLoaded ∧
    (parsePoolFile rt pm).2.expandedRanges = pm.expandedRanges ∧
    (parsePoolFile rt pm).2.allocatedRanges = pm.allocatedRanges ∧
    (parsePoolFile rt pm).2.poolLock = pm.poolLock ∧ (parsePoolFile rt pm).2.id = pm.id ∧
    (parsePoolFile rt pm).2.poolFile = pm.poolFile ∧
    (parsePoolFile rt pm).2.timeout = pm.timeout := by
  unfold parsePoolFile
  split_ifs
  · cases rt.urlParse pm.poolFile with
    | error e => simp
    | ok p =>
      obtain ⟨host, path⟩ := p
      simp only
      split_ifs <;> simp
  · simp

/-- What a successful `loadPoolFile` did. -/
theorem loadPoolFile_ok (rt : Runtime) (env : Env) (fuel : Nat) (pm pm' : PoolManager)
    (w w' : World) (h : loadPoolFile rt env fuel pm w = (.ok (), pm', w')) :
    ∃ pm1 d table, parsePoolFile rt pm = (.ok (), pm1) ∧ env.readErr = none ∧
      w.content (loadLoc pm1) = some (Blob.document d) ∧
      expandPools rt fuel (reverseMap (unmarshalInto pm1.pool d).AllocatedRanges)
        (nilEntries (unmarshalInto pm1.pool d).IpPools) [] = (table, .ok ()) ∧
      pm' = { pm1 with
        pool := unmarshalInto pm1.pool d
        allocatedRanges := some (reverseMap (unmarshalInto pm1.pool d).AllocatedRanges)
        expandedRanges := some table
        poolLoaded := true } ∧
      w' = { w with log := w.log ++ [Event.read (loadLoc pm1)] } := by
  unfold loadPoolFile at h
  rcases hp : parsePoolFile rt pm with ⟨o, pm1⟩
  rw [hp] at h
  cases o with
  | ok u =>
    cases u
    simp only at h
    cases hr : env.readErr with
    | some e => simp [hr] at h
    | none =>
      simp only [hr] at h
      cases hc : w.content (loadLoc pm1) with
      | none => simp [hc] at h
      | some b =>
        cases b with
        | malformed => simp [hc] at h
        | document d =>
          simp only [hc] at h
          rcases he : expandPools rt fuel (reverseMap (unmarshalInto pm1.pool d).AllocatedRanges)
            (nilEntries (unmarshalInto pm1.pool d).IpPools) [] with ⟨table, o2⟩
          rw [he] at h
          cases o2 with
          | ok u2 =>
            cases u2
            simp only [Prod.mk.injEq, true_and] at h
            exact ⟨pm1, d, table, rfl, rfl, hc, he, h.1.symm, h.2.symm⟩
          | error e => simp at h
          | crash c => simp at h
          | blocked => simp at h
          | outOfFuel => simp at h
  | error e => simp at h
  | crash c => simp at h
  | blocked => simp at h
  | outOfFuel => simp at h

theorem filter_notAllocated (allocated : Option (GoMap String)) (l : List String) :
    l.filter (fun s => !(GoMap.get? s (reverseMap allocated)).isSome) =
      l.filter (notAllocated allocated) := by
  apply List.filter_congr
  intro s _
  have := reverseMap_isSome allocated s
  unfold notAllocated
  by_cases hs : s ∈ GoMap.values (nilEntries allocated)
  · simp [hs, this.2 hs]
  · have h2 : ¬ (GoMap.get? s (reverseMap allocated)).isSome = true := fun x => hs (this.1 x)
    simp only [Bool.not_eq_true] at h2
    simp [hs, h2]

/-! ### Decomposing the public operations -/

theorem releaseLockFile_locked (env : Env) (pm : PoolManager) (w : World)
    (h : pm.poolLock = true) :
    (releaseLockFile env pm w).2.1 = { pm with poolLock := false } ∧
      ((releaseLockFile env pm w).1 = .ok () ∨ ∃ e, (releaseLockFile env pm w).1 = .error e) := by
  unfold releaseLockFile
  simp only [h, if_true, true_and]
  by_cases hp : HasPrefix pm.poolFile "gs://" = true
  · cases hc : env.releaseClient <;> cases hd : env.releaseDelete <;> simp [hp]
  · simp [hp]

theorem releaseLockFile_unlocked (env : Env) (pm : PoolManager) (w : World)
    (h : pm.poolLock = false) :
    (releaseLockFile env pm w).1 = .crash .unlockOfUnlockedMutex ∧
      (releaseLockFile env pm w).2.1 = pm := by
  unfold releaseLockFile
  simp [h]

/-- A deferred release with the mutex held keeps the outcome of the body and unlocks. -/
theorem withRelease_locked {α : Type} (env : Env) (o : Outcome α) (pm : PoolManager) (w : World)
    (h : pm.poolLock = true) (h1 : o ≠ .blocked) (h2 : o ≠ .outOfFuel) :
    withRelease env (o, pm, w) =
      (o, { pm with poolLock := false }, (releaseLockFile env pm w).2.2) := by
  obtain ⟨hpm, hr⟩ := releaseLockFile_locked env pm w h
  rcases hrel : releaseLockFile env pm w with ⟨r, pmr, wr⟩
  rw [hrel] at hpm hr
  simp only at hpm hr
  subst hpm
  unfold withRelease
  cases o with
  | blocked => exact absurd rfl h1
  | outOfFuel => exact absurd rfl h2
  | ok a => simp only [hrel]; rcases hr with hr | ⟨e, hr⟩ <;> subst hr <;> rfl
  | error e0 => simp only [hrel]; rcases hr with hr | ⟨e, hr⟩ <;> subst hr <;> rfl
  | crash c => simp only [hrel]; rcases hr with hr | ⟨e, hr⟩ <;> subst hr <;> rfl

/-- A deferred release with the mutex not held aborts the process. -/
theorem withRelease_unlocked {α : Type} (env : Env) (o : Outcome α) (pm : PoolManager)
    (w : World) (h : pm.poolLock = false) (h1 : o ≠ .blocked) (h2 : o ≠ .outOfFuel) :
    withRelease env (o, pm, w) =
      (.crash .unlockOfUnlockedMutex, pm, (releaseLockFile env pm w).2.2) := by
  obtain ⟨hr, hpm⟩ := releaseLockFile_unlocked env pm w h
  rcases hrel : releaseLockFile env pm w with ⟨r, pmr, wr⟩
  rw [hrel] at hpm hr
  simp only at hpm hr
  subst hpm hr
  unfold withRelease
  cases o with
  | blocked => exact absurd rfl h1
  | outOfFuel => exact absurd rfl h2
  | ok a => simp only [hrel]
  | error e0 => simp only [hrel]
  | crash c => simp only [hrel]

/-- What a successful body of `AllocateNewNetwork` did. -/
theorem allocateBody_ok (env : Env) (pm pm' : PoolManager) (w w' : World) (poolName : String)
    (poolIndex maskSize : Int) (name cidr key : String)
    (h : allocateBody env pm w poolName poolIndex maskSize name = (.ok (cidr, key), pm', w')) :
    ∃ groups idx reverse ranges,
      nilGet pm.expandedRanges poolName = some groups ∧
      0 < poolIndex ∧ poolIndex ≤ groups.length ∧
      (groups.getD (poolIndex - 1).toNat []).findIdx? (maskMatches maskSize) = some idx ∧
      cidr = (groups.getD (poolIndex - 1).toNat []).getD idx "" ∧ cidr ≠ "" ∧
      key = allocationKey pm.id name ∧
      pm.allocatedRanges = some reverse ∧ pm.pool.AllocatedRanges = some ranges ∧
      pm' = { pm with
        expandedRanges := pm.expandedRanges.map (GoMap.set poolName
          (groups.set (poolIndex - 1).toNat
            ((groups.getD (poolIndex - 1).toNat []).eraseIdx idx)))
        allocatedRanges := some (GoMap.set key cidr reverse)
        pool := { pm.pool with AllocatedRanges := some (GoMap.set key cidr ranges) } } ∧
      savePoolFile env pm' w = (.ok (), w') := by
  unfold allocateBody at h
  cases hg : nilGet pm.expandedRanges poolName with
  | none => simp [hg] at h
  | some groups =>
    simp only [hg] at h
    by_cases h1 : poolIndex = 0 ∨ poolIndex > groups.length
    · simp [h1] at h
    · rw [if_neg h1] at h
      by_cases h2 : poolIndex < 0
      · simp [h2] at h
      · rw [if_neg h2] at h
        cases hf : (groups.getD (poolIndex - 1).toNat []).findIdx? (maskMatches maskSize) with
        | none => rw [hf] at h; simp at h
        | some idx =>
          rw [hf] at h
          dsimp only at h
          by_cases h3 : (groups.getD (poolIndex - 1).toNat []).getD idx "" = ""
          · rw [if_pos h3] at h; simp at h
          · rw [if_neg h3] at h
            cases hr : pm.allocatedRanges with
            | none => simp [hr] at h
            | some reverse =>
              simp only [hr] at h
              cases ha : pm.pool.AllocatedRanges with
              | none => simp [ha] at h
              | some ranges =>
                simp only [ha] at h
                split at h
                · rename_i w1 hs
                  simp only [Prod.mk.injEq, Outcome.ok.injEq] at h
                  obtain ⟨⟨hc, hk⟩, hpm, hw⟩ := h
                  refine ⟨groups, idx, reverse, ranges, rfl, by omega, by omega, hf, hc.symm,
                    hc ▸ h3, hk.symm, rfl, rfl, ?_, ?_⟩
                  · rw [← hpm, ← hc, ← hk]
                  · rw [← hpm, ← hw]
                    exact hs
                all_goals simp at h

/-- What a successful `AllocateNewNetwork` did, step by step. -/
theorem AllocateNewNetwork_ok (rt : Runtime) (env : Env) (fuel : Nat) (pm pm' : PoolManager)
    (w w' : World) (poolName : String) (poolIndex maskSize : Int) (name cidr key : String)
    (h : AllocateNewNetwork rt env fuel pm w poolName poolIndex maskSize name =
      (.ok (cidr, key), pm', w')) :
    ∃ pm1 pm2 w2 pm3 w3 pm4 w4,
      parsePoolFile rt pm = (.ok (), pm1) ∧
      acquireLockFile env fuel pm1 w = (.ok (), pm2, w2) ∧
      ensureLoaded rt env fuel pm2 w2 = (.ok (), pm3, w3) ∧
      allocateBody env pm3 w3 poolName poolIndex maskSize name = (.ok (cidr, key), pm4, w4) ∧
      pm4.poolLock = true ∧ pm' = { pm4 with poolLock := false } ∧
      (releaseLockFile env pm4 w4).2.2 = w' := by
  unfold AllocateNewNetwork at h
  rcases hp : parsePoolFile rt pm with ⟨o1, pm1⟩
  rw [hp] at h
  cases o1 with
  | ok u =>
    cases u
    simp only at h
    rcases ha : acquireLockFile env fuel pm1 w with ⟨o2, pm2, w2⟩
    rw [ha] at h
    cases o2 with
    | ok u2 =>
      cases u2
      simp only at h
      rcases hl : ensureLoaded rt env fuel pm2 w2 with ⟨o3, pm3, w3⟩
      rw [hl] at h
      cases o3 with
      | ok u3 =>
        cases u3
        simp only at h
        rcases hb : allocateBody env pm3 w3 poolName poolIndex maskSize name with ⟨o4, pm4, w4⟩
        rw [hb] at h
        cases o4 with
        | ok a =>
          by_cases hlock : pm4.poolLock = true
          · rw [withRelease_locked env _ pm4 w4 hlock (by simp) (by simp)] at h
            simp only [Prod.mk.injEq, Outcome.ok.injEq] at h
            obtain ⟨h1, h2, h3⟩ := h
            subst h1
            exact ⟨pm1, pm2, w2, pm3, w3, pm4, w4, rfl, ha, hl, hb, hlock, h2.symm, h3⟩
          · rw [withRelease_unlocked env _ pm4 w4 (by simpa using hlock) (by simp) (by simp)] at h
            simp at h
        | error e =>
          by_cases hlock : pm4.poolLock = true
          · rw [withRelease_locked env _ pm4 w4 hlock (by simp) (by simp)] at h
            simp at h
          · rw [withRelease_unlocked env _ pm4 w4 (by simpa using hlock) (by simp) (by simp)] at h
            simp at h
        | crash c =>
          by_cases hlock : pm4.poolLock = true
          · rw [withRelease_locked env _ pm4 w4 hlock (by simp) (by simp)] at h
            simp at h
          · rw [withRelease_unlocked env _ pm4 w4 (by simpa using hlock) (by simp) (by simp)] at h
            simp at h
        | blocked => simp [withRelease] at h
        | outOfFuel => simp [withRelease] at h
      | error e =>
        by_cases hlock : pm3.poolLock = true
        · rw [withRelease_locked env _ pm3 w3 hlock (by simp) (by simp)] at h
          simp at h
        · rw [withRelease_unlocked env _ pm3 w3 (by simpa using hlock) (by simp) (by simp)] at h
          simp at h
      | crash c =>
        by_cases hlock : pm3.poolLock = true
        · rw [withRelease_locked env _ pm3 w3 hlock (by simp) (by simp)] at h
          simp at h
        · rw [withRelease_unlocked env _ pm3 w3 (by simpa using hlock) (by simp) (by simp)] at h
          simp at h
      | blocked => simp [withRelease] at h
      | outOfFuel => simp [withRelease] at h
    | error e => simp at h
    | crash c => simp at h
    | blocked => simp at h
    | outOfFuel => simp at h
  | error e => simp at h
  | crash c => simp at h
  | blocked => simp at h
  | outOfFuel => simp at h

theorem findIdx?_some_spec {α : Type} (p : α → Bool) (l : List α) (i : Nat) (d : α)
    (h : l.findIdx? p = some i) :
    l[i]? = some (l.getD i d) ∧ p (l.getD i d) = true ∧
      ∀ j x, j < i → l[j]? = some x → p x = false := by
  obtain ⟨hi, hp, hmin⟩ := List.findIdx?_eq_some_iff_getElem.1 h
  have hget : l[i]? = some l[i] := List.getElem?_eq_getElem hi
  have hd : l.getD i d = l[i] := by simp [hget]
  refine ⟨by rw [hd]; exact hget, by rw [hd]; exact hp, ?_⟩
  intro j x hj hx
  obtain ⟨hj2, rfl⟩ := List.getElem?_eq_some_iff.1 hx
  simpa using hmin j hj

/-- What a successful `acquireLockFile` did. -/
theorem acquireLockFile_ok (env : Env) (fuel : Nat) (pm pm2 : PoolManager) (w w2 : World)
    (h : acquireLockFile env fuel pm w = (.ok (), pm2, w2)) :
    pm.poolLock = false ∧ pm2 = { pm with poolLock := HasPrefix pm.poolFile "gs://" } ∧
      w2.content = w.content := by
  unfold acquireLockFile at h
  by_cases hl : pm.poolLock = true
  · simp [hl] at h
  · have hl2 : pm.poolLock = false := by simpa using hl
    rw [if_neg hl] at h
    by_cases hp : HasPrefix pm.poolFile "gs://" = true
    · have hnp : ¬ ¬ HasPrefix pm.poolFile "gs://" = true := fun x => x hp
      rw [if_neg hnp] at h
      rcases ha : acquireLoop env pm (env.now 0) fuel 0 w.log with ⟨o, log⟩
      rw [ha] at h
      cases o with
      | ok u =>
        cases u
        simp only [Prod.mk.injEq, true_and] at h
        refine ⟨hl2, ?_, ?_⟩
        · rw [← h.1, hp]
        · rw [← h.2]
      | error e => simp at h
      | crash c => simp at h
      | blocked => simp at h
      | outOfFuel => simp at h
    · rw [if_pos hp] at h
      simp only [Prod.mk.injEq, true_and] at h
      have hp2 : HasPrefix pm.poolFile "gs://" = false := by simpa using hp
      refine ⟨hl2, ?_, ?_⟩
      · rw [← h.1, hp2]
      · rw [← h.2]

theorem ensureLoaded_loaded (rt : Runtime) (env : Env) (fuel : Nat) (pm : PoolManager) (w : World)
    (h : pm.poolLoaded = true) : ensureLoaded rt env fuel pm w = (.ok (), pm, w) := by
  simp [ensureLoaded, h]

/-- On a loaded manager, a successful `AllocateNewNetwork` is the body run on the
manager's own tables. -/
theorem AllocateNewNetwork_ok_loaded (rt : Runtime) (env : Env) (fuel : Nat)
    (pm pm' : PoolManager) (w w' : World) (poolName : String) (poolIndex maskSize : Int)
    (name cidr key : String) (hl : pm.poolLoaded = true)
    (h : AllocateNewNetwork rt env fuel pm w poolName poolIndex maskSize name =
      (.ok (cidr, key), pm', w')) :
    ∃ pm3 w3 pm4 w4,
      allocateBody env pm3 w3 poolName poolIndex maskSize name = (.ok (cidr, key), pm4, w4) ∧
      pm3.expandedRanges = pm.expandedRanges ∧ pm3.allocatedRanges = pm.allocatedRanges ∧
      pm3.pool = pm.pool ∧ pm3.id = pm.id ∧ pm3.poolLoaded = true ∧ pm.poolLock = false ∧
      pm3.poolFile = pm.poolFile ∧
      pm' = { pm4 with poolLock := false } ∧ w3.content = w.content ∧
      (releaseLockFile env pm4 w4).2.2 = w' := by
  obtain ⟨pm1, pm2, w2, pm3, w3, pm4, w4, hp, ha, hld, hb, _, hpm', hw'⟩ :=
    AllocateNewNetwork_ok rt env fuel pm pm' w w' poolName poolIndex maskSize name cidr key h
  have hf := parsePoolFile_fields rt pm
  rw [hp] at hf
  simp only at hf
  obtain ⟨hlock, hpm2, hw2⟩ := acquireLockFile_ok env fuel pm1 pm2 w w2 ha
  have hl2 : pm2.poolLoaded = true := by rw [hpm2]; simp [hf.2.1, hl]
  rw [ensureLoaded_loaded rt env fuel pm2 w2 hl2] at hld
  simp only [Prod.mk.injEq, true_and] at hld
  obtain ⟨h32, hw32⟩ := hld
  subst h32 hw32
  refine ⟨pm2, w2, pm4, w4, hb, ?_, ?_, ?_, ?_, hl2, ?_, ?_, hpm', hw2, hw'⟩
  · rw [hpm2]; exact hf.2.2.1
  · rw [hpm2]; exact hf.2.2.2.1
  · rw [hpm2]; exact hf.1
  · rw [hpm2]; exact hf.2.2.2.2.2.1
  · rw [← hf.2.2.2.2.1]; exact hlock
  · rw [hpm2]; exact hf.2.2.2.2.2.2.1

theorem allocationKey_data (id name : String) :
    (allocationKey id name).data = id.data ++ ('-' :: name.data) := by
  simp [allocationKey, String.data_append, List.append_assoc]

/-- For instance ids that contain no `-`, the allocation key determines the pair
(instance id, consumer name); and for one instance id, whatever it contains,
different names give different keys. -/
theorem allocation_key_injective (i1 i2 n1 n2 : String)
    (h : allocationKey i1 n1 = allocationKey i2 n2) :
    ('-' ∉ i1.data → '-' ∉ i2.data → i1 = i2 ∧ n1 = n2) ∧ (i1 = i2 → n1 = n2) := by
  have hd : i1.data ++ ('-' :: n1.data) = i2.data ++ ('-' :: n2.data) := by
    rw [← allocationKey_data, ← allocationKey_data, h]
  constructor
  · intro h1 h2
    have e1 := splitFirst_append '-' i1.data n1.data h1
    rw [hd, splitFirst_append '-' i2.data n2.data h2] at e1
    simp only [Option.some.injEq, Prod.mk.injEq] at e1
    exact ⟨(String.ext e1.1).symm, (String.ext e1.2).symm⟩
  · intro hi
    subst hi
    have := List.append_cancel_left hd
    simp only [List.cons.injEq, true_and] at this
    exact String.ext this

/-- The outcome of `parsePoolFile` depends on the location text only. -/
theorem parsePoolFile_fst_congr (rt : Runtime) (pm pm' : PoolManager)
    (h : pm'.poolFile = pm.poolFile) : (parsePoolFile rt pm').1 = (parsePoolFile rt pm).1 := by
  unfold parsePoolFile
  rw [h]
  split_ifs
  · cases rt.urlParse pm.poolFile with
    | error e => rfl
    | ok p =>
      obtain ⟨host, path⟩ := p
      simp only
      split_ifs <;> rfl
  · rfl

/-- What a successful `ensureLoaded` leaves in place. -/
theorem ensureLoaded_ok (rt : Runtime) (env : Env) (fuel : Nat) (pm pm' : PoolManager)
    (w w' : World) (h : ensureLoaded rt env fuel pm w = (.ok (), pm', w')) :
    pm'.poolLoaded = true ∧ pm'.id = pm.id ∧ pm'.poolFile = pm.poolFile ∧
      pm'.poolLock = pm.poolLock ∧ pm'.timeout = pm.timeout := by
  unfold ensureLoaded at h
  by_cases hl : pm.poolLoaded = true
  · simp only [hl, not_true_eq_false, if_false, Prod.mk.injEq, true_and] at h
    rw [← h.1]
    exact ⟨hl, rfl, rfl, rfl, rfl⟩
  · rw [if_pos hl] at h
    obtain ⟨pm1, d, table, hp, _, _, _, hpm', _⟩ := loadPoolFile_ok rt env fuel pm pm' w w' h
    have hf := parsePoolFile_fields rt pm
    rw [hp] at hf
    simp only at hf
    rw [hpm']
    exact ⟨rfl, hf.2.2.2.2.2.1, hf.2.2.2.2.2.2.1, hf.2.2.2.2.1, hf.2.2.2.2.2.2.2⟩

/-! ### The world along an operation -/

theorem releaseLockFile_content (env : Env) (pm : PoolManager) (w : World) :
    (releaseLockFile env pm w).2.2.content = w.content := by
  unfold releaseLockFile
  by_cases hp : HasPrefix pm.poolFile "gs://" = true
  · cases hc : env.releaseClient <;> cases hd : env.releaseDelete <;>
      by_cases hl : pm.poolLock = true <;> simp [hp, hl]
  · by_cases hl : pm.poolLock = true <;> simp [hp, hl]

theorem savePoolFile_ok (env : Env) (pm : PoolManager) (w w' : World)
    (h : savePoolFile env pm w = (.ok (), w')) :
    w'.content = (fun l => if l = saveLoc pm then some (Blob.document pm.pool) else w.content l) := by
  unfold savePoolFile at h
  cases he : env.saveErr with
  | some e => simp [he] at h
  | none =>
    simp only [he, Prod.mk.injEq, true_and] at h
    rw [← h]

/-- Parsing the location again changes nothing. -/
theorem parsePoolFile_idem (rt : Runtime) (pm pm1 : PoolManager) (b : Bool)
    (h : parsePoolFile rt pm = (.ok (), pm1)) :
    parsePoolFile rt { pm1 with poolLock := b } = (.ok (), { pm1 with poolLock := b }) := by
  unfold parsePoolFile at h ⊢
  by_cases hp : HasPrefix pm.poolFile "gs://" = true
  · rw [if_pos hp] at h
    cases hu : rt.urlParse pm.poolFile with
    | error e => simp [hu] at h
    | ok p =>
      obtain ⟨host, path⟩ := p
      simp only [hu] at h
      by_cases hpath : path.data = []
      · simp [hpath] at h
      · rw [if_neg hpath] at h
        simp only [Prod.mk.injEq, true_and] at h
        subst h
        simp [hp, hu, hpath]
  · rw [if_neg hp] at h
    simp only [Prod.mk.injEq, true_and] at h
    subst h
    simp [hp]

/-- In a successful parse of an object-storage location, the bucket and object
depend on the location text only. -/
theorem parsePoolFile_locs (rt : Runtime) (pm pm1 qm qm1 : PoolManager)
    (hfile : qm.poolFile = pm.poolFile) (hgs : HasPrefix pm.poolFile "gs://" = true)
    (h : parsePoolFile rt pm = (.ok (), pm1)) (hq : parsePoolFile rt qm = (.ok (), qm1)) :
    qm1.poolBucket = pm1.poolBucket ∧ qm1.poolObject = pm1.poolObject ∧
      loadLoc qm1 = loadLoc pm1 ∧ saveLoc qm1 = saveLoc pm1 := by
  have hf := parsePoolFile_fields rt pm
  have hfq := parsePoolFile_fields rt qm
  rw [h] at hf
  rw [hq] at hfq
  simp only at hf hfq
  unfold parsePoolFile at h hq
  rw [hfile] at hq
  rw [if_pos hgs] at h hq
  cases hu : rt.urlParse pm.poolFile with
  | error e => simp [hu] at h
  | ok p =>
    obtain ⟨host, path⟩ := p
    simp only [hu] at h hq
    by_cases hpath : path.data = []
    · simp [hpath] at h
    · rw [if_neg hpath] at h hq
      simp only [Prod.mk.injEq, true_and] at h hq
      have e1 : qm1.poolBucket = pm1.poolBucket := by rw [← h, ← hq]
      have e2 : qm1.poolObject = pm1.poolObject := by rw [← h, ← hq]
      have e3 : qm1.poolFile = pm1.poolFile := by
        rw [hfq.2.2.2.2.2.2.1, hf.2.2.2.2.2.2.1, hfile]
      refine ⟨e1, e2, ?_, ?_⟩
      · unfold loadLoc; rw [e1, e2, e3]
      · unfold saveLoc; rw [e1, e2, e3]

theorem loadPoolFile_content (rt : Runtime) (env : Env) (fuel : Nat) (pm : PoolManager)
    (w : World) : (loadPoolFile rt env fuel pm w).2.2.content = w.content := by
  unfold loadPoolFile
  rcases parsePoolFile rt pm with ⟨o, pm1⟩
  cases o with
  | ok u =>
    cases u
    simp only
    cases env.readErr with
    | some e => rfl
    | none =>
      simp only
      cases w.content (loadLoc pm1) with
      | none => rfl
      | some b =>
        cases b with
        | malformed => rfl
        | document d =>
          simp only
          split <;> rfl
  | error e => rfl
  | crash c => rfl
  | blocked => rfl
  | outOfFuel => rfl

/-- The candidate table after a successful `loadPoolFile`: group by group the
filtered concatenation of the ranges' expansions, disjoint from the allocated values. -/
theorem loadPoolFile_candidates (rt : Runtime) (env : Env) (fuel : Nat)
    (pm pm' : PoolManager) (w w' : World) (hwf : pm.pool.WF)
    (h : loadPoolFile rt env fuel pm w = (.ok (), pm', w')) :
    (∀ poolName groups, nilGet pm'.pool.IpPools poolName = some groups →
      ∃ raws, List.Forall₂
          (List.Forall₂ (fun rr raw => expandRange rt fuel [] rr [] = .ok raw)) groups raws ∧
        nilGet pm'.expandedRanges poolName =
          some (raws.map (fun g => g.flatten.filter (notAllocated pm'.pool.AllocatedRanges)))) ∧
    (∀ c, notAllocated pm'.pool.AllocatedRanges c = false ↔
      ∃ key, nilGet pm'.pool.AllocatedRanges key = some c) ∧
    (∀ poolName cands, nilGet pm'.expandedRanges poolName = some cands →
      ∀ group ∈ cands, ∀ c ∈ group, ∀ key, nilGet pm'.pool.AllocatedRanges key ≠ some c) := by
  obtain ⟨pm1, d, table, hp, _, _, hexp, hpm', _⟩ := loadPoolFile_ok rt env fuel pm pm' w w' h
  have hpool1 : pm1.pool = pm.pool := by
    have := (parsePoolFile_fields rt pm).1
    rw [hp] at this
    exact this
  have hwf' : (unmarshalInto pm1.pool d).WF := unmarshalInto_WF _ _ (hpool1 ▸ hwf)
  have hpool : pm'.pool = unmarshalInto pm1.pool d := by rw [hpm']
  have hexpd : pm'.expandedRanges = some table := by rw [hpm']
  have hval : ∀ c, notAllocated pm'.pool.AllocatedRanges c = false ↔
      ∃ key, nilGet pm'.pool.AllocatedRanges key = some c := by
    intro c
    rw [hpool]
    unfold notAllocated
    simp only [decide_eq_false_iff_not, not_not]
    rw [GoMap.mem_values_iff _ _ hwf'.2]
    simp only [nilGet_eq]
  have hfirst : ∀ poolName groups, nilGet pm'.pool.IpPools poolName = some groups →
      ∃ raws, List.Forall₂
          (List.Forall₂ (fun rr raw => expandRange rt fuel [] rr [] = .ok raw)) groups raws ∧
        nilGet pm'.expandedRanges poolName =
          some (raws.map (fun g => g.flatten.filter (notAllocated pm'.pool.AllocatedRanges))) := by
    intro poolName groups hg
    rw [hpool, nilGet_eq] at hg
    obtain ⟨g, hg1, hg2⟩ := (expandPools_get? rt fuel _ _ [] table hwf'.1 hexp poolName).1 groups hg
    obtain ⟨raws, hraws, hout⟩ := expandPool_filter rt fuel _ groups g hg1
    refine ⟨raws, hraws, ?_⟩
    rw [hexpd, hpool]
    simp only [nilGet, hg2, hout, filter_notAllocated]
  refine ⟨hfirst, hval, ?_⟩
  intro poolName cands hc group hgroup c hcg key hkey
  have hsome : ∃ groups, nilGet pm'.pool.IpPools poolName = some groups := by
    rw [hpool, nilGet_eq]
    by_contra hne
    have hnone : GoMap.get? poolName (nilEntries (unmarshalInto pm1.pool d).IpPools) = none := by
      cases hx : GoMap.get? poolName (nilEntries (unmarshalInto pm1.pool d).IpPools) with
      | none => rfl
      | some v => exact absurd ⟨v, hx⟩ hne
    have := (expandPools_get? rt fuel _ _ [] table hwf'.1 hexp poolName).2 hnone
    rw [hexpd] at hc
    simp only [nilGet] at hc
    rw [this] at hc
    simp [GoMap.get?] at hc
  obtain ⟨groups, hgroups⟩ := hsome
  obtain ⟨raws, _, htab⟩ := hfirst poolName groups hgroups
  rw [hc] at htab
  simp only [Option.some.injEq] at htab
  rw [htab] at hgroup
  obtain ⟨g, _, rfl⟩ := List.mem_map.1 hgroup
  have hcf := (List.mem_filter.1 hcg).2
  have := (hval c).2 ⟨key, hkey⟩
  rw [this] at hcf
  exact Bool.noConfusion hcf

theorem GoMap.get?_foldl_set {ν : Type} (l : GoMap ν) (hwf : GoMap.WF l) :
    ∀ (acc : GoMap ν) (k : String),
      GoMap.get? k (l.foldl (fun acc e => GoMap.set e.1 e.2 acc) acc) =
        if k ∈ GoMap.keys l then GoMap.get? k l else GoMap.get? k acc := by
  induction l with
  | nil => intro acc k; simp [GoMap.keys]
  | cons e l ih =>
    intro acc k
    have hwf2 : GoMap.WF l ∧ e.1 ∉ GoMap.keys l := by
      simp only [GoMap.WF, GoMap.keys, List.map_cons, List.nodup_cons] at hwf
      exact ⟨hwf.2, hwf.1⟩
    simp only [List.foldl_cons]
    rw [ih hwf2.1]
    by_cases hk : e.1 = k
    · subst hk
      rw [if_neg hwf2.2, GoMap.get?_set_self]
      simp [GoMap.keys, GoMap.get?]
    · have hk2 : ¬ k = e.1 := fun x => hk x.symm
      by_cases hm : k ∈ GoMap.keys l
      · have hm2 : k ∈ List.map Prod.fst l := hm
        simp [hm, hm2, GoMap.keys, GoMap.get?, hk]
      · have hm2 : k ∉ List.map Prod.fst l := hm
        simp [hm, hm2, GoMap.keys, GoMap.get?, hk, hk2, GoMap.get?_set_ne _ _ _ _ hk2]

/-- Decoding a map with distinct keys into an empty map reads like the map itself. -/
theorem GoMap.get?_foldl_set_nil {ν : Type} (l : GoMap ν) (hwf : GoMap.WF l) (k : String) :
    GoMap.get? k (l.foldl (fun acc e => GoMap.set e.1 e.2 acc) []) = GoMap.get? k l := by
  rw [GoMap.get?_foldl_set l hwf]
  split_ifs with h
  · rfl
  · rw [(GoMap.get?_eq_none_iff k l).2 h]
    rfl

theorem valuesDistinct_set_fresh (m : GoMap String) (k c : String)
    (hfresh : ∀ key, GoMap.get? key m ≠ some c) (h : valuesDistinct (some m)) :
    valuesDistinct (some (GoMap.set k c m)) := by
  intro a b v ha hb
  simp only [nilGet] at ha hb
  by_cases h1 : a = k
  · by_cases h2 : b = k
    · rw [h1, h2]
    · rw [h1, GoMap.get?_set_self] at ha
      rw [GoMap.get?_set_ne _ _ _ _ h2] at hb
      cases ha
      exact absurd hb (hfresh b)
  · by_cases h2 : b = k
    · rw [h2, GoMap.get?_set_self] at hb
      rw [GoMap.get?_set_ne _ _ _ _ h1] at ha
      cases hb
      exact absurd ha (hfresh a)
    · rw [GoMap.get?_set_ne _ _ _ _ h1] at ha
      rw [GoMap.get?_set_ne _ _ _ _ h2] at hb
      exact h a b v ha hb

theorem emptyPoolFile_WF : emptyPoolFile.WF := ⟨GoMap.WF_nil, GoMap.WF_nil⟩

/-- The first successful `AllocateNewNetwork` of a manager that has not loaded:
the document it loads, the candidate it takes, what it keeps and what it saves. -/
theorem AllocateNewNetwork_ok_unloaded (rt : Runtime) (env : Env) (fuel : Nat)
    (pm pm' : PoolManager) (w w' : World) (poolName : String) (poolIndex maskSize : Int)
    (name cidr key : String) (hl : pm.poolLoaded = false) (hwf : pm.pool.WF)
    (h : AllocateNewNetwork rt env fuel pm w poolName poolIndex maskSize name =
      (.ok (cidr, key), pm', w')) :
    ∃ pm1 d ranges, parsePoolFile rt pm = (.ok (), pm1) ∧
      HasPrefix pm.poolFile "gs://" = true ∧
      w.content (loadLoc pm1) = some (Blob.document d) ∧
      (unmarshalInto pm.pool d).AllocatedRanges = some ranges ∧
      (∀ k, GoMap.get? k ranges ≠ some cidr) ∧
      key = allocationKey pm.id name ∧
      pm'.pool = { IpPools := (unmarshalInto pm.pool d).IpPools
                   AllocatedRanges := some (GoMap.set key cidr ranges) } ∧
      saveLoc pm' = saveLoc pm1 ∧
      w'.content = (fun l => if l = saveLoc pm1 then some (Blob.document pm'.pool)
        else w.content l) := by
  obtain ⟨pm1, pm2, w2, pm3, w3, pm4, w4, hp, ha, hld, hb, hlock4, hpm', hw'⟩ :=
    AllocateNewNetwork_ok rt env fuel pm pm' w w' poolName poolIndex maskSize name cidr key h
  obtain ⟨groups, idx, reverse, ranges, hg, hpos, hle, hfind, hcidr, _, hkey, _, hranges, hpm4,
    hsave⟩ := allocateBody_ok env pm3 pm4 w3 w4 poolName poolIndex maskSize name cidr key hb
  have hf := parsePoolFile_fields rt pm
  rw [hp] at hf
  simp only at hf
  obtain ⟨_, hpm2, hw2⟩ := acquireLockFile_ok env fuel pm1 pm2 w w2 ha
  have hl2 : pm2.poolLoaded = false := by rw [hpm2]; simp [hf.2.1, hl]
  have hload : loadPoolFile rt env fuel pm2 w2 = (.ok (), pm3, w3) := by
    unfold ensureLoaded at hld
    simpa [hl2] using hld
  obtain ⟨q1, d, table, hq, _, hcontent, hexp, hpm3, hw3⟩ :=
    loadPoolFile_ok rt env fuel pm2 pm3 w2 w3 hload
  have hq' := parsePoolFile_idem rt pm pm1 (HasPrefix pm1.poolFile "gs://") hp
  rw [← hpm2, hq] at hq'
  simp only [Prod.mk.injEq, true_and] at hq'
  have hq1 : pm2 = q1 := by first | exact hq' | exact hq'.symm
  subst hq1
  -- the mutex was held at the release, so the location is an object-storage one
  have hgs : HasPrefix pm.poolFile "gs://" = true := by
    have : pm4.poolLock = pm2.poolLock := by rw [hpm4, hpm3]
    rw [this, hpm2] at hlock4
    simpa [hf.2.2.2.2.2.2.1] using hlock4
  have hpool2 : pm2.pool = pm.pool := by rw [hpm2]; exact hf.1
  have hpool3 : pm3.pool = unmarshalInto pm.pool d := by rw [hpm3, hpool2]
  have hwf3 : pm3.pool.WF := by rw [hpool3]; exact unmarshalInto_WF _ _ hwf
  have hid : pm3.id = pm.id := by rw [hpm3, hpm2]; exact hf.2.2.2.2.2.1
  -- the candidate is not an allocated value
  have hmem : cidr ∈ groups.getD (poolIndex - 1).toNat [] := by
    obtain ⟨h1, _, _⟩ := findIdx?_some_spec (maskMatches maskSize) _ idx "" hfind
    rw [← hcidr] at h1
    exact List.mem_iff_getElem?.2 ⟨idx, h1⟩
  have hgmem : groups.getD (poolIndex - 1).toNat [] ∈ groups := by
    have hlt : (poolIndex - 1).toNat < groups.length := by omega
    rw [List.getD_eq_getElem?_getD, List.getElem?_eq_getElem hlt]
    exact List.getElem_mem _
  have hnot := (loadPoolFile_candidates rt env fuel pm2 pm3 w2 w3
    (by rw [hpool2]; exact hwf) hload).2.2 poolName groups hg _ hgmem cidr hmem
  have hw3c : w3.content = w.content := by
    rw [hw3]; exact hw2
  have hw4 := savePoolFile_ok env pm4 w3 w4 hsave
  have hsl : saveLoc pm4 = saveLoc pm2 := by
    unfold saveLoc
    rw [hpm4, hpm3]
  have hsl2 : saveLoc pm2 = saveLoc pm1 := by
    unfold saveLoc
    rw [hpm2]
  refine ⟨pm1, d, ranges, hp, hgs, ?_, ?_, ?_, ?_, ?_, ?_, ?_⟩
  · rw [← hw2]
    have : loadLoc pm2 = loadLoc pm1 := by unfold loadLoc; rw [hpm2]
    rw [← this]; exact hcontent
  · rw [← hpool3]; exact hranges
  · intro k hk
    apply hnot k
    rw [hranges]
    exact hk
  · rw [hkey, hid]
  · rw [hpm', hpm4, hpool3]
  · rw [hpm']
    show saveLoc { pm4 with poolLock := false } = saveLoc pm1
    have : saveLoc { pm4 with poolLock := false } = saveLoc pm4 := rfl
    rw [this, hsl, hsl2]
  · rw [← hw', releaseLockFile_content, hw4, hsl, hsl2, hw3c]
    have : pm'.pool = pm4.pool := by rw [hpm']
    rw [this]

theorem NewPoolManager_fields (id file : String) (t : Int) :
    (NewPoolManager id file t).poolLoaded = false ∧ (NewPoolManager id file t).pool = emptyPoolFile ∧
      (NewPoolManager id file t).poolFile = file ∧ (NewPoolManager id file t).id = id ∧
      (NewPoolManager id file t).poolLock = false := by
  simp [NewPoolManager, emptyPoolFile]

/-- Two fresh managers that allocate one after the other on the same bucket
object: the CIDRs differ and neither is stored under two keys. -/
theorem sequential_allocations (rt : Runtime) (env1 env2 : Env) (fuel1 fuel2 : Nat)
    (id1 id2 file : String) (t1 t2 : Int) (w0 w1 w2 : World) (m1 m2 : PoolManager)
    (p1 p2 : String) (g1 g2 mask1 mask2 : Int) (name1 name2 c1 c2 k1 k2 : String)
    (hbucket : (parsePoolFile rt (NewPoolManager id1 file t1)).2.poolBucket ≠ "")
    (h1 : AllocateNewNetwork rt env1 fuel1 (NewPoolManager id1 file t1) w0 p1 g1 mask1 name1 =
      (.ok (c1, k1), m1, w1))
    (h2 : AllocateNewNetwork rt env2 fuel2 (NewPoolManager id2 file t2) w1 p2 g2 mask2 name2 =
      (.ok (c2, k2), m2, w2)) :
    c1 ≠ c2 ∧
    w1.content (saveLoc m1) = some (Blob.document m1.pool) ∧
    w2.content (saveLoc m2) = some (Blob.document m2.pool) ∧
    (∀ k k0 c, (c = c1 ∨ c = c2) → nilGet m2.pool.AllocatedRanges k = some c →
      nilGet m2.pool.AllocatedRanges k0 = some c → k = k0) ∧
    (∀ d, w0.content (loadLoc (parsePoolFile rt (NewPoolManager id1 file t1)).2) =
        some (Blob.document d) →
      valuesDistinct (unmarshalInto emptyPoolFile d).AllocatedRanges →
      valuesDistinct m2.pool.AllocatedRanges) := by
  obtain ⟨hl1, hpool1, hfile1, _, _⟩ := NewPoolManager_fields id1 file t1
  obtain ⟨hl2, hpool2, hfile2, _, _⟩ := NewPoolManager_fields id2 file t2
  obtain ⟨q1, d1, r1, hq1, hgs1, hc1, hr1, hfresh1, _, hm1, hs1, hw1⟩ :=
    AllocateNewNetwork_ok_unloaded rt env1 fuel1 _ m1 w0 w1 p1 g1 mask1 name1 c1 k1 hl1
      (by rw [hpool1]; exact emptyPoolFile_WF) h1
  obtain ⟨q2, d2, r2, hq2, hgs2, hc2, hr2, hfresh2, _, hm2, hs2, hw2⟩ :=
    AllocateNewNetwork_ok_unloaded rt env2 fuel2 _ m2 w1 w2 p2 g2 mask2 name2 c2 k2 hl2
      (by rw [hpool2]; exact emptyPoolFile_WF) h2
  rw [hpool1] at hr1 hm1
  rw [hpool2] at hr2 hm2
  rw [hfile1] at hgs1
  -- both managers read and write the same object
  have hlocs := parsePoolFile_locs rt (NewPoolManager id1 file t1) q1 (NewPoolManager id2 file t2)
    q2 (by rw [hfile1, hfile2]) (by rw [hfile1]; exact hgs1) hq1 hq2
  have hq1b : q1.poolBucket ≠ "" := by rw [hq1] at hbucket; exact hbucket
  have hq1f : q1.poolFile = file := by
    have := (parsePoolFile_fields rt (NewPoolManager id1 file t1)).2.2.2.2.2.2.1
    rw [hq1, hfile1] at this
    exact this
  have hls : loadLoc q1 = saveLoc q1 := by
    unfold loadLoc saveLoc
    rw [if_pos hq1b, hq1f, if_pos hgs1]
  -- what the second manager loads is what the first saved
  have hsaved1 : w1.content (saveLoc q1) = some (Blob.document m1.pool) := by
    rw [hw1]; simp
  have hd2 : d2 = m1.pool := by
    rw [hlocs.2.2.1, hls, hsaved1] at hc2
    simp only [Option.some.injEq, Blob.document.injEq] at hc2
    exact hc2.symm
  subst hd2
  have hwf1 : GoMap.WF r1 := by
    have := (unmarshalInto_WF emptyPoolFile d1 emptyPoolFile_WF).2
    rw [hr1] at this
    exact this
  have hwfs : GoMap.WF (GoMap.set k1 c1 r1) := GoMap.WF_set _ _ _ hwf1
  -- the allocated map the second manager holds after loading reads like the saved one
  have hr2get : ∀ k, GoMap.get? k r2 = GoMap.get? k (GoMap.set k1 c1 r1) := by
    intro k
    have : (unmarshalInto emptyPoolFile m1.pool).AllocatedRanges =
        some ((GoMap.set k1 c1 r1).foldl (fun acc e => GoMap.set e.1 e.2 acc) []) := by
      rw [hm1]
      simp [unmarshalInto, emptyPoolFile, nilEntries]
    rw [this] at hr2
    simp only [Option.some.injEq] at hr2
    rw [← hr2]
    exact GoMap.get?_foldl_set_nil _ hwfs k
  have hne : c1 ≠ c2 := by
    intro e
    apply hfresh2 k1
    rw [hr2get, GoMap.get?_set_self, e]
  have hkeys : ∀ k k0 c, (c = c1 ∨ c = c2) → nilGet m2.pool.AllocatedRanges k = some c →
      nilGet m2.pool.AllocatedRanges k0 = some c → k = k0 := by
    have key1 : ∀ k, GoMap.get? k (GoMap.set k2 c2 r2) = some c1 → k = k1 := by
      intro k hk
      have hk2 : k ≠ k2 := by
        intro e
        rw [e, GoMap.get?_set_self] at hk
        exact hne (Option.some.inj hk).symm
      rw [GoMap.get?_set_ne _ _ _ _ hk2, hr2get] at hk
      by_contra hk1
      rw [GoMap.get?_set_ne _ _ _ _ hk1] at hk
      exact hfresh1 k hk
    have key2 : ∀ k, GoMap.get? k (GoMap.set k2 c2 r2) = some c2 → k = k2 := by
      intro k hk
      by_contra hk2
      rw [GoMap.get?_set_ne _ _ _ _ hk2] at hk
      exact hfresh2 k hk
    intro k k0 c hc hk hk0
    rw [hm2] at hk hk0
    simp only [nilGet] at hk hk0
    rcases hc with rfl | rfl
    · rw [key1 k hk, key1 k0 hk0]
    · rw [key2 k hk, key2 k0 hk0]
  refine ⟨hne, ?_, ?_, hkeys, ?_⟩
  · rw [hs1]; exact hsaved1
  · rw [hs2, hw2]; simp
  · intro d hd hdist
    rw [hq1] at hd
    simp only at hd
    rw [hc1] at hd
    simp only [Option.some.injEq, Blob.document.injEq] at hd
    subst hd
    rw [hr1] at hdist
    have hs := valuesDistinct_set_fresh r1 k1 c1 hfresh1 hdist
    have hr2d : valuesDistinct (some r2) := by
      intro a b v ha hb
      simp only [nilGet] at ha hb
      rw [hr2get] at ha hb
      exact hs a b v ha hb
    rw [hm2]
    exact valuesDistinct_set_fresh r2 k2 c2 hfresh2 hr2d

theorem AllocateNewNetwork_eq_operation (rt : Runtime) (env : Env) (fuel : Nat)
    (pm : PoolManager) (w : World) (poolName : String) (poolIndex maskSize : Int)
    (name : String) :
    AllocateNewNetwork rt env fuel pm w poolName poolIndex maskSize name =
      operation rt env fuel pm w
        (fun pm3 w3 => allocateBody env pm3 w3 poolName poolIndex maskSize name) := by
  unfold AllocateNewNetwork operation
  rcases parsePoolFile rt pm with ⟨o1, pm1⟩
  cases o1 with
  | ok u =>
    cases u
    simp only
    rcases acquireLockFile env fuel pm1 w with ⟨o2, pm2, w2⟩
    cases o2 with
    | ok u2 =>
      cases u2
      simp only
      rcases ensureLoaded rt env fuel pm2 w2 with ⟨o3, pm3, w3⟩
      cases o3 with
      | ok u3 => cases u3; rfl
      | error e => rfl
      | crash c => rfl
      | blocked => rfl
      | outOfFuel => rfl
    | error e => rfl
    | crash c => rfl
    | blocked => rfl
    | outOfFuel => rfl
  | error e => rfl
  | crash c => rfl
  | blocked => rfl
  | outOfFuel => rfl

theorem DeleteAllocation_eq_operation (rt : Runtime) (env : Env) (fuel : Nat)
    (pm : PoolManager) (w : World) (id : String) :
    DeleteAllocation rt env fuel pm w id =
      operation rt env fuel pm w (fun pm3 w3 => deleteBody env pm3 w3 id) := by
  unfold DeleteAllocation operation
  rcases parsePoolFile rt pm with ⟨o1, pm1⟩
  cases o1 with
  | ok u =>
    cases u
    simp only
    rcases acquireLockFile env fuel pm1 w with ⟨o2, pm2, w2⟩
    cases o2 with
    | ok u2 =>
      cases u2
      simp only
      rcases ensureLoaded rt env fuel pm2 w2 with ⟨o3, pm3, w3⟩
      cases o3 with
      | ok u3 => cases u3; rfl
      | error e => rfl
      | crash c => rfl
      | blocked => rfl
      | outOfFuel => rfl
    | error e => rfl
    | crash c => rfl
    | blocked => rfl
    | outOfFuel => rfl
  | error e => rfl
  | crash c => rfl
  | blocked => rfl
  | outOfFuel => rfl

/-! ### Decoding a document twice -/

theorem GoMap.mem_keys_foldl_set {ν : Type} (l : GoMap ν) :
    ∀ (acc : GoMap ν) (k : String),
      k ∈ GoMap.keys (l.foldl (fun acc e => GoMap.set e.1 e.2 acc) acc) ↔
        k ∈ GoMap.keys acc ∨ k ∈ GoMap.keys l := by
  induction l with
  | nil => intro acc k; simp [GoMap.keys]
  | cons e l ih =>
    intro acc k
    simp only [List.foldl_cons]
    rw [ih, GoMap.keys_set]
    have hk : GoMap.keys (e :: l) = e.1 :: GoMap.keys l := rfl
    rw [hk]
    split_ifs with h
    · simp only [List.mem_cons]
      constructor
      · rintro (h1 | h1)
        · exact Or.inl h1
        · exact Or.inr (Or.inr h1)
      · rintro (h1 | h1 | h1)
        · exact Or.inl h1
        · exact Or.inl (h1 ▸ h)
        · exact Or.inr h1
    · simp only [List.mem_append, List.mem_singleton, List.mem_cons]
      tauto

/-- Writing keys that are all present keeps the key list. -/
theorem GoMap.keys_foldl_set_of_subset {ν : Type} (l : GoMap ν) :
    ∀ (acc : GoMap ν), (∀ k ∈ GoMap.keys l, k ∈ GoMap.keys acc) →
      GoMap.keys (l.foldl (fun acc e => GoMap.set e.1 e.2 acc) acc) = GoMap.keys acc := by
  induction l with
  | nil => intro acc _; rfl
  | cons e l ih =>
    intro acc h
    simp only [List.foldl_cons]
    have he : e.1 ∈ GoMap.keys acc := h e.1 (by simp [GoMap.keys])
    have hs : GoMap.keys (GoMap.set e.1 e.2 acc) = GoMap.keys acc := by
      rw [GoMap.keys_set, if_pos he]
    rw [ih _ (by intro k hk; rw [hs]; exact h k (by simp [GoMap.keys] at hk ⊢; exact Or.inr hk)), hs]

theorem GoMap.get?_foldl_set_not_mem {ν : Type} (l : GoMap ν) :
    ∀ (acc : GoMap ν) (k : String), k ∉ GoMap.keys l →
      GoMap.get? k (l.foldl (fun acc e => GoMap.set e.1 e.2 acc) acc) = GoMap.get? k acc := by
  induction l with
  | nil => intro acc k _; rfl
  | cons e l ih =>
    intro acc k hk
    have hk1 : k ≠ e.1 := by intro x; apply hk; simp [GoMap.keys, x]
    have hk2 : k ∉ GoMap.keys l := by intro x; apply hk; simp [GoMap.keys] at x ⊢; exact Or.inr x
    simp only [List.foldl_cons]
    rw [ih _ k hk2, GoMap.get?_set_ne _ _ _ _ hk1]

/-- What a written key reads after the fold does not depend on the starting map. -/
theorem GoMap.get?_foldl_set_mem {ν : Type} (l : GoMap ν) :
    ∀ (acc acc1 : GoMap ν) (k : String), k ∈ GoMap.keys l →
      GoMap.get? k (l.foldl (fun acc e => GoMap.set e.1 e.2 acc) acc) =
        GoMap.get? k (l.foldl (fun acc e => GoMap.set e.1 e.2 acc) acc1) := by
  induction l with
  | nil => intro acc acc1 k hk; simp [GoMap.keys] at hk
  | cons e l ih =>
    intro acc acc1 k hk
    simp only [List.foldl_cons]
    by_cases hl : k ∈ GoMap.keys l
    · exact ih _ _ k hl
    · have hke : k = e.1 := by
        simp only [GoMap.keys, List.map_cons, List.mem_cons] at hk
        rcases hk with h | h
        · exact h
        · exact absurd h hl
      rw [GoMap.get?_foldl_set_not_mem l _ k hl, GoMap.get?_foldl_set_not_mem l _ k hl, hke,
        GoMap.get?_set_self, GoMap.get?_set_self]

/-- Two maps with the same distinct keys in the same order and the same reads are equal. -/
theorem GoMap.ext_of_keys {ν : Type} :
    ∀ (a b : GoMap ν), GoMap.WF a → GoMap.keys a = GoMap.keys b →
      (∀ k, GoMap.get? k a = GoMap.get? k b) → a = b := by
  intro a
  induction a with
  | nil =>
    intro b _ hk _
    cases b with
    | nil => rfl
    | cons e b => simp [GoMap.keys] at hk
  | cons e a ih =>
    intro b hwf hk hget
    cases b with
    | nil => simp [GoMap.keys] at hk
    | cons f b =>
      simp only [GoMap.keys, List.map_cons, List.cons.injEq] at hk
      have hwf2 : GoMap.WF a ∧ e.1 ∉ GoMap.keys a := by
        simp only [GoMap.WF, GoMap.keys, List.map_cons, List.nodup_cons] at hwf
        exact ⟨hwf.2, hwf.1⟩
      have hv : e.2 = f.2 := by
        have := hget e.1
        simp only [GoMap.get?, if_true, hk.1.symm] at this
        exact Option.some.inj this
      have hef : e = f := Prod.ext hk.1 hv
      subst hef
      congr 1
      apply ih b hwf2.1 hk.2
      intro k
      by_cases hke : e.1 = k
      · subst hke
        rw [(GoMap.get?_eq_none_iff _ _).2 hwf2.2,
          (GoMap.get?_eq_none_iff _ _).2 (by
            have : GoMap.keys b = GoMap.keys a := hk.2.symm
            rw [this]; exact hwf2.2)]
      · have := hget k
        simpa [GoMap.get?, hke] using this

theorem GoMap.foldl_set_idem {ν : Type} (l : GoMap ν) :
    l.foldl (fun acc e => GoMap.set e.1 e.2 acc) (l.foldl (fun acc e => GoMap.set e.1 e.2 acc) [])
      = l.foldl (fun acc e => GoMap.set e.1 e.2 acc) [] := by
  have hwf : GoMap.WF (l.foldl (fun acc e => GoMap.set e.1 e.2 acc) []) :=
    GoMap.WF_foldl_set l [] GoMap.WF_nil
  have hkeys := GoMap.keys_foldl_set_of_subset l (l.foldl (fun acc e => GoMap.set e.1 e.2 acc) [])
    (by intro k hk; exact (GoMap.mem_keys_foldl_set l [] k).2 (Or.inr hk))
  apply GoMap.ext_of_keys _ _ (GoMap.WF_foldl_set l _ hwf) hkeys
  intro k
  by_cases hk : k ∈ GoMap.keys l
  · exact GoMap.get?_foldl_set_mem l _ _ k hk
  · exact GoMap.get?_foldl_set_not_mem l _ k hk

/-- Decoding the same document again into the result changes nothing. -/
theorem unmarshalInto_idem (d : PoolFile) :
    unmarshalInto (unmarshalInto emptyPoolFile d) d = unmarshalInto emptyPoolFile d := by
  unfold unmarshalInto emptyPoolFile
  cases h1 : d.IpPools <;> cases h2 : d.AllocatedRanges <;>
    simp [nilEntries, GoMap.foldl_set_idem]

/-! ### Effects of the bodies on the candidate table -/

/-- Whatever its outcome, the body of `AllocateNewNetwork` either leaves the table
alone (and then did not succeed) or removed one candidate of the addressed group. -/
theorem allocateBody_table (env : Env) (pm pm' : PoolManager) (w w' : World) (poolName : String)
    (poolIndex maskSize : Int) (name : String) (r : Outcome (String × String))
    (h : allocateBody env pm w poolName poolIndex maskSize name = (r, pm', w')) :
    pm'.poolLoaded = pm.poolLoaded ∧ pm'.poolFile = pm.poolFile ∧ pm'.poolLock = pm.poolLock ∧
    ((pm'.expandedRanges = pm.expandedRanges ∧ ∀ c k, r ≠ .ok (c, k)) ∨
     ∃ groups idx, nilGet pm.expandedRanges poolName = some groups ∧ 0 < poolIndex ∧
       poolIndex ≤ groups.length ∧
       (groups.getD (poolIndex - 1).toNat []).findIdx? (maskMatches maskSize) = some idx ∧
       pm'.expandedRanges = pm.expandedRanges.map (GoMap.set poolName
          (groups.set (poolIndex - 1).toNat
            ((groups.getD (poolIndex - 1).toNat []).eraseIdx idx))) ∧
       ∀ c k, r = .ok (c, k) → c = (groups.getD (poolIndex - 1).toNat []).getD idx "") := by
  unfold allocateBody at h
  cases hg : nilGet pm.expandedRanges poolName with
  | none =>
    rw [hg] at h
    simp only [Prod.mk.injEq] at h
    obtain ⟨hr, hpm, _⟩ := h
    subst hr hpm
    exact ⟨rfl, rfl, rfl, Or.inl ⟨rfl, by intro c k; simp⟩⟩
  | some groups =>
    rw [hg] at h
    dsimp only at h
    by_cases h1 : poolIndex = 0 ∨ poolIndex > groups.length
    · rw [if_pos h1] at h
      simp only [Prod.mk.injEq] at h
      obtain ⟨hr, hpm, _⟩ := h
      subst hr hpm
      exact ⟨rfl, rfl, rfl, Or.inl ⟨rfl, by intro c k; simp⟩⟩
    · rw [if_neg h1] at h
      by_cases h2 : poolIndex < 0
      · rw [if_pos h2] at h
        simp only [Prod.mk.injEq] at h
        obtain ⟨hr, hpm, _⟩ := h
        subst hr hpm
        exact ⟨rfl, rfl, rfl, Or.inl ⟨rfl, by intro c k; simp⟩⟩
      · rw [if_neg h2] at h
        cases hf : (groups.getD (poolIndex - 1).toNat []).findIdx? (maskMatches maskSize) with
        | none =>
          rw [hf] at h
          simp only [Prod.mk.injEq] at h
          obtain ⟨hr, hpm, _⟩ := h
          subst hr hpm
          exact ⟨rfl, rfl, rfl, Or.inl ⟨rfl, by intro c k; simp⟩⟩
        | some idx =>
          rw [hf] at h
          dsimp only at h
          have hpos : 0 < poolIndex := by omega
          have hle : poolIndex ≤ groups.length := by omega
          by_cases h3 : (groups.getD (poolIndex - 1).toNat []).getD idx "" = ""
          · rw [if_pos h3] at h
            simp only [Prod.mk.injEq] at h
            obtain ⟨hr, hpm, _⟩ := h
            subst hr hpm
            exact ⟨rfl, rfl, rfl, Or.inr ⟨groups, idx, rfl, hpos, hle, hf, rfl,
              by intro c k; simp⟩⟩
          · rw [if_neg h3] at h
            cases hr : pm.allocatedRanges with
            | none =>
              rw [hr] at h
              simp only [Prod.mk.injEq] at h
              obtain ⟨hr, hpm, _⟩ := h
              subst hr hpm
              exact ⟨rfl, rfl, rfl, Or.inr ⟨groups, idx, rfl, hpos, hle, hf, rfl,
                by intro c k; simp⟩⟩
            | some reverse =>
              rw [hr] at h
              dsimp only at h
              cases ha : pm.pool.AllocatedRanges with
              | none =>
                rw [ha] at h
                simp only [Prod.mk.injEq] at h
                obtain ⟨hr, hpm, _⟩ := h
                subst hr hpm
                exact ⟨rfl, rfl, rfl, Or.inr ⟨groups, idx, rfl, hpos, hle, hf, rfl,
                  by intro c k; simp⟩⟩
              | some ranges =>
                rw [ha] at h
                dsimp only at h
                split at h <;>
                  (simp only [Prod.mk.injEq] at h
                   obtain ⟨hr, hpm, _⟩ := h
                   subst hr hpm
                   refine ⟨rfl, rfl, rfl, Or.inr ⟨groups, idx, rfl, hpos, hle, hf, rfl, ?_⟩⟩
                   intro c k hck
                   first
                     | (simp only [Outcome.ok.injEq, Prod.mk.injEq] at hck; exact hck.1.symm)
                     | (exact absurd hck (by simp)))

theorem deleteBody_table (env : Env) (pm pm' : PoolManager) (w w' : World) (id : String)
    (r : Outcome Unit) (h : deleteBody env pm w id = (r, pm', w')) :
    pm'.poolLoaded = pm.poolLoaded ∧ pm'.poolFile = pm.poolFile ∧ pm'.poolLock = pm.poolLock ∧
      pm'.expandedRanges = pm.expandedRanges := by
  unfold deleteBody at h
  cases hg : nilGet pm.pool.AllocatedRanges id with
  | none =>
    rw [hg] at h
    simp only [Prod.mk.injEq] at h
    obtain ⟨_, hpm, _⟩ := h
    subst hpm
    exact ⟨rfl, rfl, rfl, rfl⟩
  | some v =>
    rw [hg] at h
    dsimp only at h
    split at h <;>
      (simp only [Prod.mk.injEq] at h
       obtain ⟨_, hpm, _⟩ := h
       subst hpm
       exact ⟨rfl, rfl, rfl, rfl⟩)

/-! ### The group invariant -/

theorem forall₂_getElem? {α β : Type} (R : α → β → Prop) :
    ∀ (l1 : List α) (l2 : List β), List.Forall₂ R l1 l2 → ∀ (i : Nat) (b : β),
      l2[i]? = some b → ∃ a, l1[i]? = some a ∧ R a b := by
  intro l1 l2 h
  induction h with
  | nil => intro i b hb; simp at hb
  | cons hab _ ih =>
    intro i b hb
    cases i with
    | zero =>
      simp only [List.getElem?_cons_zero, Option.some.injEq] at hb
      subst hb
      exact ⟨_, by simp, hab⟩
    | succ n =>
      simp only [List.getElem?_cons_succ] at hb
      obtain ⟨a, ha, hr⟩ := ih n b hb
      exact ⟨a, by simpa using ha, hr⟩

/-- Every pool of the table built by `loadPoolFile` is a pool of the document. -/
theorem loadPoolFile_table_pool (rt : Runtime) (env : Env) (fuel : Nat) (pm pm' : PoolManager)
    (w w' : World) (hwf : pm.pool.WF) (h : loadPoolFile rt env fuel pm w = (.ok (), pm', w'))
    (poolName : String) (cands : List (List String))
    (hc : nilGet pm'.expandedRanges poolName = some cands) :
    ∃ groups, nilGet pm'.pool.IpPools poolName = some groups := by
  obtain ⟨pm1, d, table, hp, _, _, hexp, hpm', _⟩ := loadPoolFile_ok rt env fuel pm pm' w w' h
  have hpool1 : pm1.pool = pm.pool := by
    have := (parsePoolFile_fields rt pm).1
    rw [hp] at this
    exact this
  have hwf' : (unmarshalInto pm1.pool d).WF := unmarshalInto_WF _ _ (hpool1 ▸ hwf)
  have hpool : pm'.pool = unmarshalInto pm1.pool d := by rw [hpm']
  have hexpd : pm'.expandedRanges = some table := by rw [hpm']
  rw [hpool, nilGet_eq]
  by_contra hne
  have hnone : GoMap.get? poolName (nilEntries (unmarshalInto pm1.pool d).IpPools) = none := by
    cases hx : GoMap.get? poolName (nilEntries (unmarshalInto pm1.pool d).IpPools) with
    | none => rfl
    | some v => exact absurd ⟨v, hx⟩ hne
  have := (expandPools_get? rt fuel _ _ [] table hwf'.1 hexp poolName).2 hnone
  rw [hexpd] at hc
  simp only [nilGet] at hc
  rw [this] at hc
  simp [GoMap.get?] at hc

/-- A successful load leaves the group good when the ranges of the group expand
to pairwise distinct candidates. -/
theorem loadPoolFile_groupGood (rt : Runtime) (env : Env) (fuel : Nat) (pm pm' : PoolManager)
    (w w' : World) (p : String) (g : Int) (hwf : pm.pool.WF)
    (h : loadPoolFile rt env fuel pm w = (.ok (), pm', w'))
    (hdistinct : ∀ groups raws, nilGet pm'.pool.IpPools p = some groups →
      List.Forall₂ (fun rr raw => expandRange rt fuel [] rr [] = .ok raw)
        (groups.getD (g - 1).toNat []) raws → raws.flatten.Nodup) :
    GroupGood pm'.pool.AllocatedRanges p g pm' [] := by
  intro cand hcand
  unfold groupCandidates at hcand
  cases htab : nilGet pm'.expandedRanges p with
  | none => rw [htab] at hcand; simp at hcand
  | some tbl =>
    rw [htab] at hcand
    simp only at hcand
    by_cases hg : 1 ≤ g
    · rw [if_pos hg] at hcand
      obtain ⟨groups, hgroups⟩ := loadPoolFile_table_pool rt env fuel pm pm' w w' hwf h p tbl htab
      obtain ⟨h1, _, h3⟩ := loadPoolFile_candidates rt env fuel pm pm' w w' hwf h
      obtain ⟨raws, hraws, htab2⟩ := h1 p groups hgroups
      rw [htab] at htab2
      simp only [Option.some.injEq] at htab2
      have hmem : cand ∈ tbl := List.mem_iff_getElem?.2 ⟨_, hcand⟩
      refine ⟨?_, h3 p tbl htab cand hmem, by simp⟩
      rw [htab2, List.getElem?_map] at hcand
      cases hr : raws[(g - 1).toNat]? with
      | none => rw [hr] at hcand; simp at hcand
      | some raw =>
        rw [hr] at hcand
        simp only [Option.map_some', Option.some.injEq] at hcand
        obtain ⟨ranges, hranges, hfa⟩ := forall₂_getElem? _ groups raws hraws _ raw hr
        have hgd : groups.getD (g - 1).toNat [] = ranges := by
          rw [List.getD_eq_getElem?_getD, hranges]; rfl
        have := hdistinct groups raw hgroups (hgd ▸ hfa)
        rw [← hcand]
        exact List.Nodup.filter _ this
    · rw [if_neg hg] at hcand
      simp at hcand

/-- The candidates of a group after one candidate of some group was removed. -/
theorem groupCandidates_update (pm pm' : PoolManager) (poolName : String) (poolIndex : Int)
    (groups : List (List String)) (idx : Nat) (p : String) (g : Int)
    (hg : nilGet pm.expandedRanges poolName = some groups) (hpos : 0 < poolIndex)
    (hle : poolIndex ≤ groups.length)
    (h : pm'.expandedRanges = pm.expandedRanges.map (GoMap.set poolName
      (groups.set (poolIndex - 1).toNat ((groups.getD (poolIndex - 1).toNat []).eraseIdx idx)))) :
    (p = poolName ∧ g = poolIndex ∧
      groupCandidates pm p g = some (groups.getD (poolIndex - 1).toNat []) ∧
      groupCandidates pm' p g = some ((groups.getD (poolIndex - 1).toNat []).eraseIdx idx)) ∨
    (¬ (p = poolName ∧ g = poolIndex) ∧ groupCandidates pm' p g = groupCandidates pm p g) := by
  cases hm : pm.expandedRanges with
  | none => rw [hm] at hg; simp [nilGet] at hg
  | some m =>
    rw [hm] at hg h
    simp only [nilGet] at hg
    simp only [Option.map_some'] at h
    have hlt : (poolIndex - 1).toNat < groups.length := by omega
    by_cases hp : p = poolName
    · subst hp
      by_cases hgi : g = poolIndex
      · subst hgi
        left
        refine ⟨rfl, rfl, ?_, ?_⟩
        · unfold groupCandidates
          rw [hm]
          simp only [nilGet, hg]
          rw [if_pos (by omega), List.getD_eq_getElem?_getD, List.getElem?_eq_getElem hlt]
          rfl
        · unfold groupCandidates
          rw [h]
          simp only [nilGet, GoMap.get?_set_self]
          rw [if_pos (by omega), List.getElem?_set, if_pos rfl, if_pos hlt]
      · right
        refine ⟨fun x => hgi x.2, ?_⟩
        unfold groupCandidates
        rw [h, hm]
        simp only [nilGet, GoMap.get?_set_self, hg]
        by_cases h1 : 1 ≤ g
        · rw [if_pos h1, if_pos h1]
          have hne : (poolIndex - 1).toNat ≠ (g - 1).toNat := by omega
          rw [List.getElem?_set_ne hne]
        · rw [if_neg h1, if_neg h1]
    · right
      refine ⟨fun x => hp x.1, ?_⟩
      unfold groupCandidates
      rw [h, hm]
      simp only [nilGet]
      rw [GoMap.get?_set_ne _ _ _ _ hp]

theorem groupCandidates_congr (pm pm' : PoolManager) (p : String) (g : Int)
    (h : pm'.expandedRanges = pm.expandedRanges) :
    groupCandidates pm' p g = groupCandidates pm p g := by
  unfold groupCandidates
  rw [h]

theorem GroupGood_congr (A : Option (GoMap String)) (p : String) (g : Int)
    (pm pm' : PoolManager) (T : List String) (h : pm'.expandedRanges = pm.expandedRanges)
    (hgood : GroupGood A p g pm T) : GroupGood A p g pm' T := by
  intro cand hc
  rw [groupCandidates_congr pm pm' p g h] at hc
  exact hgood cand hc

/-- The body of `AllocateNewNetwork` keeps the group good, adding what it returned
from that group to the taken list. -/
theorem allocateBody_groupGood (A : Option (GoMap String)) (p : String) (g : Int) (env : Env)
    (pm pm' : PoolManager) (w w' : World) (poolName : String) (poolIndex maskSize : Int)
    (name : String) (r : Outcome (String × String)) (T : List String)
    (h : allocateBody env pm w poolName poolIndex maskSize name = (r, pm', w'))
    (hgood : GroupGood A p g pm T) :
    GroupGood A p g pm' (takenAfter p g T poolName poolIndex r) := by
  obtain ⟨_, _, _, htab⟩ := allocateBody_table env pm pm' w w' poolName poolIndex maskSize name r h
  rcases htab with ⟨hsame, hnok⟩ | ⟨groups, idx, hg, hpos, hle, hfind, hupd, hret⟩
  · have hT : takenAfter p g T poolName poolIndex r = T := by
      cases r with
      | ok a => exact absurd rfl (hnok a.1 a.2)
      | error e => rfl
      | crash c => rfl
      | blocked => rfl
      | outOfFuel => rfl
    rw [hT]
    exact GroupGood_congr A p g pm pm' T hsame hgood
  · rcases groupCandidates_update pm pm' poolName poolIndex groups idx p g hg hpos hle hupd with
      ⟨hp, hgi, hold, hnew⟩ | ⟨hne, hsame⟩
    · intro cand hc
      rw [hnew] at hc
      simp only [Option.some.injEq] at hc
      obtain ⟨hnd, hA, hT⟩ := hgood _ hold
      have hsub : ∀ c, c ∈ cand → c ∈ groups.getD (poolIndex - 1).toNat [] := by
        intro c hcm
        rw [← hc] at hcm
        exact (List.eraseIdx_sublist _ _).subset hcm
      refine ⟨by rw [← hc]; exact List.Nodup.eraseIdx _ hnd, fun c hcm => hA c (hsub c hcm), ?_⟩
      intro c hcT hcm
      cases r with
      | ok a =>
        obtain ⟨a1, a2⟩ := a
        simp only [takenAfter, hp.symm, hgi.symm, and_self, if_true, List.mem_cons] at hcT
        rcases hcT with hca | hcT
        · -- the returned candidate was removed and occurs once
          have ha1 := hret a1 a2 rfl
          obtain ⟨h1, _, _⟩ := findIdx?_some_spec (maskMatches maskSize) _ idx "" hfind
          rw [← ha1] at h1
          rw [← hc, hca, List.mem_eraseIdx_iff_getElem?] at hcm
          obtain ⟨i, hi, hget⟩ := hcm
          obtain ⟨hi2, hci⟩ := List.getElem?_eq_some_iff.1 hget
          obtain ⟨hidx2, hcidx⟩ := List.getElem?_eq_some_iff.1 h1
          have := (List.Nodup.getElem_inj_iff hnd).1 (hci.trans hcidx.symm)
          exact hi this
        · exact hT c hcT (hsub c hcm)
      | error e => exact hT c hcT (hsub c hcm)
      | crash c0 => exact hT c hcT (hsub c hcm)
      | blocked => exact hT c hcT (hsub c hcm)
      | outOfFuel => exact hT c hcT (hsub c hcm)
    · have hT : takenAfter p g T poolName poolIndex r = T := by
        cases r with
        | ok a =>
          obtain ⟨a1, a2⟩ := a
          simp only [takenAfter]
          rw [if_neg (fun x => hne ⟨x.1.symm, x.2.symm⟩)]
        | error e => rfl
        | crash c => rfl
        | blocked => rfl
        | outOfFuel => rfl
      rw [hT]
      intro cand hc
      rw [hsame] at hc
      exact hgood cand hc

/-- What a failed `loadPoolFile` leaves. -/
theorem loadPoolFile_error (rt : Runtime) (env : Env) (fuel : Nat) (pm pm' : PoolManager)
    (w w' : World) (e : Err) (h : loadPoolFile rt env fuel pm w = (.error e, pm', w')) :
    pm'.poolLoaded = pm.poolLoaded ∧ pm'.poolFile = pm.poolFile ∧ pm'.poolLock = pm.poolLock ∧
    (pm'.pool = pm.pool ∨ ∃ pm1 d, parsePoolFile rt pm = (.ok (), pm1) ∧
      w.content (loadLoc pm1) = some (Blob.document d) ∧ pm'.pool = unmarshalInto pm.pool d) := by
  have hf := parsePoolFile_fields rt pm
  unfold loadPoolFile at h
  rcases hp : parsePoolFile rt pm with ⟨o, pm1⟩
  rw [hp] at h hf
  simp only at hf
  cases o with
  | ok u =>
    cases u
    simp only at h
    cases hr : env.readErr with
    | some e1 =>
      simp only [hr, Prod.mk.injEq] at h
      obtain ⟨_, hpm, _⟩ := h
      subst hpm
      exact ⟨hf.2.1, hf.2.2.2.2.2.2.1, hf.2.2.2.2.1, Or.inl hf.1⟩
    | none =>
      simp only [hr] at h
      cases hc : w.content (loadLoc pm1) with
      | none =>
        simp only [hc, Prod.mk.injEq] at h
        obtain ⟨_, hpm, _⟩ := h
        subst hpm
        exact ⟨hf.2.1, hf.2.2.2.2.2.2.1, hf.2.2.2.2.1, Or.inl hf.1⟩
      | some b =>
        cases b with
        | malformed =>
          simp only [hc, Prod.mk.injEq] at h
          obtain ⟨_, hpm, _⟩ := h
          subst hpm
          exact ⟨hf.2.1, hf.2.2.2.2.2.2.1, hf.2.2.2.2.1, Or.inl hf.1⟩
        | document d =>
          simp only [hc] at h
          split at h
          · simp at h
          · simp only [Prod.mk.injEq] at h
            obtain ⟨_, hpm, _⟩ := h
            subst hpm
            exact ⟨hf.2.1, hf.2.2.2.2.2.2.1, hf.2.2.2.2.1,
              Or.inr ⟨pm1, d, rfl, hc, by rw [hf.1]⟩⟩
  | error e1 =>
    simp only [Prod.mk.injEq] at h
    obtain ⟨_, hpm, _⟩ := h
    subst hpm
    exact ⟨hf.2.1, hf.2.2.2.2.2.2.1, hf.2.2.2.2.1, Or.inl hf.1⟩
  | crash c => simp at h
  | blocked => simp at h
  | outOfFuel => simp at h

/-- What a failed `acquireLockFile` leaves. -/
theorem acquireLockFile_error (env : Env) (fuel : Nat) (pm pm2 : PoolManager) (w w2 : World)
    (e : Err) (h : acquireLockFile env fuel pm w = (.error e, pm2, w2)) :
    pm2 = { pm with poolLock := false } ∧ w2.content = w.content := by
  unfold acquireLockFile at h
  by_cases hl : pm.poolLock = true
  · simp [hl] at h
  · rw [if_neg hl] at h
    by_cases hp : HasPrefix pm.poolFile "gs://" = true
    · have hnp : ¬ ¬ HasPrefix pm.poolFile "gs://" = true := fun x => x hp
      rw [if_neg hnp] at h
      rcases ha : acquireLoop env pm (env.now 0) fuel 0 w.log with ⟨o, log⟩
      rw [ha] at h
      cases o with
      | ok u => cases u; simp at h
      | error e1 =>
        simp only [Prod.mk.injEq] at h
        exact ⟨h.2.1.symm, by rw [← h.2.2]⟩
      | crash c => simp at h
      | blocked => simp at h
      | outOfFuel => simp at h
    · rw [if_pos hp] at h
      simp at h

/-- A deferred release after which the operation returned: the body returned the
same outcome holding the mutex. -/
theorem withRelease_returns {α : Type} (env : Env) (o r : Outcome α) (pm pm' : PoolManager)
    (w w' : World) (h : withRelease env (o, pm, w) = (r, pm', w'))
    (hc : ∀ c, r ≠ .crash c) (hb : r ≠ .blocked) (hf : r ≠ .outOfFuel) :
    o = r ∧ pm.poolLock = true ∧ pm' = { pm with poolLock := false } ∧
      w'.content = w.content := by
  have h1 : o ≠ .blocked := by
    intro ho
    subst ho
    simp only [withRelease, Prod.mk.injEq] at h
    exact hb h.1.symm
  have h2 : o ≠ .outOfFuel := by
    intro ho
    subst ho
    simp only [withRelease, Prod.mk.injEq] at h
    exact hf h.1.symm
  cases hl : pm.poolLock with
  | false =>
    rw [withRelease_unlocked env o pm w hl h1 h2] at h
    simp only [Prod.mk.injEq] at h
    exact absurd h.1.symm (hc _)
  | true =>
    rw [withRelease_locked env o pm w hl h1 h2] at h
    simp only [Prod.mk.injEq] at h
    refine ⟨h.1, rfl, h.2.1.symm, ?_⟩
    rw [← h.2.2]
    exact releaseLockFile_content env pm w

/-- The ways an operation returns: the location does not parse; the lock is not
acquired; loading fails; or the body ran. -/
theorem operation_returns {α : Type} (rt : Runtime) (env : Env) (fuel : Nat)
    (pm pm' : PoolManager) (w w' : World)
    (body : PoolManager → World → Outcome α × PoolManager × World) (r : Outcome α)
    (h : operation rt env fuel pm w body = (r, pm', w'))
    (hc : ∀ c, r ≠ .crash c) (hb : r ≠ .blocked) (hf : r ≠ .outOfFuel) :
    (pm' = (parsePoolFile rt pm).2 ∧ w' = w ∧ ∀ a, r ≠ .ok a) ∨
    (∃ pm1, parsePoolFile rt pm = (.ok (), pm1) ∧ pm' = { pm1 with poolLock := false } ∧
      w'.content = w.content ∧ ∀ a, r ≠ .ok a) ∨
    (∃ pm1 pm2 w2 pm3 w3 e, parsePoolFile rt pm = (.ok (), pm1) ∧
      acquireLockFile env fuel pm1 w = (.ok (), pm2, w2) ∧
      ensureLoaded rt env fuel pm2 w2 = (.error e, pm3, w3) ∧ pm3.poolLock = true ∧
      pm' = { pm3 with poolLock := false } ∧ w'.content = w3.content ∧ ∀ a, r ≠ .ok a) ∨
    (∃ pm1 pm2 w2 pm3 w3 pm4 w4, parsePoolFile rt pm = (.ok (), pm1) ∧
      acquireLockFile env fuel pm1 w = (.ok (), pm2, w2) ∧
      ensureLoaded rt env fuel pm2 w2 = (.ok (), pm3, w3) ∧
      body pm3 w3 = (r, pm4, w4) ∧ pm4.poolLock = true ∧
      pm' = { pm4 with poolLock := false } ∧ w'.content = w4.content) := by
  unfold operation at h
  rcases hp : parsePoolFile rt pm with ⟨o, pm1⟩
  rw [hp] at h
  cases o with
  | ok u =>
    cases u
    simp only at h
    rcases ha : acquireLockFile env fuel pm1 w with ⟨o2, pm2, w2⟩
    rw [ha] at h
    cases o2 with
    | ok u =>
      cases u
      simp only at h
      rcases he : ensureLoaded rt env fuel pm2 w2 with ⟨o3, pm3, w3⟩
      rw [he] at h
      cases o3 with
      | ok u =>
        cases u
        simp only at h
        rcases hbd : body pm3 w3 with ⟨o4, pm4, w4⟩
        rw [hbd] at h
        obtain ⟨h1, h2, h3, h4⟩ := withRelease_returns env o4 r pm4 pm' w4 w' h hc hb hf
        subst h1
        exact Or.inr (Or.inr (Or.inr ⟨pm1, pm2, w2, pm3, w3, pm4, w4, rfl, ha, he, hbd, h2, h3, h4⟩))
      | error e =>
        simp only [Outcome.carry] at h
        obtain ⟨h1, h2, h3, h4⟩ := withRelease_returns env _ r pm3 pm' w3 w' h hc hb hf
        refine Or.inr (Or.inr (Or.inl ⟨pm1, pm2, w2, pm3, w3, e, rfl, ha, he, h2, h3, h4, ?_⟩))
        intro a ha; rw [← h1] at ha; exact Outcome.noConfusion ha
      | crash c =>
        simp only [Outcome.carry] at h
        obtain ⟨h1, _⟩ := withRelease_returns env _ r pm3 pm' w3 w' h hc hb hf
        exact absurd h1.symm (hc c)
      | blocked =>
        simp only [Outcome.carry] at h
        obtain ⟨h1, _⟩ := withRelease_returns env _ r pm3 pm' w3 w' h hc hb hf
        exact absurd h1.symm hb
      | outOfFuel =>
        simp only [Outcome.carry] at h
        obtain ⟨h1, _⟩ := withRelease_returns env _ r pm3 pm' w3 w' h hc hb hf
        exact absurd h1.symm hf
    | error e =>
      obtain ⟨h5, h6⟩ := acquireLockFile_error env fuel pm1 pm2 w w2 e ha
      simp only [Outcome.carry, Prod.mk.injEq] at h
      refine Or.inr (Or.inl ⟨pm1, rfl, by rw [← h.2.1, h5], by rw [← h.2.2, h6], ?_⟩)
      intro a ha; rw [← h.1] at ha; exact Outcome.noConfusion ha
    | crash c =>
      simp only [Outcome.carry, Prod.mk.injEq] at h
      exact absurd h.1.symm (hc c)
    | blocked =>
      simp only [Outcome.carry, Prod.mk.injEq] at h
      exact absurd h.1.symm hb
    | outOfFuel =>
      simp only [Outcome.carry, Prod.mk.injEq] at h
      exact absurd h.1.symm hf
  | error e =>
    simp only [Outcome.carry, Prod.mk.injEq] at h
    refine Or.inl ⟨h.2.1.symm, h.2.2.symm, ?_⟩
    intro a ha; rw [← h.1] at ha; exact Outcome.noConfusion ha
  | crash c =>
    simp only [Outcome.carry, Prod.mk.injEq] at h
    exact absurd h.1.symm (hc c)
  | blocked =>
    simp only [Outcome.carry, Prod.mk.injEq] at h
    exact absurd h.1.symm hb
  | outOfFuel =>
    simp only [Outcome.carry, Prod.mk.injEq] at h
    exact absurd h.1.symm hf

/-- Under the invariant of a run, once the pool is loaded under the mutex the group
is good: it was so before, or this call loaded the untouched document. -/
theorem ensureLoaded_groupGood (rt : Runtime) (env : Env) (fuel : Nat) (file : String)
    (loc : Loc) (d : PoolFile) (p : String) (g : Int) (pm pm1 pm2 pm3 : PoolManager)
    (w w2 w3 : World) (T : List String)
    (hdistinct : ∀ groups raws, nilGet (unmarshalInto emptyPoolFile d).IpPools p = some groups →
      List.Forall₂ (fun rr raw => expandRange rt fuel [] rr [] = .ok raw)
        (groups.getD (g - 1).toNat []) raws → raws.flatten.Nodup)
    (hloc : ∀ qm qm1, qm.poolFile = file → HasPrefix file "gs://" = true →
      parsePoolFile rt qm = (.ok (), qm1) → loadLoc qm1 = loc)
    (hinv : RunInv file loc d p g pm w T)
    (hp : parsePoolFile rt pm = (.ok (), pm1))
    (ha : acquireLockFile env fuel pm1 w = (.ok (), pm2, w2))
    (he : ensureLoaded rt env fuel pm2 w2 = (.ok (), pm3, w3)) (hl3 : pm3.poolLock = true) :
    GroupGood (unmarshalInto emptyPoolFile d).AllocatedRanges p g pm3 T := by
  obtain ⟨hfile, hlock, hun, hlo⟩ := hinv
  have hpf := parsePoolFile_fields rt pm
  rw [hp] at hpf
  simp only at hpf
  obtain ⟨_, hpm2, hw2⟩ := acquireLockFile_ok env fuel pm1 pm2 w w2 ha
  have hfile2 : pm2.poolFile = file := by rw [hpm2]; exact hpf.2.2.2.2.2.2.1.trans hfile
  have hpool2 : pm2.pool = pm.pool := by rw [hpm2]; exact hpf.1
  have hload2 : pm2.poolLoaded = pm.poolLoaded := by rw [hpm2]; exact hpf.2.1
  have hlock2 : pm2.poolLock = HasPrefix pm1.poolFile "gs://" := by rw [hpm2]
  have hexp2 : pm2.expandedRanges = pm.expandedRanges := by rw [hpm2]; exact hpf.2.2.1
  obtain ⟨_, _, _, he4, _⟩ := ensureLoaded_ok rt env fuel pm2 pm3 w2 w3 he
  cases hl : pm.poolLoaded with
  | true =>
    rw [ensureLoaded_loaded rt env fuel pm2 w2 (hload2.trans hl)] at he
    simp only [Prod.mk.injEq, true_and] at he
    rw [← he.1]
    exact GroupGood_congr _ p g pm _ T hexp2 (hlo hl)
  | false =>
    have hl2 : pm2.poolLoaded = false := hload2.trans hl
    unfold ensureLoaded at he
    rw [if_pos (by simp [hl2])] at he
    obtain ⟨hu1, hu2, hu3, hu4⟩ := hun hl
    obtain ⟨pmq, dq, table, hq, _, hcq, _, hpm3, _⟩ :=
      loadPoolFile_ok rt env fuel pm2 pm3 w2 w3 he
    have hgs : HasPrefix file "gs://" = true := by
      rw [← hfile, ← hpf.2.2.2.2.2.2.1, ← hlock2, ← he4]
      exact hl3
    have hlq := hloc pm2 pmq hfile2 hgs hq
    rw [hlq, hw2, hu3] at hcq
    simp only [Option.some.injEq, Blob.document.injEq] at hcq
    subst hcq
    have hpq := parsePoolFile_fields rt pm2
    rw [hq] at hpq
    simp only at hpq
    have hpool3 : pm3.pool = unmarshalInto emptyPoolFile d := by
      rw [hpm3]
      show unmarshalInto pmq.pool d = _
      rw [hpq.1, hpool2]
      exact hu1
    have := loadPoolFile_groupGood rt env fuel pm2 pm3 w2 w3 p g (by rw [hpool2]; exact hu2) he
      (by rw [hpool3]; exact hdistinct)
    rw [hpool3] at this
    rw [hu4]
    exact this

/-- The invariant of a run is kept by every operation that returns. -/
theorem operation_inv {α : Type} (rt : Runtime) (env : Env) (fuel : Nat) (file : String)
    (loc : Loc) (d : PoolFile) (p : String) (g : Int) (pm pm' : PoolManager) (w w' : World)
    (body : PoolManager → World → Outcome α × PoolManager × World) (r : Outcome α)
    (T : List String) (Tf : Outcome α → List String)
    (hTf : ∀ o, (∀ a, o ≠ .ok a) → Tf o = T)
    (hbody : ∀ pm3 w3 o pm4 w4, body pm3 w3 = (o, pm4, w4) →
      pm4.poolLoaded = pm3.poolLoaded ∧ pm4.poolFile = pm3.poolFile ∧
      pm4.poolLock = pm3.poolLock ∧
      (GroupGood (unmarshalInto emptyPoolFile d).AllocatedRanges p g pm3 T →
        GroupGood (unmarshalInto emptyPoolFile d).AllocatedRanges p g pm4 (Tf o)))
    (hdistinct : ∀ groups raws, nilGet (unmarshalInto emptyPoolFile d).IpPools p = some groups →
      List.Forall₂ (fun rr raw => expandRange rt fuel [] rr [] = .ok raw)
        (groups.getD (g - 1).toNat []) raws → raws.flatten.Nodup)
    (hloc : ∀ qm qm1, qm.poolFile = file → HasPrefix file "gs://" = true →
      parsePoolFile rt qm = (.ok (), qm1) → loadLoc qm1 = loc)
    (hinv : RunInv file loc d p g pm w T)
    (h : operation rt env fuel pm w body = (r, pm', w'))
    (hc : ∀ c, r ≠ .crash c) (hb : r ≠ .blocked) (hf : r ≠ .outOfFuel) :
    RunInv file loc d p g pm' w' (Tf r) := by
  obtain ⟨hfile, hlock, hun, hlo⟩ := hinv
  have hpf := parsePoolFile_fields rt pm
  rcases operation_returns rt env fuel pm pm' w w' body r h hc hb hf with
    ⟨hpm, hw, hnok⟩ | ⟨pm1, hp, hpm, hw, hnok⟩ |
    ⟨pm1, pm2, w2, pm3, w3, e, hp, ha, he, hl3, hpm, hw, hnok⟩ |
    ⟨pm1, pm2, w2, pm3, w3, pm4, w4, hp, ha, he, hbd, hl4, hpm, hw⟩
  · rw [hTf r hnok]
    subst hpm hw
    refine ⟨hpf.2.2.2.2.2.2.1.trans hfile, hpf.2.2.2.2.1.trans hlock, ?_, ?_⟩
    · intro hl
      rw [hpf.1]
      exact hun (hpf.2.1.symm.trans hl)
    · intro hl
      exact GroupGood_congr _ p g pm _ T hpf.2.2.1 (hlo (hpf.2.1.symm.trans hl))
  · rw [hTf r hnok]
    rw [hp] at hpf
    simp only at hpf
    subst hpm
    refine ⟨hpf.2.2.2.2.2.2.1.trans hfile, rfl, ?_, ?_⟩
    · intro hl
      have := hun (hpf.2.1.symm.trans hl)
      exact ⟨by rw [← this.1]; exact congrArg (fun x => unmarshalInto x d) hpf.1,
        by rw [show ({ pm1 with poolLock := false } : PoolManager).pool = pm.pool from hpf.1]
           exact this.2.1, by rw [hw]; exact this.2.2.1, this.2.2.2⟩
    · intro hl
      exact GroupGood_congr _ p g pm _ T hpf.2.2.1 (hlo (hpf.2.1.symm.trans hl))
  · rw [hTf r hnok]
    rw [hp] at hpf
    simp only at hpf
    obtain ⟨_, hpm2, hw2⟩ := acquireLockFile_ok env fuel pm1 pm2 w w2 ha
    have hfile2 : pm2.poolFile = file := by rw [hpm2]; exact hpf.2.2.2.2.2.2.1.trans hfile
    have hpool2 : pm2.pool = pm.pool := by rw [hpm2]; exact hpf.1
    have hload2 : pm2.poolLoaded = pm.poolLoaded := by rw [hpm2]; exact hpf.2.1
    have hlock2 : pm2.poolLock = HasPrefix pm1.poolFile "gs://" := by rw [hpm2]
    cases hl : pm.poolLoaded with
    | true =>
      rw [ensureLoaded_loaded rt env fuel pm2 w2 (hload2.trans hl)] at he
      simp at he
    | false =>
      have hl2 : pm2.poolLoaded = false := hload2.trans hl
      unfold ensureLoaded at he
      rw [if_pos (by simp [hl2])] at he
      obtain ⟨h1, h2, h3, h4⟩ := loadPoolFile_error rt env fuel pm2 pm3 w2 w3 e he
      have hgs : HasPrefix file "gs://" = true := by
        rw [← hfile, ← hpf.2.2.2.2.2.2.1, ← hlock2, ← h3]
        exact hl3
      obtain ⟨hu1, hu2, hu3, hu4⟩ := hun hl
      have hcont : w3.content = w.content := by
        have := loadPoolFile_content rt env fuel pm2 w2
        rw [he] at this
        exact this.trans hw2
      subst hpm
      refine ⟨h2.trans hfile2, rfl, ?_, ?_⟩
      · intro _
        refine ⟨?_, ?_, by rw [hw, hcont]; exact hu3, hu4⟩
        · show unmarshalInto pm3.pool d = _
          rcases h4 with h4 | ⟨pmq, dq, hq, hcq, h4⟩
          · rw [h4, hpool2]; exact hu1
          · have hlq := hloc pm2 pmq hfile2 hgs hq
            rw [hlq, hw2, hu3] at hcq
            simp only [Option.some.injEq, Blob.document.injEq] at hcq
            subst hcq
            rw [h4, hpool2, hu1]
            exact unmarshalInto_idem d
        · show pm3.pool.WF
          rcases h4 with h4 | ⟨pmq, dq, hq, hcq, h4⟩
          · rw [h4, hpool2]; exact hu2
          · rw [h4, hpool2]; exact unmarshalInto_WF _ _ hu2
      · intro hl5
        have : pm3.poolLoaded = true := hl5
        rw [h1, hl2] at this
        exact absurd this (by decide)
  · rw [hp] at hpf
    simp only at hpf
    obtain ⟨_, hpm2, hw2⟩ := acquireLockFile_ok env fuel pm1 pm2 w w2 ha
    have hfile2 : pm2.poolFile = file := by rw [hpm2]; exact hpf.2.2.2.2.2.2.1.trans hfile
    have hpool2 : pm2.pool = pm.pool := by rw [hpm2]; exact hpf.1
    have hload2 : pm2.poolLoaded = pm.poolLoaded := by rw [hpm2]; exact hpf.2.1
    have hlock2 : pm2.poolLock = HasPrefix pm1.poolFile "gs://" := by rw [hpm2]
    have hexp2 : pm2.expandedRanges = pm.expandedRanges := by rw [hpm2]; exact hpf.2.2.1
    obtain ⟨hb1, hb2, hb4, hb3⟩ := hbody pm3 w3 r pm4 w4 hbd
    obtain ⟨he1, _, he3, he4, _⟩ := ensureLoaded_ok rt env fuel pm2 pm3 w2 w3 he
    have hgood3 : GroupGood (unmarshalInto emptyPoolFile d).AllocatedRanges p g pm3 T :=
      ensureLoaded_groupGood rt env fuel file loc d p g pm pm1 pm2 pm3 w w2 w3 T hdistinct hloc
        ⟨hfile, hlock, hun, hlo⟩ hp ha he (hb4.symm.trans hl4)
    subst hpm
    refine ⟨hb2.trans (he3.trans hfile2), rfl, ?_, ?_⟩
    · intro hl5
      have : pm4.poolLoaded = false := hl5
      rw [hb1, he1] at this
      exact absurd this (by decide)
    · intro _
      exact GroupGood_congr _ p g pm4 _ _ rfl (hb3 hgood3)

/-- The invariant of a run is kept by every call that returns. -/
theorem stepCall_inv (rt : Runtime) (env : Env) (fuel : Nat) (file : String) (loc : Loc)
    (d : PoolFile) (p : String) (g : Int) (pm pm1 : PoolManager) (w w1 : World) (call : Call)
    (reply : Reply) (T : List String) (hdistinct : DistinctExpansion rt fuel d p g)
    (hloc : ∀ qm qm1, qm.poolFile = file → HasPrefix file "gs://" = true →
      parsePoolFile rt qm = (.ok (), qm1) → loadLoc qm1 = loc)
    (hinv : RunInv file loc d p g pm w T)
    (h : stepCall rt env fuel pm w call = (reply, pm1, w1)) (hr : reply ≠ .aborted) :
    RunInv file loc d p g pm1 w1 (takenFrom p g [(call, reply)] ++ T) := by
  cases call with
  | allocate poolName poolIndex maskSize name =>
    simp only [stepCall] at h
    rcases hA : AllocateNewNetwork rt env fuel pm w poolName poolIndex maskSize name with
      ⟨o, pmA, wA⟩
    rw [hA] at h
    rw [AllocateNewNetwork_eq_operation] at hA
    have key : (∀ c, o ≠ .crash c) → o ≠ .blocked → o ≠ .outOfFuel →
        RunInv file loc d p g pmA wA (takenAfter p g T poolName poolIndex o) := by
      intro hc hb hf
      refine operation_inv rt env fuel file loc d p g pm pmA w wA _ o T
        (takenAfter p g T poolName poolIndex) ?_ ?_ hdistinct hloc hinv hA hc hb hf
      · intro o1 ho1
        cases o1 with
        | ok a => exact absurd rfl (ho1 a)
        | error e => rfl
        | crash c => rfl
        | blocked => rfl
        | outOfFuel => rfl
      · intro pm3 w3 o1 pm4 w4 hb1
        obtain ⟨t1, t2, t3, _⟩ :=
          allocateBody_table env pm3 pm4 w3 w4 poolName poolIndex maskSize name o1 hb1
        exact ⟨t1, t2, t3, allocateBody_groupGood _ p g env pm3 pm4 w3 w4 poolName poolIndex
          maskSize name o1 T hb1⟩
    cases o with
    | ok a =>
      obtain ⟨c, k⟩ := a
      simp only [Prod.mk.injEq] at h
      obtain ⟨h1, h2, h3⟩ := h
      subst h1 h2 h3
      have := key (fun c => Outcome.noConfusion) Outcome.noConfusion Outcome.noConfusion
      by_cases hpg : poolName = p ∧ poolIndex = g
      · simpa [takenFrom, takenAfter, hpg] using this
      · simpa [takenFrom, takenAfter, hpg] using this
    | error e =>
      simp only [Prod.mk.injEq] at h
      obtain ⟨h1, h2, h3⟩ := h
      subst h1 h2 h3
      have := key (fun c => Outcome.noConfusion) Outcome.noConfusion Outcome.noConfusion
      simpa [takenFrom, takenAfter] using this
    | crash c =>
      simp only [Prod.mk.injEq] at h
      exact absurd h.1.symm hr
    | blocked =>
      simp only [Prod.mk.injEq] at h
      exact absurd h.1.symm hr
    | outOfFuel =>
      simp only [Prod.mk.injEq] at h
      exact absurd h.1.symm hr
  | delete id =>
    simp only [stepCall] at h
    rcases hA : DeleteAllocation rt env fuel pm w id with ⟨o, pmA, wA⟩
    rw [hA] at h
    rw [DeleteAllocation_eq_operation] at hA
    have key : (∀ c, o ≠ .crash c) → o ≠ .blocked → o ≠ .outOfFuel →
        RunInv file loc d p g pmA wA T := by
      intro hc hb hf
      refine operation_inv rt env fuel file loc d p g pm pmA w wA _ o T
        (fun _ => T) (fun _ _ => rfl) ?_ hdistinct hloc hinv hA hc hb hf
      intro pm3 w3 o1 pm4 w4 hb1
      obtain ⟨t1, t2, t3, t4⟩ := deleteBody_table env pm3 pm4 w3 w4 id o1 hb1
      exact ⟨t1, t2, t3, GroupGood_congr _ p g pm3 pm4 T t4⟩
    cases o with
    | ok a =>
      cases a
      simp only [Prod.mk.injEq] at h
      obtain ⟨h1, h2, h3⟩ := h
      subst h1 h2 h3
      have := key (fun c => Outcome.noConfusion) Outcome.noConfusion Outcome.noConfusion
      simpa [takenFrom] using this
    | error e =>
      simp only [Prod.mk.injEq] at h
      obtain ⟨h1, h2, h3⟩ := h
      subst h1 h2 h3
      have := key (fun c => Outcome.noConfusion) Outcome.noConfusion Outcome.noConfusion
      simpa [takenFrom] using this
    | crash c =>
      simp only [Prod.mk.injEq] at h
      exact absurd h.1.symm hr
    | blocked =>
      simp only [Prod.mk.injEq] at h
      exact absurd h.1.symm hr
    | outOfFuel =>
      simp only [Prod.mk.injEq] at h
      exact absurd h.1.symm hr

/-- The taken list of a run, call by call. -/
theorem takenFrom_cons (p : String) (g : Int) (x : Call × Reply) (rest : List (Call × Reply)) :
    takenFrom p g (x :: rest) = takenFrom p g [x] ++ takenFrom p g rest := by
  obtain ⟨call, reply⟩ := x
  cases call with
  | allocate poolName poolIndex maskSize name =>
    cases reply with
    | allocated c k =>
      by_cases hpg : poolName = p ∧ poolIndex = g <;> simp [takenFrom, hpg]
    | deleted => simp [takenFrom]
    | failed e => simp [takenFrom]
    | aborted => simp [takenFrom]
  | delete id => cases reply <;> simp [takenFrom]

/-- The invariant of a run holds after a run whose calls all returned, with
everything the run took from the group in the taken list. -/
theorem runCalls_inv (rt : Runtime) (fuel : Nat) (file : String) (loc : Loc)
    (d : PoolFile) (p : String) (g : Int) (hdistinct : DistinctExpansion rt fuel d p g)
    (hloc : ∀ qm qm1, qm.poolFile = file → HasPrefix file "gs://" = true →
      parsePoolFile rt qm = (.ok (), qm1) → loadLoc qm1 = loc)
    (steps : List (Env × Call)) :
    ∀ (pm : PoolManager) (w : World) (T : List String) (trace : List (Call × Reply))
      (pmJ : PoolManager) (wJ : World), RunInv file loc d p g pm w T →
      runCalls rt fuel pm w steps = (trace, some (pmJ, wJ)) →
      ∃ T1, RunInv file loc d p g pmJ wJ T1 ∧
        ∀ c, c ∈ T ∨ c ∈ takenFrom p g trace → c ∈ T1 := by
  induction steps with
  | nil =>
    intro pm w T trace pmJ wJ hinv h
    simp only [runCalls, Prod.mk.injEq, Option.some.injEq] at h
    obtain ⟨h1, h2, h3⟩ := h
    subst h1 h2 h3
    exact ⟨T, hinv, fun c hc => hc.elim id (fun x => by simp [takenFrom] at x)⟩
  | cons s rest ih =>
    intro pm w T trace pmJ wJ hinv h
    obtain ⟨env, call⟩ := s
    unfold runCalls at h
    rcases hs : stepCall rt env fuel pm w call with ⟨reply, pm1, w1⟩
    rw [hs] at h
    have hr : reply ≠ .aborted := by
      intro hr
      subst hr
      simp at h
    have h2 : ((call, reply) :: (runCalls rt fuel pm1 w1 rest).1,
        (runCalls rt fuel pm1 w1 rest).2) = (trace, some (pmJ, wJ)) := by
      cases reply with
      | aborted => exact absurd rfl hr
      | allocated c k => exact h
      | deleted => exact h
      | failed e => exact h
    simp only [Prod.mk.injEq] at h2
    obtain ⟨ht, hrest⟩ := h2
    have hinv1 := stepCall_inv rt env fuel file loc d p g pm pm1 w w1 call reply T hdistinct
      hloc hinv hs hr
    obtain ⟨T1, hT1, hsub⟩ := ih pm1 w1 _ (runCalls rt fuel pm1 w1 rest).1 pmJ wJ hinv1
      (Prod.ext rfl hrest)
    refine ⟨T1, hT1, ?_⟩
    intro c hc
    apply hsub
    rw [← ht, takenFrom_cons] at hc
    simp only [List.mem_append] at hc ⊢
    tauto

/-- The range expansion never fails with `allocation not found`. -/
theorem expandRange_not_notFound (rt : Runtime) (fuel : Nat) (reverse : GoMap String)
    (rr : String) (res : List String) (id : String) :
    expandRange rt fuel reverse rr res ≠ .error (.allocationNotFound id) := by
  unfold expandRange
  repeat' split
  all_goals simp

theorem expandGroup_not_notFound (rt : Runtime) (fuel : Nat) (reverse : GoMap String)
    (id : String) (r : List String) :
    ∀ res, expandGroup rt fuel reverse r res ≠ .error (.allocationNotFound id) := by
  induction r with
  | nil => intro res; simp [expandGroup]
  | cons rr rest ih =>
    intro res
    unfold expandGroup
    have h := expandRange_not_notFound rt fuel reverse rr res id
    cases hr : expandRange rt fuel reverse rr res with
    | ok res1 => exact ih res1
    | error e => rw [hr] at h; simpa using h
    | crash c => simp
    | blocked => simp
    | outOfFuel => simp

theorem expandPool_not_notFound (rt : Runtime) (fuel : Nat) (reverse : GoMap String)
    (id : String) (v : List (List String)) :
    (expandPool rt fuel reverse v).2 ≠ .error (.allocationNotFound id) := by
  induction v with
  | nil => simp [expandPool]
  | cons r rest ih =>
    unfold expandPool
    have h := expandGroup_not_notFound rt fuel reverse id r []
    cases hr : expandGroup rt fuel reverse r [] with
    | ok res => exact ih
    | error e => rw [hr] at h; simpa using h
    | crash c => simp
    | blocked => simp
    | outOfFuel => simp

theorem expandPools_not_notFound (rt : Runtime) (fuel : Nat) (reverse : GoMap String)
    (id : String) (pools : GoMap (List (List String))) :
    ∀ acc, (expandPools rt fuel reverse pools acc).2 ≠ .error (.allocationNotFound id) := by
  induction pools with
  | nil => intro acc; simp [expandPools]
  | cons e rest ih =>
    intro acc
    obtain ⟨k, v⟩ := e
    unfold expandPools
    have h := expandPool_not_notFound rt fuel reverse id v
    rcases hr : expandPool rt fuel reverse v with ⟨groups, o⟩
    rw [hr] at h
    cases o with
    | ok u => cases u; exact ih _
    | error e => simpa using h
    | crash c => simp
    | blocked => simp
    | outOfFuel => simp

theorem parsePoolFile_not_notFound (rt : Runtime) (pm : PoolManager) (id : String) :
    (parsePoolFile rt pm).1 ≠ .error (.allocationNotFound id) := by
  unfold parsePoolFile
  repeat' split
  all_goals simp

theorem loadPoolFile_not_notFound (rt : Runtime) (env : Env) (fuel : Nat) (pm : PoolManager)
    (w : World) (id : String) :
    (loadPoolFile rt env fuel pm w).1 ≠ .error (.allocationNotFound id) := by
  unfold loadPoolFile
  have hp := parsePoolFile_not_notFound rt pm id
  rcases hq : parsePoolFile rt pm with ⟨o, pm1⟩
  rw [hq] at hp
  cases o with
  | ok u =>
    cases u
    simp only
    cases env.readErr with
    | some e => simp
    | none =>
      simp only
      cases w.content (loadLoc pm1) with
      | none => simp
      | some b =>
        cases b with
        | malformed => simp
        | document d =>
          simp only
          have h := expandPools_not_notFound rt fuel
            (reverseMap (unmarshalInto pm1.pool d).AllocatedRanges) id
            (nilEntries (unmarshalInto pm1.pool d).IpPools) []
          split
          · simp
          · rename_i o hne
            exact h
  | error e => simpa using hp
  | crash c => simp
  | blocked => simp
  | outOfFuel => simp

theorem acquireLoop_not_notFound (env : Env) (pm : PoolManager) (startTime : Int) (id : String)
    (fuel : Nat) : ∀ n log,
    (acquireLoop env pm startTime fuel n log).1 ≠ .error (.allocationNotFound id) := by
  induction fuel with
  | zero => intro n log; simp [acquireLoop]
  | succ fuel ih =>
    intro n log
    unfold acquireLoop
    cases env.lockClient n with
    | some e => simp
    | none =>
      simp only
      cases env.lockCreate n with
      | none => simp
      | some e =>
        simp only
        split
        · simp
        · split
          · simp
          · exact ih _ _

theorem acquireLockFile_not_notFound (env : Env) (fuel : Nat) (pm : PoolManager) (w : World)
    (id : String) : (acquireLockFile env fuel pm w).1 ≠ .error (.allocationNotFound id) := by
  unfold acquireLockFile
  split
  · simp
  · split
    · simp
    · have h := acquireLoop_not_notFound env pm (env.now 0) id fuel 0 w.log
      rcases hq : acquireLoop env pm (env.now 0) fuel 0 w.log with ⟨o, log⟩
      rw [hq] at h
      cases o with
      | ok u => cases u; simp
      | error e => simpa using h
      | crash c => simp
      | blocked => simp
      | outOfFuel => simp

theorem ensureLoaded_not_notFound (rt : Runtime) (env : Env) (fuel : Nat) (pm : PoolManager)
    (w : World) (id : String) :
    (ensureLoaded rt env fuel pm w).1 ≠ .error (.allocationNotFound id) := by
  unfold ensureLoaded
  split
  · exact loadPoolFile_not_notFound rt env fuel pm w id
  · simp

/-- An operation that returned its result, a not-found error, or an error after
getting past the loading, ran its body with the mutex held. -/
theorem operation_reached {α : Type} (rt : Runtime) (env : Env) (fuel : Nat)
    (pm pm' : PoolManager) (w w' : World)
    (body : PoolManager → World → Outcome α × PoolManager × World) (r : Outcome α)
    (h : operation rt env fuel pm w body = (r, pm', w'))
    (hr : (∃ a, r = .ok a) ∨ (∃ id, r = .error (.allocationNotFound id)) ∨
      ((∃ e, r = .error e) ∧ reachesBody rt env fuel pm w = true)) :
    ∃ pm1 pm2 w2 pm3 w3 pm4 w4, parsePoolFile rt pm = (.ok (), pm1) ∧
      acquireLockFile env fuel pm1 w = (.ok (), pm2, w2) ∧
      ensureLoaded rt env fuel pm2 w2 = (.ok (), pm3, w3) ∧
      body pm3 w3 = (r, pm4, w4) ∧ pm4.poolLock = true ∧
      pm' = { pm4 with poolLock := false } ∧ w'.content = w4.content := by
  have hc : ∀ c, r ≠ .crash c := by
    rcases hr with ⟨a, rfl⟩ | ⟨id, rfl⟩ | ⟨⟨e, rfl⟩, _⟩ <;> intro c <;> exact Outcome.noConfusion
  have hb : r ≠ .blocked := by
    rcases hr with ⟨a, rfl⟩ | ⟨id, rfl⟩ | ⟨⟨e, rfl⟩, _⟩ <;> exact Outcome.noConfusion
  have hf : r ≠ .outOfFuel := by
    rcases hr with ⟨a, rfl⟩ | ⟨id, rfl⟩ | ⟨⟨e, rfl⟩, _⟩ <;> exact Outcome.noConfusion
  -- an error of an earlier stage is none of the three
  have early : ∀ e : Err, r = .error e → (∀ id, e ≠ .allocationNotFound id) →
      reachesBody rt env fuel pm w = false → False := by
    intro e he hne hrb
    rcases hr with ⟨a, rfl⟩ | ⟨id, rfl⟩ | ⟨_, hrb1⟩
    · exact Outcome.noConfusion he
    · simp only [Outcome.error.injEq] at he
      exact hne id he.symm
    · rw [hrb] at hrb1
      exact absurd hrb1 (by decide)
  unfold operation at h
  have hnf := parsePoolFile_not_notFound rt pm
  rcases hp : parsePoolFile rt pm with ⟨o, pm1⟩
  rw [hp] at h hnf
  cases o with
  | ok u =>
    cases u
    simp only at h
    have haq := acquireLockFile_not_notFound env fuel pm1 w
    rcases ha : acquireLockFile env fuel pm1 w with ⟨o2, pm2, w2⟩
    rw [ha] at h haq
    cases o2 with
    | ok u =>
      cases u
      simp only at h
      have hen := ensureLoaded_not_notFound rt env fuel pm2 w2
      rcases he : ensureLoaded rt env fuel pm2 w2 with ⟨o3, pm3, w3⟩
      rw [he] at h hen
      cases o3 with
      | ok u =>
        cases u
        simp only at h
        rcases hbd : body pm3 w3 with ⟨o4, pm4, w4⟩
        rw [hbd] at h
        obtain ⟨h1, h2, h3, h4⟩ := withRelease_returns env o4 r pm4 pm' w4 w' h hc hb hf
        subst h1
        exact ⟨pm1, pm2, w2, pm3, w3, pm4, w4, rfl, ha, he, hbd, h2, h3, h4⟩
      | error e =>
        simp only [Outcome.carry] at h
        obtain ⟨h1, _⟩ := withRelease_returns env _ r pm3 pm' w3 w' h hc hb hf
        exact (early e h1.symm (fun id hid => hen id (by rw [hid]))
          (by simp [reachesBody, hp, ha, he])).elim
      | crash c =>
        simp only [Outcome.carry] at h
        obtain ⟨h1, _⟩ := withRelease_returns env _ r pm3 pm' w3 w' h hc hb hf
        exact absurd h1.symm (hc c)
      | blocked =>
        simp only [Outcome.carry] at h
        obtain ⟨h1, _⟩ := withRelease_returns env _ r pm3 pm' w3 w' h hc hb hf
        exact absurd h1.symm hb
      | outOfFuel =>
        simp only [Outcome.carry] at h
        obtain ⟨h1, _⟩ := withRelease_returns env _ r pm3 pm' w3 w' h hc hb hf
        exact absurd h1.symm hf
    | error e =>
      simp only [Outcome.carry, Prod.mk.injEq] at h
      exact (early e h.1.symm (fun id hid => haq id (by rw [hid]))
        (by simp [reachesBody, hp, ha])).elim
    | crash c => simp only [Outcome.carry, Prod.mk.injEq] at h; exact absurd h.1.symm (hc c)
    | blocked => simp only [Outcome.carry, Prod.mk.injEq] at h; exact absurd h.1.symm hb
    | outOfFuel => simp only [Outcome.carry, Prod.mk.injEq] at h; exact absurd h.1.symm hf
  | error e =>
    simp only [Outcome.carry, Prod.mk.injEq] at h
    exact (early e h.1.symm (fun id hid => hnf id (by rw [hid]))
      (by simp [reachesBody, hp])).elim
  | crash c => simp only [Outcome.carry, Prod.mk.injEq] at h; exact absurd h.1.symm (hc c)
  | blocked => simp only [Outcome.carry, Prod.mk.injEq] at h; exact absurd h.1.symm hb
  | outOfFuel => simp only [Outcome.carry, Prod.mk.injEq] at h; exact absurd h.1.symm hf

theorem GoMap.get?_delete_self {ν : Type} (k : String) (m : GoMap ν) :
    GoMap.get? k (GoMap.delete k m) = none := by
  induction m with
  | nil => rfl
  | cons e m ih =>
    unfold GoMap.delete at ih ⊢
    by_cases he : e.1 = k
    · simp only [List.filter, he, ne_eq, not_true_eq_false, decide_False]
      exact ih
    · simp only [List.filter, he, ne_eq, not_false_eq_true, decide_True, GoMap.get?, if_false]
      exact ih

theorem GoMap.get?_delete_ne {ν : Type} (k k1 : String) (m : GoMap ν) (h : k1 ≠ k) :
    GoMap.get? k1 (GoMap.delete k m) = GoMap.get? k1 m := by
  induction m with
  | nil => rfl
  | cons e m ih =>
    unfold GoMap.delete at ih ⊢
    by_cases he : e.1 = k
    · have hk : ¬ k = k1 := fun x => h x.symm
      simp only [List.filter, he, ne_eq, not_true_eq_false, decide_False, GoMap.get?, hk,
        if_false]
      exact ih
    · simp only [List.filter, he, ne_eq, not_false_eq_true, decide_True, GoMap.get?]
      rw [ih]

/-- Whatever the body of `DeleteAllocation` returns, the key is not in the
allocated map afterwards; the loaded flag and the location are kept. -/
theorem deleteBody_removes (env : Env) (pm pm' : PoolManager) (w w' : World) (id : String)
    (r : Outcome Unit) (h : deleteBody env pm w id = (r, pm', w')) :
    nilGet pm'.pool.AllocatedRanges id = none := by
  unfold deleteBody at h
  cases hg : nilGet pm.pool.AllocatedRanges id with
  | none =>
    simp only [hg, Prod.mk.injEq] at h
    rw [← h.2.1]
    exact hg
  | some c =>
    simp only [hg] at h
    have key : nilGet (pm.pool.AllocatedRanges.map (GoMap.delete id)) id = none := by
      cases pm.pool.AllocatedRanges with
      | none => rfl
      | some m => exact GoMap.get?_delete_self id m
    rcases hs : savePoolFile env _ w with ⟨o, w1⟩
    rw [hs] at h
    cases o <;> simp only [Prod.mk.injEq] at h <;> rw [← h.2.1] <;> exact key

/-- On a loaded manager whose mutex is free and whose location parses,
`GetAllocation` is the map lookup. -/
theorem GetAllocation_loaded (rt : Runtime) (env : Env) (fuel : Nat) (pm : PoolManager)
    (w : World) (id : String) (hl : pm.poolLoaded = true) (hk : pm.poolLock = false)
    (hp : (parsePoolFile rt pm).1 = .ok ()) :
    (GetAllocation rt env fuel pm w id).1 = getBody pm id := by
  have hf := parsePoolFile_fields rt pm
  rcases hq : parsePoolFile rt pm with ⟨o, q⟩
  rw [hq] at hp hf
  simp only at hp hf
  subst hp
  unfold GetAllocation
  rw [hq]
  have hq1 : q.poolLoaded = true := by rw [hf.2.1]; exact hl
  have hq2 : q.poolLock = false := by rw [hf.2.2.2.2.1]; exact hk
  simp only [hq1, hq2, not_true_eq_false, if_false, Bool.false_eq_true]
  unfold getBody
  rw [hf.1]

/-- What the body of `AllocateNewNetwork` does to the table and the document:
nothing; or it removes one candidate from the table, and then either leaves the
document or writes that candidate under the allocation key. -/
theorem allocateBody_effect (env : Env) (pm pm' : PoolManager) (w w' : World) (poolName : String)
    (poolIndex maskSize : Int) (name : String) (r : Outcome (String × String))
    (h : allocateBody env pm w poolName poolIndex maskSize name = (r, pm', w')) :
    (pm'.expandedRanges = pm.expandedRanges ∧ pm'.pool = pm.pool) ∨
    ∃ groups idx, nilGet pm.expandedRanges poolName = some groups ∧ 0 < poolIndex ∧
      poolIndex ≤ groups.length ∧
      (groups.getD (poolIndex - 1).toNat []).findIdx? (maskMatches maskSize) = some idx ∧
      pm'.expandedRanges = pm.expandedRanges.map (GoMap.set poolName
        (groups.set (poolIndex - 1).toNat
          ((groups.getD (poolIndex - 1).toNat []).eraseIdx idx))) ∧
      (pm'.pool = pm.pool ∨ ∃ ranges, pm.pool.AllocatedRanges = some ranges ∧
        pm'.pool = { pm.pool with AllocatedRanges := some (GoMap.set (allocationKey pm.id name)
          ((groups.getD (poolIndex - 1).toNat []).getD idx "") ranges) }) := by
  unfold allocateBody at h
  cases hg : nilGet pm.expandedRanges poolName with
  | none =>
    rw [hg] at h
    simp only [Prod.mk.injEq] at h
    obtain ⟨_, hpm, _⟩ := h
    subst hpm
    exact Or.inl ⟨rfl, rfl⟩
  | some groups =>
    rw [hg] at h
    dsimp only at h
    by_cases h1 : poolIndex = 0 ∨ poolIndex > groups.length
    · rw [if_pos h1] at h
      simp only [Prod.mk.injEq] at h
      obtain ⟨_, hpm, _⟩ := h
      subst hpm
      exact Or.inl ⟨rfl, rfl⟩
    · rw [if_neg h1] at h
      by_cases h2 : poolIndex < 0
      · rw [if_pos h2] at h
        simp only [Prod.mk.injEq] at h
        obtain ⟨_, hpm, _⟩ := h
        subst hpm
        exact Or.inl ⟨rfl, rfl⟩
      · rw [if_neg h2] at h
        cases hf : (groups.getD (poolIndex - 1).toNat []).findIdx? (maskMatches maskSize) with
        | none =>
          rw [hf] at h
          simp only [Prod.mk.injEq] at h
          obtain ⟨_, hpm, _⟩ := h
          subst hpm
          exact Or.inl ⟨rfl, rfl⟩
        | some idx =>
          rw [hf] at h
          dsimp only at h
          have hpos : 0 < poolIndex := by omega
          have hle : poolIndex ≤ groups.length := by omega
          by_cases h3 : (groups.getD (poolIndex - 1).toNat []).getD idx "" = ""
          · rw [if_pos h3] at h
            simp only [Prod.mk.injEq] at h
            obtain ⟨_, hpm, _⟩ := h
            subst hpm
            exact Or.inr ⟨groups, idx, rfl, hpos, hle, hf, rfl, Or.inl rfl⟩
          · rw [if_neg h3] at h
            cases hr : pm.allocatedRanges with
            | none =>
              rw [hr] at h
              simp only [Prod.mk.injEq] at h
              obtain ⟨_, hpm, _⟩ := h
              subst hpm
              exact Or.inr ⟨groups, idx, rfl, hpos, hle, hf, rfl, Or.inl rfl⟩
            | some reverse =>
              rw [hr] at h
              dsimp only at h
              cases ha : pm.pool.AllocatedRanges with
              | none =>
                rw [ha] at h
                simp only [Prod.mk.injEq] at h
                obtain ⟨_, hpm, _⟩ := h
                subst hpm
                exact Or.inr ⟨groups, idx, rfl, hpos, hle, hf, rfl, Or.inl rfl⟩
              | some ranges =>
                rw [ha] at h
                dsimp only at h
                split at h <;>
                  (simp only [Prod.mk.injEq] at h
                   obtain ⟨_, hpm, _⟩ := h
                   subst hpm
                   exact Or.inr ⟨groups, idx, rfl, hpos, hle, hf, rfl, Or.inr ⟨ranges, rfl, rfl⟩⟩)

/-- What the body of `DeleteAllocation` leaves in the allocated map was there before. -/
theorem deleteBody_submap (env : Env) (pm pm' : PoolManager) (w w' : World) (id : String)
    (r : Outcome Unit) (h : deleteBody env pm w id = (r, pm', w')) (k c : String)
    (hk : nilGet pm'.pool.AllocatedRanges k = some c) :
    nilGet pm.pool.AllocatedRanges k = some c := by
  unfold deleteBody at h
  cases hg : nilGet pm.pool.AllocatedRanges id with
  | none =>
    simp only [hg, Prod.mk.injEq] at h
    rw [← h.2.1] at hk
    exact hk
  | some c0 =>
    simp only [hg] at h
    have key : nilGet (pm.pool.AllocatedRanges.map (GoMap.delete id)) k = some c →
        nilGet pm.pool.AllocatedRanges k = some c := by
      cases pm.pool.AllocatedRanges with
      | none => exact fun hx => hx
      | some m =>
        intro hx
        by_cases hkid : k = id
        · subst hkid
          have := GoMap.get?_delete_self k m
          simp only [Option.map, nilGet] at hx
          rw [this] at hx
          exact absurd hx (by simp)
        · simp only [Option.map, nilGet] at hx ⊢
          rw [GoMap.get?_delete_ne id k m hkid] at hx
          exact hx
    rcases hs : savePoolFile env _ w with ⟨o, w1⟩
    rw [hs] at h
    cases o <;> simp only [Prod.mk.injEq] at h <;> rw [← h.2.1] at hk <;> exact key hk

/-- An entry that a map read finds splits the list; a write of that key replaces it in place. -/
theorem GoMap.split_of_get? {ν : Type} (k : String) (v : ν) (m : GoMap ν)
    (h : GoMap.get? k m = some v) :
    ∃ m1 m2, m = m1 ++ (k, v) :: m2 ∧ ∀ v1, GoMap.set k v1 m = m1 ++ (k, v1) :: m2 := by
  induction m with
  | nil => simp [GoMap.get?] at h
  | cons e m ih =>
    by_cases he : e.1 = k
    · simp only [GoMap.get?, he, if_true, Option.some.injEq] at h
      refine ⟨[], m, ?_, ?_⟩
      · obtain ⟨e1, e2⟩ := e
        simp only at he h
        subst he h
        rfl
      · intro v1
        simp [GoMap.set, he]
    · simp only [GoMap.get?, he, if_false] at h
      obtain ⟨m1, m2, h1, h2⟩ := ih h
      refine ⟨e :: m1, m2, by rw [h1]; rfl, ?_⟩
      intro v1
      simp only [GoMap.set, he, if_false, h2 v1]
      rfl

/-- A list around its element at `i`. -/
theorem list_split_at {α : Type} (l : List α) (i : Nat) (h : i < l.length) :
    l = l.take i ++ l[i] :: l.drop (i + 1) := by
  rw [← List.drop_eq_getElem_cons h, List.take_append_drop]

/-- Removing the candidate at `idx` of group `poolIndex` of pool `poolName` from the
table removes one occurrence of it from the list of all candidates. -/
theorem tableCandidates_update (pm pm' : PoolManager) (poolName : String) (poolIndex : Int)
    (groups : List (List String)) (idx : Nat)
    (hg : nilGet pm.expandedRanges poolName = some groups) (hpos : 0 < poolIndex)
    (hle : poolIndex ≤ groups.length)
    (hidx : idx < (groups.getD (poolIndex - 1).toNat []).length)
    (h : pm'.expandedRanges = pm.expandedRanges.map (GoMap.set poolName
      (groups.set (poolIndex - 1).toNat ((groups.getD (poolIndex - 1).toNat []).eraseIdx idx)))) :
    ∃ L1 L2, tableCandidates pm = L1 ++ (groups.getD (poolIndex - 1).toNat []).getD idx "" :: L2 ∧
      tableCandidates pm' = L1 ++ L2 := by
  have hi : (poolIndex - 1).toNat < groups.length := by omega
  generalize (poolIndex - 1).toNat = i at *
  have hgi : groups.getD i [] = groups[i] := List.getD_eq_getElem _ _ hi
  rw [hgi] at hidx h ⊢
  generalize hgdef : groups[i] = g at *
  have hc : g.getD idx "" = g[idx] := List.getD_eq_getElem _ _ hidx
  rw [hc]
  cases hm : pm.expandedRanges with
  | none => rw [hm] at hg; simp [nilGet] at hg
  | some m =>
    rw [hm] at hg h
    simp only [nilGet] at hg
    obtain ⟨m1, m2, hsplit, hset⟩ := GoMap.split_of_get? poolName groups m hg
    simp only [Option.map] at h
    rw [hset] at h
    refine ⟨(m1.map (fun e => e.2.flatten)).flatten ++ (groups.take i).flatten ++ g.take idx,
      g.drop (idx + 1) ++ (groups.drop (i + 1)).flatten ++ (m2.map (fun e => e.2.flatten)).flatten,
      ?_, ?_⟩
    · unfold tableCandidates
      rw [hm]
      simp only [nilEntries, Option.getD]
      rw [hsplit]
      simp only [List.map_append, List.map_cons, List.flatten_append, List.flatten_cons]
      conv_lhs => rw [list_split_at groups i hi, hgdef]
      simp only [List.flatten_append, List.flatten_cons]
      conv_lhs => rw [list_split_at g idx hidx]
      simp only [List.append_assoc, List.cons_append]
    · unfold tableCandidates
      rw [h]
      simp only [nilEntries, Option.getD]
      simp only [List.map_append, List.map_cons, List.flatten_append, List.flatten_cons]
      rw [List.set_eq_take_append_cons_drop, if_pos hi, List.eraseIdx_eq_take_drop_succ]
      simp only [List.flatten_append, List.flatten_cons, List.append_assoc]

theorem overlaps_comm (rt : Runtime) (a b : String) : overlaps rt a b = overlaps rt b a := by
  unfold overlaps
  cases cidrBlock rt a <;> cases cidrBlock rt b <;> simp only
  exact decide_eq_decide.2 And.comm

theorem Separated_congr (rt : Runtime) (pm pm' : PoolManager) (hp : pm'.pool = pm.pool)
    (ht : pm'.expandedRanges = pm.expandedRanges) (h : Separated rt pm) : Separated rt pm' := by
  unfold Separated tableCandidates at *
  rw [hp, ht]
  exact h

/-- The body of `AllocateNewNetwork` keeps allocation values and candidates
pairwise non-overlapping. -/
theorem allocateBody_separated (rt : Runtime) (env : Env) (pm pm' : PoolManager) (w w' : World)
    (poolName : String) (poolIndex maskSize : Int) (name : String)
    (r : Outcome (String × String))
    (h : allocateBody env pm w poolName poolIndex maskSize name = (r, pm', w'))
    (hs : Separated rt pm) : Separated rt pm' := by
  rcases allocateBody_effect env pm pm' w w' poolName poolIndex maskSize name r h with
    ⟨ht, hp⟩ | ⟨groups, idx, hg, hpos, hle, hfind, ht, hpool⟩
  · exact Separated_congr rt pm pm' hp ht hs
  · obtain ⟨h1, _, _⟩ := findIdx?_some_spec (maskMatches maskSize) _ idx "" hfind
    have hidx : idx < (groups.getD (poolIndex - 1).toNat []).length :=
      (List.getElem?_eq_some_iff.1 h1).1
    obtain ⟨L1, L2, hold, hnew⟩ :=
      tableCandidates_update pm pm' poolName poolIndex groups idx hg hpos hle hidx ht
    generalize (groups.getD (poolIndex - 1).toNat []).getD idx "" = c at *
    obtain ⟨s1, s2, s3⟩ := hs
    rw [hold] at s2 s3
    have hsub : ∀ x, x ∈ L1 ++ L2 → x ∈ L1 ++ c :: L2 := by
      intro x hx
      simp only [List.mem_append, List.mem_cons] at hx ⊢
      tauto
    have hcx : ∀ x, x ∈ L1 ++ L2 → overlaps rt c x = false := by
      intro x hx
      rw [List.pairwise_append] at s3
      obtain ⟨_, s32, s33⟩ := s3
      rcases List.mem_append.1 hx with hx1 | hx2
      · rw [overlaps_comm]
        exact s33 x hx1 c (List.mem_cons_self _ _)
      · exact (List.pairwise_cons.1 s32).1 x hx2
    have s3new : (L1 ++ L2).Pairwise (fun a b => overlaps rt a b = false) :=
      List.Pairwise.sublist (List.Sublist.append_left (List.sublist_cons_self c L2) L1) s3
    rcases hpool with hp | ⟨ranges, hr, hp⟩
    · unfold Separated
      rw [hnew, hp]
      exact ⟨s1, fun k v hk x hx => s2 k v hk x (hsub x hx), s3new⟩
    · have hget : ∀ k v, nilGet pm'.pool.AllocatedRanges k = some v →
          (k = allocationKey pm.id name ∧ v = c) ∨
          (k ≠ allocationKey pm.id name ∧ nilGet pm.pool.AllocatedRanges k = some v) := by
        intro k v hk
        rw [hp] at hk
        simp only [nilGet] at hk
        by_cases hkk : k = allocationKey pm.id name
        · subst hkk
          rw [GoMap.get?_set_self] at hk
          exact Or.inl ⟨rfl, (Option.some.inj hk).symm⟩
        · rw [GoMap.get?_set_ne _ _ _ _ hkk] at hk
          refine Or.inr ⟨hkk, ?_⟩
          rw [hr]
          exact hk
      unfold Separated
      rw [hnew]
      refine ⟨?_, ?_, s3new⟩
      · intro k1 k2 c1 c2 hne hk1 hk2
        rcases hget k1 c1 hk1 with ⟨e1, v1⟩ | ⟨n1, o1⟩ <;>
          rcases hget k2 c2 hk2 with ⟨e2, v2⟩ | ⟨n2, o2⟩
        · exact absurd (e1.trans e2.symm) hne
        · rw [v1, overlaps_comm]
          exact s2 k2 c2 o2 c (by simp)
        · rw [v2]
          exact s2 k1 c1 o1 c (by simp)
        · exact s1 k1 k2 c1 c2 hne o1 o2
      · intro k v hk x hx
        rcases hget k v hk with ⟨_, v1⟩ | ⟨_, o1⟩
        · rw [v1]
          exact hcx x hx
        · exact s2 k v o1 x (hsub x hx)

/-- The body of `DeleteAllocation` keeps allocation values and candidates pairwise
non-overlapping. -/
theorem deleteBody_separated (rt : Runtime) (env : Env) (pm pm' : PoolManager) (w w' : World)
    (id : String) (r : Outcome Unit) (h : deleteBody env pm w id = (r, pm', w'))
    (hs : Separated rt pm) : Separated rt pm' := by
  obtain ⟨_, _, _, ht⟩ := deleteBody_table env pm pm' w w' id r h
  have hsub := deleteBody_submap env pm pm' w w' id r h
  obtain ⟨s1, s2, s3⟩ := hs
  unfold Separated tableCandidates at *
  rw [ht]
  exact ⟨fun k1 k2 c1 c2 hne h1 h2 => s1 k1 k2 c1 c2 hne (hsub _ _ h1) (hsub _ _ h2),
    fun k c hk => s2 k c (hsub _ _ hk), s3⟩

/-- The body of `AllocateNewNetwork` only removes candidates from groups. -/
theorem allocateBody_within (env : Env) (pm0 pm pm' : PoolManager) (w w' : World)
    (poolName : String) (poolIndex maskSize : Int) (name : String)
    (r : Outcome (String × String))
    (h : allocateBody env pm w poolName poolIndex maskSize name = (r, pm', w'))
    (hw : TableWithin pm0 pm) : TableWithin pm0 pm' := by
  obtain ⟨_, _, _, htab⟩ := allocateBody_table env pm pm' w w' poolName poolIndex maskSize name r h
  intro p g cand hc
  rcases htab with ⟨hsame, _⟩ | ⟨groups, idx, hg, hpos, hle, _, hupd, _⟩
  · rw [groupCandidates_congr pm pm' p g hsame] at hc
    exact hw p g cand hc
  · rcases groupCandidates_update pm pm' poolName poolIndex groups idx p g hg hpos hle hupd with
      ⟨_, _, hold, hnew⟩ | ⟨_, hsame⟩
    · rw [hnew] at hc
      obtain ⟨cand0, h0, hs0⟩ := hw p g _ hold
      refine ⟨cand0, h0, List.Sublist.trans ?_ hs0⟩
      rw [← Option.some.inj hc]
      exact List.eraseIdx_sublist _ _
    · rw [hsame] at hc
      exact hw p g cand hc

/-- On a loaded manager, an operation that returns keeps every property of the
document and the table that its body keeps. -/
theorem operation_kept {α : Type} (rt : Runtime) (env : Env) (fuel : Nat)
    (pm pm' : PoolManager) (w w' : World)
    (body : PoolManager → World → Outcome α × PoolManager × World) (r : Outcome α)
    (P : PoolManager → Prop)
    (hP : ∀ q q1 : PoolManager, q1.pool = q.pool → q1.expandedRanges = q.expandedRanges →
      P q → P q1)
    (hbody : ∀ pm3 w3 o pm4 w4, body pm3 w3 = (o, pm4, w4) →
      pm4.poolLoaded = pm3.poolLoaded ∧ (P pm3 → P pm4))
    (hl : pm.poolLoaded = true) (hPpm : P pm)
    (h : operation rt env fuel pm w body = (r, pm', w'))
    (hc : ∀ c, r ≠ .crash c) (hb : r ≠ .blocked) (hf : r ≠ .outOfFuel) :
    pm'.poolLoaded = true ∧ P pm' := by
  have hpf := parsePoolFile_fields rt pm
  rcases operation_returns rt env fuel pm pm' w w' body r h hc hb hf with
    ⟨hpm, hw, hnok⟩ | ⟨pm1, hp, hpm, hw, hnok⟩ |
    ⟨pm1, pm2, w2, pm3, w3, e, hp, ha, he, hl3, hpm, hw, hnok⟩ |
    ⟨pm1, pm2, w2, pm3, w3, pm4, w4, hp, ha, he, hbd, hl4, hpm, hw⟩
  · subst hpm
    exact ⟨hpf.2.1.trans hl, hP pm _ hpf.1 hpf.2.2.1 hPpm⟩
  · rw [hp] at hpf
    simp only at hpf
    subst hpm
    exact ⟨hpf.2.1.trans hl, hP pm _ hpf.1 hpf.2.2.1 hPpm⟩
  · rw [hp] at hpf
    simp only at hpf
    obtain ⟨_, hpm2, _⟩ := acquireLockFile_ok env fuel pm1 pm2 w w2 ha
    have hload2 : pm2.poolLoaded = true := by rw [hpm2]; exact hpf.2.1.trans hl
    rw [ensureLoaded_loaded rt env fuel pm2 w2 hload2] at he
    simp at he
  · rw [hp] at hpf
    simp only at hpf
    obtain ⟨_, hpm2, _⟩ := acquireLockFile_ok env fuel pm1 pm2 w w2 ha
    have hload2 : pm2.poolLoaded = true := by rw [hpm2]; exact hpf.2.1.trans hl
    rw [ensureLoaded_loaded rt env fuel pm2 w2 hload2] at he
    simp only [Prod.mk.injEq, true_and] at he
    obtain ⟨h32, _⟩ := he
    subst h32
    obtain ⟨hb1, hb2⟩ := hbody pm2 w3 r pm4 w4 hbd
    have hP2 : P pm2 := hP pm pm2 (by rw [hpm2]; exact hpf.1) (by rw [hpm2]; exact hpf.2.2.1) hPpm
    subst hpm
    exact ⟨hb1.trans hload2, hP pm4 _ rfl rfl (hb2 hP2)⟩

theorem groupCandidates_of_groups (pm : PoolManager) (p : String) (g : Int)
    (groups : List (List String)) (hg : nilGet pm.expandedRanges p = some groups)
    (hpos : 0 < g) (hle : g ≤ groups.length) :
    groupCandidates pm p g = some (groups.getD (g - 1).toNat []) := by
  unfold groupCandidates
  rw [hg]
  have hi : (g - 1).toNat < groups.length := by omega
  simp only
  rw [if_pos (by omega), List.getD_eq_getElem _ _ hi, List.getElem?_eq_getElem hi]

theorem TableWithin_congr (pm0 pm pm' : PoolManager)
    (ht : pm'.expandedRanges = pm.expandedRanges) (h : TableWithin pm0 pm) :
    TableWithin pm0 pm' := by
  intro p g cand hc
  rw [groupCandidates_congr pm pm' p g ht] at hc
  exact h p g cand hc

/-- On a loaded manager, every call that returns keeps allocation values and
candidates pairwise non-overlapping and the table within the table of `pm0`; a
CIDR it allocates is a candidate of `pm0` in the pool and group of the call. -/
theorem stepCall_separated (rt : Runtime) (env : Env) (fuel : Nat) (pm0 pm pm1 : PoolManager)
    (w w1 : World) (call : Call) (reply : Reply) (hl : pm.poolLoaded = true)
    (hs : Separated rt pm) (hw : TableWithin pm0 pm)
    (h : stepCall rt env fuel pm w call = (reply, pm1, w1)) (hr : reply ≠ .aborted) :
    pm1.poolLoaded = true ∧ Separated rt pm1 ∧ TableWithin pm0 pm1 ∧
    (∀ poolName poolIndex maskSize name c key,
      call = Call.allocate poolName poolIndex maskSize name → reply = Reply.allocated c key →
      ∃ cand, groupCandidates pm0 poolName poolIndex = some cand ∧ c ∈ cand) := by
  have hP : ∀ q q1 : PoolManager, q1.pool = q.pool → q1.expandedRanges = q.expandedRanges →
      Separated rt q ∧ TableWithin pm0 q → Separated rt q1 ∧ TableWithin pm0 q1 :=
    fun q q1 h1 h2 hq => ⟨Separated_congr rt q q1 h1 h2 hq.1, TableWithin_congr pm0 q q1 h2 hq.2⟩
  cases call with
  | allocate poolName poolIndex maskSize name =>
    simp only [stepCall] at h
    rcases hA : AllocateNewNetwork rt env fuel pm w poolName poolIndex maskSize name with
      ⟨o, pmA, wA⟩
    rw [hA] at h
    have hA0 := hA
    rw [AllocateNewNetwork_eq_operation] at hA
    have key : (∀ c, o ≠ .crash c) → o ≠ .blocked → o ≠ .outOfFuel →
        pmA.poolLoaded = true ∧ Separated rt pmA ∧ TableWithin pm0 pmA := by
      intro hc hb hf
      refine operation_kept rt env fuel pm pmA w wA _ o
        (fun q => Separated rt q ∧ TableWithin pm0 q) hP ?_ hl ⟨hs, hw⟩ hA hc hb hf
      intro pm3 w3 o1 pm4 w4 hb1
      obtain ⟨t1, _, _, _⟩ :=
        allocateBody_table env pm3 pm4 w3 w4 poolName poolIndex maskSize name o1 hb1
      exact ⟨t1, fun hq => ⟨allocateBody_separated rt env pm3 pm4 w3 w4 poolName poolIndex
        maskSize name o1 hb1 hq.1, allocateBody_within env pm0 pm3 pm4 w3 w4 poolName poolIndex
        maskSize name o1 hb1 hq.2⟩⟩
    cases o with
    | ok a =>
      obtain ⟨c, k⟩ := a
      simp only [Prod.mk.injEq] at h
      obtain ⟨h1, h2, h3⟩ := h
      subst h1 h2 h3
      obtain ⟨k1, k2, k3⟩ := key (fun c => Outcome.noConfusion) Outcome.noConfusion
        Outcome.noConfusion
      refine ⟨k1, k2, k3, ?_⟩
      intro pn pi ms nm c1 key1 hcall hreply
      simp only [Call.allocate.injEq] at hcall
      simp only [Reply.allocated.injEq] at hreply
      obtain ⟨rfl, rfl, rfl, rfl⟩ := hcall
      obtain ⟨rfl, rfl⟩ := hreply
      obtain ⟨pm3, w3, pm4, w4, hb, hexp, _⟩ :=
        AllocateNewNetwork_ok_loaded rt env fuel pm pmA w wA poolName poolIndex maskSize name
          c k hl hA0
      obtain ⟨groups, idx, _, _, hg, hpos, hle, hfind, hc, _⟩ :=
        allocateBody_ok env pm3 pm4 w3 w4 poolName poolIndex maskSize name c k hb
      have hcand := groupCandidates_of_groups pm3 poolName poolIndex groups hg hpos hle
      rw [groupCandidates_congr pm pm3 poolName poolIndex hexp] at hcand
      obtain ⟨cand0, h0, hsub⟩ := hw _ _ _ hcand
      refine ⟨cand0, h0, hsub.subset ?_⟩
      obtain ⟨h1, _, _⟩ := findIdx?_some_spec (maskMatches maskSize) _ idx "" hfind
      rw [← hc] at h1
      obtain ⟨h2, h3⟩ := List.getElem?_eq_some_iff.1 h1
      rw [← h3]
      exact List.getElem_mem h2
    | error e =>
      simp only [Prod.mk.injEq] at h
      obtain ⟨h1, h2, h3⟩ := h
      subst h1 h2 h3
      obtain ⟨k1, k2, k3⟩ := key (fun c => Outcome.noConfusion) Outcome.noConfusion
        Outcome.noConfusion
      exact ⟨k1, k2, k3, by intro _ _ _ _ _ _ _ hreply; exact Reply.noConfusion hreply⟩
    | crash c => simp only [Prod.mk.injEq] at h; exact absurd h.1.symm hr
    | blocked => simp only [Prod.mk.injEq] at h; exact absurd h.1.symm hr
    | outOfFuel => simp only [Prod.mk.injEq] at h; exact absurd h.1.symm hr
  | delete id =>
    simp only [stepCall] at h
    rcases hA : DeleteAllocation rt env fuel pm w id with ⟨o, pmA, wA⟩
    rw [hA] at h
    rw [DeleteAllocation_eq_operation] at hA
    have key : (∀ c, o ≠ .crash c) → o ≠ .blocked → o ≠ .outOfFuel →
        pmA.poolLoaded = true ∧ Separated rt pmA ∧ TableWithin pm0 pmA := by
      intro hc hb hf
      refine operation_kept rt env fuel pm pmA w wA _ o
        (fun q => Separated rt q ∧ TableWithin pm0 q) hP ?_ hl ⟨hs, hw⟩ hA hc hb hf
      intro pm3 w3 o1 pm4 w4 hb1
      obtain ⟨t1, _, _, t4⟩ := deleteBody_table env pm3 pm4 w3 w4 id o1 hb1
      exact ⟨t1, fun hq => ⟨deleteBody_separated rt env pm3 pm4 w3 w4 id o1 hb1 hq.1,
        TableWithin_congr pm0 pm3 pm4 t4 hq.2⟩⟩
    cases o with
    | ok a =>
      cases a
      simp only [Prod.mk.injEq] at h
      obtain ⟨h1, h2, h3⟩ := h
      subst h1 h2 h3
      obtain ⟨k1, k2, k3⟩ := key (fun c => Outcome.noConfusion) Outcome.noConfusion
        Outcome.noConfusion
      exact ⟨k1, k2, k3, by intro _ _ _ _ _ _ hcall _; exact Call.noConfusion hcall⟩
    | error e =>
      simp only [Prod.mk.injEq] at h
      obtain ⟨h1, h2, h3⟩ := h
      subst h1 h2 h3
      obtain ⟨k1, k2, k3⟩ := key (fun c => Outcome.noConfusion) Outcome.noConfusion
        Outcome.noConfusion
      exact ⟨k1, k2, k3, by intro _ _ _ _ _ _ hcall _; exact Call.noConfusion hcall⟩
    | crash c => simp only [Prod.mk.injEq] at h; exact absurd h.1.symm hr
    | blocked => simp only [Prod.mk.injEq] at h; exact absurd h.1.symm hr
    | outOfFuel => simp only [Prod.mk.injEq] at h; exact absurd h.1.symm hr

theorem splitFirst_eq_none_iff (sep : Char) (l : List Char) :
    splitFirst sep l = none ↔ sep ∉ l := by
  induction l with
  | nil => simp [splitFirst]
  | cons c cs ih =>
    unfold splitFirst
    by_cases hc : c = sep
    · simp [hc]
    · rw [if_neg hc]
      cases hs : splitFirst sep cs with
      | none =>
        simp only [true_iff]
        rw [hs] at ih
        simp only [List.mem_cons, not_or]
        exact ⟨fun x => hc x.symm, ih.1 rfl⟩
      | some p =>
        obtain ⟨a, b⟩ := p
        rw [hs] at ih
        have hin : sep ∈ cs := by
          by_contra hn
          exact absurd (ih.2 hn) (by simp)
        simp [hin]

theorem SplitN2_eq_none_iff (s : String) (sep : Char) : SplitN2 s sep = none ↔ sep ∉ s.data := by
  unfold SplitN2
  rw [← splitFirst_eq_none_iff]
  cases splitFirst sep s.data <;> simp

/-- A range text without `-`, or without `/` after its first `-`, fails to expand
with the error of line 257 or line 261, whatever was collected before. -/
theorem expandRange_malformed (rt : Runtime) (fuel : Nat) (reverse : GoMap String)
    (rr : String) (res : List String)
    (hbad : '-' ∉ rr.data ∨ ∃ a b, SplitN2 rr '-' = some (a, b) ∧ '/' ∉ b.data) :
    ∃ e, expandRange rt fuel reverse rr res = .error e ∧
      (('-' ∉ rr.data ∧ e = .rangeStart rr) ∨
        ∃ a b, SplitN2 rr '-' = some (a, b) ∧ '/' ∉ b.data ∧ e = .rangeEnd b) := by
  unfold expandRange
  rcases hbad with h1 | ⟨a, b, h1, h2⟩
  · rw [(SplitN2_eq_none_iff rr '-').2 h1]
    exact ⟨_, rfl, Or.inl ⟨h1, rfl⟩⟩
  · rw [h1]
    simp only
    rw [(SplitN2_eq_none_iff b '/').2 h2]
    exact ⟨_, rfl, Or.inr ⟨a, b, rfl, h2, rfl⟩⟩

/-- The first range of a group that fails decides the outcome of the group. -/
theorem expandGroup_first_error (rt : Runtime) (fuel : Nat) (reverse : GoMap String)
    (rr : String) (rest : List String) (o : Outcome (List String))
    (hne : ∀ l, o ≠ .ok l) (before : List String) :
    ∀ res0 res, expandGroup rt fuel reverse before res0 = .ok res →
      expandRange rt fuel reverse rr res = o →
      expandGroup rt fuel reverse (before ++ rr :: rest) res0 = o := by
  induction before with
  | nil =>
    intro res0 res h1 h2
    simp only [expandGroup, Outcome.ok.injEq] at h1
    subst h1
    simp only [List.nil_append]
    unfold expandGroup
    rw [h2]
    cases o with
    | ok l => exact absurd rfl (hne l)
    | error e => rfl
    | crash c => rfl
    | blocked => rfl
    | outOfFuel => rfl
  | cons r0 before ih =>
    intro res0 res h1 h2
    simp only [List.cons_append]
    unfold expandGroup at h1 ⊢
    cases hr : expandRange rt fuel reverse r0 res0 with
    | ok res1 =>
      rw [hr] at h1
      simp only at h1 ⊢
      exact ih res1 res h1 h2
    | error e => rw [hr] at h1; simp at h1
    | crash c => rw [hr] at h1; simp at h1
    | blocked => rw [hr] at h1; simp at h1
    | outOfFuel => rw [hr] at h1; simp at h1

/-- The first group of a pool that fails decides the outcome of the pool. -/
theorem expandPool_first_error (rt : Runtime) (fuel : Nat) (reverse : GoMap String)
    (g : List String) (rest : List (List String)) (o : Outcome (List String))
    (hne : ∀ l, o ≠ .ok l) (hg : expandGroup rt fuel reverse g [] = o)
    (before : List (List String))
    (hbefore : ∀ g0 ∈ before, ∃ res, expandGroup rt fuel reverse g0 [] = .ok res) :
    (expandPool rt fuel reverse (before ++ g :: rest)).2 = o.carry := by
  induction before with
  | nil =>
    simp only [List.nil_append]
    unfold expandPool
    rw [hg]
    cases o with
    | ok l => exact absurd rfl (hne l)
    | error e => rfl
    | crash c => rfl
    | blocked => rfl
    | outOfFuel => rfl
  | cons g0 before ih =>
    simp only [List.cons_append]
    unfold expandPool
    obtain ⟨res, hres⟩ := hbefore g0 (List.mem_cons_self _ _)
    rw [hres]
    simp only
    exact ih (fun g1 h1 => hbefore g1 (List.mem_cons_of_mem _ h1))

/-- The first pool that fails decides the outcome of the expansion. -/
theorem expandPools_first_error (rt : Runtime) (fuel : Nat) (reverse : GoMap String)
    (k : String) (v : List (List String)) (post : GoMap (List (List String)))
    (o : Outcome Unit) (hne : o ≠ .ok ()) (hv : (expandPool rt fuel reverse v).2 = o)
    (pre : GoMap (List (List String)))
    (hpre : ∀ e ∈ pre, (expandPool rt fuel reverse e.2).2 = .ok ()) :
    ∀ acc, (expandPools rt fuel reverse (pre ++ (k, v) :: post) acc).2 = o := by
  induction pre with
  | nil =>
    intro acc
    simp only [List.nil_append]
    unfold expandPools
    rcases hq : expandPool rt fuel reverse v with ⟨groups, o1⟩
    rw [hq] at hv
    simp only at hv
    subst hv
    cases o1 with
    | ok u => cases u; exact absurd rfl hne
    | error e => rfl
    | crash c => rfl
    | blocked => rfl
    | outOfFuel => rfl
  | cons e0 pre ih =>
    intro acc
    obtain ⟨k0, v0⟩ := e0
    simp only [List.cons_append]
    unfold expandPools
    have h0 := hpre (k0, v0) (List.mem_cons_self _ _)
    rcases hq : expandPool rt fuel reverse v0 with ⟨groups, o1⟩
    rw [hq] at h0
    simp only at h0
    subst h0
    simp only
    exact ih (fun e1 h1 => hpre e1 (List.mem_cons_of_mem _ h1)) _

/-- When the expansion of the stored document does not succeed, `loadPoolFile`
ends the same way and leaves the manager unloaded as it was. -/
theorem loadPoolFile_expand_fails (rt : Runtime) (env : Env) (fuel : Nat) (pm pm1 : PoolManager)
    (w : World) (d : PoolFile) (o : Outcome Unit) (hne : o ≠ .ok ())
    (hp : parsePoolFile rt pm = (.ok (), pm1)) (hread : env.readErr = none)
    (hdoc : w.content (loadLoc pm1) = some (Blob.document d))
    (hexp : (expandPools rt fuel (reverseMap (unmarshalInto pm.pool d).AllocatedRanges)
      (nilEntries (unmarshalInto pm.pool d).IpPools) []).2 = o) :
    (loadPoolFile rt env fuel pm w).1 = o ∧
    (loadPoolFile rt env fuel pm w).2.1.poolLoaded = pm.poolLoaded ∧
    (loadPoolFile rt env fuel pm w).2.1.poolLock = pm.poolLock ∧
    (loadPoolFile rt env fuel pm w).2.2.content = w.content := by
  have hf := parsePoolFile_fields rt pm
  rw [hp] at hf
  simp only at hf
  unfold loadPoolFile
  rw [hp]
  simp only [hread, hdoc]
  rw [hf.1, hexp]
  cases o with
  | ok u => cases u; exact absurd rfl hne
  | error e => exact ⟨rfl, hf.2.1, hf.2.2.2.2.1, rfl⟩
  | crash c => exact ⟨rfl, hf.2.1, hf.2.2.2.2.1, rfl⟩
  | blocked => exact ⟨rfl, hf.2.1, hf.2.2.2.2.1, rfl⟩
  | outOfFuel => exact ⟨rfl, hf.2.1, hf.2.2.2.2.1, rfl⟩

/-- The load that an operation runs after acquiring the lock, seen from the state
the operation started in. -/
theorem loadPoolFile_after_acquire (rt : Runtime) (env : Env) (fuel : Nat)
    (pm pm1 pm2 : PoolManager) (w w2 : World) (d : PoolFile) (o : Outcome Unit)
    (hne : o ≠ .ok ()) (hp : parsePoolFile rt pm = (.ok (), pm1))
    (ha : acquireLockFile env fuel pm1 w = (.ok (), pm2, w2)) (hread : env.readErr = none)
    (hdoc : w.content (loadLoc pm1) = some (Blob.document d))
    (hexp : (expandPools rt fuel (reverseMap (unmarshalInto pm.pool d).AllocatedRanges)
      (nilEntries (unmarshalInto pm.pool d).IpPools) []).2 = o) :
    (loadPoolFile rt env fuel pm2 w2).1 = o ∧
    (loadPoolFile rt env fuel pm2 w2).2.1.poolLoaded = pm.poolLoaded ∧
    (loadPoolFile rt env fuel pm2 w2).2.1.poolLock = HasPrefix pm.poolFile "gs://" := by
  have hf := parsePoolFile_fields rt pm
  rw [hp] at hf
  simp only at hf
  obtain ⟨_, hpm2, hw2⟩ := acquireLockFile_ok env fuel pm1 pm2 w w2 ha
  have hp2 : parsePoolFile rt pm2 = (.ok (), pm2) := by
    rw [hpm2]
    exact parsePoolFile_idem rt pm pm1 _ hp
  have hpool2 : pm2.pool = pm.pool := by rw [hpm2]; exact hf.1
  have hloc : loadLoc pm2 = loadLoc pm1 := by rw [hpm2]; rfl
  obtain ⟨h1, h2, h3, _⟩ := loadPoolFile_expand_fails rt env fuel pm2 pm2 w2 d o hne hp2 hread
    (by rw [hloc, hw2]; exact hdoc) (by rw [hpool2]; exact hexp)
  refine ⟨h1, ?_, ?_⟩
  · rw [h2, hpm2]; exact hf.2.1
  · rw [h3, hpm2]
    show HasPrefix pm1.poolFile "gs://" = _
    rw [hf.2.2.2.2.2.2.1]

/-- An operation on an unloaded manager at an object-storage location whose load
returns an error returns that error and leaves the manager unloaded. -/
theorem operation_load_error {α : Type} (rt : Runtime) (env : Env) (fuel : Nat)
    (pm pm1 pm2 : PoolManager) (w w2 : World)
    (body : PoolManager → World → Outcome α × PoolManager × World) (e : Err)
    (hun : pm.poolLoaded = false) (hp : parsePoolFile rt pm = (.ok (), pm1))
    (ha : acquireLockFile env fuel pm1 w = (.ok (), pm2, w2))
    (hl : (loadPoolFile rt env fuel pm2 w2).1 = .error e)
    (hl2 : (loadPoolFile rt env fuel pm2 w2).2.1.poolLoaded = false)
    (hl3 : (loadPoolFile rt env fuel pm2 w2).2.1.poolLock = true) :
    (operation rt env fuel pm w body).1 = .error e ∧
    (operation rt env fuel pm w body).2.1.poolLoaded = false := by
  have hf := parsePoolFile_fields rt pm
  rw [hp] at hf
  simp only at hf
  obtain ⟨_, hpm2, _⟩ := acquireLockFile_ok env fuel pm1 pm2 w w2 ha
  have hload2 : pm2.poolLoaded = false := by rw [hpm2]; exact hf.2.1.trans hun
  unfold operation
  rw [hp]
  simp only
  rw [ha]
  simp only
  unfold ensureLoaded
  rw [if_pos (by simp [hload2])]
  rcases hq : loadPoolFile rt env fuel pm2 w2 with ⟨o, pm3, w3⟩
  rw [hq] at hl hl2 hl3
  simp only at hl hl2 hl3
  subst hl
  simp only [Outcome.carry]
  rw [withRelease_locked env _ pm3 w3 hl3 Outcome.noConfusion Outcome.noConfusion]
  exact ⟨rfl, hl2⟩

/-- The same for `GetAllocation`. -/
theorem GetAllocation_load_error (rt : Runtime) (env : Env) (fuel : Nat)
    (pm pm1 pm2 : PoolManager) (w w2 : World) (id : String) (e : Err)
    (hun : pm.poolLoaded = false) (hp : parsePoolFile rt pm = (.ok (), pm1))
    (ha : acquireLockFile env fuel pm1 w = (.ok (), pm2, w2))
    (hl : (loadPoolFile rt env fuel pm2 w2).1 = .error e)
    (hl2 : (loadPoolFile rt env fuel pm2 w2).2.1.poolLoaded = false)
    (hl3 : (loadPoolFile rt env fuel pm2 w2).2.1.poolLock = true) :
    (GetAllocation rt env fuel pm w id).1 = .error e ∧
    (GetAllocation rt env fuel pm w id).2.1.poolLoaded = false := by
  have hf := parsePoolFile_fields rt pm
  rw [hp] at hf
  simp only at hf
  have hload1 : pm1.poolLoaded = false := hf.2.1.trans hun
  unfold GetAllocation
  rw [hp]
  simp only
  rw [if_pos (by simp [hload1]), ha]
  simp only
  rcases hq : loadPoolFile rt env fuel pm2 w2 with ⟨o, pm3, w3⟩
  rw [hq] at hl hl2 hl3
  simp only at hl hl2 hl3
  subst hl
  simp only
  rw [withRelease_locked env _ pm3 w3 hl3 Outcome.noConfusion Outcome.noConfusion]
  exact ⟨rfl, hl2⟩

/-- With an increase of 0 below the end of the range, the loop of lines 273-284
never reaches its `break`. -/
theorem expandLoop_stuck (reverse : GoMap String) (mask : String) (e cur : Nat)
    (hcur : cur < e) (h32 : cur < 2 ^ 32) (fuel : Nat) :
    ∀ res, (expandLoop reverse mask 0 e fuel cur res).2 = false := by
  induction fuel with
  | zero => intro res; rfl
  | succ fuel ih =>
    intro res
    rw [expandLoop_succ]
    have hmod : (cur + 0) % 2 ^ 32 = cur := by
      rw [Nat.add_zero]
      exact Nat.mod_eq_of_lt h32
    rw [hmod, if_neg (by omega)]
    exact ih _

set_option maxRecDepth 100000 in
/-- The range `10.0.0.0-10.0.0.31/33` never finishes expanding. -/
theorem expandRange_stuck (fuel : Nat) (reverse : GoMap String) (res : List String) :
    expandRange refRuntime fuel reverse "10.0.0.0-10.0.0.31/33" res = .outOfFuel := by
  have h1 : SplitN2 "10.0.0.0-10.0.0.31/33" '-' = some ("10.0.0.0", "10.0.0.31/33") := by decide
  have h2 : SplitN2 "10.0.0.31/33" '/' = some ("10.0.0.31", "33") := by decide
  have h3 : ipToUint32 (ParseIP refRuntime "10.0.0.0") = some 167772160 := by decide
  have h4 : ipToUint32 (ParseIP refRuntime "10.0.0.31") = some 167772191 := by decide
  have h5 : maskIncrease refRuntime "33" = some 0 := by decide
  have h6 := expandLoop_stuck reverse "33" 167772191 167772160 (by decide) (by decide) fuel res
  unfold expandRange
  rw [h1]
  simp only
  rw [h2]
  simp only
  rw [h3, h4]
  simp only
  rw [h5]
  simp only
  rcases hq : expandLoop reverse "33" 0 167772191 fuel 167772160 res with ⟨l, b⟩
  rw [hq] at h6
  simp only at h6
  subst h6
  rfl

theorem savePoolFile_error (env : Env) (pm : PoolManager) (w w' : World) (e : Err)
    (h : savePoolFile env pm w = (.error e, w')) :
    ∃ msg, env.saveErr = some msg ∧ e = .library msg ∧ w' = w := by
  unfold savePoolFile at h
  cases hs : env.saveErr with
  | none => rw [hs] at h; simp at h
  | some msg =>
    rw [hs] at h
    simp only [Prod.mk.injEq, Outcome.error.injEq] at h
    exact ⟨msg, rfl, h.1.symm, h.2.symm⟩

/-- A library error of the body of `AllocateNewNetwork` is the error of
`savePoolFile`: the candidate was taken and both maps were written before. -/
theorem allocateBody_save_error (env : Env) (pm pm' : PoolManager) (w w' : World)
    (poolName : String) (poolIndex maskSize : Int) (name msg : String)
    (h : allocateBody env pm w poolName poolIndex maskSize name =
      (.error (.library msg), pm', w')) :
    ∃ groups idx reverse ranges,
      nilGet pm.expandedRanges poolName = some groups ∧
      0 < poolIndex ∧ poolIndex ≤ groups.length ∧
      (groups.getD (poolIndex - 1).toNat []).findIdx? (maskMatches maskSize) = some idx ∧
      (groups.getD (poolIndex - 1).toNat []).getD idx "" ≠ "" ∧
      pm.allocatedRanges = some reverse ∧ pm.pool.AllocatedRanges = some ranges ∧
      pm' = { pm with
        expandedRanges := pm.expandedRanges.map (GoMap.set poolName
          (groups.set (poolIndex - 1).toNat
            ((groups.getD (poolIndex - 1).toNat []).eraseIdx idx)))
        allocatedRanges := some (GoMap.set (allocationKey pm.id name)
          ((groups.getD (poolIndex - 1).toNat []).getD idx "") reverse)
        pool := { pm.pool with AllocatedRanges := some (GoMap.set (allocationKey pm.id name)
          ((groups.getD (poolIndex - 1).toNat []).getD idx "") ranges) } } ∧
      env.saveErr = some msg ∧ w' = w := by
  unfold allocateBody at h
  cases hg : nilGet pm.expandedRanges poolName with
  | none => simp [hg] at h
  | some groups =>
    simp only [hg] at h
    by_cases h1 : poolIndex = 0 ∨ poolIndex > groups.length
    · simp [h1] at h
    · rw [if_neg h1] at h
      by_cases h2 : poolIndex < 0
      · simp [h2] at h
      · rw [if_neg h2] at h
        cases hf : (groups.getD (poolIndex - 1).toNat []).findIdx? (maskMatches maskSize) with
        | none => rw [hf] at h; simp at h
        | some idx =>
          rw [hf] at h
          dsimp only at h
          by_cases h3 : (groups.getD (poolIndex - 1).toNat []).getD idx "" = ""
          · rw [if_pos h3] at h; simp at h
          · rw [if_neg h3] at h
            cases hr : pm.allocatedRanges with
            | none => simp [hr] at h
            | some reverse =>
              simp only [hr] at h
              cases ha : pm.pool.AllocatedRanges with
              | none => simp [ha] at h
              | some ranges =>
                simp only [ha] at h
                split at h
                · simp at h
                · rename_i e1 w1 hs
                  simp only [Prod.mk.injEq, Outcome.error.injEq] at h
                  obtain ⟨he, hpm, hw⟩ := h
                  obtain ⟨m1, hm1, hm2, hm3⟩ := savePoolFile_error env _ w w1 e1 hs
                  rw [he] at hm2
                  simp only [Err.library.injEq] at hm2
                  subst hm2
                  refine ⟨groups, idx, reverse, ranges, rfl, by omega, by omega, hf, h3, rfl, rfl,
                    hpm.symm, hm1, ?_⟩
                  rw [← hw, hm3]
                all_goals simp at h

/-- A library error of the body of `DeleteAllocation` is the error of
`savePoolFile`: the key was present and has been deleted from both maps. -/
theorem deleteBody_save_error (env : Env) (pm pm' : PoolManager) (w w' : World) (id msg : String)
    (h : deleteBody env pm w id = (.error (.library msg), pm', w')) :
    (∃ v, nilGet pm.pool.AllocatedRanges id = some v) ∧
      pm' = { pm with
        pool := { pm.pool with AllocatedRanges := pm.pool.AllocatedRanges.map (GoMap.delete id) }
        allocatedRanges := pm.allocatedRanges.map (GoMap.delete id) } ∧
      env.saveErr = some msg ∧ w' = w := by
  unfold deleteBody at h
  cases hg : nilGet pm.pool.AllocatedRanges id with
  | none => simp [hg] at h
  | some v =>
    simp only [hg] at h
    split at h
    · simp at h
    · rename_i e1 w1 hs
      simp only [Prod.mk.injEq, Outcome.error.injEq] at h
      obtain ⟨he, hpm, hw⟩ := h
      obtain ⟨m1, hm1, hm2, hm3⟩ := savePoolFile_error env _ w w1 e1 hs
      rw [he] at hm2
      simp only [Err.library.injEq] at hm2
      subst hm2
      exact ⟨⟨v, rfl⟩, hpm.symm, hm1, by rw [← hw, hm3]⟩
    all_goals simp at h

/-- What a loaded manager is when the body of an operation starts. -/
theorem operation_reached_loaded {α : Type} (rt : Runtime) (env : Env) (fuel : Nat)
    (pm pm' : PoolManager) (w w' : World)
    (body : PoolManager → World → Outcome α × PoolManager × World) (r : Outcome α)
    (hl : pm.poolLoaded = true)
    (h : operation rt env fuel pm w body = (r, pm', w'))
    (hr : (∃ a, r = .ok a) ∨ (∃ id, r = .error (.allocationNotFound id)) ∨
      ((∃ e, r = .error e) ∧ reachesBody rt env fuel pm w = true)) :
    ∃ pm3 w3 pm4 w4, body pm3 w3 = (r, pm4, w4) ∧ pm3.pool = pm.pool ∧
      pm3.expandedRanges = pm.expandedRanges ∧ pm3.allocatedRanges = pm.allocatedRanges ∧
      pm3.id = pm.id ∧ pm3.poolLoaded = true ∧ w3.content = w.content ∧
      pm' = { pm4 with poolLock := false } ∧ w'.content = w4.content := by
  obtain ⟨pm1, pm2, w2, pm3, w3, pm4, w4, hp, ha, he, hb, _, hpm', hw'⟩ :=
    operation_reached rt env fuel pm pm' w w' body r h hr
  have hf := parsePoolFile_fields rt pm
  rw [hp] at hf
  simp only at hf
  obtain ⟨_, hpm2, hw2⟩ := acquireLockFile_ok env fuel pm1 pm2 w w2 ha
  have hload2 : pm2.poolLoaded = true := by rw [hpm2]; exact hf.2.1.trans hl
  rw [ensureLoaded_loaded rt env fuel pm2 w2 hload2] at he
  simp only [Prod.mk.injEq, true_and] at he
  obtain ⟨h32, hw32⟩ := he
  subst h32 hw32
  refine ⟨pm2, w2, pm4, w4, hb, ?_, ?_, ?_, ?_, hload2, hw2, hpm', hw'⟩
  · rw [hpm2]; exact hf.1
  · rw [hpm2]; exact hf.2.2.1
  · rw [hpm2]; exact hf.2.2.2.1
  · rw [hpm2]; exact hf.2.2.2.2.2.1

/-- The polling loop ends with success, the timeout error, a library error, or
out of step budget. -/
theorem acquireLoop_outcomes (env : Env) (pm : PoolManager) (startTime : Int) (fuel : Nat) :
    ∀ n log, (acquireLoop env pm startTime fuel n log).1 = .ok () ∨
      (acquireLoop env pm startTime fuel n log).1 = .error .lockTimeout ∨
      (∃ msg, (acquireLoop env pm startTime fuel n log).1 = .error (.library msg)) ∨
      (acquireLoop env pm startTime fuel n log).1 = .outOfFuel := by
  induction fuel with
  | zero => intro n log; simp [acquireLoop]
  | succ fuel ih =>
    intro n log
    unfold acquireLoop
    cases env.lockClient n with
    | some e => simp
    | none =>
      simp only
      cases env.lockCreate n with
      | none => simp
      | some e =>
        simp only
        split
        · simp
        · split
          · simp
          · exact ih _ _

/-! ### Reads and saves along an operation -/

theorem reads_append (a b : List Event) : reads (a ++ b) = reads a + reads b := by
  unfold reads
  exact List.countP_append _ _ _

theorem writes_append (a b : List Event) : writes (a ++ b) = writes a + writes b := by
  unfold writes
  exact List.countP_append _ _ _

/-- The polling loop neither reads nor saves the document. -/
theorem acquireLoop_log (env : Env) (pm : PoolManager) (startTime : Int) (fuel : Nat) :
    ∀ n log, reads (acquireLoop env pm startTime fuel n log).2 = reads log ∧
      writes (acquireLoop env pm startTime fuel n log).2 = writes log := by
  induction fuel with
  | zero => intro n log; simp [acquireLoop]
  | succ fuel ih =>
    intro n log
    unfold acquireLoop
    cases env.lockClient n with
    | some e => simp
    | none =>
      simp only
      cases env.lockCreate n with
      | none => simp [reads_append, writes_append, reads, writes]
      | some e =>
        simp only
        split
        · simp [reads_append, writes_append, reads, writes]
        · split
          · simp [reads_append, writes_append, reads, writes]
          · obtain ⟨h1, h2⟩ := ih (n + 1)
              (log ++ [Event.createMarker pm.poolBucket (pm.poolObject ++ ".lock")] ++
                [Event.sleep])
            rw [h1, h2]
            simp [reads_append, writes_append, reads, writes]

theorem acquireLockFile_log (env : Env) (fuel : Nat) (pm : PoolManager) (w : World) :
    reads (acquireLockFile env fuel pm w).2.2.log = reads w.log ∧
      writes (acquireLockFile env fuel pm w).2.2.log = writes w.log := by
  unfold acquireLockFile
  split
  · exact ⟨rfl, rfl⟩
  · split
    · exact ⟨rfl, rfl⟩
    · have h := acquireLoop_log env pm (env.now 0) fuel 0 w.log
      rcases hq : acquireLoop env pm (env.now 0) fuel 0 w.log with ⟨o, log⟩
      rw [hq] at h
      cases o with
      | ok u => cases u; exact h
      | error e => exact h
      | crash c => exact h
      | blocked => exact h
      | outOfFuel => exact h

/-- What `acquireLockFile` leaves of the manager, whatever it returns. -/
theorem acquireLockFile_fields (env : Env) (fuel : Nat) (pm : PoolManager) (w : World) :
    (acquireLockFile env fuel pm w).2.1.pool = pm.pool ∧
    (acquireLockFile env fuel pm w).2.1.poolLoaded = pm.poolLoaded ∧
    (acquireLockFile env fuel pm w).2.1.expandedRanges = pm.expandedRanges ∧
    (acquireLockFile env fuel pm w).2.1.allocatedRanges = pm.allocatedRanges ∧
    (acquireLockFile env fuel pm w).2.1.id = pm.id ∧
    (acquireLockFile env fuel pm w).2.2.content = w.content := by
  unfold acquireLockFile
  split
  · simp
  · split
    · simp
    · rcases hq : acquireLoop env pm (env.now 0) fuel 0 w.log with ⟨o, log⟩
      cases o with
      | ok u => cases u; simp
      | error e => simp
      | crash c => simp
      | blocked => simp
      | outOfFuel => simp

theorem releaseLockFile_log (env : Env) (pm : PoolManager) (w : World) :
    reads (releaseLockFile env pm w).2.2.log = reads w.log ∧
      writes (releaseLockFile env pm w).2.2.log = writes w.log := by
  unfold releaseLockFile
  by_cases hp : HasPrefix pm.poolFile "gs://" = true
  · cases hc : env.releaseClient <;> cases hd : env.releaseDelete <;>
      by_cases hl : pm.poolLock = true <;>
      simp [hp, hl, reads_append, writes_append, reads, writes]
  · by_cases hl : pm.poolLock = true <;> simp [hp, hl]

theorem releaseLockFile_fields (env : Env) (pm : PoolManager) (w : World) :
    (releaseLockFile env pm w).2.1.pool = pm.pool ∧
    (releaseLockFile env pm w).2.1.poolLoaded = pm.poolLoaded ∧
    (releaseLockFile env pm w).2.1.expandedRanges = pm.expandedRanges ∧
    (releaseLockFile env pm w).2.1.allocatedRanges = pm.allocatedRanges ∧
    (releaseLockFile env pm w).2.1.id = pm.id := by
  unfold releaseLockFile
  by_cases hl : pm.poolLock = true <;> simp [hl]

/-- The deferred release keeps the tables, the loaded flag, the stored content and
the counts of reads and saves; it returns the outcome of the body or aborts. -/
theorem withRelease_frame {α : Type} (env : Env) (b : Outcome α × PoolManager × World) :
    (withRelease env b).2.1.pool = b.2.1.pool ∧
    (withRelease env b).2.1.poolLoaded = b.2.1.poolLoaded ∧
    (withRelease env b).2.1.expandedRanges = b.2.1.expandedRanges ∧
    (withRelease env b).2.1.allocatedRanges = b.2.1.allocatedRanges ∧
    (withRelease env b).2.2.content = b.2.2.content ∧
    reads (withRelease env b).2.2.log = reads b.2.2.log ∧
    writes (withRelease env b).2.2.log = writes b.2.2.log ∧
    ((withRelease env b).1 = b.1 ∨ ∃ c, (withRelease env b).1 = .crash c) := by
  obtain ⟨o, pm, w⟩ := b
  have hf := releaseLockFile_fields env pm w
  have hl := releaseLockFile_log env pm w
  have hc := releaseLockFile_content env pm w
  rcases hq : releaseLockFile env pm w with ⟨r, pmr, wr⟩
  rw [hq] at hf hl hc
  simp only at hf hl hc
  unfold withRelease
  cases o with
  | blocked => simp
  | outOfFuel => simp
  | ok a =>
    simp only [hq]
    cases r <;> simp [hf, hl, hc]
  | error e =>
    simp only [hq]
    cases r <;> simp [hf, hl, hc]
  | crash c =>
    simp only [hq]
    cases r <;> simp [hf, hl, hc]

/-- An operation on a loaded manager either stops before its body, changing
nothing of the tables and neither reading nor saving, with no result and no error
but the timeout or one of a library; or it is the body, run on the manager's
tables, followed by the deferred release. -/
theorem operation_loaded_cases {α : Type} (rt : Runtime) (env : Env) (fuel : Nat)
    (pm : PoolManager) (w : World)
    (body : PoolManager → World → Outcome α × PoolManager × World)
    (hl : pm.poolLoaded = true) :
    ((∀ a, (operation rt env fuel pm w body).1 ≠ .ok a) ∧
      (∀ e, (operation rt env fuel pm w body).1 = .error e →
        e = .lockTimeout ∨ ∃ msg, e = .library msg) ∧
      (operation rt env fuel pm w body).2.1.pool = pm.pool ∧
      (operation rt env fuel pm w body).2.1.poolLoaded = true ∧
      (operation rt env fuel pm w body).2.1.expandedRanges = pm.expandedRanges ∧
      (operation rt env fuel pm w body).2.1.allocatedRanges = pm.allocatedRanges ∧
      (operation rt env fuel pm w body).2.2.content = w.content ∧
      reads (operation rt env fuel pm w body).2.2.log = reads w.log ∧
      writes (operation rt env fuel pm w body).2.2.log = writes w.log) ∨
    ∃ pm2 w2, pm2.pool = pm.pool ∧ pm2.poolLoaded = true ∧
      pm2.expandedRanges = pm.expandedRanges ∧ pm2.allocatedRanges = pm.allocatedRanges ∧
      pm2.id = pm.id ∧ w2.content = w.content ∧ reads w2.log = reads w.log ∧
      writes w2.log = writes w.log ∧
      operation rt env fuel pm w body = withRelease env (body pm2 w2) := by
  have hf := parsePoolFile_fields rt pm
  have hperr : ∀ e, (parsePoolFile rt pm).1 = .error e → ∃ msg, e = .library msg := by
    intro e
    unfold parsePoolFile
    repeat' split
    all_goals simp only [Outcome.error.injEq, reduceCtorEq, false_implies]
    all_goals exact fun h => ⟨_, h.symm⟩
  unfold operation
  rcases hp : parsePoolFile rt pm with ⟨o, pm1⟩
  rw [hp] at hf hperr
  simp only at hf hperr
  obtain ⟨f1, f2, f3, f4, _, f6, _, _⟩ := hf
  cases o with
  | ok u =>
    cases u
    simp only
    have ha := acquireLockFile_fields env fuel pm1 w
    have hlog := acquireLockFile_log env fuel pm1 w
    have hout := acquireLoop_outcomes env pm1 (env.now 0) fuel 0 w.log
    have herr : ∀ e, (acquireLockFile env fuel pm1 w).1 = .error e →
        e = .lockTimeout ∨ ∃ msg, e = .library msg := by
      intro e
      unfold acquireLockFile
      split
      · simp
      · split
        · simp
        · rcases hq : acquireLoop env pm1 (env.now 0) fuel 0 w.log with ⟨o, log⟩
          rw [hq] at hout
          simp only at hout
          cases o with
          | ok u => cases u; simp
          | error e1 =>
            simp only [Outcome.error.injEq]
            intro he
            subst he
            rcases hout with hk | hk | ⟨msg, hk⟩ | hk
            · exact absurd hk (by simp)
            · exact Or.inl (by simpa using hk)
            · exact Or.inr ⟨msg, by simpa using hk⟩
            · exact absurd hk (by simp)
          | crash c => simp
          | blocked => simp
          | outOfFuel => simp
    rcases hq : acquireLockFile env fuel pm1 w with ⟨o2, pm2, w2⟩
    rw [hq] at ha hlog herr
    simp only at ha hlog herr
    obtain ⟨a1, a2, a3, a4, a5, a6⟩ := ha
    cases o2 with
    | ok u2 =>
      cases u2
      right
      have hl2 : pm2.poolLoaded = true := by rw [a2, f2]; exact hl
      refine ⟨pm2, w2, a1.trans f1, hl2, a3.trans f3, a4.trans f4, a5.trans f6, a6, hlog.1,
        hlog.2, ?_⟩
      simp only
      rw [ensureLoaded_loaded rt env fuel pm2 w2 hl2]
    | error e =>
      left
      exact ⟨by simp [Outcome.carry], by simpa [Outcome.carry] using herr e rfl, a1.trans f1,
        by rw [a2, f2]; exact hl, a3.trans f3, a4.trans f4, a6, hlog.1, hlog.2⟩
    | crash c =>
      left
      exact ⟨by simp [Outcome.carry], by simp [Outcome.carry], a1.trans f1,
        by rw [a2, f2]; exact hl, a3.trans f3, a4.trans f4, a6, hlog.1, hlog.2⟩
    | blocked =>
      left
      exact ⟨by simp [Outcome.carry], by simp [Outcome.carry], a1.trans f1,
        by rw [a2, f2]; exact hl, a3.trans f3, a4.trans f4, a6, hlog.1, hlog.2⟩
    | outOfFuel =>
      left
      exact ⟨by simp [Outcome.carry], by simp [Outcome.carry], a1.trans f1,
        by rw [a2, f2]; exact hl, a3.trans f3, a4.trans f4, a6, hlog.1, hlog.2⟩
  | error e =>
    left
    obtain ⟨msg, hm⟩ := hperr e rfl
    exact ⟨by simp [Outcome.carry], by simp [Outcome.carry, hm], f1, by rw [f2]; exact hl,
      f3, f4, rfl, rfl, rfl⟩
  | crash c =>
    left
    exact ⟨by simp [Outcome.carry], by simp [Outcome.carry], f1, by rw [f2]; exact hl,
      f3, f4, rfl, rfl, rfl⟩
  | blocked =>
    left
    exact ⟨by simp [Outcome.carry], by simp [Outcome.carry], f1, by rw [f2]; exact hl,
      f3, f4, rfl, rfl, rfl⟩
  | outOfFuel =>
    left
    exact ⟨by simp [Outcome.carry], by simp [Outcome.carry], f1, by rw [f2]; exact hl,
      f3, f4, rfl, rfl, rfl⟩

/-- A body of `AllocateNewNetwork` that rejects the request (unknown pool, group
index out of range, nothing suitable) in a group without an empty candidate text
returns the manager and the world it was given. -/
theorem allocateBody_rejected (env : Env) (pm pm' : PoolManager) (w w' : World)
    (poolName : String) (poolIndex maskSize : Int) (name : String) (e : Err)
    (hne : ∀ cand, groupCandidates pm poolName poolIndex = some cand → "" ∉ cand)
    (h : allocateBody env pm w poolName poolIndex maskSize name = (.error e, pm', w'))
    (he : (∃ p, e = .unknownPool p) ∨ (∃ p i n, e = .unknownPoolIndex p i n) ∨
      (∃ m p, e = .noSuitableNetwork m p)) :
    pm' = pm ∧ w' = w := by
  unfold allocateBody at h
  cases hg : nilGet pm.expandedRanges poolName with
  | none =>
    simp only [hg, Prod.mk.injEq] at h
    exact ⟨h.2.1.symm, h.2.2.symm⟩
  | some groups =>
    simp only [hg] at h
    by_cases h1 : poolIndex = 0 ∨ poolIndex > groups.length
    · rw [if_pos h1] at h
      simp only [Prod.mk.injEq] at h
      exact ⟨h.2.1.symm, h.2.2.symm⟩
    · rw [if_neg h1] at h
      by_cases h2 : poolIndex < 0
      · simp [h2] at h
      · rw [if_neg h2] at h
        cases hf : (groups.getD (poolIndex - 1).toNat []).findIdx? (maskMatches maskSize) with
        | none =>
          rw [hf] at h
          simp only [Prod.mk.injEq] at h
          exact ⟨h.2.1.symm, h.2.2.symm⟩
        | some idx =>
          rw [hf] at h
          dsimp only at h
          by_cases h3 : (groups.getD (poolIndex - 1).toNat []).getD idx "" = ""
          · exfalso
            have hc := groupCandidates_of_groups pm poolName poolIndex groups hg (by omega)
              (by omega)
            obtain ⟨k1, _, _⟩ := findIdx?_some_spec (maskMatches maskSize) _ idx "" hf
            rw [h3] at k1
            exact hne _ hc (List.mem_iff_getElem?.2 ⟨idx, k1⟩)
          · rw [if_neg h3] at h
            cases hr : pm.allocatedRanges with
            | none => simp [hr] at h
            | some reverse =>
              simp only [hr] at h
              cases ha : pm.pool.AllocatedRanges with
              | none => simp [ha] at h
              | some ranges =>
                simp only [ha] at h
                split at h
                · simp at h
                · rename_i e1 w1 hs
                  simp only [Prod.mk.injEq, Outcome.error.injEq] at h
                  obtain ⟨m1, _, hm2, _⟩ := savePoolFile_error env _ w w1 e1 hs
                  rw [h.1] at hm2
                  subst hm2
                  rcases he with ⟨p, he⟩ | ⟨p, i, n, he⟩ | ⟨m, p, he⟩ <;> exact Err.noConfusion he
                all_goals simp at h

/-- A body of `DeleteAllocation` that returns not-found returns the manager and the
world it was given. -/
theorem deleteBody_notFound (env : Env) (pm pm' : PoolManager) (w w' : World) (id id1 : String)
    (h : deleteBody env pm w id = (.error (.allocationNotFound id1), pm', w')) :
    pm' = pm ∧ w' = w ∧ nilGet pm.pool.AllocatedRanges id = none := by
  unfold deleteBody at h
  cases hg : nilGet pm.pool.AllocatedRanges id with
  | none =>
    simp only [hg, Prod.mk.injEq] at h
    exact ⟨h.2.1.symm, h.2.2.symm, rfl⟩
  | some v =>
    simp only [hg] at h
    split at h
    · simp at h
    · rename_i e1 w1 hs
      simp only [Prod.mk.injEq, Outcome.error.injEq] at h
      obtain ⟨m1, _, hm2, _⟩ := savePoolFile_error env _ w w1 e1 hs
      rw [h.1] at hm2
      exact Err.noConfusion hm2
    all_goals simp at h

/-- An operation on a loaded manager that returns an error which is neither the
timeout nor one of a library: the body returned that error, and the operation kept
of the body's manager and world the tables, the content, the reads and saves. -/
theorem operation_loaded_body_error {α : Type} (rt : Runtime) (env : Env) (fuel : Nat)
    (pm pm' : PoolManager) (w w' : World)
    (body : PoolManager → World → Outcome α × PoolManager × World) (e : Err)
    (hl : pm.poolLoaded = true)
    (h : operation rt env fuel pm w body = (.error e, pm', w'))
    (he1 : e ≠ .lockTimeout) (he2 : ∀ msg, e ≠ .library msg) :
    ∃ pm2 w2 pm4 w4, body pm2 w2 = (.error e, pm4, w4) ∧ pm2.pool = pm.pool ∧
      pm2.expandedRanges = pm.expandedRanges ∧ pm2.allocatedRanges = pm.allocatedRanges ∧
      w2.content = w.content ∧ reads w2.log = reads w.log ∧ writes w2.log = writes w.log ∧
      pm'.pool = pm4.pool ∧ pm'.expandedRanges = pm4.expandedRanges ∧
      pm'.allocatedRanges = pm4.allocatedRanges ∧ w'.content = w4.content ∧
      reads w'.log = reads w4.log ∧ writes w'.log = writes w4.log := by
  rcases operation_loaded_cases rt env fuel pm w body hl with
    ⟨_, herr, _⟩ | ⟨pm2, w2, c1, _, c3, c4, _, c6, c7, c8, hop⟩
  · rw [h] at herr
    rcases herr e rfl with hx | ⟨msg, hx⟩
    · exact absurd hx he1
    · exact absurd hx (he2 msg)
  · rw [hop] at h
    obtain ⟨r1, r2, r3, r4, r5, r6, r7, r8⟩ := withRelease_frame env (body pm2 w2)
    rw [h] at r1 r2 r3 r4 r5 r6 r7 r8
    simp only at r1 r2 r3 r4 r5 r6 r7 r8
    rcases hb : body pm2 w2 with ⟨o, pm4, w4⟩
    rw [hb] at r1 r2 r3 r4 r5 r6 r7 r8
    simp only at r1 r2 r3 r4 r5 r6 r7 r8
    have ho : o = .error e := by
      rcases r8 with hx | ⟨c, hx⟩
      · exact hx.symm
      · exact Outcome.noConfusion hx
    subst ho
    exact ⟨pm2, w2, pm4, w4, hb, c1, c3, c4, c6, c7, c8, r1, r3, r4, r5, r6, r7⟩

theorem savePoolFile_reads (env : Env) (pm : PoolManager) (w : World) :
    reads (savePoolFile env pm w).2.log = reads w.log := by
  unfold savePoolFile
  cases env.saveErr with
  | some e => rfl
  | none => simp [reads_append, reads]

/-- The body of `AllocateNewNetwork` keeps the loaded flag and reads nothing. -/
theorem allocateBody_reads (env : Env) (pm : PoolManager) (w : World) (poolName : String)
    (poolIndex maskSize : Int) (name : String) :
    (allocateBody env pm w poolName poolIndex maskSize name).2.1.poolLoaded = pm.poolLoaded ∧
      reads (allocateBody env pm w poolName poolIndex maskSize name).2.2.log = reads w.log := by
  have hp := (allocateBody_table env pm _ w _ poolName poolIndex maskSize name _ rfl).1
  refine ⟨hp, ?_⟩
  unfold allocateBody
  cases nilGet pm.expandedRanges poolName with
  | none => rfl
  | some groups =>
    simp only
    split
    · rfl
    · split
      · rfl
      · cases (groups.getD (poolIndex - 1).toNat []).findIdx? (maskMatches maskSize) with
        | none => rfl
        | some idx =>
          simp only
          split
          · rfl
          · cases pm.allocatedRanges with
            | none => rfl
            | some reverse =>
              simp only
              cases pm.pool.AllocatedRanges with
              | none => rfl
              | some ranges =>
                simp only
                have hs := savePoolFile_reads env
                  { pm with
                    expandedRanges := pm.expandedRanges.map (GoMap.set poolName
                      (groups.set (poolIndex - 1).toNat
                        ((groups.getD (poolIndex - 1).toNat []).eraseIdx idx)))
                    allocatedRanges := some (GoMap.set (allocationKey pm.id name)
                      ((groups.getD (poolIndex - 1).toNat []).getD idx "") reverse)
                    pool := { pm.pool with
                      AllocatedRanges := some (GoMap.set (allocationKey pm.id name)
                        ((groups.getD (poolIndex - 1).toNat []).getD idx "") ranges) } } w
                split <;> rename_i hq <;> rw [hq] at hs <;> exact hs

/-- The body of `DeleteAllocation` keeps the loaded flag and reads nothing. -/
theorem deleteBody_reads (env : Env) (pm : PoolManager) (w : World) (id : String) :
    (deleteBody env pm w id).2.1.poolLoaded = pm.poolLoaded ∧
      reads (deleteBody env pm w id).2.2.log = reads w.log := by
  have hp := (deleteBody_table env pm _ w _ id _ rfl).1
  refine ⟨hp, ?_⟩
  unfold deleteBody
  cases nilGet pm.pool.AllocatedRanges id with
  | none => rfl
  | some v =>
    simp only
    have hs := savePoolFile_reads env
      { pm with
        pool := { pm.pool with AllocatedRanges := pm.pool.AllocatedRanges.map (GoMap.delete id) }
        allocatedRanges := pm.allocatedRanges.map (GoMap.delete id) } w
    split <;> rename_i hq <;> rw [hq] at hs <;> exact hs

/-- One `loadPoolFile` reads the store at most once; when it succeeds it has read
it once and the manager is loaded. -/
theorem loadPoolFile_reads (rt : Runtime) (env : Env) (fuel : Nat) (pm : PoolManager)
    (w : World) :
    reads (loadPoolFile rt env fuel pm w).2.2.log ≤ reads w.log + 1 ∧
      ((loadPoolFile rt env fuel pm w).1 = .ok () →
        reads (loadPoolFile rt env fuel pm w).2.2.log = reads w.log + 1 ∧
        (loadPoolFile rt env fuel pm w).2.1.poolLoaded = true) := by
  constructor
  · unfold loadPoolFile
    rcases parsePoolFile rt pm with ⟨o, pm1⟩
    cases o with
    | ok u =>
      cases u
      simp only
      cases env.readErr with
      | some e => simp
      | none =>
        simp only
        cases w.content (loadLoc pm1) with
        | none => simp [reads_append, reads]
        | some b =>
          cases b with
          | malformed => simp [reads_append, reads]
          | document d =>
            simp only
            split <;> simp [reads_append, reads]
    | error e => simp
    | crash c => simp
    | blocked => simp
    | outOfFuel => simp
  · intro h
    have h2 : loadPoolFile rt env fuel pm w =
        (.ok (), (loadPoolFile rt env fuel pm w).2.1, (loadPoolFile rt env fuel pm w).2.2) :=
      Prod.ext h rfl
    obtain ⟨pm1, d, table, _, _, _, _, hpm', hw'⟩ := loadPoolFile_ok rt env fuel pm _ w _ h2
    rw [hw', hpm']
    simp [reads_append, reads]

/-- On an unloaded manager `GetAllocation` reads the store at most once; when it
returns a value or not-found it has read it once and the manager is loaded. -/
theorem GetAllocation_unloaded (rt : Runtime) (env : Env) (fuel : Nat) (pm : PoolManager)
    (w : World) (id : String) (hU : pm.poolLoaded = false) :
    reads (GetAllocation rt env fuel pm w id).2.2.log ≤ reads w.log + 1 ∧
      (((∃ v, (GetAllocation rt env fuel pm w id).1 = .ok v) ∨
          (GetAllocation rt env fuel pm w id).1 = .error (.allocationNotFound id)) →
        reads (GetAllocation rt env fuel pm w id).2.2.log = reads w.log + 1 ∧
        (GetAllocation rt env fuel pm w id).2.1.poolLoaded = true) := by
  have hf := parsePoolFile_fields rt pm
  have hpn := parsePoolFile_not_notFound rt pm id
  unfold GetAllocation
  rcases hp : parsePoolFile rt pm with ⟨o, pm1⟩
  rw [hp] at hf hpn
  simp only at hf hpn
  cases o with
  | ok u =>
    cases u
    simp only
    have h1 : pm1.poolLoaded = false := hf.2.1.trans hU
    rw [if_pos (by simp [h1])]
    have hlog := (acquireLockFile_log env fuel pm1 w).1
    have han := acquireLockFile_not_notFound env fuel pm1 w id
    rcases ha : acquireLockFile env fuel pm1 w with ⟨o2, pm2, w2⟩
    rw [ha] at hlog han
    simp only at hlog han
    cases o2 with
    | ok u2 =>
      cases u2
      simp only
      have hlr := loadPoolFile_reads rt env fuel pm2 w2
      have hln := loadPoolFile_not_notFound rt env fuel pm2 w2 id
      rcases hq : loadPoolFile rt env fuel pm2 w2 with ⟨o3, pm3, w3⟩
      rw [hq] at hlr hln
      simp only at hlr hln
      obtain ⟨hle, hok⟩ := hlr
      cases o3 with
      | ok u3 =>
        cases u3
        simp only
        obtain ⟨_, r2, _, _, _, r6, _, _⟩ := withRelease_frame env (getBody pm3 id, pm3, w3)
        obtain ⟨k1, k2⟩ := hok rfl
        simp only at r2 r6
        rw [r6, r2, k1, hlog]
        exact ⟨le_refl _, fun _ => ⟨rfl, k2⟩⟩
      | error e =>
        simp only
        obtain ⟨_, _, _, _, _, r6, _, r8⟩ :=
          withRelease_frame env ((Outcome.error e : Outcome String), pm3, w3)
        simp only at r6 r8
        rw [r6]
        refine ⟨by omega, fun hx => ?_⟩
        exfalso
        rcases r8 with r8 | ⟨c, r8⟩ <;> rw [r8] at hx
        · rcases hx with ⟨v, hx⟩ | hx
          · exact Outcome.noConfusion hx
          · exact hln (congrArg Outcome.error (Outcome.error.inj hx))
        · rcases hx with ⟨v, hx⟩ | hx <;> exact Outcome.noConfusion hx
      | crash c =>
        simp only
        obtain ⟨_, _, _, _, _, r6, _, r8⟩ :=
          withRelease_frame env ((Outcome.crash c : Outcome String), pm3, w3)
        simp only at r6 r8
        rw [r6]
        refine ⟨by omega, fun hx => ?_⟩
        exfalso
        rcases r8 with r8 | ⟨c, r8⟩ <;> rw [r8] at hx <;>
          rcases hx with ⟨v, hx⟩ | hx <;> exact Outcome.noConfusion hx
      | blocked =>
        simp only
        obtain ⟨_, _, _, _, _, r6, _, r8⟩ :=
          withRelease_frame env ((Outcome.blocked : Outcome String), pm3, w3)
        simp only at r6 r8
        rw [r6]
        refine ⟨by omega, fun hx => ?_⟩
        exfalso
        rcases r8 with r8 | ⟨c, r8⟩ <;> rw [r8] at hx <;>
          rcases hx with ⟨v, hx⟩ | hx <;> exact Outcome.noConfusion hx
      | outOfFuel =>
        simp only
        obtain ⟨_, _, _, _, _, r6, _, r8⟩ :=
          withRelease_frame env ((Outcome.outOfFuel : Outcome String), pm3, w3)
        simp only at r6 r8
        rw [r6]
        refine ⟨by omega, fun hx => ?_⟩
        exfalso
        rcases r8 with r8 | ⟨c, r8⟩ <;> rw [r8] at hx <;>
          rcases hx with ⟨v, hx⟩ | hx <;> exact Outcome.noConfusion hx
    | error e =>
      simp only
      refine ⟨by omega, fun hx => ?_⟩
      exfalso
      rcases hx with ⟨v, hx⟩ | hx
      · exact Outcome.noConfusion hx
      · exact han (congrArg Outcome.error (Outcome.error.inj hx))
    | crash c =>
      simp only
      refine ⟨by omega, fun hx => ?_⟩
      exfalso
      rcases hx with ⟨v, hx⟩ | hx <;> exact Outcome.noConfusion hx
    | blocked =>
      simp only
      refine ⟨by omega, fun hx => ?_⟩
      exfalso
      rcases hx with ⟨v, hx⟩ | hx <;> exact Outcome.noConfusion hx
    | outOfFuel =>
      simp only
      refine ⟨by omega, fun hx => ?_⟩
      exfalso
      rcases hx with ⟨v, hx⟩ | hx <;> exact Outcome.noConfusion hx
  | error e =>
    simp only
    refine ⟨by omega, fun hx => ?_⟩
    exfalso
    rcases hx with ⟨v, hx⟩ | hx
    · exact Outcome.noConfusion hx
    · exact hpn (congrArg Outcome.error (Outcome.error.inj hx))
  | crash c =>
    simp only
    refine ⟨by omega, fun hx => ?_⟩
    exfalso
    rcases hx with ⟨v, hx⟩ | hx <;> exact Outcome.noConfusion hx
  | blocked =>
    simp only
    refine ⟨by omega, fun hx => ?_⟩
    exfalso
    rcases hx with ⟨v, hx⟩ | hx <;> exact Outcome.noConfusion hx
  | outOfFuel =>
    simp only
    refine ⟨by omega, fun hx => ?_⟩
    exfalso
    rcases hx with ⟨v, hx⟩ | hx <;> exact Outcome.noConfusion hx

/-- On a loaded manager `GetAllocation` leaves the world as it is. -/
theorem GetAllocation_loaded_world (rt : Runtime) (env : Env) (fuel : Nat) (pm : PoolManager)
    (w : World) (id : String) (hL : pm.poolLoaded = true) :
    (GetAllocation rt env fuel pm w id).2.2 = w ∧
      (GetAllocation rt env fuel pm w id).2.1.poolLoaded = true := by
  have hf := parsePoolFile_fields rt pm
  unfold GetAllocation
  rcases hp : parsePoolFile rt pm with ⟨o, pm1⟩
  rw [hp] at hf
  simp only at hf
  have h1 : pm1.poolLoaded = true := hf.2.1.trans hL
  cases o with
  | ok u =>
    cases u
    simp only
    rw [if_neg (by simp [h1])]
    split <;> exact ⟨rfl, h1⟩
  | error e => exact ⟨rfl, h1⟩
  | crash c => exact ⟨rfl, h1⟩
  | blocked => exact ⟨rfl, h1⟩
  | outOfFuel => exact ⟨rfl, h1⟩

/-- An operation on a loaded manager whose body keeps the loaded flag and reads
nothing leaves the manager loaded and reads nothing. -/
theorem operation_loaded_reads {α : Type} (rt : Runtime) (env : Env) (fuel : Nat)
    (pm : PoolManager) (w : World)
    (body : PoolManager → World → Outcome α × PoolManager × World)
    (hbody : ∀ pm3 w3, (body pm3 w3).2.1.poolLoaded = pm3.poolLoaded ∧
      reads (body pm3 w3).2.2.log = reads w3.log)
    (hl : pm.poolLoaded = true) :
    (operation rt env fuel pm w body).2.1.poolLoaded = true ∧
      reads (operation rt env fuel pm w body).2.2.log = reads w.log := by
  rcases operation_loaded_cases rt env fuel pm w body hl with
    ⟨_, _, _, h4, _, _, _, h8, _⟩ | ⟨pm2, w2, _, c2, _, _, _, _, c7, _, hop⟩
  · exact ⟨h4, h8⟩
  · rw [hop]
    obtain ⟨_, r2, _, _, _, r6, _, _⟩ := withRelease_frame env (body pm2 w2)
    obtain ⟨b1, b2⟩ := hbody pm2 w2
    exact ⟨by rw [r2, b1, c2], by rw [r6, b2, c7]⟩

/-! ### No candidate is an empty text -/

theorem cidrText_ne_empty (base : Nat) (mask : String) : cidrText base mask ≠ "" := by
  intro h
  have := congrArg String.data h
  simp [cidrText, String.data_append] at this

theorem expandLoop_clean (reverse : GoMap String) (mask : String) (inc e : Nat) :
    ∀ (fuel cur : Nat) (res : List String), "" ∉ res →
      "" ∉ (expandLoop reverse mask inc e fuel cur res).1 := by
  intro fuel
  induction fuel with
  | zero => intro cur res h; simpa [expandLoop] using h
  | succ f ih =>
    intro cur res h
    have hres : "" ∉ (if (GoMap.get? (cidrText ((cur + inc) % 2 ^ 32) mask) reverse).isSome
        then res else res ++ [cidrText ((cur + inc) % 2 ^ 32) mask]) := by
      split
      · exact h
      · intro hx
        rcases List.mem_append.1 hx with hx | hx
        · exact h hx
        · exact cidrText_ne_empty _ _ (List.mem_singleton.1 hx).symm
    rw [expandLoop_succ]
    split
    · exact hres
    · exact ih _ _ hres

theorem expandRange_clean (rt : Runtime) (fuel : Nat) (reverse : GoMap String) (rr : String)
    (res out : List String) (h : expandRange rt fuel reverse rr res = .ok out)
    (hres : "" ∉ res) : "" ∉ out := by
  unfold expandRange at h
  repeat' split at h
  all_goals first
    | exact Outcome.noConfusion h
    | skip
  rename_i hq
  simp only [Outcome.ok.injEq] at h
  subst h
  have hcl : ∀ mask inc e cur o, expandLoop reverse mask inc e fuel cur res = (o, true) →
      "" ∉ o := by
    intro mask inc e cur o hx
    have := expandLoop_clean reverse mask inc e fuel cur res hres
    rw [hx] at this
    exact this
  exact hcl _ _ _ _ _ hq

theorem expandGroup_clean (rt : Runtime) (fuel : Nat) (reverse : GoMap String) :
    ∀ (r res out : List String), expandGroup rt fuel reverse r res = .ok out → "" ∉ res →
      "" ∉ out := by
  intro r
  induction r with
  | nil =>
    intro res out h hres
    simp only [expandGroup, Outcome.ok.injEq] at h
    subst h
    exact hres
  | cons rr rest ih =>
    intro res out h hres
    unfold expandGroup at h
    cases hq : expandRange rt fuel reverse rr res with
    | ok res1 =>
      rw [hq] at h
      exact ih res1 out h (expandRange_clean rt fuel reverse rr res res1 hq hres)
    | error e => rw [hq] at h; exact Outcome.noConfusion h
    | crash c => rw [hq] at h; exact Outcome.noConfusion h
    | blocked => rw [hq] at h; exact Outcome.noConfusion h
    | outOfFuel => rw [hq] at h; exact Outcome.noConfusion h

theorem expandPool_clean (rt : Runtime) (fuel : Nat) (reverse : GoMap String) :
    ∀ (v : List (List String)), ∀ g ∈ (expandPool rt fuel reverse v).1, "" ∉ g := by
  intro v
  induction v with
  | nil => intro g hg; simp [expandPool] at hg
  | cons r rest ih =>
    intro g hg
    unfold expandPool at hg
    cases hq : expandGroup rt fuel reverse r [] with
    | ok res =>
      rw [hq] at hg
      simp only [List.mem_cons] at hg
      rcases hg with hg | hg
      · rw [hg]
        exact expandGroup_clean rt fuel reverse r [] res hq (by simp)
      · exact ih g hg
    | error e => rw [hq] at hg; simp at hg
    | crash c => rw [hq] at hg; simp at hg
    | blocked => rw [hq] at hg; simp at hg
    | outOfFuel => rw [hq] at hg; simp at hg

theorem CleanTable_set (k : String) (groups : List (List String))
    (acc : GoMap (List (List String))) (hacc : CleanTable (some acc))
    (hg : ∀ g ∈ groups, "" ∉ g) : CleanTable (some (GoMap.set k groups acc)) := by
  intro p gs hp g hmem
  simp only [nilGet] at hp
  by_cases hpk : p = k
  · subst hpk
    rw [GoMap.get?_set_self] at hp
    simp only [Option.some.injEq] at hp
    subst hp
    exact hg g hmem
  · rw [GoMap.get?_set_ne k p groups acc hpk] at hp
    exact hacc p gs hp g hmem

theorem expandPools_clean (rt : Runtime) (fuel : Nat) (reverse : GoMap String) :
    ∀ (pools acc : GoMap (List (List String))), CleanTable (some acc) →
      CleanTable (some (expandPools rt fuel reverse pools acc).1) := by
  intro pools
  induction pools with
  | nil => intro acc h; simpa [expandPools] using h
  | cons e rest ih =>
    intro acc h
    obtain ⟨k, v⟩ := e
    unfold expandPools
    have hc := expandPool_clean rt fuel reverse v
    rcases hq : expandPool rt fuel reverse v with ⟨groups, o⟩
    rw [hq] at hc
    simp only at hc
    have hpad : ∀ g ∈ groups ++ List.replicate (v.length - groups.length) [], "" ∉ g := by
      intro g hg
      rcases List.mem_append.1 hg with hg | hg
      · exact hc g hg
      · rw [(List.mem_replicate.1 hg).2]
        simp
    cases o with
    | ok u =>
      cases u
      exact ih _ (CleanTable_set k groups acc h hc)
    | error e => exact CleanTable_set k _ acc h hpad
    | crash c => exact CleanTable_set k _ acc h hpad
    | blocked => exact CleanTable_set k _ acc h hpad
    | outOfFuel => exact CleanTable_set k _ acc h hpad

theorem CleanTable_nil : CleanTable (some []) := by
  intro p gs hp
  simp [nilGet, GoMap.get?] at hp

theorem CleanTable_none : CleanTable none := by
  intro p gs hp
  simp [nilGet] at hp

/-- Whatever `loadPoolFile` returns, a table without empty texts stays so. -/
theorem loadPoolFile_clean (rt : Runtime) (env : Env) (fuel : Nat) (pm : PoolManager)
    (w : World) (h : CleanTable pm.expandedRanges) :
    CleanTable (loadPoolFile rt env fuel pm w).2.1.expandedRanges := by
  have hf := (parsePoolFile_fields rt pm).2.2.1
  unfold loadPoolFile
  rcases hp : parsePoolFile rt pm with ⟨o, pm1⟩
  rw [hp] at hf
  simp only at hf
  have h1 : CleanTable pm1.expandedRanges := by rw [hf]; exact h
  cases o with
  | ok u =>
    cases u
    simp only
    cases env.readErr with
    | some e => exact h1
    | none =>
      simp only
      cases w.content (loadLoc pm1) with
      | none => exact h1
      | some b =>
        cases b with
        | malformed => exact h1
        | document d =>
          simp only
          have hc := expandPools_clean rt fuel
            (reverseMap (unmarshalInto pm1.pool d).AllocatedRanges)
            (nilEntries (unmarshalInto pm1.pool d).IpPools) [] CleanTable_nil
          split <;> exact hc
  | error e => exact h1
  | crash c => exact h1
  | blocked => exact h1
  | outOfFuel => exact h1

/-- The body of `AllocateNewNetwork` only removes candidates. -/
theorem allocateBody_clean (env : Env) (pm : PoolManager) (w : World) (poolName : String)
    (poolIndex maskSize : Int) (name : String) (h : CleanTable pm.expandedRanges) :
    CleanTable (allocateBody env pm w poolName poolIndex maskSize name).2.1.expandedRanges := by
  rcases hb : allocateBody env pm w poolName poolIndex maskSize name with ⟨r, pm', w'⟩
  obtain ⟨_, _, _, htab⟩ :=
    allocateBody_table env pm pm' w w' poolName poolIndex maskSize name r hb
  show CleanTable pm'.expandedRanges
  rcases htab with ⟨hsame, _⟩ | ⟨groups, idx, hg, _, _, _, hupd, _⟩
  · rw [hsame]; exact h
  · rw [hupd]
    cases hm : pm.expandedRanges with
    | none => exact CleanTable_none
    | some m =>
      rw [hm] at h hg
      simp only [Option.map_some']
      refine CleanTable_set poolName _ m h ?_
      intro g hgm
      rcases List.mem_or_eq_of_mem_set hgm with hgm | hgm
      · exact h poolName groups hg g hgm
      · rw [hgm]
        intro hx
        have hsub := (List.eraseIdx_sublist (groups.getD (poolIndex - 1).toNat []) idx).subset hx
        by_cases hi : (poolIndex - 1).toNat < groups.length
        · rw [List.getD_eq_getElem _ _ hi] at hsub
          exact h poolName groups hg _ (List.getElem_mem hi) hsub
        · rw [List.getD_eq_default _ _ (by omega)] at hsub
          simp at hsub

/-- An operation keeps a table without empty texts so, whatever it returns. -/
theorem operation_clean {α : Type} (rt : Runtime) (env : Env) (fuel : Nat)
    (pm : PoolManager) (w : World)
    (body : PoolManager → World → Outcome α × PoolManager × World)
    (hbody : ∀ pm3 w3, CleanTable pm3.expandedRanges →
      CleanTable (body pm3 w3).2.1.expandedRanges)
    (h : CleanTable pm.expandedRanges) :
    CleanTable (operation rt env fuel pm w body).2.1.expandedRanges := by
  have hf := (parsePoolFile_fields rt pm).2.2.1
  unfold operation
  rcases hp : parsePoolFile rt pm with ⟨o, pm1⟩
  rw [hp] at hf
  simp only at hf
  have h1 : CleanTable pm1.expandedRanges := by rw [hf]; exact h
  cases o with
  | ok u =>
    cases u
    simp only
    have ha := (acquireLockFile_fields env fuel pm1 w).2.2.1
    rcases hq : acquireLockFile env fuel pm1 w with ⟨o2, pm2, w2⟩
    rw [hq] at ha
    simp only at ha
    have h2 : CleanTable pm2.expandedRanges := by rw [ha]; exact h1
    cases o2 with
    | ok u2 =>
      cases u2
      simp only
      have h3 : CleanTable (ensureLoaded rt env fuel pm2 w2).2.1.expandedRanges := by
        unfold ensureLoaded
        split
        · exact loadPoolFile_clean rt env fuel pm2 w2 h2
        · exact h2
      rcases he : ensureLoaded rt env fuel pm2 w2 with ⟨o3, pm3, w3⟩
      rw [he] at h3
      simp only at h3
      cases o3 with
      | ok u3 =>
        cases u3
        simp only
        rw [(withRelease_frame env (body pm3 w3)).2.2.1]
        exact hbody pm3 w3 h3
      | error e =>
        simp only
        rw [(withRelease_frame env _).2.2.1]
        exact h3
      | crash c =>
        simp only
        rw [(withRelease_frame env _).2.2.1]
        exact h3
      | blocked =>
        simp only
        rw [(withRelease_frame env _).2.2.1]
        exact h3
      | outOfFuel =>
        simp only
        rw [(withRelease_frame env _).2.2.1]
        exact h3
    | error e => exact h2
    | crash c => exact h2
    | blocked => exact h2
    | outOfFuel => exact h2
  | error e => exact h1
  | crash c => exact h1
  | blocked => exact h1
  | outOfFuel => exact h1

/-- `GetAllocation` keeps a table without empty texts so, whatever it returns. -/
theorem GetAllocation_clean (rt : Runtime) (env : Env) (fuel : Nat) (pm : PoolManager)
    (w : World) (id : String) (h : CleanTable pm.expandedRanges) :
    CleanTable (GetAllocation rt env fuel pm w id).2.1.expandedRanges := by
  have hf := (parsePoolFile_fields rt pm).2.2.1
  unfold GetAllocation
  rcases hp : parsePoolFile rt pm with ⟨o, pm1⟩
  rw [hp] at hf
  simp only at hf
  have h1 : CleanTable pm1.expandedRanges := by rw [hf]; exact h
  cases o with
  | ok u =>
    cases u
    simp only
    split
    · have ha := (acquireLockFile_fields env fuel pm1 w).2.2.1
      rcases hq : acquireLockFile env fuel pm1 w with ⟨o2, pm2, w2⟩
      rw [hq] at ha
      simp only at ha
      have h2 : CleanTable pm2.expandedRanges := by rw [ha]; exact h1
      cases o2 with
      | ok u2 =>
        cases u2
        simp only
        have h3 := loadPoolFile_clean rt env fuel pm2 w2 h2
        rcases he : loadPoolFile rt env fuel pm2 w2 with ⟨o3, pm3, w3⟩
        rw [he] at h3
        simp only at h3
        rw [(withRelease_frame env _).2.2.1]
        cases o3 with
        | ok u3 => cases u3; exact h3
        | error e => exact h3
        | crash c => exact h3
        | blocked => exact h3
        | outOfFuel => exact h3
      | error e => exact h2
      | crash c => exact h2
      | blocked => exact h2
      | outOfFuel => exact h2
    · split <;> exact h1
  | error e => exact h1
  | crash c => exact h1
  | blocked => exact h1
  | outOfFuel => exact h1

/-- The table of a new manager holds no empty text, and each public operation
keeps it so: no candidate of a manager is ever an empty text. -/
theorem CleanTable_invariant (rt : Runtime) (env : Env) (fuel : Nat) (pm : PoolManager)
    (w : World) (id poolName name : String) (poolIndex maskSize : Int) :
    (∀ i f t, CleanTable (NewPoolManager i f t).expandedRanges) ∧
    (CleanTable pm.expandedRanges →
      CleanTable (AllocateNewNetwork rt env fuel pm w poolName poolIndex maskSize
        name).2.1.expandedRanges ∧
      CleanTable (DeleteAllocation rt env fuel pm w id).2.1.expandedRanges ∧
      CleanTable (GetAllocation rt env fuel pm w id).2.1.expandedRanges ∧
      CleanTable (loadPoolFile rt env fuel pm w).2.1.expandedRanges ∧
      ∀ p g cand, groupCandidates pm p g = some cand → "" ∉ cand) := by
  refine ⟨fun i f t => CleanTable_none, fun h => ⟨?_, ?_, GetAllocation_clean rt env fuel pm w id h,
    loadPoolFile_clean rt env fuel pm w h, ?_⟩⟩
  · rw [AllocateNewNetwork_eq_operation]
    exact operation_clean rt env fuel pm w _
      (fun pm3 w3 h3 => allocateBody_clean env pm3 w3 poolName poolIndex maskSize name h3) h
  · rw [DeleteAllocation_eq_operation]
    exact operation_clean rt env fuel pm w _
      (fun pm3 w3 h3 => by
        rcases hb : deleteBody env pm3 w3 id with ⟨r, pm', w'⟩
        show CleanTable pm'.expandedRanges
        rw [(deleteBody_table env pm3 pm' w3 w' id r hb).2.2.2]
        exact h3) h
  · intro p g cand hc
    unfold groupCandidates at hc
    cases hg : nilGet pm.expandedRanges p with
    | none => rw [hg] at hc; simp at hc
    | some groups =>
      rw [hg] at hc
      simp only at hc
      split at hc
      · exact h p groups hg cand (List.mem_iff_getElem?.2 ⟨_, hc⟩)
      · simp at hc

/-- One operation reads the store at most once. On an unloaded manager, when the
lock is acquired and the load succeeds (`reachesBody`) the operation has read the
store exactly once and leaves the manager loaded; an operation that returns a
result or not-found has reached its body. -/
theorem operation_reads {α : Type} (rt : Runtime) (env : Env) (fuel : Nat)
    (pm : PoolManager) (w : World)
    (body : PoolManager → World → Outcome α × PoolManager × World)
    (hbody : ∀ pm3 w3, (body pm3 w3).2.1.poolLoaded = pm3.poolLoaded ∧
      reads (body pm3 w3).2.2.log = reads w3.log) :
    reads (operation rt env fuel pm w body).2.2.log ≤ reads w.log + 1 ∧
    (pm.poolLoaded = false → reachesBody rt env fuel pm w = true →
      reads (operation rt env fuel pm w body).2.2.log = reads w.log + 1 ∧
      (operation rt env fuel pm w body).2.1.poolLoaded = true) ∧
    (((∃ a, (operation rt env fuel pm w body).1 = .ok a) ∨
        ∃ id, (operation rt env fuel pm w body).1 = .error (.allocationNotFound id)) →
      reachesBody rt env fuel pm w = true) := by
  have hf := (parsePoolFile_fields rt pm).2.1
  have hpn := parsePoolFile_not_notFound rt pm
  unfold operation reachesBody
  rcases hp : parsePoolFile rt pm with ⟨o, pm1⟩
  rw [hp] at hf hpn
  simp only at hf hpn
  cases o with
  | ok u =>
    cases u
    simp only
    have hlog := (acquireLockFile_log env fuel pm1 w).1
    have ha2 := (acquireLockFile_fields env fuel pm1 w).2.1
    have han := acquireLockFile_not_notFound env fuel pm1 w
    rcases ha : acquireLockFile env fuel pm1 w with ⟨o2, pm2, w2⟩
    rw [ha] at hlog ha2 han
    simp only at hlog ha2 han
    cases o2 with
    | ok u2 =>
      cases u2
      simp only
      have hen : reads (ensureLoaded rt env fuel pm2 w2).2.2.log ≤ reads w2.log + 1 ∧
          ((ensureLoaded rt env fuel pm2 w2).1 = .ok () →
            (ensureLoaded rt env fuel pm2 w2).2.1.poolLoaded = true ∧
            (pm2.poolLoaded = false →
              reads (ensureLoaded rt env fuel pm2 w2).2.2.log = reads w2.log + 1)) := by
        unfold ensureLoaded
        by_cases hl : pm2.poolLoaded = true
        · rw [if_neg (by simp [hl])]
          exact ⟨by simp, fun _ => ⟨hl, fun h => by rw [hl] at h; cases h⟩⟩
        · rw [if_pos hl]
          obtain ⟨k1, k2⟩ := loadPoolFile_reads rt env fuel pm2 w2
          exact ⟨k1, fun h => ⟨(k2 h).2, fun _ => (k2 h).1⟩⟩
      have hnn := ensureLoaded_not_notFound rt env fuel pm2 w2
      rcases he : ensureLoaded rt env fuel pm2 w2 with ⟨o3, pm3, w3⟩
      rw [he] at hen hnn
      simp only at hen hnn
      obtain ⟨hle, hok⟩ := hen
      cases o3 with
      | ok u3 =>
        cases u3
        simp only
        obtain ⟨_, r2, _, _, _, r6, _, _⟩ := withRelease_frame env (body pm3 w3)
        obtain ⟨b1, b2⟩ := hbody pm3 w3
        obtain ⟨k1, k2⟩ := hok rfl
        rw [r6, r2, b1, b2]
        refine ⟨by omega, fun hU _ => ⟨?_, k1⟩, fun _ => trivial⟩
        have := k2 (by rw [ha2, hf]; exact hU)
        omega
      | error e =>
        simp only [Outcome.carry]
        obtain ⟨_, _, _, _, _, r6, _, r8⟩ :=
          withRelease_frame env ((Outcome.error e : Outcome α), pm3, w3)
        simp only at r6 r8
        rw [r6]
        refine ⟨by omega, fun _ hx => Bool.noConfusion hx, fun hx => ?_⟩
        exfalso
        rcases r8 with r8 | ⟨c, r8⟩ <;> rw [r8] at hx
        · rcases hx with ⟨v, hx⟩ | ⟨id, hx⟩
          · exact Outcome.noConfusion hx
          · exact hnn id (congrArg Outcome.error (Outcome.error.inj hx))
        · rcases hx with ⟨v, hx⟩ | ⟨id, hx⟩ <;> exact Outcome.noConfusion hx
      | crash c =>
        simp only [Outcome.carry]
        obtain ⟨_, _, _, _, _, r6, _, r8⟩ :=
          withRelease_frame env ((Outcome.crash c : Outcome α), pm3, w3)
        simp only at r6 r8
        rw [r6]
        refine ⟨by omega, fun _ hx => Bool.noConfusion hx, fun hx => ?_⟩
        exfalso
        rcases r8 with r8 | ⟨c, r8⟩ <;> rw [r8] at hx <;>
          rcases hx with ⟨v, hx⟩ | ⟨id, hx⟩ <;> exact Outcome.noConfusion hx
      | blocked =>
        simp only [Outcome.carry]
        obtain ⟨_, _, _, _, _, r6, _, r8⟩ :=
          withRelease_frame env ((Outcome.blocked : Outcome α), pm3, w3)
        simp only at r6 r8
        rw [r6]
        refine ⟨by omega, fun _ hx => Bool.noConfusion hx, fun hx => ?_⟩
        exfalso
        rcases r8 with r8 | ⟨c, r8⟩ <;> rw [r8] at hx <;>
          rcases hx with ⟨v, hx⟩ | ⟨id, hx⟩ <;> exact Outcome.noConfusion hx
      | outOfFuel =>
        simp only [Outcome.carry]
        obtain ⟨_, _, _, _, _, r6, _, r8⟩ :=
          withRelease_frame env ((Outcome.outOfFuel : Outcome α), pm3, w3)
        simp only at r6 r8
        rw [r6]
        refine ⟨by omega, fun _ hx => Bool.noConfusion hx, fun hx => ?_⟩
        exfalso
        rcases r8 with r8 | ⟨c, r8⟩ <;> rw [r8] at hx <;>
          rcases hx with ⟨v, hx⟩ | ⟨id, hx⟩ <;> exact Outcome.noConfusion hx
    | error e =>
      simp only [Outcome.carry]
      refine ⟨by omega, fun _ hx => Bool.noConfusion hx, fun hx => ?_⟩
      exfalso
      rcases hx with ⟨v, hx⟩ | ⟨id, hx⟩
      · exact Outcome.noConfusion hx
      · exact han id (congrArg Outcome.error (Outcome.error.inj hx))
    | crash c =>
      simp only [Outcome.carry]
      refine ⟨by omega, fun _ hx => Bool.noConfusion hx, fun hx => ?_⟩
      exfalso
      rcases hx with ⟨v, hx⟩ | ⟨id, hx⟩ <;> exact Outcome.noConfusion hx
    | blocked =>
      simp only [Outcome.carry]
      refine ⟨by omega, fun _ hx => Bool.noConfusion hx, fun hx => ?_⟩
      exfalso
      rcases hx with ⟨v, hx⟩ | ⟨id, hx⟩ <;> exact Outcome.noConfusion hx
    | outOfFuel =>
      simp only [Outcome.carry]
      refine ⟨by omega, fun _ hx => Bool.noConfusion hx, fun hx => ?_⟩
      exfalso
      rcases hx with ⟨v, hx⟩ | ⟨id, hx⟩ <;> exact Outcome.noConfusion hx
  | error e =>
    simp only [Outcome.carry]
    refine ⟨by omega, fun _ hx => Bool.noConfusion hx, fun hx => ?_⟩
    exfalso
    rcases hx with ⟨v, hx⟩ | ⟨id, hx⟩
    · exact Outcome.noConfusion hx
    · exact hpn id (congrArg Outcome.error (Outcome.error.inj hx))
  | crash c =>
    simp only [Outcome.carry]
    refine ⟨by omega, fun _ hx => Bool.noConfusion hx, fun hx => ?_⟩
    exfalso
    rcases hx with ⟨v, hx⟩ | ⟨id, hx⟩ <;> exact Outcome.noConfusion hx
  | blocked =>
    simp only [Outcome.carry]
    refine ⟨by omega, fun _ hx => Bool.noConfusion hx, fun hx => ?_⟩
    exfalso
    rcases hx with ⟨v, hx⟩ | ⟨id, hx⟩ <;> exact Outcome.noConfusion hx
  | outOfFuel =>
    simp only [Outcome.carry]
    refine ⟨by omega, fun _ hx => Bool.noConfusion hx, fun hx => ?_⟩
    exfalso
    rcases hx with ⟨v, hx⟩ | ⟨id, hx⟩ <;> exact Outcome.noConfusion hx

/-! ### Calls that succeed -/

/-- At an object-storage location with the mutex free, a marker created at the
first attempt acquires the lock. -/
theorem acquireLockFile_succeeds (env : Env) (fuel : Nat) (pm : PoolManager) (w : World)
    (hlock : pm.poolLock = false) (hgs : HasPrefix pm.poolFile "gs://" = true)
    (hc : env.lockClient 0 = none) (hm : env.lockCreate 0 = none) (hfuel : 1 ≤ fuel) :
    acquireLockFile env fuel pm w = (.ok (), { pm with poolLock := true },
      { w with log := w.log ++
        [Event.createMarker pm.poolBucket (pm.poolObject ++ ".lock")] }) := by
  obtain ⟨f, rfl⟩ : ∃ f, fuel = f + 1 := ⟨fuel - 1, by omega⟩
  unfold acquireLockFile
  rw [if_neg (by simp [hlock]), if_neg (by simp [hgs])]
  unfold acquireLoop
  simp only [hc, hm]

/-- An operation whose location parses, whose lock is acquired and whose load
succeeds is its body followed by the deferred release. -/
theorem operation_runs {α : Type} (rt : Runtime) (env : Env) (fuel : Nat)
    (pm pm1 pm2 pm3 : PoolManager) (w w2 w3 : World)
    (body : PoolManager → World → Outcome α × PoolManager × World)
    (hp : parsePoolFile rt pm = (.ok (), pm1))
    (ha : acquireLockFile env fuel pm1 w = (.ok (), pm2, w2))
    (he : ensureLoaded rt env fuel pm2 w2 = (.ok (), pm3, w3)) :
    operation rt env fuel pm w body = withRelease env (body pm3 w3) := by
  unfold operation
  rw [hp]
  simp only
  rw [ha]
  simp only
  rw [he]

/-- A successful load, forwards. -/
theorem loadPoolFile_succeeds (rt : Runtime) (env : Env) (fuel : Nat) (pm pm1 : PoolManager)
    (w : World) (d : PoolFile) (table : GoMap (List (List String)))
    (hp : parsePoolFile rt pm = (.ok (), pm1)) (hread : env.readErr = none)
    (hdoc : w.content (loadLoc pm1) = some (Blob.document d))
    (hexp : expandPools rt fuel (reverseMap (unmarshalInto pm1.pool d).AllocatedRanges)
      (nilEntries (unmarshalInto pm1.pool d).IpPools) [] = (table, .ok ())) :
    loadPoolFile rt env fuel pm w = (.ok (),
      { pm1 with
        pool := unmarshalInto pm1.pool d
        allocatedRanges := some (reverseMap (unmarshalInto pm1.pool d).AllocatedRanges)
        expandedRanges := some table
        poolLoaded := true },
      { w with log := w.log ++ [Event.read (loadLoc pm1)] }) := by
  unfold loadPoolFile
  rw [hp]
  simp only [hread, hdoc, hexp]

/-- The body of `AllocateNewNetwork` when the group has a match and the save
succeeds. -/
theorem allocateBody_succeeds (env : Env) (pm : PoolManager) (w : World) (poolName : String)
    (poolIndex maskSize : Int) (name : String) (groups : List (List String)) (idx : Nat)
    (reverse ranges : GoMap String) (hs : env.saveErr = none)
    (hg : nilGet pm.expandedRanges poolName = some groups) (hpos : 0 < poolIndex)
    (hle : poolIndex ≤ groups.length)
    (hf : (groups.getD (poolIndex - 1).toNat []).findIdx? (maskMatches maskSize) = some idx)
    (hne : (groups.getD (poolIndex - 1).toNat []).getD idx "" ≠ "")
    (hr : pm.allocatedRanges = some reverse) (ha : pm.pool.AllocatedRanges = some ranges) :
    (allocateBody env pm w poolName poolIndex maskSize name).1 =
      .ok ((groups.getD (poolIndex - 1).toNat []).getD idx "", allocationKey pm.id name) ∧
    (allocateBody env pm w poolName poolIndex maskSize name).2.1 =
      { pm with
        expandedRanges := pm.expandedRanges.map (GoMap.set poolName
          (groups.set (poolIndex - 1).toNat
            ((groups.getD (poolIndex - 1).toNat []).eraseIdx idx)))
        allocatedRanges := some (GoMap.set (allocationKey pm.id name)
          ((groups.getD (poolIndex - 1).toNat []).getD idx "") reverse)
        pool := { pm.pool with AllocatedRanges := some (GoMap.set (allocationKey pm.id name)
          ((groups.getD (poolIndex - 1).toNat []).getD idx "") ranges) } } := by
  unfold allocateBody
  simp only [hg]
  rw [if_neg (by omega), if_neg (by omega)]
  simp only [hf]
  rw [if_neg hne]
  simp only [hr, ha]
  unfold savePoolFile
  simp only [hs]
  constructor <;> first | rfl | trivial

/-- The body of `AllocateNewNetwork` when the group has no match. -/
theorem allocateBody_no_match (env : Env) (pm : PoolManager) (w : World) (poolName : String)
    (poolIndex maskSize : Int) (name : String) (groups : List (List String))
    (hg : nilGet pm.expandedRanges poolName = some groups) (hpos : 0 < poolIndex)
    (hle : poolIndex ≤ groups.length)
    (hf : (groups.getD (poolIndex - 1).toNat []).findIdx? (maskMatches maskSize) = none) :
    allocateBody env pm w poolName poolIndex maskSize name =
      (.error (.noSuitableNetwork maskSize poolName), pm, w) := by
  unfold allocateBody
  simp only [hg]
  rw [if_neg (by omega), if_neg (by omega)]
  simp only [hf]

/-- A parsed location stays parsed in every manager with the same location,
bucket and object. -/
theorem parsePoolFile_fixed (rt : Runtime) (pm pm' : PoolManager)
    (h : parsePoolFile rt pm = (.ok (), pm)) (hfile : pm'.poolFile = pm.poolFile)
    (hb : pm'.poolBucket = pm.poolBucket) (ho : pm'.poolObject = pm.poolObject) :
    parsePoolFile rt pm' = (.ok (), pm') := by
  unfold parsePoolFile at h ⊢
  rw [hfile]
  by_cases hp : HasPrefix pm.poolFile "gs://" = true
  · rw [if_pos hp] at h ⊢
    cases hu : rt.urlParse pm.poolFile with
    | error e => simp [hu] at h
    | ok p =>
      obtain ⟨host, path⟩ := p
      simp only [hu] at h ⊢
      by_cases hpath : path.data = []
      · simp [hpath] at h
      · rw [if_neg hpath] at h ⊢
        simp only [Prod.mk.injEq, true_and] at h ⊢
        have e1 : host = pm'.poolBucket := by
          rw [hb]
          exact congrArg PoolManager.poolBucket h
        have e2 : String.mk (path.data.drop 1) = pm'.poolObject := by
          rw [ho]
          exact congrArg PoolManager.poolObject h
        rw [e1, e2, ← hfile]
  · rw [if_neg hp]

/-- A ready manager with a match in the group and store calls that succeed: the
call returns the first match under the key of the name, and leaves a ready
manager whose group has lost that candidate. -/
theorem AllocateNewNetwork_ready (rt : Runtime) (env : Env) (fuel : Nat) (pm : PoolManager)
    (w : World) (poolName : String) (poolIndex maskSize : Int) (name : String)
    (groups : List (List String)) (idx : Nat) (hready : Ready rt pm) (henv : env.allocates)
    (hfuel : 1 ≤ fuel) (hg : nilGet pm.expandedRanges poolName = some groups)
    (hpos : 0 < poolIndex) (hle : poolIndex ≤ groups.length)
    (hf : (groups.getD (poolIndex - 1).toNat []).findIdx? (maskMatches maskSize) = some idx)
    (hne : (groups.getD (poolIndex - 1).toNat []).getD idx "" ≠ "") :
    (AllocateNewNetwork rt env fuel pm w poolName poolIndex maskSize name).1 =
      .ok ((groups.getD (poolIndex - 1).toNat []).getD idx "", allocationKey pm.id name) ∧
    Ready rt (AllocateNewNetwork rt env fuel pm w poolName poolIndex maskSize name).2.1 ∧
    (AllocateNewNetwork rt env fuel pm w poolName poolIndex maskSize name).2.1.id = pm.id ∧
    (AllocateNewNetwork rt env fuel pm w poolName poolIndex maskSize name).2.1.expandedRanges =
      pm.expandedRanges.map (GoMap.set poolName
        (groups.set (poolIndex - 1).toNat
          ((groups.getD (poolIndex - 1).toNat []).eraseIdx idx))) := by
  obtain ⟨hp, hgs, hlock, hl, ⟨reverse, hr⟩, ⟨ranges, ha⟩⟩ := hready
  have hacq := acquireLockFile_succeeds env fuel pm w hlock hgs henv.1 henv.2.1 hfuel
  have hens := ensureLoaded_loaded rt env fuel { pm with poolLock := true }
    { w with log := w.log ++ [Event.createMarker pm.poolBucket (pm.poolObject ++ ".lock")] } hl
  rw [AllocateNewNetwork_eq_operation, operation_runs rt env fuel pm pm _ _ w _ _ _ hp hacq hens]
  obtain ⟨b1, b2⟩ := allocateBody_succeeds env { pm with poolLock := true }
    { w with log := w.log ++ [Event.createMarker pm.poolBucket (pm.poolObject ++ ".lock")] }
    poolName poolIndex maskSize name groups idx reverse ranges henv.2.2 hg hpos hle hf hne hr ha
  rcases hb : allocateBody env { pm with poolLock := true }
    { w with log := w.log ++ [Event.createMarker pm.poolBucket (pm.poolObject ++ ".lock")] }
    poolName poolIndex maskSize name with ⟨o, pmB, wB⟩
  rw [hb] at b1 b2
  simp only at b1 b2
  have hlockB : pmB.poolLock = true := by rw [b2]
  rw [withRelease_locked env o pmB wB hlockB (by rw [b1]; exact Outcome.noConfusion)
    (by rw [b1]; exact Outcome.noConfusion)]
  refine ⟨b1, ⟨?_, ?_, rfl, ?_, ?_, ?_⟩, ?_, ?_⟩
  · exact parsePoolFile_fixed rt pm _ hp (by show pmB.poolFile = pm.poolFile; rw [b2])
      (by show pmB.poolBucket = pm.poolBucket; rw [b2])
      (by show pmB.poolObject = pm.poolObject; rw [b2])
  · show HasPrefix pmB.poolFile "gs://" = true
    rw [b2]
    exact hgs
  · show pmB.poolLoaded = true
    rw [b2]; exact hl
  · exact ⟨_, by show pmB.allocatedRanges = _; rw [b2]⟩
  · exact ⟨_, by show pmB.pool.AllocatedRanges = _; rw [b2]⟩
  · show pmB.id = pm.id
    rw [b2]
  · show pmB.expandedRanges = _
    rw [b2]

/-- A ready manager whose group has no match: the call returns the
no-suitable-network error. -/
theorem AllocateNewNetwork_ready_no_match (rt : Runtime) (env : Env) (fuel : Nat)
    (pm : PoolManager) (w : World) (poolName : String) (poolIndex maskSize : Int)
    (name : String) (groups : List (List String)) (hready : Ready rt pm)
    (hc : env.lockClient 0 = none) (hm : env.lockCreate 0 = none) (hfuel : 1 ≤ fuel)
    (hg : nilGet pm.expandedRanges poolName = some groups)
    (hpos : 0 < poolIndex) (hle : poolIndex ≤ groups.length)
    (hf : (groups.getD (poolIndex - 1).toNat []).findIdx? (maskMatches maskSize) = none) :
    (AllocateNewNetwork rt env fuel pm w poolName poolIndex maskSize name).1 =
      .error (.noSuitableNetwork maskSize poolName) := by
  obtain ⟨hp, hgs, hlock, hl, _, _⟩ := hready
  have hacq := acquireLockFile_succeeds env fuel pm w hlock hgs hc hm hfuel
  have hens := ensureLoaded_loaded rt env fuel { pm with poolLock := true }
    { w with log := w.log ++ [Event.createMarker pm.poolBucket (pm.poolObject ++ ".lock")] } hl
  rw [AllocateNewNetwork_eq_operation, operation_runs rt env fuel pm pm _ _ w _ _ _ hp hacq hens,
    allocateBody_no_match env { pm with poolLock := true } _ poolName poolIndex maskSize name
      groups hg hpos hle hf,
    withRelease_locked env _ _ _ rfl Outcome.noConfusion Outcome.noConfusion]

/-- A new manager at an object-storage location whose document expands to `table`
and has an allocated map: when the store calls succeed and the group has a match,
the first call returns the first match under the key of the name and leaves a
ready manager whose table is `table` without that candidate. -/
theorem AllocateNewNetwork_new (rt : Runtime) (env : Env) (fuel : Nat) (id file : String)
    (timeout : Int) (w : World) (d : PoolFile) (table : GoMap (List (List String)))
    (ranges : GoMap String) (poolName : String) (poolIndex maskSize : Int) (name : String)
    (groups : List (List String)) (idx : Nat)
    (hgs : HasPrefix file "gs://" = true)
    (hp : (parsePoolFile rt (NewPoolManager id file timeout)).1 = .ok ())
    (hdoc : w.content (loadLoc (parsePoolFile rt (NewPoolManager id file timeout)).2) =
      some (Blob.document d))
    (hexp : expandPools rt fuel (reverseMap (unmarshalInto emptyPoolFile d).AllocatedRanges)
      (nilEntries (unmarshalInto emptyPoolFile d).IpPools) [] = (table, .ok ()))
    (hA : (unmarshalInto emptyPoolFile d).AllocatedRanges = some ranges)
    (hread : env.readErr = none) (henv : env.allocates) (hfuel : 1 ≤ fuel)
    (hg : nilGet (some table) poolName = some groups)
    (hpos : 0 < poolIndex) (hle : poolIndex ≤ groups.length)
    (hf : (groups.getD (poolIndex - 1).toNat []).findIdx? (maskMatches maskSize) = some idx)
    (hne : (groups.getD (poolIndex - 1).toNat []).getD idx "" ≠ "") :
    (AllocateNewNetwork rt env fuel (NewPoolManager id file timeout) w poolName poolIndex
      maskSize name).1 =
      .ok ((groups.getD (poolIndex - 1).toNat []).getD idx "", allocationKey id name) ∧
    Ready rt (AllocateNewNetwork rt env fuel (NewPoolManager id file timeout) w poolName
      poolIndex maskSize name).2.1 ∧
    (AllocateNewNetwork rt env fuel (NewPoolManager id file timeout) w poolName poolIndex
      maskSize name).2.1.id = id ∧
    (AllocateNewNetwork rt env fuel (NewPoolManager id file timeout) w poolName poolIndex
      maskSize name).2.1.expandedRanges =
      some (GoMap.set poolName (groups.set (poolIndex - 1).toNat
        ((groups.getD (poolIndex - 1).toNat []).eraseIdx idx)) table) := by
  have hf0 := parsePoolFile_fields rt (NewPoolManager id file timeout)
  obtain ⟨n1, n2, n3, n4, n5⟩ := NewPoolManager_fields id file timeout
  rcases hq : parsePoolFile rt (NewPoolManager id file timeout) with ⟨o, pm1⟩
  rw [hq] at hp hdoc hf0
  simp only at hp hdoc hf0
  subst hp
  obtain ⟨f1, f2, f3, f4, f5, f6, f7, _⟩ := hf0
  have hpool1 : pm1.pool = emptyPoolFile := f1.trans n2
  have hlock1 : pm1.poolLock = false := f5.trans n5
  have hload1 : pm1.poolLoaded = false := f2.trans n1
  have hfile1 : pm1.poolFile = file := f7.trans n3
  have hid1 : pm1.id = id := f6.trans n4
  obtain ⟨pm2, w2, hacq, hpm2, hw2⟩ : ∃ pm2 w2,
      acquireLockFile env fuel pm1 w = (.ok (), pm2, w2) ∧
      pm2 = { pm1 with poolLock := true } ∧ w2.content = w.content :=
    ⟨_, _, acquireLockFile_succeeds env fuel pm1 w hlock1 (by rw [hfile1]; exact hgs)
      henv.1 henv.2.1 hfuel, rfl, rfl⟩
  have hidem : parsePoolFile rt pm2 = (.ok (), pm2) := by
    rw [hpm2]
    exact parsePoolFile_idem rt _ pm1 true hq
  have hloc2 : loadLoc pm2 = loadLoc pm1 := by rw [hpm2]; rfl
  have hpool2 : pm2.pool = emptyPoolFile := by rw [hpm2]; exact hpool1
  obtain ⟨pmL, wL, hL, hpmL⟩ : ∃ pmL wL,
      loadPoolFile rt env fuel pm2 w2 = (.ok (), pmL, wL) ∧
      pmL = { pm2 with
        pool := unmarshalInto pm2.pool d
        allocatedRanges := some (reverseMap (unmarshalInto pm2.pool d).AllocatedRanges)
        expandedRanges := some table
        poolLoaded := true } :=
    ⟨_, _, loadPoolFile_succeeds rt env fuel pm2 pm2 w2 d table hidem hread
      (by rw [hloc2, hw2]; exact hdoc) (by rw [hpool2]; exact hexp), rfl⟩
  have hens : ensureLoaded rt env fuel pm2 w2 = (.ok (), pmL, wL) := by
    unfold ensureLoaded
    rw [if_pos (by rw [hpm2]; show ¬ pm1.poolLoaded = true; rw [hload1]; exact Bool.noConfusion)]
    exact hL
  have l_lock : pmL.poolLock = true := by rw [hpmL, hpm2]
  have l_exp : pmL.expandedRanges = some table := by rw [hpmL]
  have l_pool : pmL.pool.AllocatedRanges = some ranges := by
    rw [hpmL]
    show (unmarshalInto pm2.pool d).AllocatedRanges = some ranges
    rw [hpool2]
    exact hA
  have l_id : pmL.id = id := by rw [hpmL, hpm2]; exact hid1
  have l_file : pmL.poolFile = pm1.poolFile := by rw [hpmL, hpm2]
  have l_bucket : pmL.poolBucket = pm1.poolBucket := by rw [hpmL, hpm2]
  have l_object : pmL.poolObject = pm1.poolObject := by rw [hpmL, hpm2]
  have l_loaded : pmL.poolLoaded = true := by rw [hpmL]
  have hfixed : parsePoolFile rt { pm1 with poolLock := false } =
      (.ok (), { pm1 with poolLock := false }) := parsePoolFile_idem rt _ pm1 false hq
  rw [AllocateNewNetwork_eq_operation, operation_runs rt env fuel _ pm1 pm2 pmL w w2 wL _ hq hacq hens]
  obtain ⟨b1, b2⟩ := allocateBody_succeeds env pmL wL poolName poolIndex maskSize name groups idx
    (reverseMap (unmarshalInto pm2.pool d).AllocatedRanges) ranges henv.2.2
    (by rw [l_exp]; exact hg) hpos hle hf hne (by rw [hpmL]) l_pool
  rcases hb : allocateBody env pmL wL poolName poolIndex maskSize name with ⟨o, pmB, wB⟩
  rw [hb] at b1 b2
  simp only at b1 b2
  have hlockB : pmB.poolLock = true := by rw [b2]; exact l_lock
  rw [withRelease_locked env o pmB wB hlockB (by rw [b1]; exact Outcome.noConfusion)
    (by rw [b1]; exact Outcome.noConfusion)]
  refine ⟨?_, ⟨?_, ?_, rfl, ?_, ?_, ?_⟩, ?_, ?_⟩
  · show o = _
    rw [b1, l_id]
  · exact parsePoolFile_fixed rt _ _ hfixed
      (by show pmB.poolFile = pm1.poolFile; rw [b2]; exact l_file)
      (by show pmB.poolBucket = pm1.poolBucket; rw [b2]; exact l_bucket)
      (by show pmB.poolObject = pm1.poolObject; rw [b2]; exact l_object)
  · show HasPrefix pmB.poolFile "gs://" = true
    rw [b2]
    show HasPrefix pmL.poolFile "gs://" = true
    rw [l_file, hfile1]
    exact hgs
  · show pmB.poolLoaded = true
    rw [b2]
    exact l_loaded
  · exact ⟨_, by show pmB.allocatedRanges = _; rw [b2]⟩
  · exact ⟨_, by show pmB.pool.AllocatedRanges = _; rw [b2]⟩
  · show pmB.id = id
    rw [b2]
    exact l_id
  · show pmB.expandedRanges = _
    rw [b2]
    show pmL.expandedRanges.map _ = _
    rw [l_exp]
    rfl

/-! ### The scenario, for every runtime -/

set_option maxRecDepth 100000 in
/-- The range of the scenario expands, given two loop steps, to `10.0.0.16/28`,
`10.0.0.32/28`, for every runtime. -/
theorem expandRange_scenario (rt : Runtime) (fuel : Nat) (hfuel : 2 ≤ fuel) :
    expandRange rt fuel [] "10.0.0.0-10.0.0.31/28" [] = .ok ["10.0.0.16/28", "10.0.0.32/28"] := by
  have hr : "10.0.0.0-10.0.0.31/28" = rangeText 167772160 167772191 28 := by decide
  rw [hr, expandRange_rangeText rt fuel [] 167772160 167772191 28 (by decide) (by decide) [],
    maskIncrease_repr rt 28 (by decide) (by decide)]
  simp only
  rw [expandLoop_progression (Nat.repr 28) (2 ^ (32 - 28)) 167772191 1 fuel 167772160 [] hfuel
    (by decide) (by decide) (by
      intro i h1 h2
      have : i = 1 := by omega
      subst this
      decide)]
  simp only
  decide

set_option maxRecDepth 100000 in
/-- The document of the scenario expands to the table with the two candidates. -/
theorem expandPools_scenario (rt : Runtime) (fuel : Nat) (hfuel : 2 ≤ fuel) :
    expandPools rt fuel (reverseMap (unmarshalInto emptyPoolFile scenarioDoc).AllocatedRanges)
      (nilEntries (unmarshalInto emptyPoolFile scenarioDoc).IpPools) [] =
      ([("a", [["10.0.0.16/28", "10.0.0.32/28"]])], .ok ()) := by
  have h1 : reverseMap (unmarshalInto emptyPoolFile scenarioDoc).AllocatedRanges = [] := by
    decide
  have h2 : nilEntries (unmarshalInto emptyPoolFile scenarioDoc).IpPools =
      [("a", [["10.0.0.0-10.0.0.31/28"]])] := by decide
  rw [h1, h2]
  simp only [expandPools, expandPool, expandGroup, expandRange_scenario rt fuel hfuel]
  decide

/-! ### Claims -/

/-- C1 (as amended). The document holds the one pool `a` with group 1 =
`10.0.0.0-10.0.0.31/28` and an empty allocated map, and is stored at an
object-storage location that parses. For every runtime, manager id, timeout and
consumer names, when the store calls succeed (the marker is created at the first
attempt, the document is read and saved; the third call only needs the marker),
a fresh manager expands the group to exactly `10.0.0.16/28`, `10.0.0.32/28`, its
first `AllocateNewNetwork("a", 1, 28, _)` returns `10.0.0.16/28`, the second
`10.0.0.32/28`, each under the key of its name, and the third returns the
no-suitable-network error. -/
theorem scenario_two_allocations (rt : Runtime) (env1 env2 env3 : Env) (fuel : Nat)
    (id file : String) (timeout : Int) (w : World) (name1 name2 name3 : String)
    (hgs : HasPrefix file "gs://" = true)
    (hp : (parsePoolFile rt (NewPoolManager id file timeout)).1 = .ok ())
    (hdoc : w.content (loadLoc (parsePoolFile rt (NewPoolManager id file timeout)).2) =
      some (Blob.document scenarioDoc))
    (hfuel : 2 ≤ fuel) (hread : env1.readErr = none) (h1 : env1.allocates)
    (h2 : env2.allocates) (h3 : env3.lockClient 0 = none ∧ env3.lockCreate 0 = none) :
    (loadPoolFile rt env1 fuel (NewPoolManager id file timeout) w).2.1.expandedRanges =
      some [("a", [["10.0.0.16/28", "10.0.0.32/28"]])] ∧
    (freshFirst rt env1 fuel id file timeout w name1).1 =
      .ok ("10.0.0.16/28", allocationKey id name1) ∧
    (freshSecond rt env1 env2 fuel id file timeout w name1 name2).1 =
      .ok ("10.0.0.32/28", allocationKey id name2) ∧
    (freshThird rt env1 env2 env3 fuel id file timeout w name1 name2 name3).1 =
      .error (.noSuitableNetwork 28 "a") := by
  have hexp := expandPools_scenario rt fuel hfuel
  have hq : parsePoolFile rt (NewPoolManager id file timeout) =
      (.ok (), (parsePoolFile rt (NewPoolManager id file timeout)).2) := Prod.ext hp rfl
  have hpool : (parsePoolFile rt (NewPoolManager id file timeout)).2.pool = emptyPoolFile :=
    (parsePoolFile_fields rt _).1.trans (NewPoolManager_fields id file timeout).2.1
  have t1 : GoMap.set "a"
      ([["10.0.0.16/28", "10.0.0.32/28"]].set ((1 : Int) - 1).toNat
        (([["10.0.0.16/28", "10.0.0.32/28"]].getD ((1 : Int) - 1).toNat []).eraseIdx 0))
      [("a", [["10.0.0.16/28", "10.0.0.32/28"]])] = [("a", [["10.0.0.32/28"]])] := by decide
  have t2 : GoMap.set "a"
      ([["10.0.0.32/28"]].set ((1 : Int) - 1).toNat
        (([["10.0.0.32/28"]].getD ((1 : Int) - 1).toNat []).eraseIdx 0))
      [("a", [["10.0.0.32/28"]])] = [("a", [[]])] := by decide
  have c1 : ([["10.0.0.16/28", "10.0.0.32/28"]].getD ((1 : Int) - 1).toNat []).getD 0 ""
      = "10.0.0.16/28" := by decide
  have c2 : ([["10.0.0.32/28"]].getD ((1 : Int) - 1).toNat []).getD 0 "" = "10.0.0.32/28" := by
    decide
  obtain ⟨a1, r1, i1, e1⟩ := AllocateNewNetwork_new rt env1 fuel id file timeout w scenarioDoc
    [("a", [["10.0.0.16/28", "10.0.0.32/28"]])] [] "a" 1 28 name1
    [["10.0.0.16/28", "10.0.0.32/28"]] 0 hgs hp hdoc hexp (by decide) hread h1 (by omega)
    (by decide) (by decide) (by decide) (by decide) (by decide)
  rw [c1] at a1
  rw [t1] at e1
  obtain ⟨a2, r2, i2, e2⟩ := AllocateNewNetwork_ready rt env2 fuel
    (freshFirst rt env1 fuel id file timeout w name1).2.1
    (freshFirst rt env1 fuel id file timeout w name1).2.2 "a" 1 28 name2
    [["10.0.0.32/28"]] 0 r1 h2 (by omega)
    (by show nilGet (AllocateNewNetwork rt env1 fuel (NewPoolManager id file timeout) w "a" 1
          28 name1).2.1.expandedRanges "a" = _
        rw [e1]; decide)
    (by decide) (by decide) (by decide) (by decide)
  rw [c2] at a2
  have e2' : (freshSecond rt env1 env2 fuel id file timeout w name1 name2).2.1.expandedRanges
      = some [("a", [[]])] := by
    show (AllocateNewNetwork rt env2 fuel (freshFirst rt env1 fuel id file timeout w name1).2.1
      (freshFirst rt env1 fuel id file timeout w name1).2.2 "a" 1 28 name2).2.1.expandedRanges = _
    rw [e2]
    show Option.map _ (AllocateNewNetwork rt env1 fuel (NewPoolManager id file timeout) w "a" 1
      28 name1).2.1.expandedRanges = _
    rw [e1]
    show some _ = _
    rw [t2]
  have a3 := AllocateNewNetwork_ready_no_match rt env3 fuel
    (freshSecond rt env1 env2 fuel id file timeout w name1 name2).2.1
    (freshSecond rt env1 env2 fuel id file timeout w name1 name2).2.2 "a" 1 28 name3
    [[]] r2 h3.1 h3.2 (by omega) (by rw [e2']; decide) (by decide) (by decide) (by decide)
  refine ⟨?_, a1, ?_, a3⟩
  · rw [loadPoolFile_succeeds rt env1 fuel _ _ w scenarioDoc
      [("a", [["10.0.0.16/28", "10.0.0.32/28"]])] hq hread hdoc (by rw [hpool]; exact hexp)]
  · show (AllocateNewNetwork rt env2 fuel (freshFirst rt env1 fuel id file timeout w name1).2.1
      (freshFirst rt env1 fuel id file timeout w name1).2.2 "a" 1 28 name2).1 = _
    rw [a2]
    show Outcome.ok (_, allocationKey (AllocateNewNetwork rt env1 fuel
      (NewPoolManager id file timeout) w "a" 1 28 name1).2.1.id name2) = _
    rw [i1]

set_option maxRecDepth 100000 in
/-- C1, witness: manager `m` at `gs://bucket/pools.json` with names `x`, `y`, `z`. -/
theorem scenario_two_allocations_witness :
    (loadPoolFile refRuntime calmEnv 4 (NewPoolManager "m" "gs://bucket/pools.json" 300)
        scenarioWorld).2.1.expandedRanges =
      some [("a", [["10.0.0.16/28", "10.0.0.32/28"]])] ∧
    (freshFirst refRuntime calmEnv 4 "m" "gs://bucket/pools.json" 300 scenarioWorld "x").1 =
      .ok ("10.0.0.16/28", allocationKey "m" "x") ∧
    (freshSecond refRuntime calmEnv calmEnv 4 "m" "gs://bucket/pools.json" 300 scenarioWorld
      "x" "y").1 = .ok ("10.0.0.32/28", allocationKey "m" "y") ∧
    (freshThird refRuntime calmEnv calmEnv calmEnv 4 "m" "gs://bucket/pools.json" 300
      scenarioWorld "x" "y" "z").1 = .error (.noSuitableNetwork 28 "a") :=
  scenario_two_allocations refRuntime calmEnv calmEnv calmEnv 4 "m" "gs://bucket/pools.json" 300
    scenarioWorld "x" "y" "z" (by decide) (by decide) (by decide) (by decide) rfl
    ⟨rfl, rfl, rfl⟩ ⟨rfl, rfl, rfl⟩ ⟨rfl, rfl⟩

set_option maxRecDepth 100000 in
/-- C1, counterexample. The document has pool `a` with group 1 =
`10.0.0.0-10.0.0.31/28` and no allocations, and a second pool `b` whose one range
is `bad`. The load expands every pool before anything is allocated, so the first
`AllocateNewNetwork("a", 1, 28, _)` on a fresh manager returns the error for
`bad` and no CIDR, and the manager stays unloaded. -/
theorem scenario_fails_with_other_pool :
    nilGet extraPoolDoc.IpPools "a" = some [["10.0.0.0-10.0.0.31/28"]] ∧
    nilGet extraPoolDoc.IpPools "b" = some [["bad"]] ∧
    extraPoolDoc.AllocatedRanges = some [] ∧
    extraPoolWorld.content (Loc.object "bucket" "pools.json") =
      some (Blob.document extraPoolDoc) ∧
    extraPoolFirst.1 = .error (.rangeStart "bad") ∧
    extraPoolFirst.2.1.poolLoaded = false := by
  decide

/-- C4 (as amended). For `A-B/N` with `1 ≤ N ≤ 32`, `B + step ≤ 2^32` and
`A + step < 2^32` (`step = 2^(32-N)`), and nothing allocated, the range expands,
given at least `n` loop steps, to exactly `A+step, A+2*step, ..., A+n*step`, each
rendered `<dotted address>/N`, where `A+n*step` is the first term that is `≥ B`
(`n ≥ 1`); the subnet at `A` itself is not among them. -/
theorem expansion_is_progression (A B N : Nat) (hN1 : 1 ≤ N) (hN2 : N ≤ 32)
    (hB : B + 2 ^ (32 - N) ≤ 2 ^ 32) (hA : A + 2 ^ (32 - N) < 2 ^ 32) :
    ∃ n, 1 ≤ n ∧ B ≤ A + n * 2 ^ (32 - N) ∧
      (∀ i, 1 ≤ i → i < n → A + i * 2 ^ (32 - N) < B) ∧
      (∀ (rt : Runtime) (fuel : Nat), n ≤ fuel →
        expandRange rt fuel [] (rangeText A B N) [] = .ok (progression A N n)) ∧
      cidrText A (Nat.repr N) ∉ progression A N n := by
  have hs := two_pow_pos_aux N
  generalize hstep : 2 ^ (32 - N) = step at *
  have hex : ∃ n, 1 ≤ n ∧ B ≤ A + n * step :=
    ⟨B + 1, by omega, by nlinarith⟩
  classical
  let n := Nat.find hex
  have hn : 1 ≤ n ∧ B ≤ A + n * step := Nat.find_spec hex
  have hmin : ∀ i, 1 ≤ i → i < n → A + i * step < B := by
    intro i hi1 hi2
    have := Nat.find_min hex hi2
    simp only [not_and, not_le] at this
    exact this hi1
  have hwrap : A + n * step < 2 ^ 32 := by
    rcases Nat.lt_or_ge 1 n with h | h
    · have := hmin (n - 1) (by omega) (by omega)
      have e : A + n * step = A + (n - 1) * step + step := by
        obtain ⟨k, hk⟩ : ∃ k, n = k + 1 := ⟨n - 1, by omega⟩
        rw [hk]; simp; ring
      omega
    · have : n = 1 := by omega
      rw [this]; omega
  obtain ⟨k, hk⟩ : ∃ k, n = k + 1 := ⟨n - 1, by omega⟩
  refine ⟨n, hn.1, hn.2, hmin, ?_, ?_⟩
  · intro rt fuel hf
    rw [expandRange_rangeText rt fuel [] A B N (by omega) (by omega),
      maskIncrease_repr rt N hN1 hN2]
    simp only [hstep]
    rw [hk] at hf hwrap hmin
    have hnB := hn.2
    rw [hk] at hnB
    rw [expandLoop_progression (Nat.repr N) step B k fuel A [] hf hwrap hnB hmin]
    simp [progression, hstep, hk]
  · intro hmem
    simp only [progression, List.mem_map, List.mem_range, hstep] at hmem
    obtain ⟨i, hi, heq⟩ := hmem
    have hlt : A + (i + 1) * step < 2 ^ 32 := by
      have : A + (i + 1) * step ≤ A + n * step := by
        have : (i + 1) * step ≤ n * step := Nat.mul_le_mul_right _ (by omega)
        omega
      omega
    have := cidrText_injective _ _ _ hlt (by omega) heq
    have : 0 < (i + 1) * step := Nat.mul_pos (by omega) hs
    omega

/-- C4, witness: the range `10.0.0.0-10.0.0.31/28`. -/
theorem expansion_is_progression_witness :
    ∃ n, 1 ≤ n ∧ 167772191 ≤ 167772160 + n * 2 ^ (32 - 28) ∧
      (∀ i, 1 ≤ i → i < n → 167772160 + i * 2 ^ (32 - 28) < 167772191) ∧
      (∀ (rt : Runtime) (fuel : Nat), n ≤ fuel →
        expandRange rt fuel [] (rangeText 167772160 167772191 28) [] =
          .ok (progression 167772160 28 n)) ∧
      cidrText 167772160 (Nat.repr 28) ∉ progression 167772160 28 n :=
  expansion_is_progression 167772160 167772191 28 (by decide) (by decide) (by decide) (by decide)

/-- C4, counterexample. The range `128.0.0.0-128.0.0.0/1` meets the stated
conditions (`1 ≤ N ≤ 32`, `A ≤ B`, `B + 2^(32-N) ≤ 2^32`), yet `A + step` wraps
to 0 and the expansion is `0.0.0.0/1, 128.0.0.0/1`: it is not the progression
`A+step, ..., A+n*step` ending at the first term `≥ B`, for any `n`. -/
theorem expansion_wraps_at_top :
    (1 ≤ 1 ∧ 1 ≤ 32 ∧ 2 ^ 31 ≤ 2 ^ 31 ∧ 2 ^ 31 + 2 ^ (32 - 1) ≤ 2 ^ 32) ∧
    expandRange refRuntime 2 [] (rangeText (2 ^ 31) (2 ^ 31) 1) [] =
      .ok ["0.0.0.0/1", "128.0.0.0/1"] ∧
    ¬ ∃ n, 1 ≤ n ∧ 2 ^ 31 ≤ 2 ^ 31 + n * 2 ^ (32 - 1) ∧
      (∀ i, 1 ≤ i → i < n → 2 ^ 31 + i * 2 ^ (32 - 1) < 2 ^ 31) ∧
      (∀ (rt : Runtime) (fuel : Nat), n ≤ fuel →
        expandRange rt fuel [] (rangeText (2 ^ 31) (2 ^ 31) 1) [] =
          .ok (progression (2 ^ 31) 1 n)) := by
  have hrun : expandRange refRuntime 2 [] (rangeText (2 ^ 31) (2 ^ 31) 1) [] =
      .ok ["0.0.0.0/1", "128.0.0.0/1"] := by decide
  refine ⟨by decide, hrun, ?_⟩
  rintro ⟨n, hn1, _, hmin, hrt⟩
  have hn : n = 1 := by
    by_contra hne
    have := hmin 1 (le_refl _) (by omega)
    omega
  subst hn
  have h2 := hrt refRuntime 2 (by omega)
  rw [hrun] at h2
  revert h2
  decide

/-- C5. For `start ≤ end` (32 bit addresses) and a prefix length `N ≤ 32`, every
candidate the expansion loop emits, for any number of loop steps and any
allocations, is `<address>/N` with a 32 bit base address that is at most
`end + 2^(32-N)`; splitting it at `/` gives back the address and `N`. The same
holds for the list `expandRange` returns for the range text. -/
theorem candidates_within_one_step (rt : Runtime) (A B N : Nat) (hAB : A ≤ B) (hB : B < 2 ^ 32)
    (hN : N ≤ 32) (fuel : Nat) (reverse : GoMap String) :
    ∃ inc, maskIncrease rt (Nat.repr N) = some inc ∧
      (∀ s ∈ (expandLoop reverse (Nat.repr N) inc B fuel A []).1,
        ∃ c, s = cidrText c (Nat.repr N) ∧ c < 2 ^ 32 ∧ c ≤ B + 2 ^ (32 - N) ∧
          SplitN2 s '/' = some (IPString (uint32ToIp c), Nat.repr N)) ∧
      (∀ l, expandRange rt fuel reverse (rangeText A B N) [] = .ok l →
        ∀ s ∈ l, ∃ c, s = cidrText c (Nat.repr N) ∧ c < 2 ^ 32 ∧ c ≤ B + 2 ^ (32 - N) ∧
          SplitN2 s '/' = some (IPString (uint32ToIp c), Nat.repr N)) := by
  obtain ⟨inc, hinc, hle⟩ := maskIncrease_repr_lt rt N hN
  have key : ∀ s ∈ (expandLoop reverse (Nat.repr N) inc B fuel A []).1,
      ∃ c, s = cidrText c (Nat.repr N) ∧ c < 2 ^ 32 ∧ c ≤ B + 2 ^ (32 - N) ∧
        SplitN2 s '/' = some (IPString (uint32ToIp c), Nat.repr N) := by
    intro s hs
    obtain ⟨c, rfl, h1, h2⟩ := expandLoop_bound reverse (Nat.repr N) inc B fuel A hAB s hs
    exact ⟨c, rfl, h1, by omega, SplitN2_cidrText c _⟩
  refine ⟨inc, hinc, key, ?_⟩
  intro l hl s hs
  rw [expandRange_rangeText rt fuel reverse A B N (by omega) hB, hinc] at hl
  simp only at hl
  apply key
  rcases he : expandLoop reverse (Nat.repr N) inc B fuel A [] with ⟨r, b⟩
  rw [he] at hl
  cases b
  · simp at hl
  · simp only [Outcome.ok.injEq] at hl
    rw [hl]; exact hs

/-- C5, witness: the range `10.0.0.0-10.0.0.31/28` with three loop steps. -/
theorem candidates_within_one_step_witness :
    ∃ inc, maskIncrease refRuntime (Nat.repr 28) = some inc ∧
      (∀ s ∈ (expandLoop [] (Nat.repr 28) inc 167772191 3 167772160 []).1,
        ∃ c, s = cidrText c (Nat.repr 28) ∧ c < 2 ^ 32 ∧ c ≤ 167772191 + 2 ^ (32 - 28) ∧
          SplitN2 s '/' = some (IPString (uint32ToIp c), Nat.repr 28)) ∧
      (∀ l, expandRange refRuntime 3 [] (rangeText 167772160 167772191 28) [] = .ok l →
        ∀ s ∈ l, ∃ c, s = cidrText c (Nat.repr 28) ∧ c < 2 ^ 32 ∧
          c ≤ 167772191 + 2 ^ (32 - 28) ∧
          SplitN2 s '/' = some (IPString (uint32ToIp c), Nat.repr 28)) :=
  candidates_within_one_step refRuntime 167772160 167772191 28 (by decide) (by decide)
    (by decide) 3 []

/-- C6. After a successful `loadPoolFile` (on a manager whose maps have distinct
keys), for every pool and group the candidate list is the concatenation, in
raw-range order, of the ranges' expansions without allocations, with exactly the
strings removed that are values of the document's allocated map; so no candidate
of any group is string-equal to an allocated value. -/
theorem load_candidates_are_filtered_expansions (rt : Runtime) (env : Env) (fuel : Nat)
    (pm pm' : PoolManager) (w w' : World) (hwf : pm.pool.WF)
    (h : loadPoolFile rt env fuel pm w = (.ok (), pm', w')) :
    (∀ poolName groups, nilGet pm'.pool.IpPools poolName = some groups →
      ∃ raws, List.Forall₂
          (List.Forall₂ (fun rr raw => expandRange rt fuel [] rr [] = .ok raw)) groups raws ∧
        nilGet pm'.expandedRanges poolName =
          some (raws.map (fun g => g.flatten.filter (notAllocated pm'.pool.AllocatedRanges)))) ∧
    (∀ c, notAllocated pm'.pool.AllocatedRanges c = false ↔
      ∃ key, nilGet pm'.pool.AllocatedRanges key = some c) ∧
    (∀ poolName cands, nilGet pm'.expandedRanges poolName = some cands →
      ∀ group ∈ cands, ∀ c ∈ group, ∀ key, nilGet pm'.pool.AllocatedRanges key ≠ some c) :=
  loadPoolFile_candidates rt env fuel pm pm' w w' hwf h

set_option maxRecDepth 100000 in
/-- C6, witness: the manager of the scenario loads a document whose group lists two
ranges and whose allocated map holds `10.0.0.16/28`. The two expansions are
`10.0.0.16/28, 10.0.0.32/28` and `10.0.1.4/30, 10.0.1.8/30`; the table holds their
concatenation without the allocated `10.0.0.16/28`. -/
theorem load_candidates_are_filtered_expansions_witness :
    (expandRange refRuntime 4 [] "10.0.0.0-10.0.0.31/28" [] = .ok ["10.0.0.16/28", "10.0.0.32/28"] ∧
      expandRange refRuntime 4 [] "10.0.1.0-10.0.1.7/30" [] = .ok ["10.0.1.4/30", "10.0.1.8/30"] ∧
      mixedLoaded.pool.AllocatedRanges = some [("m-old", "10.0.0.16/28")] ∧
      mixedLoaded.expandedRanges
        = some [("a", [["10.0.0.32/28", "10.0.1.4/30", "10.0.1.8/30"]])]) ∧
    ((∀ poolName groups, nilGet mixedLoaded.pool.IpPools poolName = some groups →
      ∃ raws, List.Forall₂
          (List.Forall₂ (fun rr raw => expandRange refRuntime 4 [] rr [] = .ok raw)) groups raws ∧
        nilGet mixedLoaded.expandedRanges poolName =
          some (raws.map
            (fun g => g.flatten.filter (notAllocated mixedLoaded.pool.AllocatedRanges)))) ∧
    (∀ c, notAllocated mixedLoaded.pool.AllocatedRanges c = false ↔
      ∃ key, nilGet mixedLoaded.pool.AllocatedRanges key = some c) ∧
    (∀ poolName cands, nilGet mixedLoaded.expandedRanges poolName = some cands →
      ∀ group ∈ cands, ∀ c ∈ group, ∀ key,
        nilGet mixedLoaded.pool.AllocatedRanges key ≠ some c)) :=
  ⟨by decide, load_candidates_are_filtered_expansions refRuntime calmEnv 4 scenarioManager
    mixedLoaded mixedWorld
    (loadPoolFile refRuntime calmEnv 4 scenarioManager mixedWorld).2.2
    ⟨GoMap.WF_nil, GoMap.WF_nil⟩
    (Prod.ext (by decide) rfl)⟩

/-- C7 (as amended). On a loaded manager a successful `AllocateNewNetwork` returns
the first candidate, in the order of the group's candidate list, that passes the
test of line 381 (`maskSize = 0` or the text ends in `/<maskSize>`). If that list
is ascending in base address, every other candidate passing the test has a base
address at least that of the returned one. -/
theorem allocate_returns_first_match (rt : Runtime) (env : Env) (fuel : Nat)
    (pm pm' : PoolManager) (w w' : World) (poolName : String) (poolIndex maskSize : Int)
    (name cidr key : String) (hl : pm.poolLoaded = true)
    (h : AllocateNewNetwork rt env fuel pm w poolName poolIndex maskSize name =
      (.ok (cidr, key), pm', w')) :
    ∃ groups g idx, nilGet pm.expandedRanges poolName = some groups ∧ 1 ≤ poolIndex ∧
      groups[(poolIndex - 1).toNat]? = some g ∧
      g[idx]? = some cidr ∧ maskMatches maskSize cidr = true ∧
      (∀ (j : Nat) (x : String), j < idx → g[j]? = some x → maskMatches maskSize x = false) ∧
      (g.Pairwise (addressLE rt) →
        ∀ s ∈ g, maskMatches maskSize s = true → s = cidr ∨ addressLE rt cidr s) := by
  obtain ⟨pm3, w3, pm4, w4, hb, hexp, _, _, _, _, _, _, _, _, _⟩ :=
    AllocateNewNetwork_ok_loaded rt env fuel pm pm' w w' poolName poolIndex maskSize name cidr
      key hl h
  obtain ⟨groups, idx, reverse, ranges, hg, hpos, hle, hfind, hcidr, _, _, _, _, _, _⟩ :=
    allocateBody_ok env pm3 pm4 w3 w4 poolName poolIndex maskSize name cidr key hb
  rw [hexp] at hg
  have hlt : (poolIndex - 1).toNat < groups.length := by omega
  have hgget : groups[(poolIndex - 1).toNat]? = some (groups.getD (poolIndex - 1).toNat []) := by
    rw [List.getD_eq_getElem?_getD, List.getElem?_eq_getElem hlt]
    rfl
  obtain ⟨h1, h2, h3⟩ := findIdx?_some_spec (maskMatches maskSize) _ idx "" hfind
  rw [← hcidr] at h1 h2
  refine ⟨groups, _, idx, hg, by omega, hgget, h1, h2, h3, ?_⟩
  intro hpw s hs hm
  obtain ⟨j, hj⟩ := List.mem_iff_getElem?.1 hs
  rcases Nat.lt_trichotomy j idx with hlt | heq | hgt
  · have := h3 j s hlt hj
    rw [hm] at this
    exact Bool.noConfusion this
  · left
    rw [heq, h1] at hj
    exact (Option.some.inj hj).symm
  · right
    obtain ⟨hi2, hci⟩ := List.getElem?_eq_some_iff.1 h1
    obtain ⟨hj2, hsj⟩ := List.getElem?_eq_some_iff.1 hj
    have := List.pairwise_iff_getElem.1 hpw idx j hi2 hj2 hgt
    rw [hci, hsj] at this
    exact this

set_option maxRecDepth 100000 in
/-- C7, witness: the manager that loaded `mixedDoc` holds the candidates
`10.0.0.32/28`, `10.0.1.4/30`, `10.0.1.8/30`, ascending in base address, and is
asked for a `/30`: the call passes over `10.0.0.32/28` and returns `10.0.1.4/30`,
the first of the two `/30` candidates and the one with the lower address. -/
theorem allocate_returns_first_match_witness :
    (groupCandidates mixedLoaded "a" 1 = some ["10.0.0.32/28", "10.0.1.4/30", "10.0.1.8/30"] ∧
      mixedFirst.1 = .ok ("10.0.1.4/30", "m-x") ∧
      maskMatches 30 "10.0.0.32/28" = false ∧ maskMatches 30 "10.0.1.8/30" = true ∧
      baseAddress refRuntime "10.0.0.32/28" = some 167772192 ∧
      baseAddress refRuntime "10.0.1.4/30" = some 167772420 ∧
      baseAddress refRuntime "10.0.1.8/30" = some 167772424) ∧
    ∃ groups g idx, nilGet mixedLoaded.expandedRanges "a" = some groups ∧ (1 : Int) ≤ 1 ∧
      groups[((1 : Int) - 1).toNat]? = some g ∧
      g[idx]? = some "10.0.1.4/30" ∧ maskMatches 30 "10.0.1.4/30" = true ∧
      (∀ (j : Nat) (x : String), j < idx → g[j]? = some x → maskMatches 30 x = false) ∧
      (g.Pairwise (addressLE refRuntime) →
        ∀ s ∈ g, maskMatches 30 s = true → s = "10.0.1.4/30" ∨
          addressLE refRuntime "10.0.1.4/30" s) :=
  ⟨by decide, allocate_returns_first_match refRuntime calmEnv 4 mixedLoaded mixedFirst.2.1
    mixedWorld mixedFirst.2.2 "a" 1 30 "x" "10.0.1.4/30" "m-x" (by decide)
    (Prod.ext (by decide) rfl)⟩

/-- C7, counterexample. Group 1 of pool `a` lists the ranges
`10.0.1.0-10.0.1.255/24`, `10.0.0.0-10.0.0.255/24`: the candidates are
`10.0.2.0/24`, `10.0.1.0/24` in that order, and `AllocateNewNetwork("a", 1, 24, _)`
as well as `AllocateNewNetwork("a", 1, 0, _)` return `10.0.2.0/24`, although
`10.0.1.0/24` is available, has prefix length 24 and a lower base address. -/
theorem allocate_not_lowest_address :
    descendingManager.poolLoaded = true ∧
    nilGet descendingManager.expandedRanges "a" = some [["10.0.2.0/24", "10.0.1.0/24"]] ∧
    (AllocateNewNetwork refRuntime calmEnv 4 descendingManager descendingWorld "a" 1 24 "x").1
      = .ok ("10.0.2.0/24", "m-x") ∧
    (AllocateNewNetwork refRuntime calmEnv 4 descendingManager descendingWorld "a" 1 0 "x").1
      = .ok ("10.0.2.0/24", "m-x") ∧
    maskMatches 24 "10.0.1.0/24" = true ∧
    baseAddress refRuntime "10.0.2.0/24" = some 167772672 ∧
    baseAddress refRuntime "10.0.1.0/24" = some 167772416 ∧
    ¬ addressLE refRuntime "10.0.2.0/24" "10.0.1.0/24" := by
  have h1 : baseAddress refRuntime "10.0.2.0/24" = some 167772672 := by decide
  have h2 : baseAddress refRuntime "10.0.1.0/24" = some 167772416 := by decide
  refine ⟨by decide, by decide, by decide, by decide, by decide, h1, h2, ?_⟩
  rintro ⟨x, y, hx, hy, hxy⟩
  rw [h1] at hx
  rw [h2] at hy
  cases hx
  cases hy
  omega

/-- C8, the defect. On the loaded scenario manager (pool `a` has one group) an
unknown pool, group index 0 and group index 99 are rejected with an error, but
group index -1 passes the test of line 373 and the indexing of line 380 panics:
the call does not return an error. -/
theorem negative_group_index_panics :
    scenarioLoaded.poolLoaded = true ∧
    (AllocateNewNetwork refRuntime calmEnv 4 scenarioLoaded scenarioWorld "b" 1 28 "x").1
      = .error (.unknownPool "b") ∧
    (AllocateNewNetwork refRuntime calmEnv 4 scenarioLoaded scenarioWorld "a" 0 28 "x").1
      = .error (.unknownPoolIndex "a" 0 1) ∧
    (AllocateNewNetwork refRuntime calmEnv 4 scenarioLoaded scenarioWorld "a" 99 28 "x").1
      = .error (.unknownPoolIndex "a" 99 1) ∧
    (AllocateNewNetwork refRuntime calmEnv 4 scenarioLoaded scenarioWorld "a" (-1) 28 "x").1
      = .crash .outOfRange := by
  decide

/-- C10, counterexample. The managers with instance ids `a-b` and `a` compute the
same key `a-b-c` for the names `c` and `b-c`. -/
theorem allocation_key_collision :
    ("a-b", "c") ≠ ("a", "b-c") ∧
    allocationKey "a-b" "c" = allocationKey "a" "b-c" ∧
    (AllocateNewNetwork refRuntime calmEnv 4 (NewPoolManager "a-b" "gs://bucket/pools.json" 300)
      scenarioWorld "a" 1 28 "c").1 = .ok ("10.0.0.16/28", "a-b-c") ∧
    (AllocateNewNetwork refRuntime calmEnv 4 (NewPoolManager "a" "gs://bucket/pools.json" 300)
      scenarioWorld "a" 1 28 "b-c").1 = .ok ("10.0.0.16/28", "a-b-c") := by
  decide

/-- C9. Whenever `AllocateNewNetwork(pool, group, prefixLen, name)` on a manager
with instance id `I` succeeds with `(cidr, key)`: `key` is `I`, `-`, `name`; the
document's allocated map holds `key -> cidr`; and a `GetAllocation(key)` that
follows on the same manager returns `cidr`. -/
theorem allocate_then_get (rt : Runtime) (env env2 : Env) (fuel fuel2 : Nat)
    (pm pm' : PoolManager) (w w' : World) (poolName : String) (poolIndex maskSize : Int)
    (name cidr key : String)
    (h : AllocateNewNetwork rt env fuel pm w poolName poolIndex maskSize name =
      (.ok (cidr, key), pm', w')) :
    key = pm.id ++ "-" ++ name ∧ nilGet pm'.pool.AllocatedRanges key = some cidr ∧
      (GetAllocation rt env2 fuel2 pm' w' key).1 = .ok cidr := by
  obtain ⟨pm1, pm2, w2, pm3, w3, pm4, w4, hp, ha, hld, hb, _, hpm', _⟩ :=
    AllocateNewNetwork_ok rt env fuel pm pm' w w' poolName poolIndex maskSize name cidr key h
  obtain ⟨groups, idx, reverse, ranges, _, _, _, _, _, _, hkey, _, _, hpm4, _⟩ :=
    allocateBody_ok env pm3 pm4 w3 w4 poolName poolIndex maskSize name cidr key hb
  have hf := parsePoolFile_fields rt pm
  rw [hp] at hf
  simp only at hf
  obtain ⟨_, hpm2, _⟩ := acquireLockFile_ok env fuel pm1 pm2 w w2 ha
  obtain ⟨hl3, hid3, hfile3, _, _⟩ := ensureLoaded_ok rt env fuel pm2 pm3 w2 w3 hld
  have hid : pm3.id = pm.id := by rw [hid3, hpm2]; exact hf.2.2.2.2.2.1
  have hfile : pm3.poolFile = pm.poolFile := by rw [hfile3, hpm2]; exact hf.2.2.2.2.2.2.1
  have hget : nilGet pm'.pool.AllocatedRanges key = some cidr := by
    rw [hpm', hpm4]
    simp [nilGet, GoMap.get?_set_self]
  refine ⟨by rw [hkey, hid]; rfl, hget, ?_⟩
  have hfile' : pm'.poolFile = pm.poolFile := by rw [hpm', hpm4]; exact hfile
  have hloaded' : pm'.poolLoaded = true := by rw [hpm', hpm4]; exact hl3
  have hlock' : pm'.poolLock = false := by rw [hpm']
  have hfst := parsePoolFile_fst_congr rt pm pm' hfile'
  rw [hp] at hfst
  have hf' := parsePoolFile_fields rt pm'
  rcases hp' : parsePoolFile rt pm' with ⟨o, q⟩
  rw [hp'] at hfst hf'
  simp only at hfst hf'
  subst hfst
  unfold GetAllocation
  rw [hp']
  have hq1 : q.poolLoaded = true := by rw [hf'.2.1]; exact hloaded'
  have hq2 : q.poolLock = false := by rw [hf'.2.2.2.2.1]; exact hlock'
  simp only [hq1, hq2, not_true_eq_false, if_false, Bool.false_eq_true]
  unfold getBody
  rw [hf'.1, hget]

/-- C9, witness: the first call of the scenario. -/
theorem allocate_then_get_witness :
    "m-x" = scenarioManager.id ++ "-" ++ "x" ∧
      nilGet scenarioFirst.2.1.pool.AllocatedRanges "m-x" = some "10.0.0.16/28" ∧
      (GetAllocation refRuntime calmEnv 4 scenarioFirst.2.1 scenarioFirst.2.2 "m-x").1
        = .ok "10.0.0.16/28" :=
  allocate_then_get refRuntime calmEnv calmEnv 4 4 scenarioManager scenarioFirst.2.1
    scenarioWorld scenarioFirst.2.2 "a" 1 28 "x" "10.0.0.16/28" "m-x"
    (Prod.ext (by decide) rfl)

/-- C3. Two fresh manager instances on the same bucket object run one after the
other, the second starting in the world the first left (so it loads what the
first saved). If both perform one successful `AllocateNewNetwork` on the same
pool and group, the two returned CIDRs differ; each instance has persisted its
document; in the document persisted by the second neither returned CIDR is held
under two keys, and if the values of the original document were pairwise
distinct then so are the values of that document. -/
theorem reload_per_call_allocations_differ (rt : Runtime) (env1 env2 : Env) (fuel1 fuel2 : Nat)
    (id1 id2 file : String) (t1 t2 : Int) (w0 w1 w2 : World) (m1 m2 : PoolManager)
    (p : String) (g mask1 mask2 : Int) (name1 name2 c1 c2 k1 k2 : String)
    (hbucket : (parsePoolFile rt (NewPoolManager id1 file t1)).2.poolBucket ≠ "")
    (h1 : AllocateNewNetwork rt env1 fuel1 (NewPoolManager id1 file t1) w0 p g mask1 name1 =
      (.ok (c1, k1), m1, w1))
    (h2 : AllocateNewNetwork rt env2 fuel2 (NewPoolManager id2 file t2) w1 p g mask2 name2 =
      (.ok (c2, k2), m2, w2)) :
    c1 ≠ c2 ∧
    w1.content (saveLoc m1) = some (Blob.document m1.pool) ∧
    w2.content (saveLoc m2) = some (Blob.document m2.pool) ∧
    (∀ k k0 c, (c = c1 ∨ c = c2) → nilGet m2.pool.AllocatedRanges k = some c →
      nilGet m2.pool.AllocatedRanges k0 = some c → k = k0) ∧
    (∀ d, w0.content (loadLoc (parsePoolFile rt (NewPoolManager id1 file t1)).2) =
        some (Blob.document d) →
      valuesDistinct (unmarshalInto emptyPoolFile d).AllocatedRanges →
      valuesDistinct m2.pool.AllocatedRanges) :=
  sequential_allocations rt env1 env2 fuel1 fuel2 id1 id2 file t1 t2 w0 w1 w2 m1 m2 p p g g
    mask1 mask2 name1 name2 c1 c2 k1 k2 hbucket h1 h2

/-- C3, witness: managers `m` and `n` on the scenario document. -/
theorem reload_per_call_allocations_differ_witness :
    "10.0.0.16/28" ≠ "10.0.0.32/28" ∧
    scenarioFirst.2.2.content (saveLoc scenarioFirst.2.1) =
      some (Blob.document scenarioFirst.2.1.pool) ∧
    scenarioOther.2.2.content (saveLoc scenarioOther.2.1) =
      some (Blob.document scenarioOther.2.1.pool) ∧
    (∀ k k0 c, (c = "10.0.0.16/28" ∨ c = "10.0.0.32/28") →
      nilGet scenarioOther.2.1.pool.AllocatedRanges k = some c →
      nilGet scenarioOther.2.1.pool.AllocatedRanges k0 = some c → k = k0) ∧
    (∀ d, scenarioWorld.content
        (loadLoc (parsePoolFile refRuntime (NewPoolManager "m" "gs://bucket/pools.json" 300)).2) =
        some (Blob.document d) →
      valuesDistinct (unmarshalInto emptyPoolFile d).AllocatedRanges →
      valuesDistinct scenarioOther.2.1.pool.AllocatedRanges) :=
  reload_per_call_allocations_differ refRuntime calmEnv calmEnv 4 4 "m" "n"
    "gs://bucket/pools.json" 300 300 scenarioWorld scenarioFirst.2.2 scenarioOther.2.2
    scenarioFirst.2.1 scenarioOther.2.1 "a" 1 28 28 "x" "y" "10.0.0.16/28" "10.0.0.32/28"
    "m-x" "n-y" (by decide) (Prod.ext (by decide) rfl) (Prod.ext (by decide) rfl)

/-- C2, counterexample. Group 1 of pool `a` lists the range `10.0.0.0-10.0.0.16/28`
twice, so the candidate `10.0.0.16/28` appears twice. The first call returns it
under key `m-x`; the second call, on the same pool and group, returns it again
while `m-x -> 10.0.0.16/28` is in the allocated map. -/
theorem allocate_repeats_duplicate_candidate :
    nilGet repeatedManager.expandedRanges "a" = some [["10.0.0.16/28", "10.0.0.16/28"]] ∧
    repeatedFirst.1 = .ok ("10.0.0.16/28", "m-x") ∧
    nilGet repeatedFirst.2.1.pool.AllocatedRanges "m-x" = some "10.0.0.16/28" ∧
    repeatedSecond.1 = .ok ("10.0.0.16/28", "m-y") ∧
    nilGet repeatedSecond.2.1.pool.AllocatedRanges "m-x" = some "10.0.0.16/28" := by
  decide

/-- Managers for the same `gs://` location read the same object. -/
theorem loadLoc_of_poolFile (rt : Runtime) (id file : String) (timeout : Int)
    (qm qm1 : PoolManager) (hfile : qm.poolFile = file) (hgs : HasPrefix file "gs://" = true)
    (hq : parsePoolFile rt qm = (.ok (), qm1)) :
    loadLoc qm1 = loadLoc (parsePoolFile rt (NewPoolManager id file timeout)).2 := by
  have hn := (NewPoolManager_fields id file timeout).2.2.1
  have h1 := parsePoolFile_fst_congr rt qm (NewPoolManager id file timeout) (hn.trans hfile.symm)
  rw [hq] at h1
  have h2 : parsePoolFile rt (NewPoolManager id file timeout) =
      (.ok (), (parsePoolFile rt (NewPoolManager id file timeout)).2) := Prod.ext h1 rfl
  exact (parsePoolFile_locs rt (NewPoolManager id file timeout) _ qm qm1 (hfile.trans hn.symm)
    (by rw [hn]; exact hgs) h2 hq).2.2.1

/-- C2 (as amended). A new manager reads document `d`, and the ranges of group `g`
of pool `p` in `d` expand to pairwise distinct candidates. After any run of
`AllocateNewNetwork` / `DeleteAllocation` calls on it in which every call
returned, a successful `AllocateNewNetwork` on pool `p`, group `g` returns a CIDR
that no earlier successful `AllocateNewNetwork` of the run returned for that pool
and group (whether or not that allocation was deleted since), and that is not a
value of the allocated map of `d`. -/
theorem allocate_never_repeats_in_distinct_group (rt : Runtime) (fuel : Nat) (id file : String)
    (timeout : Int) (w0 : World) (d : PoolFile) (steps : List (Env × Call))
    (trace : List (Call × Reply)) (pmJ : PoolManager) (wJ : World) (envF : Env) (p : String)
    (g maskSize : Int) (name c key : String) (pm' : PoolManager) (w' : World)
    (hdoc : w0.content (loadLoc (parsePoolFile rt (NewPoolManager id file timeout)).2) =
      some (Blob.document d))
    (hdistinct : DistinctExpansion rt fuel d p g)
    (hrun : runCalls rt fuel (NewPoolManager id file timeout) w0 steps = (trace, some (pmJ, wJ)))
    (hfinal : AllocateNewNetwork rt envF fuel pmJ wJ p g maskSize name = (.ok (c, key), pm', w')) :
    c ∉ takenFrom p g trace ∧
      ∀ k, nilGet (unmarshalInto emptyPoolFile d).AllocatedRanges k ≠ some c := by
  have hn := NewPoolManager_fields id file timeout
  have hloc := fun qm qm1 => loadLoc_of_poolFile rt id file timeout qm qm1
  have hinv0 : RunInv file (loadLoc (parsePoolFile rt (NewPoolManager id file timeout)).2) d p g
      (NewPoolManager id file timeout) w0 [] := by
    refine ⟨hn.2.2.1, hn.2.2.2.2, fun _ => ⟨by rw [hn.2.1], by rw [hn.2.1]; exact emptyPoolFile_WF,
      hdoc, rfl⟩, fun hl => ?_⟩
    rw [hn.1] at hl
    exact absurd hl (by decide)
  obtain ⟨T1, hT1, hsub⟩ := runCalls_inv rt fuel file _ d p g hdistinct hloc steps _ w0 [] trace
    pmJ wJ hinv0 hrun
  obtain ⟨pm1, pm2, w2, pm3, w3, pm4, w4, hp, ha, he, hb, hl4, _, _⟩ :=
    AllocateNewNetwork_ok rt envF fuel pmJ pm' wJ w' p g maskSize name c key hfinal
  obtain ⟨_, _, t3, _⟩ := allocateBody_table envF pm3 pm4 w3 w4 p g maskSize name _ hb
  have hgood := ensureLoaded_groupGood rt envF fuel file _ d p g pmJ pm1 pm2 pm3 wJ w2 w3 T1
    hdistinct hloc hT1 hp ha he (t3.symm.trans hl4)
  obtain ⟨groups, idx, reverse, ranges, hg, hpos, hle, hfind, hc, _, _, _, _, hpm4, _⟩ :=
    allocateBody_ok envF pm3 pm4 w3 w4 p g maskSize name c key hb
  have hcand : groupCandidates pm3 p g = some (groups.getD (g - 1).toNat []) := by
    rcases groupCandidates_update pm3 pm4 p g groups idx p g hg hpos hle (by rw [hpm4]) with
      ⟨_, _, h1, _⟩ | ⟨h1, _⟩
    · exact h1
    · exact absurd ⟨rfl, rfl⟩ h1
  obtain ⟨_, hA, hT⟩ := hgood _ hcand
  have hmem : c ∈ groups.getD (g - 1).toNat [] := by
    obtain ⟨h1, _, _⟩ := findIdx?_some_spec (maskMatches maskSize) _ idx "" hfind
    rw [← hc] at h1
    obtain ⟨h2, h3⟩ := List.getElem?_eq_some_iff.1 h1
    rw [← h3]
    exact List.getElem_mem h2
  exact ⟨fun hin => hT c (hsub c (Or.inr hin)) hmem, hA c hmem⟩

set_option maxRecDepth 100000 in
/-- C2, witness: on the scenario, after `10.0.0.16/28` was allocated from group 1 of
pool `a` and deleted again, the next allocation from that group returns
`10.0.0.32/28`, not the CIDR taken before. -/
theorem allocate_never_repeats_in_distinct_group_witness :
    "10.0.0.32/28" ∉ takenFrom "a" 1 scenarioRun.1 ∧
      ∀ k, nilGet (unmarshalInto emptyPoolFile scenarioDoc).AllocatedRanges k
        ≠ some "10.0.0.32/28" := by
  have hsome : scenarioRun.2 = some scenarioAfterRun := by
    have h1 : scenarioRun.2.isSome = true := by decide
    unfold scenarioAfterRun
    cases h : scenarioRun.2 with
    | none => rw [h] at h1; exact absurd h1 (by decide)
    | some s => rfl
  have hdist : DistinctExpansion refRuntime 4 scenarioDoc "a" 1 := by
    intro groups raws hg hf
    have e : nilGet (unmarshalInto emptyPoolFile scenarioDoc).IpPools "a"
        = some [["10.0.0.0-10.0.0.31/28"]] := by decide
    rw [e] at hg
    cases hg
    cases hf with
    | cons h1 h2 =>
      cases h2
      have e2 : expandRange refRuntime 4 [] "10.0.0.0-10.0.0.31/28" []
          = .ok ["10.0.0.16/28", "10.0.0.32/28"] := by decide
      rw [e2] at h1
      cases h1
      decide
  exact allocate_never_repeats_in_distinct_group refRuntime 4 "m" "gs://bucket/pools.json" 300
    scenarioWorld scenarioDoc _ scenarioRun.1 scenarioAfterRun.1 scenarioAfterRun.2 calmEnv
    "a" 1 28 "y" "10.0.0.32/28" "m-y" scenarioRunNext.2.1 scenarioRunNext.2.2 (by decide) hdist
    (Prod.ext rfl hsome) (Prod.ext (by decide) rfl)

/-- C11. `DeleteAllocation(k)` was called on any manager state and returned
success, the error `allocation not found: k`, or an error after getting past the
lock and the loading (which is then the error of `savePoolFile`). A following
`GetAllocation(k)` on the state it left returns `allocation not found: k`, in any
environment. -/
theorem delete_then_get_not_found (rt : Runtime) (env env2 : Env) (fuel fuel2 : Nat)
    (pm pm' : PoolManager) (w w' : World) (k : String) (r : Outcome Unit)
    (h : DeleteAllocation rt env fuel pm w k = (r, pm', w'))
    (hr : r = .ok () ∨ r = .error (.allocationNotFound k) ∨
      ((∃ e, r = .error e) ∧ reachesBody rt env fuel pm w = true)) :
    (GetAllocation rt env2 fuel2 pm' w' k).1 = .error (.allocationNotFound k) := by
  rw [DeleteAllocation_eq_operation] at h
  obtain ⟨pm1, pm2, w2, pm3, w3, pm4, w4, hp, ha, he, hb, _, hpm', _⟩ :=
    operation_reached rt env fuel pm pm' w w' _ r h
      (by
        rcases hr with h1 | h1 | h1
        · exact Or.inl ⟨(), h1⟩
        · exact Or.inr (Or.inl ⟨k, h1⟩)
        · exact Or.inr (Or.inr h1))
  have hrm := deleteBody_removes env pm3 pm4 w3 w4 k r hb
  obtain ⟨t1, t2, _, _⟩ := deleteBody_table env pm3 pm4 w3 w4 k r hb
  obtain ⟨hl3, _, hfile3, _, _⟩ := ensureLoaded_ok rt env fuel pm2 pm3 w2 w3 he
  obtain ⟨_, hpm2, _⟩ := acquireLockFile_ok env fuel pm1 pm2 w w2 ha
  have hf := parsePoolFile_fields rt pm
  rw [hp] at hf
  simp only at hf
  have hfile' : pm'.poolFile = pm.poolFile := by
    rw [hpm']
    show pm4.poolFile = _
    rw [t2, hfile3, hpm2]
    exact hf.2.2.2.2.2.2.1
  have hfst := parsePoolFile_fst_congr rt pm pm' hfile'
  rw [hp] at hfst
  rw [GetAllocation_loaded rt env2 fuel2 pm' w' k (by rw [hpm']; exact t1.trans hl3)
    (by rw [hpm']) hfst]
  unfold getBody
  have : nilGet pm'.pool.AllocatedRanges k = none := by rw [hpm']; exact hrm
  rw [this]

set_option maxRecDepth 100000 in
/-- C11, witness: the allocation `m-x` of the scenario is deleted while saving
fails; the call returns the save error and `GetAllocation("m-x")` finds nothing. -/
theorem delete_then_get_not_found_witness :
    (GetAllocation refRuntime calmEnv 4 scenarioDeleteUnsaved.2.1 scenarioDeleteUnsaved.2.2
      "m-x").1 = .error (.allocationNotFound "m-x") :=
  delete_then_get_not_found refRuntime saveFailEnv calmEnv 4 4 scenarioFirst.2.1
    scenarioDeleteUnsaved.2.1 scenarioFirst.2.2 scenarioDeleteUnsaved.2.2 "m-x"
    (.error (.library "write failed")) (Prod.ext (by decide) rfl)
    (Or.inr (Or.inr ⟨⟨_, rfl⟩, by decide⟩))

set_option maxRecDepth 100000 in
/-- C12, failing input. A new manager loads a document with `m-x -> 10.0.0.16/28`:
the reverse index holds `10.0.0.16/28 -> m-x`. `DeleteAllocation("m-x")` succeeds
and removes `m-x` from the document's allocated map, but line 342 deletes the key
`m-x` from the reverse index, whose keys are CIDRs: the entry for `10.0.0.16/28`
is still there. -/
theorem delete_leaves_reverse_entry :
    nilGet (loadPoolFile refRuntime calmEnv 4 scenarioManager allocatedWorld).2.1.allocatedRanges
      "10.0.0.16/28" = some "m-x" ∧
    scenarioDelete.1 = .ok () ∧
    nilGet scenarioDelete.2.1.pool.AllocatedRanges "m-x" = none ∧
    nilGet scenarioDelete.2.1.allocatedRanges "10.0.0.16/28" = some "m-x" := by
  decide

set_option maxRecDepth 100000 in
/-- C13, failing input. Loading a document with `m-x -> 10.0.0.16/28` gives the
reverse index `10.0.0.16/28 -> m-x` (line 246). The first call of the scenario
returns `(10.0.0.16/28, m-x)` and the allocated map holds `m-x -> 10.0.0.16/28`,
but line 393 writes the reverse index in the same direction: it holds
`m-x -> 10.0.0.16/28` and nothing under `10.0.0.16/28`. -/
theorem allocate_writes_reverse_index_by_key :
    (loadPoolFile refRuntime calmEnv 4 scenarioManager allocatedWorld).2.1.allocatedRanges
      = some [("10.0.0.16/28", "m-x")] ∧
    scenarioFirst.1 = .ok ("10.0.0.16/28", "m-x") ∧
    scenarioFirst.2.1.pool.AllocatedRanges = some [("m-x", "10.0.0.16/28")] ∧
    scenarioFirst.2.1.allocatedRanges = some [("m-x", "10.0.0.16/28")] ∧
    nilGet scenarioFirst.2.1.allocatedRanges "10.0.0.16/28" = none := by
  decide

set_option maxRecDepth 100000 in
/-- C14, counterexample. Group 1 of pool `a` lists `10.0.0.0-10.0.0.16/28` and
`10.0.0.8-10.0.0.16/29`; nothing is allocated, so the allocation values are
trivially non-overlapping. The table holds `10.0.0.16/28` and `10.0.0.16/29`. Two
successful calls with distinct names return these two, and the allocated map then
holds two overlapping blocks. -/
theorem allocations_from_nested_ranges_overlap :
    nestedManager.poolLoaded = true ∧
    nestedManager.pool.AllocatedRanges = some [] ∧
    nestedManager.expandedRanges = some [("a", [["10.0.0.16/28", "10.0.0.16/29"]])] ∧
    nestedFirst.1 = .ok ("10.0.0.16/28", "m-x") ∧
    nestedSecond.1 = .ok ("10.0.0.16/29", "m-y") ∧
    nestedSecond.2.1.pool.AllocatedRanges
      = some [("m-x", "10.0.0.16/28"), ("m-y", "10.0.0.16/29")] ∧
    cidrBlock refRuntime "10.0.0.16/28" = some (167772176, 167772191) ∧
    cidrBlock refRuntime "10.0.0.16/29" = some (167772176, 167772183) ∧
    overlaps refRuntime "10.0.0.16/28" "10.0.0.16/29" = true := by
  decide

/-- Along a run on a loaded manager whose calls all returned, allocation values
and candidates stay pairwise non-overlapping, and every CIDR allocated is a
candidate of `pm0` in the pool and group of its call. -/
theorem runCalls_separated (rt : Runtime) (fuel : Nat) (pm0 : PoolManager)
    (steps : List (Env × Call)) :
    ∀ (pm : PoolManager) (w : World) (trace : List (Call × Reply)) (pmJ : PoolManager)
      (wJ : World), pm.poolLoaded = true → Separated rt pm → TableWithin pm0 pm →
      runCalls rt fuel pm w steps = (trace, some (pmJ, wJ)) →
      Separated rt pmJ ∧
      ∀ poolName poolIndex maskSize name c key,
        (Call.allocate poolName poolIndex maskSize name, Reply.allocated c key) ∈ trace →
        ∃ cand, groupCandidates pm0 poolName poolIndex = some cand ∧ c ∈ cand := by
  induction steps with
  | nil =>
    intro pm w trace pmJ wJ hl hs hw h
    simp only [runCalls, Prod.mk.injEq, Option.some.injEq] at h
    obtain ⟨h1, h2, h3⟩ := h
    subst h1 h2 h3
    exact ⟨hs, by intro _ _ _ _ _ _ hx; simp at hx⟩
  | cons s rest ih =>
    intro pm w trace pmJ wJ hl hs hw h
    obtain ⟨env, call⟩ := s
    unfold runCalls at h
    rcases hst : stepCall rt env fuel pm w call with ⟨reply, pm1, w1⟩
    rw [hst] at h
    have hr : reply ≠ .aborted := by
      intro hr
      subst hr
      simp at h
    have h2 : ((call, reply) :: (runCalls rt fuel pm1 w1 rest).1,
        (runCalls rt fuel pm1 w1 rest).2) = (trace, some (pmJ, wJ)) := by
      cases reply with
      | aborted => exact absurd rfl hr
      | allocated c k => exact h
      | deleted => exact h
      | failed e => exact h
    simp only [Prod.mk.injEq] at h2
    obtain ⟨ht, hrest⟩ := h2
    obtain ⟨hl1, hs1, hw1, hdrawn⟩ :=
      stepCall_separated rt env fuel pm0 pm pm1 w w1 call reply hl hs hw hst hr
    obtain ⟨hsJ, hall⟩ := ih pm1 w1 (runCalls rt fuel pm1 w1 rest).1 pmJ wJ hl1 hs1 hw1
      (Prod.ext rfl hrest)
    refine ⟨hsJ, ?_⟩
    intro pn pi ms nm c key hmem
    rw [← ht] at hmem
    rcases List.mem_cons.1 hmem with heq | hin
    · simp only [Prod.mk.injEq] at heq
      exact hdrawn pn pi ms nm c key heq.1.symm heq.2.symm
    · exact hall pn pi ms nm c key hin

theorem TableWithin_refl (pm : PoolManager) : TableWithin pm pm :=
  fun _ _ cand hc => ⟨cand, hc, List.Sublist.refl cand⟩

/-- C14 (as amended). A loaded manager in which the allocation values under
distinct keys and all candidates of the table are pairwise non-overlapping
address blocks. After any run of `AllocateNewNetwork` / `DeleteAllocation` calls
in which every call returned, the allocation values under distinct keys (and the
remaining candidates) are still pairwise non-overlapping, and every CIDR a call
allocated was a candidate of the initial table in the pool and group of that call. -/
theorem allocations_stay_separated (rt : Runtime) (fuel : Nat) (pm : PoolManager) (w : World)
    (steps : List (Env × Call)) (trace : List (Call × Reply)) (pmJ : PoolManager) (wJ : World)
    (hl : pm.poolLoaded = true) (hsep : Separated rt pm)
    (hrun : runCalls rt fuel pm w steps = (trace, some (pmJ, wJ))) :
    (∀ k1 k2 c1 c2, k1 ≠ k2 → nilGet pmJ.pool.AllocatedRanges k1 = some c1 →
      nilGet pmJ.pool.AllocatedRanges k2 = some c2 → overlaps rt c1 c2 = false) ∧
    Separated rt pmJ ∧
    ∀ poolName poolIndex maskSize name c key,
      (Call.allocate poolName poolIndex maskSize name, Reply.allocated c key) ∈ trace →
      ∃ cand, groupCandidates pm poolName poolIndex = some cand ∧ c ∈ cand := by
  obtain ⟨h1, h2⟩ := runCalls_separated rt fuel pm steps pm w trace pmJ wJ hl hsep
    (TableWithin_refl pm) hrun
  exact ⟨h1.1, h1, h2⟩

set_option maxRecDepth 100000 in
/-- C14, witness: the loaded manager of the scenario, whose table holds
`10.0.0.16/28` and `10.0.0.32/28`, and two allocations from it. -/
theorem allocations_stay_separated_witness :
    (∀ k1 k2 c1 c2, k1 ≠ k2 → nilGet scenarioLoadedAfter.1.pool.AllocatedRanges k1 = some c1 →
      nilGet scenarioLoadedAfter.1.pool.AllocatedRanges k2 = some c2 →
      overlaps refRuntime c1 c2 = false) ∧
    Separated refRuntime scenarioLoadedAfter.1 ∧
    ∀ poolName poolIndex maskSize name c key,
      (Call.allocate poolName poolIndex maskSize name, Reply.allocated c key)
        ∈ scenarioLoadedRun.1 →
      ∃ cand, groupCandidates scenarioLoaded poolName poolIndex = some cand ∧ c ∈ cand := by
  have hsome : scenarioLoadedRun.2 = some scenarioLoadedAfter := by
    have h1 : scenarioLoadedRun.2.isSome = true := by decide
    unfold scenarioLoadedAfter
    cases h : scenarioLoadedRun.2 with
    | none => rw [h] at h1; exact absurd h1 (by decide)
    | some s => rfl
  have hsep : Separated refRuntime scenarioLoaded := by
    have hA : scenarioLoaded.pool.AllocatedRanges = some [] := by decide
    have hT : tableCandidates scenarioLoaded = ["10.0.0.16/28", "10.0.0.32/28"] := by decide
    unfold Separated
    rw [hA, hT]
    refine ⟨fun _ _ _ _ _ h => by simp [nilGet, GoMap.get?] at h,
      fun _ _ h => by simp [nilGet, GoMap.get?] at h, ?_⟩
    decide
  exact allocations_stay_separated refRuntime 4 scenarioLoaded scenarioWorld _
    scenarioLoadedRun.1 scenarioLoadedAfter.1 scenarioLoadedAfter.2 (by decide) hsep
    (Prod.ext rfl hsome)

set_option maxRecDepth 100000 in
/-- C15, failing input. The group lists `x-10.0.0.31/28` and then `10.0.0.0/28`,
which contains no `-`. The first range is expanded first and its start address
does not parse: `loadPoolFile` panics in `ipToUint32` and returns no error, and so
does the operation that triggered the load. And when a local file lists
`10.0.0.0-10.0.0.31/28` and then `10.0.0.0/28`, `loadPoolFile` returns the error of
line 257, but the operation that triggered the load unlocks the mutex twice and
ends in the fatal error instead of returning it. -/
theorem malformed_range_preceded_by_panic :
    '-' ∉ "10.0.0.0/28".data ∧
    precededWorld.content (Loc.object "bucket" "pools.json") = some (Blob.document
      { IpPools := some [("a", [["x-10.0.0.31/28", "10.0.0.0/28"]])]
        AllocatedRanges := some [] }) ∧
    (loadPoolFile refRuntime calmEnv 4 scenarioManager precededWorld).1 = .crash .outOfRange ∧
    (AllocateNewNetwork refRuntime calmEnv 4 scenarioManager precededWorld "a" 1 28 "x").1
      = .crash .outOfRange ∧
    malformedLocalWorld.content (Loc.file "pools.json") = some (Blob.document malformedDoc) ∧
    nilGet malformedDoc.IpPools "a" = some [["10.0.0.0-10.0.0.31/28", "10.0.0.0/28"]] ∧
    (loadPoolFile refRuntime calmEnv 4 localManager malformedLocalWorld).1
      = .error (.rangeStart "10.0.0.0/28") ∧
    (loadPoolFile refRuntime calmEnv 4 localManager malformedLocalWorld).2.1.poolLoaded
      = false ∧
    (AllocateNewNetwork refRuntime calmEnv 4 localManager malformedLocalWorld "a" 1 28 "x").1
      = .crash .unlockOfUnlockedMutex := by
  decide

/-- Malformed ranges where neither defect of the failing input of C15 intervenes.
An unloaded manager at an object-storage location acquires the lock and reads
document `d`. In iteration order, every pool before pool `k`
expands, every group of `k` before the group in question expands, and in that
group the ranges before `rr` expand; `rr` contains no `-`, or no `/` after its
first `-`. Then `loadPoolFile` returns the error of line 257 (for `rr`) or of
line 261 (for the text after the first `-`), the manager stays unloaded, and
`AllocateNewNetwork`, `DeleteAllocation` and `GetAllocation` return that error. -/
theorem malformed_range_fails_load (rt : Runtime) (env : Env) (fuel : Nat)
    (pm pm1 pm2 : PoolManager) (w w2 : World) (d : PoolFile)
    (pre post : GoMap (List (List String))) (k : String) (before after : List (List String))
    (rangesBefore rangesAfter res : List String) (rr : String)
    (hun : pm.poolLoaded = false) (hgs : HasPrefix pm.poolFile "gs://" = true)
    (hp : parsePoolFile rt pm = (.ok (), pm1))
    (ha : acquireLockFile env fuel pm1 w = (.ok (), pm2, w2))
    (hread : env.readErr = none)
    (hdoc : w.content (loadLoc pm1) = some (Blob.document d))
    (hpools : nilEntries (unmarshalInto pm.pool d).IpPools =
      pre ++ (k, before ++ (rangesBefore ++ rr :: rangesAfter) :: after) :: post)
    (hpre : ∀ e ∈ pre,
      (expandPool rt fuel (reverseMap (unmarshalInto pm.pool d).AllocatedRanges) e.2).2 = .ok ())
    (hbefore : ∀ g ∈ before, ∃ l,
      expandGroup rt fuel (reverseMap (unmarshalInto pm.pool d).AllocatedRanges) g [] = .ok l)
    (hranges :
      expandGroup rt fuel (reverseMap (unmarshalInto pm.pool d).AllocatedRanges) rangesBefore []
        = .ok res)
    (hbad : '-' ∉ rr.data ∨ ∃ a b, SplitN2 rr '-' = some (a, b) ∧ '/' ∉ b.data) :
    ∃ e, (('-' ∉ rr.data ∧ e = .rangeStart rr) ∨
        ∃ a b, SplitN2 rr '-' = some (a, b) ∧ '/' ∉ b.data ∧ e = .rangeEnd b) ∧
      (loadPoolFile rt env fuel pm2 w2).1 = .error e ∧
      (loadPoolFile rt env fuel pm2 w2).2.1.poolLoaded = false ∧
      (∀ poolName poolIndex maskSize name,
        (AllocateNewNetwork rt env fuel pm w poolName poolIndex maskSize name).1 = .error e ∧
        (AllocateNewNetwork rt env fuel pm w poolName poolIndex maskSize name).2.1.poolLoaded
          = false) ∧
      (∀ id, (DeleteAllocation rt env fuel pm w id).1 = .error e ∧
        (DeleteAllocation rt env fuel pm w id).2.1.poolLoaded = false) ∧
      (∀ id, (GetAllocation rt env fuel pm w id).1 = .error e ∧
        (GetAllocation rt env fuel pm w id).2.1.poolLoaded = false) := by
  obtain ⟨e, he, hkind⟩ := expandRange_malformed rt fuel
    (reverseMap (unmarshalInto pm.pool d).AllocatedRanges) rr res hbad
  have hgroup := expandGroup_first_error rt fuel _ rr rangesAfter (.error e)
    (fun l => Outcome.noConfusion) rangesBefore [] res hranges he
  have hpool := expandPool_first_error rt fuel _ _ after (.error e)
    (fun l => Outcome.noConfusion) hgroup before hbefore
  have hall := expandPools_first_error rt fuel _ k _ post (.error e) Outcome.noConfusion hpool
    pre hpre []
  rw [← hpools] at hall
  obtain ⟨h1, h2, h3⟩ := loadPoolFile_after_acquire rt env fuel pm pm1 pm2 w w2 d (.error e)
    Outcome.noConfusion hp ha hread hdoc hall
  rw [hun] at h2
  rw [hgs] at h3
  refine ⟨e, hkind, h1, h2, ?_, ?_, ?_⟩
  · intro poolName poolIndex maskSize name
    rw [AllocateNewNetwork_eq_operation]
    exact operation_load_error rt env fuel pm pm1 pm2 w w2 _ e hun hp ha h1 h2 h3
  · intro id
    rw [DeleteAllocation_eq_operation]
    exact operation_load_error rt env fuel pm pm1 pm2 w w2 _ e hun hp ha h1 h2 h3
  · intro id
    exact GetAllocation_load_error rt env fuel pm pm1 pm2 w w2 id e hun hp ha h1 h2 h3

set_option maxRecDepth 100000 in
/-- An instance of the above: the scenario's manager on a document whose group
lists `10.0.0.0-10.0.0.31/28` and then `10.0.0.0/28`. -/
theorem malformed_range_fails_load_witness :
    ∃ e, (('-' ∉ "10.0.0.0/28".data ∧ e = .rangeStart "10.0.0.0/28") ∨
        ∃ a b, SplitN2 "10.0.0.0/28" '-' = some (a, b) ∧ '/' ∉ b.data ∧ e = .rangeEnd b) ∧
      (loadPoolFile refRuntime calmEnv 4 malformedLocked.2.1 malformedLocked.2.2).1
        = .error e ∧
      (loadPoolFile refRuntime calmEnv 4 malformedLocked.2.1 malformedLocked.2.2).2.1.poolLoaded
        = false ∧
      (∀ poolName poolIndex maskSize name,
        (AllocateNewNetwork refRuntime calmEnv 4 scenarioManager malformedWorld poolName
          poolIndex maskSize name).1 = .error e ∧
        (AllocateNewNetwork refRuntime calmEnv 4 scenarioManager malformedWorld poolName
          poolIndex maskSize name).2.1.poolLoaded = false) ∧
      (∀ id, (DeleteAllocation refRuntime calmEnv 4 scenarioManager malformedWorld id).1
          = .error e ∧
        (DeleteAllocation refRuntime calmEnv 4 scenarioManager malformedWorld id).2.1.poolLoaded
          = false) ∧
      (∀ id, (GetAllocation refRuntime calmEnv 4 scenarioManager malformedWorld id).1
          = .error e ∧
        (GetAllocation refRuntime calmEnv 4 scenarioManager malformedWorld id).2.1.poolLoaded
          = false) :=
  malformed_range_fails_load refRuntime calmEnv 4 scenarioManager scenarioParsed
    malformedLocked.2.1 malformedWorld malformedLocked.2.2 malformedDoc [] [] "a" [] []
    ["10.0.0.0-10.0.0.31/28"] [] ["10.0.0.16/28", "10.0.0.32/28"] "10.0.0.0/28"
    (by decide) (by decide) (Prod.ext (by decide) rfl)
    (Prod.ext (by decide) (Prod.ext rfl rfl)) rfl (by decide) (by decide)
    (fun _ h => absurd h (List.not_mem_nil _)) (fun _ h => absurd h (List.not_mem_nil _))
    (by decide) (Or.inl (by decide))

set_option maxRecDepth 100000 in
/-- C16, failing input. No prefix length is rejected: for the mask `33` the increase
is `uint32(0.5) = 0`, for `-1` it is the result of converting `2^33` to `uint32`,
never an error. The range `10.0.0.0-10.0.0.0/33` loads successfully with the
candidate `10.0.0.0/33`, and `10.0.0.0-10.0.0.31/33` makes the loop of lines
273-284 run without end, for every step budget. -/
theorem prefix_out_of_range_not_rejected :
    (∀ rt, maskIncrease rt "33" = some 0) ∧
    (∀ rt, maskIncrease rt "-1" = some (rt.convertOverflow 33 % 2 ^ 32)) ∧
    (loadPoolFile refRuntime calmEnv 4 scenarioManager
      (worldWithRange "10.0.0.0-10.0.0.0/33")).1 = .ok () ∧
    (loadPoolFile refRuntime calmEnv 4 scenarioManager
      (worldWithRange "10.0.0.0-10.0.0.0/33")).2.1.expandedRanges
        = some [("a", [["10.0.0.0/33"]])] ∧
    (∀ fuel, (loadPoolFile refRuntime calmEnv fuel scenarioManager
      (worldWithRange "10.0.0.0-10.0.0.31/33")).1 = .outOfFuel) := by
  refine ⟨fun rt => ?_, fun rt => ?_, by decide, by decide, fun fuel => ?_⟩
  · have h : parseDecimalInt "33".data = some 33 := by decide
    unfold maskIncrease
    rw [h]
    have h2 : ¬ floatRangeLimit ≤ (33 : Int).natAbs := by decide
    simp only [h2, if_false]
    rfl
  · have h : parseDecimalInt "-1".data = some (-1) := by decide
    unfold maskIncrease
    rw [h]
    have h2 : ¬ floatRangeLimit ≤ (-1 : Int).natAbs := by decide
    simp only [h2, if_false]
    rfl
  · have hp : parsePoolFile refRuntime scenarioManager = (.ok (), scenarioParsed) :=
      Prod.ext (by decide) rfl
    refine (loadPoolFile_expand_fails refRuntime calmEnv fuel scenarioManager scenarioParsed
      (worldWithRange "10.0.0.0-10.0.0.31/33")
      { IpPools := some [("a", [["10.0.0.0-10.0.0.31/33"]])], AllocatedRanges := some [] }
      .outOfFuel Outcome.noConfusion hp rfl (by decide) ?_).1
    have hu : unmarshalInto scenarioManager.pool
        { IpPools := some [("a", [["10.0.0.0-10.0.0.31/33"]])], AllocatedRanges := some [] }
        = { IpPools := some [("a", [["10.0.0.0-10.0.0.31/33"]])], AllocatedRanges := some [] } := by
      decide
    rw [hu]
    simp only [nilEntries, Option.getD, expandPools, expandPool, expandGroup]
    rw [expandRange_stuck]

set_option maxRecDepth 100000 in
/-- C17, failing input. A range whose start or end is not an IP address has both
separators, so lines 256 and 260 pass; `net.ParseIP` returns nil and
`ipToUint32` indexes the empty slice. `loadPoolFile` panics instead of
returning an error, for every runtime, and so does the operation that loads. -/
theorem invalid_address_panics :
    (∀ rt fuel reverse res,
      expandRange rt fuel reverse "x-10.0.0.31/28" res = .crash .outOfRange) ∧
    (∀ rt fuel reverse res,
      expandRange rt fuel reverse "10.0.0.0-y/28" res = .crash .outOfRange) ∧
    (loadPoolFile refRuntime calmEnv 4 scenarioManager (worldWithRange "x-10.0.0.31/28")).1
      = .crash .outOfRange ∧
    (AllocateNewNetwork refRuntime calmEnv 4 scenarioManager (worldWithRange "x-10.0.0.31/28")
      "a" 1 28 "x").1 = .crash .outOfRange := by
  refine ⟨fun rt fuel reverse res => ?_, fun rt fuel reverse res => ?_, by decide, by decide⟩
  · have h1 : SplitN2 "x-10.0.0.31/28" '-' = some ("x", "10.0.0.31/28") := by decide
    have h2 : SplitN2 "10.0.0.31/28" '/' = some ("10.0.0.31", "28") := by decide
    have h3 : ipToUint32 (ParseIP rt "x") = none := by
      have : ParseIP rt "x" = [] := by
        unfold ParseIP
        have hs : firstSeparator "x".data = none := by decide
        rw [hs]
      rw [this]
      decide
    unfold expandRange
    rw [h1]
    simp only
    rw [h2]
    simp only
    rw [h3]
  · have h1 : SplitN2 "10.0.0.0-y/28" '-' = some ("10.0.0.0", "y/28") := by decide
    have h2 : SplitN2 "y/28" '/' = some ("y", "28") := by decide
    have h3 : ipToUint32 (ParseIP rt "10.0.0.0") = some 167772160 := by
      have : ParseIP rt "10.0.0.0" = parseIPv4 "10.0.0.0".data := by
        unfold ParseIP
        have hs : firstSeparator "10.0.0.0".data = some '.' := by decide
        rw [hs]
        rfl
      rw [this]
      decide
    have h4 : ipToUint32 (ParseIP rt "y") = none := by
      have : ParseIP rt "y" = [] := by
        unfold ParseIP
        have hs : firstSeparator "y".data = none := by decide
        rw [hs]
      rw [this]
      decide
    unfold expandRange
    rw [h1]
    simp only
    rw [h2]
    simp only
    rw [h3]
    simp only
    rw [h4]

set_option maxRecDepth 100000 in
/-- C18, failing input. For a local pool file `acquireLockFile` returns success at
line 121 with `lockOk` still false, so its deferred function unlocks the mutex:
the caller does not hold it. The operation loads, allocates and writes the file
without the mutex, and the deferred `releaseLockFile` then unlocks a mutex that
is not locked, which is a fatal error. -/
theorem local_mode_mutex_not_held :
    (acquireLockFile calmEnv 4 localManager localWorld).1 = .ok () ∧
    (acquireLockFile calmEnv 4 localManager localWorld).2.1.poolLock = false ∧
    (releaseLockFile calmEnv (acquireLockFile calmEnv 4 localManager localWorld).2.1
      localWorld).1 = .crash .unlockOfUnlockedMutex ∧
    localFirst.1 = .crash .unlockOfUnlockedMutex ∧
    localFirst.2.2.content (Loc.file "pools.json") = some (Blob.document
      { IpPools := some [("a", [["10.0.0.0-10.0.0.31/28"]])]
        AllocatedRanges := some [("m-x", "10.0.0.16/28")] }) ∧
    localFirst.2.2.log = [Event.read (Loc.file "pools.json"), Event.write (Loc.file "pools.json")] := by
  decide

set_option maxRecDepth 100000 in
/-- C19, failing input. The retry test of line 140 is whether the error text
contains `412`. A permission error (status 403) whose text names an account
containing `412` is therefore not returned: the call sleeps and tries again, and
succeeds at the second attempt. When every attempt fails that way the call ends
with the lock timeout error, not with the permission error. -/
theorem other_error_with_412_in_text_is_retried :
    Contains forbiddenText "412" = true ∧
    (acquireLockFile forbiddenOnceEnv 4 scenarioParsed scenarioWorld).1 = .ok () ∧
    (acquireLockFile forbiddenOnceEnv 4 scenarioParsed scenarioWorld).2.2.log =
      [Event.createMarker "bucket" "pools.json.lock", Event.sleep,
       Event.createMarker "bucket" "pools.json.lock"] ∧
    (acquireLockFile forbiddenEnv 4
      (parsePoolFile refRuntime (NewPoolManager "m" "gs://bucket/pools.json" 2)).2
      scenarioWorld).1 = .error .lockTimeout := by
  decide

/-- The polling loop when every attempt finds the marker and the clock advances by
the two seconds of each sleep: `j + 1` more attempts, then the timeout. -/
theorem acquireLoop_busy (env : Env) (pm : PoolManager) (start : Int)
    (hclock : ∀ n : Nat, env.now n = start + 2 * (n : Int))
    (hclient : ∀ n, env.lockClient n = none)
    (hbusy : ∀ n, ∃ e, env.lockCreate n = some e ∧ Contains e "412" = true) (j : Nat) :
    ∀ (n fuel : Nat) (log : List Event), 2 * ((n : Int) + j) ≤ pm.timeout →
      pm.timeout < 2 * ((n : Int) + j + 1) → j + 1 ≤ fuel →
      acquireLoop env pm start fuel n log =
        (.error .lockTimeout, log ++ (List.replicate (j + 1)
          [Event.createMarker pm.poolBucket (pm.poolObject ++ ".lock"), Event.sleep]).flatten) := by
  induction j with
  | zero =>
    intro n fuel log h1 h2 hfuel
    obtain ⟨f, rfl⟩ : ∃ f, fuel = f + 1 := ⟨fuel - 1, by omega⟩
    obtain ⟨e, he, hc⟩ := hbusy n
    unfold acquireLoop
    rw [hclient n]
    simp only [he, hc, not_true_eq_false, if_false]
    rw [hclock (n + 1)]
    have : start + 2 * ((n + 1 : Nat) : Int) - start > pm.timeout := by
      push_cast
      omega
    rw [if_pos this]
    simp [List.replicate]
  | succ j ih =>
    intro n fuel log h1 h2 hfuel
    obtain ⟨f, rfl⟩ : ∃ f, fuel = f + 1 := ⟨fuel - 1, by omega⟩
    obtain ⟨e, he, hc⟩ := hbusy n
    unfold acquireLoop
    rw [hclient n]
    simp only [he, hc, not_true_eq_false, if_false]
    rw [hclock (n + 1)]
    have : ¬ start + 2 * ((n + 1 : Nat) : Int) - start > pm.timeout := by
      push_cast at h1 ⊢
      omega
    rw [if_neg this]
    rw [ih (n + 1) f _ (by push_cast at h1 ⊢; omega) (by push_cast at h2 ⊢; omega) (by omega)]
    simp [List.replicate, List.append_assoc]

/-- C20. At an object-storage location, with timeout `T ≥ 0`, a free mutex, a
clock that advances by the two seconds of each sleep, and every marker creation
answered with the `412` condition, `acquireLockFile` terminates (given at least
`⌊T/2⌋ + 1` loop steps) with the lock timeout error after exactly `⌊T/2⌋ + 1`
attempts, each followed by a sleep; the mutex is released. `⌊T/2⌋ + 1` is the
first attempt count `n` with elapsed time `2n > T`. -/
theorem lock_times_out_after_attempts (env : Env) (pm : PoolManager) (w : World) (start : Int)
    (fuel : Nat) (hgs : HasPrefix pm.poolFile "gs://" = true) (hfree : pm.poolLock = false)
    (hT : 0 ≤ pm.timeout) (hclock : ∀ n : Nat, env.now n = start + 2 * (n : Int))
    (hclient : ∀ n, env.lockClient n = none)
    (hbusy : ∀ n, ∃ e, env.lockCreate n = some e ∧ Contains e "412" = true)
    (hfuel : (pm.timeout / 2).toNat + 1 ≤ fuel) :
    (acquireLockFile env fuel pm w).1 = .error .lockTimeout ∧
    (acquireLockFile env fuel pm w).2.1 = { pm with poolLock := false } ∧
    (acquireLockFile env fuel pm w).2.2.log = w.log ++ (List.replicate ((pm.timeout / 2).toNat + 1)
      [Event.createMarker pm.poolBucket (pm.poolObject ++ ".lock"), Event.sleep]).flatten ∧
    (acquireLockFile env fuel pm w).2.2.content = w.content ∧
    pm.timeout < 2 * (((pm.timeout / 2).toNat : Int) + 1) ∧
    2 * ((pm.timeout / 2).toNat : Int) ≤ pm.timeout := by
  have hnat : ((pm.timeout / 2).toNat : Int) = pm.timeout / 2 :=
    Int.toNat_of_nonneg (by omega)
  have h0 : env.now 0 = start := by
    have := hclock 0
    simpa using this
  have hloop := acquireLoop_busy env pm start hclock hclient hbusy (pm.timeout / 2).toNat 0 fuel
    w.log (by rw [hnat]; push_cast; omega) (by rw [hnat]; push_cast; omega) hfuel
  unfold acquireLockFile
  rw [if_neg (by simp [hfree]), if_neg (by simp [hgs]), h0, hloop]
  refine ⟨rfl, rfl, rfl, rfl, ?_, ?_⟩
  · rw [hnat]; omega
  · rw [hnat]; omega

set_option maxRecDepth 100000 in
/-- C20, witness: timeout 5, so three attempts (elapsed 2, 4, 6 seconds). -/
theorem lock_times_out_after_attempts_witness :
    (acquireLockFile busyEnv 3 impatientManager scenarioWorld).1 = .error .lockTimeout ∧
    (acquireLockFile busyEnv 3 impatientManager scenarioWorld).2.1
      = { impatientManager with poolLock := false } ∧
    (acquireLockFile busyEnv 3 impatientManager scenarioWorld).2.2.log = scenarioWorld.log ++
      (List.replicate ((impatientManager.timeout / 2).toNat + 1)
        [Event.createMarker impatientManager.poolBucket (impatientManager.poolObject ++ ".lock"),
         Event.sleep]).flatten ∧
    (acquireLockFile busyEnv 3 impatientManager scenarioWorld).2.2.content
      = scenarioWorld.content ∧
    impatientManager.timeout < 2 * (((impatientManager.timeout / 2).toNat : Int) + 1) ∧
    2 * ((impatientManager.timeout / 2).toNat : Int) ≤ impatientManager.timeout :=
  lock_times_out_after_attempts busyEnv impatientManager scenarioWorld 0 3 (by decide)
    (by decide) (by decide) (fun n => by simp [busyEnv, calmEnv]) (fun _ => rfl)
    (fun _ => ⟨_, rfl, by decide⟩) (by decide)

theorem sleeps_append (a b : List Event) : sleeps (a ++ b) = sleeps a + sleeps b := by
  unfold sleeps
  exact List.count_append _ _ _

/-- The sleeps of the polling loop under a clock that advances by two seconds per
sleep: after `n` sleeps with `2n ≤ T` the loop adds `s` sleeps with
`2(n+s) ≤ T + 2`; a success comes with `2(n+s) ≤ T`, a timeout with `T < 2(n+s)`. -/
theorem acquireLoop_sleeps (env : Env) (pm : PoolManager) (start : Int)
    (hclock : ∀ n : Nat, env.now n = start + 2 * (n : Int)) (fuel : Nat) :
    ∀ (n : Nat) (log : List Event), 2 * (n : Int) ≤ pm.timeout →
      ∃ s, sleeps (acquireLoop env pm start fuel n log).2 = sleeps log + s ∧
        2 * ((n : Int) + s) ≤ pm.timeout + 2 ∧
        ((acquireLoop env pm start fuel n log).1 = .ok () → 2 * ((n : Int) + s) ≤ pm.timeout) ∧
        ((acquireLoop env pm start fuel n log).1 = .error .lockTimeout →
          pm.timeout < 2 * ((n : Int) + s)) := by
  induction fuel with
  | zero =>
    intro n log hn
    exact ⟨0, by simp [acquireLoop], by simp; omega, by simp [acquireLoop], by simp [acquireLoop]⟩
  | succ fuel ih =>
    intro n log hn
    unfold acquireLoop
    cases env.lockClient n with
    | some e => exact ⟨0, by simp, by simp; omega, by simp, by simp⟩
    | none =>
      simp only
      cases env.lockCreate n with
      | none =>
        refine ⟨0, ?_, by simp; omega, fun _ => by simp; omega, by simp⟩
        simp [sleeps_append, sleeps]
      | some e =>
        simp only
        by_cases hc : Contains e "412" = true
        · rw [if_neg (by simp [hc])]
          rw [hclock (n + 1)]
          by_cases ht : start + 2 * ((n + 1 : Nat) : Int) - start > pm.timeout
          · rw [if_pos ht]
            refine ⟨1, ?_, ?_, by simp, fun _ => ?_⟩
            · simp [sleeps_append, sleeps]
            · push_cast; omega
            · push_cast at ht ⊢; omega
          · rw [if_neg ht]
            obtain ⟨s, h1, h2, h3, h4⟩ := ih (n + 1)
              (log ++ [Event.createMarker pm.poolBucket (pm.poolObject ++ ".lock")] ++
                [Event.sleep]) (by push_cast at ht ⊢; omega)
            refine ⟨s + 1, ?_, ?_, fun hx => ?_, fun hx => ?_⟩
            · rw [h1]
              simp [sleeps_append, sleeps]
              omega
            · push_cast at h2 ⊢; omega
            · have := h3 hx
              push_cast at this ⊢; omega
            · have := h4 hx
              push_cast at this ⊢; omega
        · rw [if_pos (by simp [hc])]
          refine ⟨0, ?_, by simp; omega, by simp, by simp⟩
          simp [sleeps_append, sleeps]

/-- C21 (as amended). With timeout `T ≥ 0` and a clock that advances by the two
seconds of each sleep (store calls instantaneous), whatever the store answers and
whatever the step budget, `acquireLockFile` sleeps `s` times with `2s ≤ T + 2`;
when it succeeds `2s ≤ T`, and when it gives up with the timeout error `T < 2s`. -/
theorem lock_wait_bounded (env : Env) (fuel : Nat) (pm : PoolManager) (w : World) (start : Int)
    (hT : 0 ≤ pm.timeout) (hclock : ∀ n : Nat, env.now n = start + 2 * (n : Int)) :
    ∃ s, sleeps (acquireLockFile env fuel pm w).2.2.log = sleeps w.log + s ∧
      2 * (s : Int) ≤ pm.timeout + 2 ∧
      ((acquireLockFile env fuel pm w).1 = .ok () → 2 * (s : Int) ≤ pm.timeout) ∧
      ((acquireLockFile env fuel pm w).1 = .error .lockTimeout → pm.timeout < 2 * (s : Int)) := by
  have h0 : env.now 0 = start := by
    have := hclock 0
    simpa using this
  unfold acquireLockFile
  by_cases hl : pm.poolLock = true
  · rw [if_pos hl]
    exact ⟨0, rfl, by simp; omega, by simp, by simp⟩
  · rw [if_neg hl]
    by_cases hg : HasPrefix pm.poolFile "gs://" = true
    · rw [if_neg (by simp [hg]), h0]
      obtain ⟨s, h1, h2, h3, h4⟩ := acquireLoop_sleeps env pm start hclock fuel 0 w.log
        (by simpa using hT)
      simp only [Nat.cast_zero, zero_add] at h2 h3 h4
      rcases hq : acquireLoop env pm start fuel 0 w.log with ⟨o, log⟩
      rw [hq] at h1 h3 h4
      simp only at h1 h3 h4
      refine ⟨s, ?_, h2, ?_, ?_⟩
      · cases o with
        | ok u => cases u; exact h1
        | error e => exact h1
        | crash c => exact h1
        | blocked => exact h1
        | outOfFuel => exact h1
      · cases o with
        | ok u => cases u; exact fun _ => h3 rfl
        | error e => intro hx; exact absurd hx (by simp)
        | crash c => intro hx; exact absurd hx (by simp)
        | blocked => intro hx; exact absurd hx (by simp)
        | outOfFuel => intro hx; exact absurd hx (by simp)
      · cases o with
        | ok u => cases u; intro hx; exact absurd hx (by simp)
        | error e => intro hx; exact h4 (by simpa using hx)
        | crash c => intro hx; exact absurd hx (by simp)
        | blocked => intro hx; exact absurd hx (by simp)
        | outOfFuel => intro hx; exact absurd hx (by simp)
    · rw [if_pos (by simp [hg])]
      exact ⟨0, rfl, by simp; omega, fun _ => by simpa using hT, by simp⟩

set_option maxRecDepth 100000 in
/-- C21, witness: timeout 5 and a marker that stays; three sleeps, `6 ≤ 5 + 2`. -/
theorem lock_wait_bounded_witness :
    ∃ s, sleeps (acquireLockFile busyEnv 3 impatientManager scenarioWorld).2.2.log
        = sleeps scenarioWorld.log + s ∧
      2 * (s : Int) ≤ impatientManager.timeout + 2 ∧
      ((acquireLockFile busyEnv 3 impatientManager scenarioWorld).1 = .ok () →
        2 * (s : Int) ≤ impatientManager.timeout) ∧
      ((acquireLockFile busyEnv 3 impatientManager scenarioWorld).1 = .error .lockTimeout →
        impatientManager.timeout < 2 * (s : Int)) :=
  lock_wait_bounded busyEnv 3 impatientManager scenarioWorld 0 (by decide)
    (fun n => by simp [busyEnv, calmEnv])

set_option maxRecDepth 100000 in
/-- C21, counterexample. With timeout 5 and the marker present at every attempt the
call returns after three sleeps, 6 seconds after its first attempt; with timeout 0
it returns after one sleep, 2 seconds after its first attempt. -/
theorem lock_wait_exceeds_timeout :
    impatientManager.timeout = 5 ∧
    (acquireLockFile busyEnv 3 impatientManager scenarioWorld).1 = .error .lockTimeout ∧
    sleeps (acquireLockFile busyEnv 3 impatientManager scenarioWorld).2.2.log = 3 ∧
    zeroTimeoutManager.timeout = 0 ∧
    (acquireLockFile busyEnv 3 zeroTimeoutManager scenarioWorld).1 = .error .lockTimeout ∧
    sleeps (acquireLockFile busyEnv 3 zeroTimeoutManager scenarioWorld).2.2.log = 1 := by
  decide

/-- C22. Whenever `acquireLockFile` returns an error, that error is the timeout or
an error of the store (client creation or marker creation), the mutex is released,
and a later `acquireLockFile` on the manager it left does not wait for the mutex. -/
theorem failed_acquire_releases_mutex (env : Env) (fuel : Nat) (pm pm2 : PoolManager)
    (w w2 : World) (e : Err) (h : acquireLockFile env fuel pm w = (.error e, pm2, w2)) :
    (e = .lockTimeout ∨ ∃ msg, e = .library msg) ∧ pm2.poolLock = false ∧
      ∀ env1 fuel1 w1, (acquireLockFile env1 fuel1 pm2 w1).1 ≠ .blocked := by
  obtain ⟨hpm2, _⟩ := acquireLockFile_error env fuel pm pm2 w w2 e h
  have hlock : pm2.poolLock = false := by rw [hpm2]
  refine ⟨?_, hlock, ?_⟩
  · unfold acquireLockFile at h
    by_cases hl : pm.poolLock = true
    · simp [hl] at h
    · rw [if_neg hl] at h
      by_cases hp : HasPrefix pm.poolFile "gs://" = true
      · rw [if_neg (by simp [hp])] at h
        have hk := acquireLoop_outcomes env pm (env.now 0) fuel 0 w.log
        rcases ha : acquireLoop env pm (env.now 0) fuel 0 w.log with ⟨o, log⟩
        rw [ha] at h hk
        simp only at hk
        cases o with
        | ok u => cases u; simp at h
        | error e1 =>
          simp only [Prod.mk.injEq, Outcome.error.injEq] at h
          rw [← h.1]
          rcases hk with hk | hk | ⟨msg, hk⟩ | hk
          · exact absurd hk (by simp)
          · exact Or.inl (by simpa using hk)
          · exact Or.inr ⟨msg, by simpa using hk⟩
          · exact absurd hk (by simp)
        | crash c => simp at h
        | blocked => simp at h
        | outOfFuel => simp at h
      · rw [if_pos (by simp [hp])] at h
        simp at h
  · intro env1 fuel1 w1
    unfold acquireLockFile
    rw [if_neg (by simp [hlock])]
    by_cases hp : HasPrefix pm2.poolFile "gs://" = true
    · rw [if_neg (by simp [hp])]
      have hk := acquireLoop_outcomes env1 pm2 (env1.now 0) fuel1 0 w1.log
      rcases ha : acquireLoop env1 pm2 (env1.now 0) fuel1 0 w1.log with ⟨o, log⟩
      rw [ha] at hk
      simp only at hk
      cases o with
      | ok u => cases u; simp
      | error e1 => simp
      | crash c => simp
      | blocked =>
        rcases hk with hk | hk | ⟨msg, hk⟩ | hk <;> exact absurd hk (by simp)
      | outOfFuel => simp
    · rw [if_pos (by simp [hp])]
      simp

set_option maxRecDepth 100000 in
/-- C22, witness: the timeout of `impatientManager` while the marker stays. -/
theorem failed_acquire_releases_mutex_witness :
    (Err.lockTimeout = .lockTimeout ∨ ∃ msg, Err.lockTimeout = .library msg) ∧
      (acquireLockFile busyEnv 3 impatientManager scenarioWorld).2.1.poolLock = false ∧
      ∀ env1 fuel1 w1,
        (acquireLockFile env1 fuel1 (acquireLockFile busyEnv 3 impatientManager scenarioWorld).2.1
          w1).1 ≠ .blocked :=
  failed_acquire_releases_mutex busyEnv 3 impatientManager
    (acquireLockFile busyEnv 3 impatientManager scenarioWorld).2.1 scenarioWorld
    (acquireLockFile busyEnv 3 impatientManager scenarioWorld).2.2 .lockTimeout
    (Prod.ext (by decide) (Prod.ext rfl rfl))

set_option maxRecDepth 100000 in
/-- C23, failing input. Every public operation runs `defer pm.releaseLockFile()`
and drops its result. When the deletion of the lock marker fails,
`releaseLockFile` returns that error, but `AllocateNewNetwork` returns the
allocation with a nil error, `DeleteAllocation` returns nil and `GetAllocation`
returns the value; the allocation made stays in the stored document. -/
theorem release_error_is_dropped :
    (releaseLockFile releaseFailEnv { scenarioParsed with poolLock := true } scenarioWorld).1
      = .error (.library "delete failed") ∧
    scenarioReleaseFail.1 = .ok ("10.0.0.16/28", "m-x") ∧
    scenarioReleaseFail.2.2.content (Loc.object "bucket" "pools.json") = some (Blob.document
      { IpPools := some [("a", [["10.0.0.0-10.0.0.31/28"]])]
        AllocatedRanges := some [("m-x", "10.0.0.16/28")] }) ∧
    (DeleteAllocation refRuntime releaseFailEnv 4 scenarioManager allocatedWorld "m-x").1
      = .ok () ∧
    (GetAllocation refRuntime releaseFailEnv 4 scenarioManager allocatedWorld "m-x").1
      = .ok "10.0.0.16/28" := by
  decide

set_option maxRecDepth 100000 in
/-- C30, failing input. The stored document has pools and no `allocated` key, so
after a successful load `pm.pool.AllocatedRanges` is a nil map while the table
offers `10.0.0.16/28` and `10.0.0.32/28`. `AllocateNewNetwork("a", 1, 28, "x")`
finds the candidate, writes the reverse index (made at line 244) and then
assigns to an entry of the nil map at line 394: the call panics. -/
theorem allocate_into_absent_map_panics :
    (loadPoolFile refRuntime calmEnv 4 scenarioManager noAllocatedWorld).1 = .ok () ∧
    (loadPoolFile refRuntime calmEnv 4 scenarioManager noAllocatedWorld).2.1.pool.AllocatedRanges
      = none ∧
    (loadPoolFile refRuntime calmEnv 4 scenarioManager noAllocatedWorld).2.1.expandedRanges
      = some [("a", [["10.0.0.16/28", "10.0.0.32/28"]])] ∧
    noAllocatedFirst.1 = .crash .nilMapWrite ∧
    noAllocatedFirst.2.2.content (Loc.object "bucket" "pools.json") = some (Blob.document
      { IpPools := some [("a", [["10.0.0.0-10.0.0.31/28"]])], AllocatedRanges := none }) := by
  decide

/-- In a map with distinct keys, the entries of a key that reads `v` are the one
entry `(k, v)`. -/
theorem GoMap.filter_key {ν : Type} (k : String) (v : ν) (m : GoMap ν) (hwf : GoMap.WF m)
    (h : GoMap.get? k m = some v) : m.filter (fun e => decide (e.1 = k)) = [(k, v)] := by
  induction m with
  | nil => simp [GoMap.get?] at h
  | cons e m ih =>
    unfold GoMap.WF GoMap.keys at hwf
    simp only [List.map_cons, List.nodup_cons] at hwf
    by_cases he : e.1 = k
    · simp only [GoMap.get?, he, if_true, Option.some.injEq] at h
      have hnone : m.filter (fun e => decide (e.1 = k)) = [] := by
        rw [List.filter_eq_nil_iff]
        intro a ha hak
        simp only [decide_eq_true_eq] at hak
        exact hwf.1 (by rw [he, ← hak]; exact List.mem_map_of_mem Prod.fst ha)
      obtain ⟨e1, e2⟩ := e
      simp only at he h
      subst he h
      simp [List.filter, hnone]
    · simp only [GoMap.get?, he, if_false] at h
      simp only [List.filter, he, decide_False]
      exact ih hwf.2 h

/-- The state a successful `AllocateNewNetwork` leaves: the key, the manager's id,
the entry in the allocated map, and distinct keys kept. -/
theorem AllocateNewNetwork_ok_state (rt : Runtime) (env : Env) (fuel : Nat)
    (pm pm' : PoolManager) (w w' : World) (poolName : String) (poolIndex maskSize : Int)
    (name cidr key : String)
    (h : AllocateNewNetwork rt env fuel pm w poolName poolIndex maskSize name =
      (.ok (cidr, key), pm', w')) :
    key = allocationKey pm.id name ∧ pm'.id = pm.id ∧
      nilGet pm'.pool.AllocatedRanges key = some cidr ∧ (pm.pool.WF → pm'.pool.WF) := by
  obtain ⟨pm1, pm2, w2, pm3, w3, pm4, w4, hp, ha, hld, hb, _, hpm', _⟩ :=
    AllocateNewNetwork_ok rt env fuel pm pm' w w' poolName poolIndex maskSize name cidr key h
  obtain ⟨groups, idx, reverse, ranges, _, _, _, _, _, _, hkey, _, hranges, hpm4, _⟩ :=
    allocateBody_ok env pm3 pm4 w3 w4 poolName poolIndex maskSize name cidr key hb
  have hf := parsePoolFile_fields rt pm
  rw [hp] at hf
  simp only at hf
  obtain ⟨_, hpm2, _⟩ := acquireLockFile_ok env fuel pm1 pm2 w w2 ha
  obtain ⟨_, hid3, _, _, _⟩ := ensureLoaded_ok rt env fuel pm2 pm3 w2 w3 hld
  have hid : pm3.id = pm.id := by rw [hid3, hpm2]; exact hf.2.2.2.2.2.1
  have hpool2 : pm2.pool = pm.pool := by rw [hpm2]; exact hf.1
  refine ⟨by rw [hkey, hid], by rw [hpm', hpm4]; exact hid, ?_, ?_⟩
  · rw [hpm', hpm4]
    simp [nilGet, GoMap.get?_set_self]
  · intro hwf
    have hwf3 : pm3.pool.WF := by
      unfold ensureLoaded at hld
      by_cases hl : pm2.poolLoaded = true
      · rw [if_neg (by simp [hl])] at hld
        simp only [Prod.mk.injEq, true_and] at hld
        rw [← hld.1, hpool2]
        exact hwf
      · rw [if_pos (by simp [hl])] at hld
        obtain ⟨q, d, table, hq, _, _, _, hpm3, _⟩ := loadPoolFile_ok rt env fuel pm2 pm3 w2 w3 hld
        have hq2 := parsePoolFile_fields rt pm2
        rw [hq] at hq2
        simp only at hq2
        rw [hpm3]
        show (unmarshalInto q.pool d).WF
        rw [hq2.1, hpool2]
        exact unmarshalInto_WF _ _ hwf
    rw [hpm', hpm4]
    show PoolFile.WF { pm3.pool with AllocatedRanges := some (GoMap.set key cidr ranges) }
    obtain ⟨w1, w2⟩ := hwf3
    rw [hranges] at w2
    exact ⟨w1, GoMap.WF_set key cidr ranges w2⟩

/-- C24. Two successive successful `AllocateNewNetwork` calls on one manager with
the same consumer name (any pools, groups and prefix lengths) return the same
allocation key; after the first the allocated map holds that key with the first
CIDR, and after the second it holds exactly one entry for the key, with the CIDR
the second call returned. -/
theorem repeated_name_overwrites (rt : Runtime) (env1 env2 : Env) (fuel1 fuel2 : Nat)
    (pm pm1 pm2 : PoolManager) (w w1 w2 : World) (p1 p2 : String) (g1 g2 m1 m2 : Int)
    (name c1 c2 k1 k2 : String) (hwf : pm.pool.WF)
    (h1 : AllocateNewNetwork rt env1 fuel1 pm w p1 g1 m1 name = (.ok (c1, k1), pm1, w1))
    (h2 : AllocateNewNetwork rt env2 fuel2 pm1 w1 p2 g2 m2 name = (.ok (c2, k2), pm2, w2)) :
    k1 = k2 ∧ nilGet pm1.pool.AllocatedRanges k1 = some c1 ∧
      nilGet pm2.pool.AllocatedRanges k2 = some c2 ∧
      (nilEntries pm2.pool.AllocatedRanges).filter (fun e => decide (e.1 = k2)) = [(k2, c2)] := by
  obtain ⟨a1, a2, a3, a4⟩ :=
    AllocateNewNetwork_ok_state rt env1 fuel1 pm pm1 w w1 p1 g1 m1 name c1 k1 h1
  obtain ⟨b1, b2, b3, b4⟩ :=
    AllocateNewNetwork_ok_state rt env2 fuel2 pm1 pm2 w1 w2 p2 g2 m2 name c2 k2 h2
  refine ⟨by rw [a1, b1, a2], a3, b3, ?_⟩
  have hwf2 := (b4 (a4 hwf)).2
  cases hm : pm2.pool.AllocatedRanges with
  | none => rw [hm] at b3; simp [nilGet] at b3
  | some m =>
    rw [hm] at b3 hwf2
    exact GoMap.filter_key k2 c2 m hwf2 b3

set_option maxRecDepth 100000 in
/-- C24, witness: the scenario's first call and a second call with the same name
`x`; both return key `m-x`, and the map ends with `m-x -> 10.0.0.32/28` only. -/
theorem repeated_name_overwrites_witness :
    "m-x" = "m-x" ∧ nilGet scenarioFirst.2.1.pool.AllocatedRanges "m-x" = some "10.0.0.16/28" ∧
      nilGet scenarioSame.2.1.pool.AllocatedRanges "m-x" = some "10.0.0.32/28" ∧
      (nilEntries scenarioSame.2.1.pool.AllocatedRanges).filter (fun e => decide (e.1 = "m-x"))
        = [("m-x", "10.0.0.32/28")] :=
  repeated_name_overwrites refRuntime calmEnv calmEnv 4 4 scenarioManager scenarioFirst.2.1
    scenarioSame.2.1 scenarioWorld scenarioFirst.2.2 scenarioSame.2.2 "a" "a" 1 1 28 28 "x"
    "10.0.0.16/28" "10.0.0.32/28" "m-x" "m-x" emptyPoolFile_WF (Prod.ext (by decide) rfl)
    (Prod.ext (by decide) rfl)

/-- C25. On a loaded manager whose call reaches the body (location parsed, lock
acquired): when `AllocateNewNetwork` returns a library error, that error is the
one `savePoolFile` gave, the mutex is released and the stored content is what it
was, yet the first matching candidate of the group has been removed from the
candidate list and the allocated map (and the index written beside it) holds the
new key with that candidate. Likewise when `DeleteAllocation` returns a library
error: it is the save error, the key that was present is gone from the allocated
map in memory, and the stored content is what it was. -/
theorem failed_save_is_not_rolled_back (rt : Runtime) (env envD : Env) (fuel fuelD : Nat)
    (pm pm' pmD pmD' : PoolManager) (w w' wD wD' : World) (poolName : String)
    (poolIndex maskSize : Int) (name id msg msgD : String)
    (hl : pm.poolLoaded = true) (hr : reachesBody rt env fuel pm w = true)
    (h : AllocateNewNetwork rt env fuel pm w poolName poolIndex maskSize name =
      (.error (.library msg), pm', w'))
    (hlD : pmD.poolLoaded = true) (hrD : reachesBody rt envD fuelD pmD wD = true)
    (hD : DeleteAllocation rt envD fuelD pmD wD id = (.error (.library msgD), pmD', wD')) :
    (env.saveErr = some msg ∧ pm'.poolLock = false ∧ w'.content = w.content ∧
      ∃ cand idx, groupCandidates pm poolName poolIndex = some cand ∧
        cand.findIdx? (maskMatches maskSize) = some idx ∧
        groupCandidates pm' poolName poolIndex = some (cand.eraseIdx idx) ∧
        nilGet pm'.pool.AllocatedRanges (allocationKey pm.id name) = some (cand.getD idx "") ∧
        nilGet pm'.allocatedRanges (allocationKey pm.id name) = some (cand.getD idx "")) ∧
    (envD.saveErr = some msgD ∧ pmD'.poolLock = false ∧ wD'.content = wD.content ∧
      (∃ v, nilGet pmD.pool.AllocatedRanges id = some v) ∧
      nilGet pmD'.pool.AllocatedRanges id = none) := by
  constructor
  · rw [AllocateNewNetwork_eq_operation] at h
    obtain ⟨pm3, w3, pm4, w4, hb, hpool, hexp, hrev, hid, _, hw3, hpm', hw'⟩ :=
      operation_reached_loaded rt env fuel pm pm' w w' _ _ hl h (Or.inr (Or.inr ⟨⟨_, rfl⟩, hr⟩))
    obtain ⟨groups, idx, reverse, ranges, hg, hpos, hle, hf, _, _, _, hpm4, hsave, hw4⟩ :=
      allocateBody_save_error env pm3 pm4 w3 w4 poolName poolIndex maskSize name msg hb
    refine ⟨hsave, by rw [hpm'], by rw [hw', hw4, hw3], groups.getD (poolIndex - 1).toNat [], idx,
      ?_, hf, ?_, ?_, ?_⟩
    · rw [← groupCandidates_congr pm pm3 poolName poolIndex hexp]
      exact groupCandidates_of_groups pm3 poolName poolIndex groups hg hpos hle
    · have hexp' : pm'.expandedRanges = pm3.expandedRanges.map (GoMap.set poolName
          (groups.set (poolIndex - 1).toNat
            ((groups.getD (poolIndex - 1).toNat []).eraseIdx idx))) := by
        rw [hpm', hpm4]
      rcases groupCandidates_update pm3 pm' poolName poolIndex groups idx poolName poolIndex
        hg hpos hle hexp' with ⟨_, _, _, h4⟩ | ⟨hne, _⟩
      · exact h4
      · exact absurd ⟨rfl, rfl⟩ hne
    · rw [hpm', hpm4, hid]
      simp [nilGet, GoMap.get?_set_self]
    · rw [hpm', hpm4, hid]
      simp [nilGet, GoMap.get?_set_self]
  · rw [DeleteAllocation_eq_operation] at hD
    obtain ⟨pm3, w3, pm4, w4, hb, hpool, _, _, _, _, hw3, hpm', hw'⟩ :=
      operation_reached_loaded rt envD fuelD pmD pmD' wD wD' _ _ hlD hD
        (Or.inr (Or.inr ⟨⟨_, rfl⟩, hrD⟩))
    obtain ⟨⟨v, hv⟩, hpm4, hsave, hw4⟩ := deleteBody_save_error envD pm3 pm4 w3 w4 id msgD hb
    refine ⟨hsave, by rw [hpm'], by rw [hw', hw4, hw3], ⟨v, by rw [← hpool]; exact hv⟩, ?_⟩
    rw [hpm', hpm4]
    cases hm : pm3.pool.AllocatedRanges with
    | none => simp [nilGet]
    | some m => simp [nilGet, GoMap.get?_delete_self]

set_option maxRecDepth 100000 in
/-- C25, witness: on the loaded manager of the scenario the first call fails to
save, and so does the deletion of `m-x` after the scenario's first call. -/
theorem failed_save_is_not_rolled_back_witness :
    (saveFailEnv.saveErr = some "write failed" ∧ scenarioUnsaved.2.1.poolLock = false ∧
      scenarioUnsaved.2.2.content = scenarioWorld.content ∧
      ∃ cand idx, groupCandidates scenarioLoaded "a" 1 = some cand ∧
        cand.findIdx? (maskMatches 28) = some idx ∧
        groupCandidates scenarioUnsaved.2.1 "a" 1 = some (cand.eraseIdx idx) ∧
        nilGet scenarioUnsaved.2.1.pool.AllocatedRanges (allocationKey scenarioLoaded.id "x")
          = some (cand.getD idx "") ∧
        nilGet scenarioUnsaved.2.1.allocatedRanges (allocationKey scenarioLoaded.id "x")
          = some (cand.getD idx "")) ∧
    (saveFailEnv.saveErr = some "write failed" ∧ scenarioDeleteUnsaved.2.1.poolLock = false ∧
      scenarioDeleteUnsaved.2.2.content = scenarioFirst.2.2.content ∧
      (∃ v, nilGet scenarioFirst.2.1.pool.AllocatedRanges "m-x" = some v) ∧
      nilGet scenarioDeleteUnsaved.2.1.pool.AllocatedRanges "m-x" = none) :=
  failed_save_is_not_rolled_back refRuntime saveFailEnv saveFailEnv 4 4 scenarioLoaded
    scenarioUnsaved.2.1 scenarioFirst.2.1 scenarioDeleteUnsaved.2.1 scenarioWorld
    scenarioUnsaved.2.2 scenarioFirst.2.2 scenarioDeleteUnsaved.2.2 "a" 1 28 "x" "m-x"
    "write failed" "write failed" (by decide) (by decide) (Prod.ext (by decide) rfl)
    (by decide) (by decide) (Prod.ext (by decide) rfl)

/-- C27. On a loaded manager a successful `AllocateNewNetwork(pool, g, prefixLen, _)`
returns the element at the smallest index `i` of group `g`'s candidate list that
matches (a match is any element when `prefixLen = 0`, otherwise one with the
suffix `/<decimal prefixLen>`); afterwards group `g`'s list is the old list with
position `i` removed, which is the elements before `i` followed by those after
it, one shorter; every other group of every pool has the list it had. -/
theorem allocate_removes_first_match_only (rt : Runtime) (env : Env) (fuel : Nat)
    (pm pm' : PoolManager) (w w' : World) (poolName : String) (poolIndex maskSize : Int)
    (name cidr key : String) (hl : pm.poolLoaded = true)
    (h : AllocateNewNetwork rt env fuel pm w poolName poolIndex maskSize name =
      (.ok (cidr, key), pm', w')) :
    ∃ g i, groupCandidates pm poolName poolIndex = some g ∧
      g[i]? = some cidr ∧ maskMatches maskSize cidr = true ∧
      (∀ (j : Nat) (x : String), j < i → g[j]? = some x → maskMatches maskSize x = false) ∧
      (∀ x, maskMatches maskSize x = true ↔
        (maskSize = 0 ∨ HasSuffix x ("/" ++ formatInt maskSize) = true)) ∧
      groupCandidates pm' poolName poolIndex = some (g.eraseIdx i) ∧
      g.eraseIdx i = g.take i ++ g.drop (i + 1) ∧
      (g.eraseIdx i).length + 1 = g.length ∧
      (∀ p q, ¬ (p = poolName ∧ q = poolIndex) →
        groupCandidates pm' p q = groupCandidates pm p q) := by
  obtain ⟨pm3, w3, pm4, w4, hb, hexp, _, _, _, _, _, _, hpm', _, _⟩ :=
    AllocateNewNetwork_ok_loaded rt env fuel pm pm' w w' poolName poolIndex maskSize name cidr
      key hl h
  obtain ⟨groups, idx, reverse, ranges, hg, hpos, hle, hfind, hcidr, _, _, _, _, hpm4, _⟩ :=
    allocateBody_ok env pm3 pm4 w3 w4 poolName poolIndex maskSize name cidr key hb
  obtain ⟨h1, h2, h3⟩ := findIdx?_some_spec (maskMatches maskSize) _ idx "" hfind
  rw [← hcidr] at h1 h2
  have hexp' : pm'.expandedRanges = pm3.expandedRanges.map (GoMap.set poolName
      (groups.set (poolIndex - 1).toNat
        ((groups.getD (poolIndex - 1).toNat []).eraseIdx idx))) := by
    rw [hpm', hpm4]
  have hidx : idx < (groups.getD (poolIndex - 1).toNat []).length :=
    (List.getElem?_eq_some_iff.1 h1).1
  refine ⟨groups.getD (poolIndex - 1).toNat [], idx, ?_, h1, h2, h3, ?_, ?_, ?_, ?_, ?_⟩
  · rw [← groupCandidates_congr pm pm3 poolName poolIndex hexp]
    exact groupCandidates_of_groups pm3 poolName poolIndex groups hg hpos hle
  · intro x
    simp [maskMatches]
  · rcases groupCandidates_update pm3 pm' poolName poolIndex groups idx poolName poolIndex
      hg hpos hle hexp' with ⟨_, _, _, h4⟩ | ⟨hne, _⟩
    · exact h4
    · exact absurd ⟨rfl, rfl⟩ hne
  · exact List.eraseIdx_eq_take_drop_succ _ _
  · rw [List.length_eraseIdx, if_pos hidx]
    omega
  · intro p q hne
    rcases groupCandidates_update pm3 pm' poolName poolIndex groups idx p q
      hg hpos hle hexp' with ⟨hp, hq, _, _⟩ | ⟨_, h4⟩
    · exact absurd ⟨hp, hq⟩ hne
    · rw [h4]
      exact groupCandidates_congr pm pm3 p q hexp

set_option maxRecDepth 100000 in
/-- C27, witness: the first call of the scenario on the loaded manager. -/
theorem allocate_removes_first_match_only_witness :
    ∃ g i, groupCandidates scenarioLoaded "a" 1 = some g ∧
      g[i]? = some "10.0.0.16/28" ∧ maskMatches 28 "10.0.0.16/28" = true ∧
      (∀ (j : Nat) (x : String), j < i → g[j]? = some x → maskMatches 28 x = false) ∧
      (∀ x, maskMatches 28 x = true ↔
        ((28 : Int) = 0 ∨ HasSuffix x ("/" ++ formatInt 28) = true)) ∧
      groupCandidates scenarioLoadedFirst.2.1 "a" 1 = some (g.eraseIdx i) ∧
      g.eraseIdx i = g.take i ++ g.drop (i + 1) ∧
      (g.eraseIdx i).length + 1 = g.length ∧
      (∀ p q, ¬ (p = "a" ∧ q = 1) →
        groupCandidates scenarioLoadedFirst.2.1 p q = groupCandidates scenarioLoaded p q) :=
  allocate_removes_first_match_only refRuntime calmEnv 4 scenarioLoaded scenarioLoadedFirst.2.1
    scenarioWorld scenarioLoadedFirst.2.2 "a" 1 28 "x" "10.0.0.16/28" "m-x" (by decide)
    (Prod.ext (by decide) rfl)

/-- C29. On a loaded manager whose requested group holds no empty candidate text:
when `AllocateNewNetwork` returns the unknown-pool, the unknown-pool-index or the
no-suitable-network error, and when `DeleteAllocation` returns not-found, the
document in memory (pools and allocated), the candidate table and the reverse
index are what they were, the stored content is what it was, and the log holds no
further save (nor read) of the document. -/
theorem rejection_changes_nothing (rt : Runtime) (env envD : Env) (fuel fuelD : Nat)
    (pm pm' pmD pmD' : PoolManager) (w w' wD wD' : World) (poolName : String)
    (poolIndex maskSize : Int) (name id id1 : String) (e : Err)
    (hl : pm.poolLoaded = true)
    (hne : ∀ cand, groupCandidates pm poolName poolIndex = some cand → "" ∉ cand)
    (h : AllocateNewNetwork rt env fuel pm w poolName poolIndex maskSize name =
      (.error e, pm', w'))
    (he : (∃ p, e = .unknownPool p) ∨ (∃ p i n, e = .unknownPoolIndex p i n) ∨
      (∃ m p, e = .noSuitableNetwork m p))
    (hlD : pmD.poolLoaded = true)
    (hD : DeleteAllocation rt envD fuelD pmD wD id = (.error (.allocationNotFound id1), pmD', wD')) :
    (pm'.pool = pm.pool ∧ pm'.expandedRanges = pm.expandedRanges ∧
      pm'.allocatedRanges = pm.allocatedRanges ∧ w'.content = w.content ∧
      writes w'.log = writes w.log ∧ reads w'.log = reads w.log) ∧
    (pmD'.pool = pmD.pool ∧ pmD'.expandedRanges = pmD.expandedRanges ∧
      pmD'.allocatedRanges = pmD.allocatedRanges ∧ wD'.content = wD.content ∧
      writes wD'.log = writes wD.log ∧ reads wD'.log = reads wD.log) := by
  constructor
  · rw [AllocateNewNetwork_eq_operation] at h
    obtain ⟨pm2, w2, pm4, w4, hb, c1, c3, c4, c6, c7, c8, r1, r3, r4, r5, r6, r7⟩ :=
      operation_loaded_body_error rt env fuel pm pm' w w' _ e hl h
        (by rcases he with ⟨p, he⟩ | ⟨p, i, n, he⟩ | ⟨m, p, he⟩ <;> rw [he] <;>
          exact Err.noConfusion)
        (by intro msg; rcases he with ⟨p, he⟩ | ⟨p, i, n, he⟩ | ⟨m, p, he⟩ <;> rw [he] <;>
          exact Err.noConfusion)
    have hne2 : ∀ cand, groupCandidates pm2 poolName poolIndex = some cand → "" ∉ cand := by
      intro cand hc
      rw [groupCandidates_congr pm pm2 poolName poolIndex c3] at hc
      exact hne cand hc
    obtain ⟨e1, e2⟩ :=
      allocateBody_rejected env pm2 pm4 w2 w4 poolName poolIndex maskSize name e hne2 hb he
    subst e1 e2
    exact ⟨r1.trans c1, r3.trans c3, r4.trans c4, r5.trans c6, r7.trans c8, r6.trans c7⟩
  · rw [DeleteAllocation_eq_operation] at hD
    obtain ⟨pm2, w2, pm4, w4, hb, c1, c3, c4, c6, c7, c8, r1, r3, r4, r5, r6, r7⟩ :=
      operation_loaded_body_error rt envD fuelD pmD pmD' wD wD' _ _ hlD hD
        Err.noConfusion (fun _ => Err.noConfusion)
    obtain ⟨e1, e2, _⟩ := deleteBody_notFound envD pm2 pm4 w2 w4 id id1 hb
    subst e1 e2
    exact ⟨r1.trans c1, r3.trans c3, r4.trans c4, r5.trans c6, r7.trans c8, r6.trans c7⟩

set_option maxRecDepth 100000 in
/-- C29, witness: the loaded manager of the scenario is asked for a `/30`, which
its group does not offer, and for the deletion of a key it does not hold. -/
theorem rejection_changes_nothing_witness :
    (scenarioNoMatch.2.1.pool = scenarioLoaded.pool ∧
      scenarioNoMatch.2.1.expandedRanges = scenarioLoaded.expandedRanges ∧
      scenarioNoMatch.2.1.allocatedRanges = scenarioLoaded.allocatedRanges ∧
      scenarioNoMatch.2.2.content = scenarioWorld.content ∧
      writes scenarioNoMatch.2.2.log = writes scenarioWorld.log ∧
      reads scenarioNoMatch.2.2.log = reads scenarioWorld.log) ∧
    (scenarioDeleteMissing.2.1.pool = scenarioLoaded.pool ∧
      scenarioDeleteMissing.2.1.expandedRanges = scenarioLoaded.expandedRanges ∧
      scenarioDeleteMissing.2.1.allocatedRanges = scenarioLoaded.allocatedRanges ∧
      scenarioDeleteMissing.2.2.content = scenarioWorld.content ∧
      writes scenarioDeleteMissing.2.2.log = writes scenarioWorld.log ∧
      reads scenarioDeleteMissing.2.2.log = reads scenarioWorld.log) :=
  rejection_changes_nothing refRuntime calmEnv calmEnv 4 4 scenarioLoaded
    scenarioNoMatch.2.1 scenarioLoaded scenarioDeleteMissing.2.1 scenarioWorld
    scenarioNoMatch.2.2 scenarioWorld scenarioDeleteMissing.2.2 "a" 1 30 "x" "m-none"
    "m-none" (.noSuitableNetwork 30 "a") (by decide) (by decide) (Prod.ext (by decide) rfl)
    (Or.inr (Or.inr ⟨30, "a", rfl⟩)) (by decide) (Prod.ext (by decide) rfl)

/-- C26. A new manager is not loaded. On a manager that is not loaded, each of
`GetAllocation`, `AllocateNewNetwork` and `DeleteAllocation` reads the backing
store at most once; when the lock is acquired and the load succeeds
(`reachesBody`, which holds whenever the call returns a result or not-found) it
has read the store exactly once and the manager is loaded. On a loaded manager
`GetAllocation` leaves the world as it is (no lock marker, no read, no save) and
stops only at the local mutex, and `GetAllocation`, `AllocateNewNetwork` and
`DeleteAllocation` each leave the manager loaded and read the backing store no
further, whatever they return. -/
theorem load_once (rt : Runtime) (env : Env) (fuel : Nat) (pmU pmL : PoolManager) (w : World)
    (id poolName name : String) (poolIndex maskSize : Int)
    (hU : pmU.poolLoaded = false) (hL : pmL.poolLoaded = true) :
    (∀ i f t, (NewPoolManager i f t).poolLoaded = false) ∧
    reads (GetAllocation rt env fuel pmU w id).2.2.log ≤ reads w.log + 1 ∧
    (((∃ v, (GetAllocation rt env fuel pmU w id).1 = .ok v) ∨
        (GetAllocation rt env fuel pmU w id).1 = .error (.allocationNotFound id)) →
      reads (GetAllocation rt env fuel pmU w id).2.2.log = reads w.log + 1 ∧
      (GetAllocation rt env fuel pmU w id).2.1.poolLoaded = true) ∧
    (reads (AllocateNewNetwork rt env fuel pmU w poolName poolIndex maskSize name).2.2.log
        ≤ reads w.log + 1 ∧
      (reachesBody rt env fuel pmU w = true →
        reads (AllocateNewNetwork rt env fuel pmU w poolName poolIndex maskSize name).2.2.log
          = reads w.log + 1 ∧
        (AllocateNewNetwork rt env fuel pmU w poolName poolIndex maskSize name).2.1.poolLoaded
          = true) ∧
      ((∃ r, (AllocateNewNetwork rt env fuel pmU w poolName poolIndex maskSize name).1 = .ok r) →
        reachesBody rt env fuel pmU w = true)) ∧
    (reads (DeleteAllocation rt env fuel pmU w id).2.2.log ≤ reads w.log + 1 ∧
      (reachesBody rt env fuel pmU w = true →
        reads (DeleteAllocation rt env fuel pmU w id).2.2.log = reads w.log + 1 ∧
        (DeleteAllocation rt env fuel pmU w id).2.1.poolLoaded = true) ∧
      (((DeleteAllocation rt env fuel pmU w id).1 = .ok () ∨
          (DeleteAllocation rt env fuel pmU w id).1 = .error (.allocationNotFound id)) →
        reachesBody rt env fuel pmU w = true)) ∧
    (GetAllocation rt env fuel pmL w id).2.2 = w ∧
    (GetAllocation rt env fuel pmL w id).2.1.poolLoaded = true ∧
    ((parsePoolFile rt pmL).1 = .ok () → pmL.poolLock = false →
      (GetAllocation rt env fuel pmL w id).1 = getBody pmL id) ∧
    (AllocateNewNetwork rt env fuel pmL w poolName poolIndex maskSize name).2.1.poolLoaded
      = true ∧
    reads (AllocateNewNetwork rt env fuel pmL w poolName poolIndex maskSize name).2.2.log
      = reads w.log ∧
    (DeleteAllocation rt env fuel pmL w id).2.1.poolLoaded = true ∧
    reads (DeleteAllocation rt env fuel pmL w id).2.2.log = reads w.log := by
  obtain ⟨u1, u2⟩ := GetAllocation_unloaded rt env fuel pmU w id hU
  obtain ⟨l1, l2⟩ := GetAllocation_loaded_world rt env fuel pmL w id hL
  have ha := operation_loaded_reads rt env fuel pmL w
    (fun pm3 w3 => allocateBody env pm3 w3 poolName poolIndex maskSize name)
    (fun pm3 w3 => allocateBody_reads env pm3 w3 poolName poolIndex maskSize name) hL
  have hd := operation_loaded_reads rt env fuel pmL w
    (fun pm3 w3 => deleteBody env pm3 w3 id)
    (fun pm3 w3 => deleteBody_reads env pm3 w3 id) hL
  obtain ⟨a1, a2, a3⟩ := operation_reads rt env fuel pmU w
    (fun pm3 w3 => allocateBody env pm3 w3 poolName poolIndex maskSize name)
    (fun pm3 w3 => allocateBody_reads env pm3 w3 poolName poolIndex maskSize name)
  obtain ⟨d1, d2, d3⟩ := operation_reads rt env fuel pmU w
    (fun pm3 w3 => deleteBody env pm3 w3 id)
    (fun pm3 w3 => deleteBody_reads env pm3 w3 id)
  rw [← AllocateNewNetwork_eq_operation] at ha a1 a2 a3
  rw [← DeleteAllocation_eq_operation] at hd d1 d2 d3
  refine ⟨fun i f t => (NewPoolManager_fields i f t).1, u1, u2, ⟨a1, a2 hU, fun hx => a3 (Or.inl hx)⟩,
    ⟨d1, d2 hU, fun hx => d3 ?_⟩, l1, l2,
    fun hp hk => GetAllocation_loaded rt env fuel pmL w id hL hk hp, ha.1, ha.2, hd.1, hd.2⟩
  rcases hx with hx | hx
  · exact Or.inl ⟨(), hx⟩
  · exact Or.inr ⟨id, hx⟩

set_option maxRecDepth 100000 in
/-- C26, witness: on the new manager of the scenario `GetAllocation("missing-key")`
returns not-found, `AllocateNewNetwork("a", 1, 28, "x")` returns `10.0.0.16/28` and
`DeleteAllocation("missing-key")` returns not-found, each after exactly one read
of the bucket object and leaving the manager loaded; the loaded manager of the
scenario reads nothing further. -/
theorem load_once_witness :
    (scenarioGetMissing.1 = .error (.allocationNotFound "missing-key") ∧
      reads scenarioGetMissing.2.2.log = 1 ∧ scenarioGetMissing.2.1.poolLoaded = true ∧
      scenarioFirst.1 = .ok ("10.0.0.16/28", "m-x") ∧
      reads scenarioFirst.2.2.log = 1 ∧ scenarioFirst.2.1.poolLoaded = true ∧
      (DeleteAllocation refRuntime calmEnv 4 scenarioManager scenarioWorld "missing-key").1
        = .error (.allocationNotFound "missing-key") ∧
      reads (DeleteAllocation refRuntime calmEnv 4 scenarioManager scenarioWorld
        "missing-key").2.2.log = 1 ∧
      (DeleteAllocation refRuntime calmEnv 4 scenarioManager scenarioWorld
        "missing-key").2.1.poolLoaded = true ∧
      reachesBody refRuntime calmEnv 4 scenarioManager scenarioWorld = true) ∧
    ((∀ i f t, (NewPoolManager i f t).poolLoaded = false) ∧
    reads (GetAllocation refRuntime calmEnv 4 scenarioManager scenarioWorld
      "missing-key").2.2.log ≤ reads scenarioWorld.log + 1 ∧
    (((∃ v, (GetAllocation refRuntime calmEnv 4 scenarioManager scenarioWorld
          "missing-key").1 = .ok v) ∨
        (GetAllocation refRuntime calmEnv 4 scenarioManager scenarioWorld "missing-key").1
          = .error (.allocationNotFound "missing-key")) →
      reads (GetAllocation refRuntime calmEnv 4 scenarioManager scenarioWorld
        "missing-key").2.2.log = reads scenarioWorld.log + 1 ∧
      (GetAllocation refRuntime calmEnv 4 scenarioManager scenarioWorld
        "missing-key").2.1.poolLoaded = true) ∧
    (reads (AllocateNewNetwork refRuntime calmEnv 4 scenarioManager scenarioWorld "a" 1 28
        "x").2.2.log ≤ reads scenarioWorld.log + 1 ∧
      (reachesBody refRuntime calmEnv 4 scenarioManager scenarioWorld = true →
        reads (AllocateNewNetwork refRuntime calmEnv 4 scenarioManager scenarioWorld "a" 1 28
          "x").2.2.log = reads scenarioWorld.log + 1 ∧
        (AllocateNewNetwork refRuntime calmEnv 4 scenarioManager scenarioWorld "a" 1 28
          "x").2.1.poolLoaded = true) ∧
      ((∃ r, (AllocateNewNetwork refRuntime calmEnv 4 scenarioManager scenarioWorld "a" 1 28
          "x").1 = .ok r) →
        reachesBody refRuntime calmEnv 4 scenarioManager scenarioWorld = true)) ∧
    (reads (DeleteAllocation refRuntime calmEnv 4 scenarioManager scenarioWorld
        "missing-key").2.2.log ≤ reads scenarioWorld.log + 1 ∧
      (reachesBody refRuntime calmEnv 4 scenarioManager scenarioWorld = true →
        reads (DeleteAllocation refRuntime calmEnv 4 scenarioManager scenarioWorld
          "missing-key").2.2.log = reads scenarioWorld.log + 1 ∧
        (DeleteAllocation refRuntime calmEnv 4 scenarioManager scenarioWorld
          "missing-key").2.1.poolLoaded = true) ∧
      (((DeleteAllocation refRuntime calmEnv 4 scenarioManager scenarioWorld
            "missing-key").1 = .ok () ∨
          (DeleteAllocation refRuntime calmEnv 4 scenarioManager scenarioWorld
            "missing-key").1 = .error (.allocationNotFound "missing-key")) →
        reachesBody refRuntime calmEnv 4 scenarioManager scenarioWorld = true)) ∧
    (GetAllocation refRuntime calmEnv 4 scenarioLoaded scenarioWorld "missing-key").2.2
      = scenarioWorld ∧
    (GetAllocation refRuntime calmEnv 4 scenarioLoaded scenarioWorld
      "missing-key").2.1.poolLoaded = true ∧
    ((parsePoolFile refRuntime scenarioLoaded).1 = .ok () → scenarioLoaded.poolLock = false →
      (GetAllocation refRuntime calmEnv 4 scenarioLoaded scenarioWorld "missing-key").1
        = getBody scenarioLoaded "missing-key") ∧
    (AllocateNewNetwork refRuntime calmEnv 4 scenarioLoaded scenarioWorld "a" 1
      28 "x").2.1.poolLoaded = true ∧
    reads (AllocateNewNetwork refRuntime calmEnv 4 scenarioLoaded scenarioWorld "a" 1
      28 "x").2.2.log = reads scenarioWorld.log ∧
    (DeleteAllocation refRuntime calmEnv 4 scenarioLoaded scenarioWorld
      "missing-key").2.1.poolLoaded = true ∧
    reads (DeleteAllocation refRuntime calmEnv 4 scenarioLoaded scenarioWorld
      "missing-key").2.2.log = reads scenarioWorld.log) :=
  ⟨by decide, load_once refRuntime calmEnv 4 scenarioManager scenarioLoaded scenarioWorld
    "missing-key" "a" "x" 1 28 (by decide) (by decide)⟩

/-- The loop of lines 273-284 reaches its `break` exactly when it is given as many
steps as the index `n` of the first term `cur + n * inc` that is `≥ e`, provided
that term does not pass `2^32`. -/
theorem expandLoop_flag (reverse : GoMap String) (mask : String) (inc e : Nat) :
    ∀ (fuel n cur : Nat) (res : List String), 1 ≤ n → cur + n * inc < 2 ^ 32 →
      e ≤ cur + n * inc → (∀ i, 1 ≤ i → i < n → cur + i * inc < e) →
      ((expandLoop reverse mask inc e fuel cur res).2 = true ↔ n ≤ fuel) := by
  intro fuel
  induction fuel with
  | zero =>
    intro n cur res hn _ _ _
    simp only [expandLoop]
    constructor
    · intro h; exact Bool.noConfusion h
    · intro h; omega
  | succ f ih =>
    intro n cur res hn hw he hmin
    have hle : inc ≤ n * inc := Nat.le_mul_of_pos_left inc hn
    have h1 : (cur + inc) % 2 ^ 32 = cur + inc := Nat.mod_eq_of_lt (by omega)
    rw [expandLoop_succ, h1]
    by_cases hc : cur + inc ≥ e
    · rw [if_pos hc]
      have hn1 : n = 1 := by
        by_contra hne
        have := hmin 1 (le_refl _) (by omega)
        omega
      subst hn1
      simp
    · rw [if_neg hc]
      obtain ⟨m, rfl⟩ : ∃ m, n = m + 1 := ⟨n - 1, by omega⟩
      have hm : 1 ≤ m := by
        by_contra hne
        have h0 : m = 0 := by omega
        subst h0
        simp only [zero_add, one_mul] at he
        exact hc he
      have e1 : (m + 1) * inc = m * inc + inc := by ring
      rw [ih m (cur + inc) _ hm (by omega) (by omega)
        (by
          intro i hi1 hi2
          have := hmin (i + 1) (by omega) (by omega)
          have e2 : (i + 1) * inc = i * inc + inc := by ring
          omega)]
      omega

/-- The number `max 1 ⌈(B - A) / step⌉` is the index of the first term
`A + n * step` that is `≥ B`. -/
theorem ceil_steps (A B step : Nat) (hs : 0 < step) (hAB : A ≤ B) :
    1 ≤ max 1 ((B - A + step - 1) / step) ∧
    B ≤ A + max 1 ((B - A + step - 1) / step) * step ∧
    (∀ i, 1 ≤ i → i < max 1 ((B - A + step - 1) / step) → A + i * step < B) ∧
    (A + max 1 ((B - A + step - 1) / step) * step < B + step ∨
      (A = B ∧ max 1 ((B - A + step - 1) / step) = 1)) := by
  have hq1 : (B - A + step - 1) / step * step ≤ B - A + step - 1 := Nat.div_mul_le_self _ _
  have hq2 : B - A + step - 1 < (B - A + step - 1) / step * step + step := by
    have := Nat.lt_div_mul_add (a := B - A + step - 1) hs
    omega
  generalize (B - A + step - 1) / step = q at *
  rcases Nat.lt_or_ge q 1 with h0 | h1
  · have hq0 : q = 0 := by omega
    subst hq0
    simp only [zero_mul, zero_add] at hq1 hq2
    have hm : max 1 0 = 1 := by simp
    rw [hm]
    refine ⟨le_refl _, by omega, fun i h1 h2 => by omega, Or.inr ⟨by omega, rfl⟩⟩
  · have hm : max 1 q = q := max_eq_right h1
    rw [hm]
    refine ⟨h1, by omega, ?_, ?_⟩
    · intro i hi1 hi2
      have h3 : (i + 1) * step ≤ q * step := Nat.mul_le_mul_right _ (by omega)
      have e2 : (i + 1) * step = i * step + step := by ring
      omega
    · rcases Nat.eq_or_lt_of_le hAB with h | h
      · by_cases hq : q = 1
        · exact Or.inr ⟨h, hq⟩
        · exfalso
          have h3 : 2 * step ≤ q * step := Nat.mul_le_mul_right _ (by omega)
          omega
      · left
        omega

/-- C28 (as amended). For `A-B/N` with `1 ≤ N ≤ 32`, `A ≤ B`, `B + step ≤ 2^32` and
`A + step < 2^32` (`step = 2^(32-N)`), the loop of lines 273-284 reaches its
`break` exactly when it is allowed `n = max 1 ⌈(B - A) / step⌉` iterations: with
`n` steps or more the range expands, with fewer it has not ended; and with nothing
allocated the `n` iterations append `n` candidates. -/
theorem expansion_loop_iterations (A B N : Nat) (hN1 : 1 ≤ N) (hN2 : N ≤ 32) (hAB : A ≤ B)
    (hB : B + 2 ^ (32 - N) ≤ 2 ^ 32) (hA : A + 2 ^ (32 - N) < 2 ^ 32)
    (rt : Runtime) (reverse : GoMap String) (fuel : Nat) (res : List String) :
    ((expandLoop reverse (Nat.repr N) (2 ^ (32 - N)) B fuel A res).2 = true ↔
      max 1 ((B - A + 2 ^ (32 - N) - 1) / 2 ^ (32 - N)) ≤ fuel) ∧
    (max 1 ((B - A + 2 ^ (32 - N) - 1) / 2 ^ (32 - N)) ≤ fuel →
      (expandLoop [] (Nat.repr N) (2 ^ (32 - N)) B fuel A res).1.length =
        res.length + max 1 ((B - A + 2 ^ (32 - N) - 1) / 2 ^ (32 - N))) ∧
    expandRange rt fuel reverse (rangeText A B N) res =
      (if max 1 ((B - A + 2 ^ (32 - N) - 1) / 2 ^ (32 - N)) ≤ fuel then
        .ok (expandLoop reverse (Nat.repr N) (2 ^ (32 - N)) B fuel A res).1
      else .outOfFuel) := by
  have hs := two_pow_pos_aux N
  obtain ⟨c1, c2, c3, c4⟩ := ceil_steps A B (2 ^ (32 - N)) hs hAB
  generalize hstep : 2 ^ (32 - N) = step at *
  generalize hn : max 1 ((B - A + step - 1) / step) = n at *
  have hw : A + n * step < 2 ^ 32 := by
    rcases c4 with h | ⟨_, h⟩
    · omega
    · rw [h]; omega
  have hflag : ∀ rv, (expandLoop rv (Nat.repr N) step B fuel A res).2 = true ↔ n ≤ fuel :=
    fun rv => expandLoop_flag rv (Nat.repr N) step B fuel n A res c1 hw c2 c3
  refine ⟨hflag reverse, ?_, ?_⟩
  · intro hf
    obtain ⟨m, rfl⟩ : ∃ m, n = m + 1 := ⟨n - 1, by omega⟩
    rw [expandLoop_progression (Nat.repr N) step B m fuel A res hf hw c2 c3]
    simp
  · rw [expandRange_rangeText rt fuel reverse A B N (by omega) (by omega) res,
      maskIncrease_repr rt N hN1 hN2, hstep]
    simp only
    have hfl := hflag reverse
    rcases hq : expandLoop reverse (Nat.repr N) step B fuel A res with ⟨out, b⟩
    rw [hq] at hfl
    simp only at hfl
    cases b with
    | true => rw [if_pos (hfl.1 rfl)]
    | false =>
      rw [if_neg (fun hx => Bool.noConfusion (hfl.2 hx))]

/-- C28, witness: the range `10.0.0.0-10.0.0.31/28`, two iterations. -/
theorem expansion_loop_iterations_witness :
    ((expandLoop [] (Nat.repr 28) (2 ^ (32 - 28)) 167772191 4 167772160 []).2 = true ↔
      max 1 ((167772191 - 167772160 + 2 ^ (32 - 28) - 1) / 2 ^ (32 - 28)) ≤ 4) ∧
    (max 1 ((167772191 - 167772160 + 2 ^ (32 - 28) - 1) / 2 ^ (32 - 28)) ≤ 4 →
      (expandLoop [] (Nat.repr 28) (2 ^ (32 - 28)) 167772191 4 167772160 []).1.length =
        ([] : List String).length +
          max 1 ((167772191 - 167772160 + 2 ^ (32 - 28) - 1) / 2 ^ (32 - 28))) ∧
    expandRange refRuntime 4 [] (rangeText 167772160 167772191 28) [] =
      (if max 1 ((167772191 - 167772160 + 2 ^ (32 - 28) - 1) / 2 ^ (32 - 28)) ≤ 4 then
        .ok (expandLoop [] (Nat.repr 28) (2 ^ (32 - 28)) 167772191 4 167772160 []).1
      else .outOfFuel) :=
  expansion_loop_iterations 167772160 167772191 28 (by decide) (by decide) (by decide)
    (by decide) (by decide) refRuntime [] 4 []

set_option maxRecDepth 100000 in
/-- C28, counterexample. The range `128.0.0.0-128.0.0.0/1` meets the stated
conditions (`1 ≤ N ≤ 32`, `A ≤ B`, `B + 2^(32-N) ≤ 2^32`) and the stated count is
`max 1 ⌈0 / 2^31⌉ = 1`; yet after one iteration the loop has not reached its
`break` (the sum wrapped to 0), and it takes two iterations, emitting two
candidates. -/
theorem expansion_loop_takes_two_iterations :
    (1 ≤ 1 ∧ 1 ≤ 32 ∧ 2 ^ 31 ≤ 2 ^ 31 ∧ 2 ^ 31 + 2 ^ (32 - 1) ≤ 2 ^ 32) ∧
    max 1 ((2 ^ 31 - 2 ^ 31 + 2 ^ (32 - 1) - 1) / 2 ^ (32 - 1)) = 1 ∧
    maskIncrease refRuntime (Nat.repr 1) = some (2 ^ (32 - 1)) ∧
    expandLoop [] (Nat.repr 1) (2 ^ (32 - 1)) (2 ^ 31) 1 (2 ^ 31) [] = (["0.0.0.0/1"], false) ∧
    expandLoop [] (Nat.repr 1) (2 ^ (32 - 1)) (2 ^ 31) 2 (2 ^ 31) []
      = (["0.0.0.0/1", "128.0.0.0/1"], true) ∧
    expandRange refRuntime 1 [] (rangeText (2 ^ 31) (2 ^ 31) 1) [] = .outOfFuel := by
  decide

end SimpleIpam
